import Mathlib

/-!
# glox: a shallow embedding of the resolver and the tree-walking evaluator

The development follows the Go sources file by file.

* `token.go`, `expr.go`, `stmt.go`: the syntax tree, as plain inductive data.
* `environment.go`, `class.go`, `function.go`, `callable.go`, `clock.go`: run-time values.
  Go pointers (`*environment`) and Go maps that are shared by reference (the field map of an
  instance) become addresses into explicit heaps that are part of the interpreter state.
* `resolver.go`: the static pass, a state transformer over the scope stack and the
  interpreter's `locals` map.
* `interpreter.go`: the evaluator, a state transformer indexed by a step budget.

Conventions.

* A Go `map[K]V` is an association list; `mapSet` overwrites an existing key in place and
  appends a new one, `mapGet` returns the bound value when there is one.
* Go's `panic` is the `Res.panic` outcome.  It carries what was thrown: a `returnValue`, the
  message of one of the `report...Error` functions, or a Go run-time error.  The state is
  threaded through panics, because deferred functions run and globals stay written.
* `float64` is the type `float64` below: the doubles of IEEE 754 by their value, with the
  arithmetic of Go, which rounds every result to the nearest double, ties to even.
-/

namespace Glox

/-! ## float64 -/

/-- Go's `float64`, an IEEE 754 double, by its value: `finite neg m e` is the number
`(-1)^neg * m * 2^(e - 1074)`, with `m < 2^53`, `e ≤ 2045`, and `2^52 ≤ m` unless `e = 0`;
so `finite false 0 0` and `finite true 0 0` are the two zeros.  The NaNs are one value:
the program cannot tell them apart. -/
inductive float64
  | finite (neg : Bool) (mant : Nat) (exp : Nat)
  | inf (neg : Bool)
  | nan
  deriving DecidableEq, Repr

/-- The number of binary digits of `n`, added to `acc`.  The first argument bounds the
number of steps; `n` itself is enough. -/
def float64.bitLength : Nat → Nat → Nat → Nat
  | 0, _, acc => acc
  | fuel + 1, n, acc =>
    if n = 0 then acc
    else if n < 2 ^ 64 then float64.bitLength fuel (n / 2) (acc + 1)
    else float64.bitLength fuel (n / 2 ^ 64) (acc + 64)

/-- The double nearest to `num / den` times `2^(-1074)`, ties to the even mantissa, with
the sign `neg`: the rounding of IEEE 754, which Go's arithmetic and `strconv.ParseFloat`
use.  A value that rounds beyond the largest double gives the infinity.  `den` is
positive. -/
@[irreducible]
def float64.round (neg : Bool) (num den : Nat) : float64 :=
  let q := num / den
  let e := if q < 2 ^ 53 then 0 else float64.bitLength q q 0 - 53
  let d := den * 2 ^ e
  let m := num / d
  let r := num % d
  let m1 := if d < 2 * r ∨ (2 * r = d ∧ m % 2 = 1) then m + 1 else m
  let (m2, e2) := if m1 = 2 ^ 53 then (2 ^ 52, e + 1) else (m1, e)
  if 2045 < e2 then float64.inf neg else float64.finite neg m2 e2

/-- The conversion of an integer constant to `float64`. -/
def float64.ofNat (n : Nat) : float64 :=
  float64.round false (n * 2 ^ 1074) 1

instance (n : Nat) : OfNat float64 n := ⟨float64.ofNat n⟩

/-- A finite double as a multiple of `2^(-1074)`. -/
def float64.units (neg : Bool) (mant exp : Nat) : Int :=
  if neg then -((mant * 2 ^ exp : Nat) : Int) else ((mant * 2 ^ exp : Nat) : Int)

/-- Go's unary `-` on `float64`. -/
def float64.neg : float64 → float64
  | .finite n m e => .finite (!n) m e
  | .inf n => .inf (!n)
  | .nan => .nan

/-- Go's `+` on `float64`: the exact sum, rounded.  A sum that is exactly zero is the
negative zero only when both operands are negative. -/
def float64.add : float64 → float64 → float64
  | .nan, _ => .nan
  | _, .nan => .nan
  | .inf a, .inf b => if a = b then .inf a else .nan
  | .inf a, .finite _ _ _ => .inf a
  | .finite _ _ _, .inf b => .inf b
  | .finite na ma ea, .finite nb mb eb =>
    let s := float64.units na ma ea + float64.units nb mb eb
    if s = 0 then .finite (na && nb) 0 0 else float64.round (decide (s < 0)) s.natAbs 1

/-- Go's binary `-` on `float64`. -/
def float64.sub (a b : float64) : float64 :=
  a.add b.neg

/-- Go's `*` on `float64`: the exact product, rounded. -/
def float64.mul : float64 → float64 → float64
  | .nan, _ => .nan
  | _, .nan => .nan
  | .inf a, .inf b => .inf (a != b)
  | .inf a, .finite nb mb _ => if mb = 0 then .nan else .inf (a != nb)
  | .finite na ma _, .inf b => if ma = 0 then .nan else .inf (na != b)
  | .finite na ma ea, .finite nb mb eb =>
    float64.round (na != nb) (ma * mb * 2 ^ (ea + eb)) (2 ^ 1074)

/-- Go's `/` on `float64`: the exact quotient, rounded; a zero divisor gives an infinity,
or a NaN under a zero. -/
def float64.div : float64 → float64 → float64
  | .nan, _ => .nan
  | _, .nan => .nan
  | .inf _, .inf _ => .nan
  | .inf a, .finite nb _ _ => .inf (a != nb)
  | .finite na _ _, .inf b => .finite (na != b) 0 0
  | .finite na ma ea, .finite nb mb eb =>
    if mb = 0 then (if ma = 0 then .nan else .inf (na != nb))
    else float64.round (na != nb) (ma * 2 ^ ea * 2 ^ 1074) (mb * 2 ^ eb)

/-- Go's `==` on `float64`: a NaN equals nothing, and the two zeros are equal. -/
def float64.eq : float64 → float64 → Bool
  | .nan, _ => false
  | _, .nan => false
  | .inf a, .inf b => a == b
  | .inf _, .finite _ _ _ => false
  | .finite _ _ _, .inf _ => false
  | .finite na ma ea, .finite nb mb eb =>
    decide (float64.units na ma ea = float64.units nb mb eb)

/-- Go's `<` on `float64`: false when an operand is a NaN. -/
def float64.lt : float64 → float64 → Bool
  | .nan, _ => false
  | _, .nan => false
  | .inf a, .inf b => a && !b
  | .inf a, .finite _ _ _ => a
  | .finite _ _ _, .inf b => !b
  | .finite na ma ea, .finite nb mb eb =>
    decide (float64.units na ma ea < float64.units nb mb eb)

/-- Go's `<=` on `float64`: false when an operand is a NaN. -/
def float64.le : float64 → float64 → Bool
  | .nan, _ => false
  | _, .nan => false
  | .inf a, .inf b => a || !b
  | .inf a, .finite _ _ _ => a
  | .finite _ _ _, .inf b => !b
  | .finite na ma ea, .finite nb mb eb =>
    decide (float64.units na ma ea ≤ float64.units nb mb eb)

/-! ## token.go -/

inductive tokenType
  | tokenTypeLeftParen | tokenTypeRightParen | tokenTypeLeftBrace | tokenTypeRightBrace
  | tokenTypeComma | tokenTypeDot | tokenTypeMinus | tokenTypePlus | tokenTypeSemicolon
  | tokenTypeSlash | tokenTypeStar
  | tokenTypeBang | tokenTypeBangEqual | tokenTypeEqual | tokenTypeEqualEqual
  | tokenTypeGreater | tokenTypeGreaterEqual | tokenTypeLess | tokenTypeLessEqual
  | tokenTypeIdentifier | tokenTypeString | tokenTypeNumber
  | tokenTypeAnd | tokenTypeClass | tokenTypeElse | tokenTypeFalse | tokenTypeFun
  | tokenTypeFor | tokenTypeIf | tokenTypeNil | tokenTypeOr | tokenTypePrint
  | tokenTypeReturn | tokenTypeSuper | tokenTypeThis | tokenTypeTrue | tokenTypeVar
  | tokenTypeWhile
  | tokenTypeEOF
  deriving DecidableEq, Repr

open tokenType

/-- The `interface{}` payloads that the scanner and the parser put into tokens and literal
expressions: `nil`, a `bool`, a `float64` or a `string`. -/
inductive Literal
  | nil
  | bool (b : Bool)
  | number (x : float64)
  | str (s : String)
  deriving DecidableEq, Repr

structure token where
  tt : tokenType
  lexeme : String
  literal : Literal
  line : Int
  deriving DecidableEq, Repr

/-- The composite literal `token{lexeme: s}`: every other field has its zero value. -/
def tokenOfLexeme (s : String) : token :=
  { tt := tokenTypeLeftParen, lexeme := s, literal := Literal.nil, line := 0 }

/-! ## expr.go, stmt.go -/

/-- The expression structs of `expr.go`; the constructor `expr.binary` is `exprBinary`, and so
on.  Fields are in the order of the Go declarations. -/
inductive expr
  | binary (left right : expr) (operator : token)
  | grouping (exp : expr)
  | literal (value : Literal)
  | unary (operator : token) (right : expr)
  | variable (name : token)
  | assign (name : token) (value : expr)
  | logical (left right : expr) (operator : token)
  | call (paren : token) (args : List expr) (callee : expr)
  | get (name : token) (obj : expr)
  | set (name : token) (obj value : expr)
  | this (name : token)
  | super (keyword method : token)
  deriving Repr

mutual
/-- The statement structs of `stmt.go`.  A nil `expr` or `stmt` is `none`; the `*exprVariable`
of a class is the name token of that variable, or `none`. -/
inductive stmt
  | expression (e : expr)
  | print (e : expr)
  | var (name : token) (initializer : Option expr)
  | block (statements : List stmt)
  | ifStmt (condition : expr) (thenBranch : stmt) (elseBranch : Option stmt)
  | whileStmt (condition : expr) (body : stmt)
  | function (f : stmtFunction)
  | returnStmt (keyword : token) (value : Option expr)
  | classStmt (methods : List stmtFunction) (name : token) (superClass : Option token)
/-- The struct `stmtFunction`; `body` is the statement list of its `stmtBlock`. -/
inductive stmtFunction
  | mk (params : List token) (body : List stmt) (name : token)
end

def stmtFunction.params : stmtFunction → List token
  | .mk ps _ _ => ps

def stmtFunction.body : stmtFunction → List stmt
  | .mk _ b _ => b

def stmtFunction.name : stmtFunction → token
  | .mk _ _ n => n

/-! ### Go's `==` and map hashing on `expr` interface values

`interpreter.locals` is a `map[expr]int`.  A key is hashed through its dynamic type, field by
field; a struct type with a slice field (`exprCall`, through `args []expr`) has no hash
function and the run time panics with `hash of unhashable type`.  Two keys are the same key
when they have the same dynamic type and equal fields. -/

mutual
/-- Whether hashing the interface value succeeds: no `exprCall` anywhere inside. -/
def expr.hashable : expr → Bool
  | .binary l r _ => l.hashable && r.hashable
  | .grouping e => e.hashable
  | .literal _ => true
  | .unary _ r => r.hashable
  | .variable _ => true
  | .assign _ v => v.hashable
  | .logical l r _ => l.hashable && r.hashable
  | .call _ _ _ => false
  | .get _ o => o.hashable
  | .set _ o v => o.hashable && v.hashable
  | .this _ => true
  | .super _ _ => true
end

mutual
/-- Go's `==` on two `expr` interface values.  (A key that holds an `exprCall` never gets
this far: hashing it panics first.) -/
def expr.beq : expr → expr → Bool
  | .binary l r o => fun b =>
    match b with
    | .binary l2 r2 o2 => expr.beq l l2 && expr.beq r r2 && decide (o = o2)
    | _ => false
  | .grouping e => fun b =>
    match b with
    | .grouping e2 => expr.beq e e2
    | _ => false
  | .literal v => fun b =>
    match b with
    | .literal v2 => decide (v = v2)
    | _ => false
  | .unary o r => fun b =>
    match b with
    | .unary o2 r2 => decide (o = o2) && expr.beq r r2
    | _ => false
  | .variable n => fun b =>
    match b with
    | .variable n2 => decide (n = n2)
    | _ => false
  | .assign n v => fun b =>
    match b with
    | .assign n2 v2 => decide (n = n2) && expr.beq v v2
    | _ => false
  | .logical l r o => fun b =>
    match b with
    | .logical l2 r2 o2 => expr.beq l l2 && expr.beq r r2 && decide (o = o2)
    | _ => false
  | .call p a c => fun b =>
    match b with
    | .call p2 a2 c2 => decide (p = p2) && expr.beqList a a2 && expr.beq c c2
    | _ => false
  | .get n o => fun b =>
    match b with
    | .get n2 o2 => decide (n = n2) && expr.beq o o2
    | _ => false
  | .set n o v => fun b =>
    match b with
    | .set n2 o2 v2 => decide (n = n2) && expr.beq o o2 && expr.beq v v2
    | _ => false
  | .this n => fun b =>
    match b with
    | .this n2 => decide (n = n2)
    | _ => false
  | .super k m => fun b =>
    match b with
    | .super k2 m2 => decide (k = k2) && decide (m = m2)
    | _ => false
/-- Pointwise `expr.beq` on argument lists. -/
def expr.beqList : List expr → List expr → Bool
  | [] => fun b =>
    match b with
    | [] => true
    | _ => false
  | a :: as => fun b =>
    match b with
    | b1 :: bs => expr.beq a b1 && expr.beqList as bs
    | _ => false
end

/-! ## Go maps -/

/-- Map read `v, ok := m[k]`. -/
def mapGet {α : Type} (m : List (String × α)) (k : String) : Option α :=
  match m with
  | [] => none
  | (k2, v) :: rest => if k2 = k then some v else mapGet rest k

/-- Map write `m[k] = v`. -/
def mapSet {α : Type} (m : List (String × α)) (k : String) (v : α) : List (String × α) :=
  match m with
  | [] => [(k, v)]
  | (k2, v2) :: rest => if k2 = k then (k, v) :: rest else (k2, v2) :: mapSet rest k v

/-- Read of `locals[e]`, for a key that hashes. -/
def localsGet (m : List (expr × Nat)) (e : expr) : Option Nat :=
  match m with
  | [] => none
  | (e2, d) :: rest => if expr.beq e2 e then some d else localsGet rest e

/-- Write `locals[e] = d`, for a key that hashes. -/
def localsSet (m : List (expr × Nat)) (e : expr) (d : Nat) : List (expr × Nat) :=
  match m with
  | [] => [(e, d)]
  | (e2, d2) :: rest => if expr.beq e2 e then (e, d) :: rest else (e2, d2) :: localsSet rest e d

/-! ## function.go, class.go, callable.go: run-time values -/

/-- The struct `loxFunction`.  `closure` is the address of the captured `*environment`. -/
structure loxFunction where
  declaration : stmtFunction
  closure : Nat
  isInitializer : Bool

/-- The struct `loxClass`.  `superClass` is a `*loxClass`; the class it points to is never
written after the class statement has built it, so the pointer is modelled by its target. -/
inductive loxClass
  | mk (name : String) (methods : List (String × loxFunction)) (superClass : Option loxClass)

def loxClass.name : loxClass → String
  | .mk n _ _ => n

def loxClass.methods : loxClass → List (String × loxFunction)
  | .mk _ ms _ => ms

def loxClass.superClass : loxClass → Option loxClass
  | .mk _ _ s => s

/-- The zero value `loxClass{}`, what `var super loxClass` holds when nothing is assigned. -/
def loxClass.zero : loxClass := .mk "" [] none

/-- The struct `loxInstance`.  `fields` is the address of the field map, which every copy of
the struct shares. -/
structure loxInstance where
  klass : loxClass
  fields : Nat

/-- The dynamic values an `interface{}` holds at run time. -/
inductive Value
  | nil
  | bool (b : Bool)
  | number (x : float64)
  | str (s : String)
  | int64 (n : Int)
  | clock
  | function (f : loxFunction)
  | klass (c : loxClass)
  | inst (i : loxInstance)

/-- A literal as a run-time value. -/
def Literal.toValue : Literal → Value
  | .nil => Value.nil
  | .bool b => Value.bool b
  | .number x => Value.number x
  | .str s => Value.str s

/-! ## environment.go -/

/-- The struct `environment`; `enclosing` is an address, `none` for a nil pointer. -/
structure environment where
  enclosing : Option Nat
  values : List (String × Value)

/-- What a Go `panic` carries in this program: the `returnValue` of a return statement, the
message of `reportRuntimeError`, of `reportResolutionError` or of `reportParserError` with the
line of its token (and for the last the text that says where), or a Go run-time error.
`outOfSteps` is the outcome of a run that did not finish within the step budget of the
model. -/
inductive Panic
  | returnValue (value : Value)
  | runtimeError (line : Int) (message : String)
  | resolutionError (line : Int) (message : String)
  | parseError (line : Int) (place : String) (message : String)
  | goRuntime (message : String)
  | outOfSteps

/-- Outcome of a call: a normal return or a panic that is unwinding. -/
inductive Res (α : Type)
  | ok (v : α)
  | panic (p : Panic)

/-- A Go function with side effects on a state `σ`: outcome and state after. -/
def Exec (σ : Type) (α : Type) : Type := σ → Res α × σ

/-- Normal return. -/
def Exec.pure {σ α : Type} (a : α) : Exec σ α := fun s => (Res.ok a, s)

/-- Sequencing: a panic of the first part skips the second. -/
def Exec.bind {σ α β : Type} (x : Exec σ α) (f : α → Exec σ β) : Exec σ β := fun s =>
  match x s with
  | (Res.ok a, s1) => f a s1
  | (Res.panic p, s1) => (Res.panic p, s1)

instance {σ : Type} : Monad (Exec σ) where
  pure := Exec.pure
  bind := Exec.bind

/-- The statement `panic(p)`. -/
def throwPanic {σ α : Type} (p : Panic) : Exec σ α := fun s => (Res.panic p, s)

/-- The interpreter struct together with the memory it points into and the process state
around it: the environment heap, the heap of instance field maps, the three package-level
error flags of `report.go`, the lines written to standard output (as values, before
formatting) and the reading of the wall clock. -/
structure interpreter where
  globals : Nat
  env : Nat
  locals : List (expr × Nat)
  envs : List environment
  fieldMaps : List (List (String × Value))
  hadParserError : Bool
  hadRuntimeError : Bool
  hadResolutionError : Bool
  stdout : List Value
  now : Int

/-- Overwrite cell `a` of a heap. -/
def heapSet {α : Type} (h : List α) (a : Nat) (x : α) : List α :=
  match h, a with
  | [], _ => []
  | _ :: rest, 0 => x :: rest
  | y :: rest, n + 1 => y :: heapSet rest n x

/-- The function `reportRuntimeError`: latch the flag, panic with the message. -/
def reportRuntimeError {α : Type} (t : token) (message : String) : Exec interpreter α := fun i =>
  (Res.panic (Panic.runtimeError t.line message), { i with hadRuntimeError := true })

/-- The panic of a nil pointer dereference. -/
def nilDereference : Panic :=
  Panic.goRuntime "invalid memory address or nil pointer dereference"

/-- The function `newEnvironmentWithParent`: allocate, return the new address. -/
def newEnvironmentWithParent (parent : Nat) : Exec interpreter Nat := fun i =>
  (Res.ok i.envs.length, { i with envs := i.envs ++ [{ enclosing := some parent, values := [] }] })

/-- The method `environment.define` on the environment at address `e`. -/
def environment.define (e : Nat) (name : String) (v : Value) : Exec interpreter Unit := fun i =>
  match i.envs[e]? with
  | none => (Res.panic nilDereference, i)
  | some en =>
    (Res.ok (), { i with envs := heapSet i.envs e { en with values := mapSet en.values name v } })

/-- The method `environment.ancestor`: follow `enclosing` `dist` times, starting at `e`.  The
result can be the nil pointer; stepping from the nil pointer panics. -/
def environment.ancestor (envs : List environment) (e : Option Nat) : Nat → Res (Option Nat)
  | 0 => Res.ok e
  | dist + 1 =>
    match e with
    | none => Res.panic nilDereference
    | some a =>
      match envs[a]? with
      | none => Res.panic nilDereference
      | some en => environment.ancestor envs en.enclosing dist

/-- The method `environment.get`, walking outward while the name is missing.  `steps` bounds
the walk; the callers pass more than the number of environments, which no chain exceeds. -/
def environment.getFrom (name : token) : Nat → Option Nat → Exec interpreter Value
  | 0, _ => throwPanic Panic.outOfSteps
  | _ + 1, none => throwPanic nilDereference
  | steps + 1, some a => fun i =>
    match i.envs[a]? with
    | none => (Res.panic nilDereference, i)
    | some en =>
      match mapGet en.values name.lexeme, en.enclosing with
      | some v, _ => (Res.ok v, i)
      | none, some p => environment.getFrom name steps (some p) i
      | none, none => reportRuntimeError name ("Undefined variable: '" ++ name.lexeme ++ "'") i

/-- The method `environment.get` on the pointer `e`. -/
def environment.get (e : Option Nat) (name : token) : Exec interpreter Value := fun i =>
  environment.getFrom name (i.envs.length + 1) e i

/-- The method `environment.getAt`. -/
def environment.getAt (e : Nat) (dist : Nat) (name : token) : Exec interpreter Value := fun i =>
  match environment.ancestor i.envs (some e) dist with
  | Res.panic p => (Res.panic p, i)
  | Res.ok a => environment.get a name i

/-- The method `environment.assign`, walking outward while the name is missing. -/
def environment.assignFrom (name : token) (v : Value) : Nat → Option Nat → Exec interpreter Unit
  | 0, _ => throwPanic Panic.outOfSteps
  | _ + 1, none => throwPanic nilDereference
  | steps + 1, some a => fun i =>
    match i.envs[a]? with
    | none => (Res.panic nilDereference, i)
    | some en =>
      match mapGet en.values name.lexeme, en.enclosing with
      | some _, _ =>
        (Res.ok (),
          { i with envs := heapSet i.envs a { en with values := mapSet en.values name.lexeme v } })
      | none, some p => environment.assignFrom name v steps (some p) i
      | none, none => reportRuntimeError name ("Undefined variable: '" ++ name.lexeme ++ "'") i

/-- The method `environment.assign` on the pointer `e`. -/
def environment.assign (e : Option Nat) (name : token) (v : Value) : Exec interpreter Unit :=
  fun i => environment.assignFrom name v (i.envs.length + 1) e i

/-- The method `environment.assignAt`. -/
def environment.assignAt (e : Nat) (dist : Nat) (name : token) (v : Value) :
    Exec interpreter Unit := fun i =>
  match environment.ancestor i.envs (some e) dist with
  | Res.panic p => (Res.panic p, i)
  | Res.ok a => environment.assign a name v i

/-! ## class.go, function.go: the parts that do not run code -/

/-- The method `loxClass.findMethod`. -/
def loxClass.findMethod : loxClass → String → Option loxFunction
  | .mk _ methods superClass, name =>
    match mapGet methods name with
    | some m => some m
    | none =>
      match superClass with
      | some s => s.findMethod name
      | none => none

/-- The method `loxFunction.arity`. -/
def loxFunction.arity (l : loxFunction) : Nat :=
  l.declaration.params.length

/-- The method `loxFunction.bind`: a fresh environment that encloses the closure and binds
`this`; the result is the function over that environment. -/
def loxFunction.bind (l : loxFunction) (inst : loxInstance) : Exec interpreter loxFunction := do
  let env ← newEnvironmentWithParent l.closure
  environment.define env "this" (Value.inst inst)
  pure { declaration := l.declaration, closure := env, isInitializer := l.isInitializer }

/-- The method `loxClass.arity`. -/
def loxClass.arity (l : loxClass) : Nat :=
  match l.findMethod "init" with
  | some init => init.arity
  | none => 0

/-- The method `loxInstance.get`.  An address without a map stands for the nil map of the
zero value `loxInstance{}`, in which every read misses. -/
def loxInstance.get (l : loxInstance) (name : token) : Exec interpreter Value := fun i =>
  match mapGet (i.fieldMaps[l.fields]?.getD []) name.lexeme with
  | some v => (Res.ok v, i)
  | none =>
    match l.klass.findMethod name.lexeme with
    | some m => (do let f ← m.bind l; pure (Value.function f) : Exec interpreter Value) i
    | none => reportRuntimeError name ("Undefined property '" ++ name.lexeme ++ "'.") i

/-- The method `loxInstance.set`.  A write into the nil map panics. -/
def loxInstance.set (l : loxInstance) (name : token) (v : Value) : Exec interpreter Unit := fun i =>
  match i.fieldMaps[l.fields]? with
  | none => (Res.panic (Panic.goRuntime "assignment to entry in nil map"), i)
  | some fields =>
    (Res.ok (), { i with fieldMaps := heapSet i.fieldMaps l.fields (mapSet fields name.lexeme v) })

/-! ## resolver.go -/

inductive functionType
  | functionTypeNone | functionTypeFunction | functionTypeInitializer | functionTypeMethod
  deriving DecidableEq, Repr

inductive classType
  | classTypeNone | classTypeClass | classTypeSubclass
  deriving DecidableEq, Repr

open functionType classType

/-- The struct `resolver`.  `inter` is the interpreter the resolver points to; the resolver
writes its `locals` map and the flag `hadResolutionError`.  The innermost scope is the last
element of `scopes`, as in the Go slice. -/
structure resolver where
  inter : interpreter
  scopes : List (List (String × Bool))
  currentFunctionType : functionType
  currentClass : classType

/-- The function `reportResolutionError`: latch the flag, panic with the message. -/
def reportResolutionError {α : Type} (t : token) (message : String) : Exec resolver α := fun r =>
  (Res.panic (Panic.resolutionError t.line message),
    { r with inter := { r.inter with hadResolutionError := true } })

/-- The method `interpreter.resolveLocal`, the map write `i.locals[e] = depth`.  Hashing a key
that holds an `exprCall` panics. -/
def interpreter.resolveLocal (e : expr) (depth : Nat) : Exec interpreter Unit := fun i =>
  if e.hashable then (Res.ok (), { i with locals := localsSet i.locals e depth })
  else (Res.panic (Panic.goRuntime "hash of unhashable type main.exprCall"), i)

/-- The method `resolver.pushScope`. -/
def resolver.pushScope (scope : List (String × Bool)) : Exec resolver Unit := fun r =>
  (Res.ok (), { r with scopes := r.scopes ++ [scope] })

/-- The method `resolver.popScope`: the slice expression `r.scopes[:len(r.scopes)-1]`. -/
def resolver.popScope : Exec resolver Unit := fun r =>
  match r.scopes with
  | [] => (Res.panic (Panic.goRuntime "slice bounds out of range [:-1]"), r)
  | _ :: _ => (Res.ok (), { r with scopes := r.scopes.dropLast })

/-- The method `resolver.peekScope`. -/
def resolver.peekScope : Exec resolver (List (String × Bool)) := fun r =>
  match r.scopes[r.scopes.length - 1]? with
  | none => (Res.panic (Panic.goRuntime "index out of range [-1]"), r)
  | some scope => (Res.ok scope, r)

/-- The write `r.peekScope()[name] = b` into the map on top of the stack. -/
def resolver.setInPeekScope (name : String) (b : Bool) : Exec resolver Unit := do
  let p ← resolver.peekScope
  fun r => (Res.ok (), { r with scopes := heapSet r.scopes (r.scopes.length - 1) (mapSet p name b) })

/-- The method `resolver.isScopeEmpty`. -/
def resolver.isScopeEmpty (r : resolver) : Bool :=
  r.scopes.length == 0

/-- The method `resolver.beginScope`. -/
def resolver.beginScope : Exec resolver Unit :=
  resolver.pushScope []

/-- The method `resolver.endScope`. -/
def resolver.endScope : Exec resolver Unit :=
  resolver.popScope

/-- The method `resolver.declare`. -/
def resolver.declare (name : token) : Exec resolver Unit := fun r =>
  if r.isScopeEmpty then (Res.ok (), r)
  else
    (do
      let p ← resolver.peekScope
      match mapGet p name.lexeme with
      | some _ =>
        reportResolutionError name "Variable with this name already declared in this scope."
      | none => resolver.setInPeekScope name.lexeme false : Exec resolver Unit) r

/-- The method `resolver.define`. -/
def resolver.define (name : token) : Exec resolver Unit := fun r =>
  if r.isScopeEmpty then (Res.ok (), r)
  else resolver.setInPeekScope name.lexeme true r

/-- The loop of `resolver.resolveLocal`: `n` is `i + 1` for the index `i` that is looked at
next, going from the innermost scope outward; the result is the recorded distance.  The
test is on the value the map holds for the name (`false` when it holds none). -/
def resolver.resolveLocalLoop (scopes : List (List (String × Bool))) (name : String) :
    Nat → Option Nat
  | 0 => none
  | i + 1 =>
    match scopes[i]? with
    | none => none
    | some scope =>
      if (mapGet scope name).getD false then some (scopes.length - 1 - i)
      else resolver.resolveLocalLoop scopes name i

/-- The method `resolver.resolveLocal`. -/
def resolver.resolveLocal (e : expr) (name : token) : Exec resolver Unit := fun r =>
  match resolver.resolveLocalLoop r.scopes name.lexeme r.scopes.length with
  | none => (Res.ok (), r)
  | some depth =>
    match interpreter.resolveLocal e depth r.inter with
    | (res, i1) => (res, { r with inter := i1 })

/-- The check at the head of `resolver.visitVariableExpr`. -/
def resolver.checkOwnInitializer (name : token) : Exec resolver Unit := fun r =>
  if r.isScopeEmpty then (Res.ok (), r)
  else
    (do
      let p ← resolver.peekScope
      match mapGet p name.lexeme with
      | some false =>
        reportResolutionError name "Cannot read local variable in its own initializer."
      | _ => pure () : Exec resolver Unit) r

mutual
/-- The method `resolver.resolveExpression`, with the `visit...Expr` methods it dispatches to. -/
def resolver.resolveExpression : expr → Exec resolver Unit
  | .binary left right _ => do
    resolver.resolveExpression left
    resolver.resolveExpression right
  | .grouping exp => resolver.resolveExpression exp
  | .literal _ => pure ()
  | .unary _ right => resolver.resolveExpression right
  | .logical left right _ => do
    resolver.resolveExpression left
    resolver.resolveExpression right
  | .call _ args callee => do
    resolver.resolveExpression callee
    resolver.resolveExpressions args
  | .assign name value => do
    resolver.resolveExpression value
    resolver.resolveLocal (.assign name value) name
  | .get _ obj => resolver.resolveExpression obj
  | .set _ obj value => do
    resolver.resolveExpression obj
    resolver.resolveExpression value
  | .this name => do
    let r ← (fun r => (Res.ok r, r) : Exec resolver resolver)
    if r.currentClass = classTypeNone then
      reportResolutionError name "Cannot use 'this' outside of a class."
    resolver.resolveLocal (.this name) name
  | .super keyword method => do
    let r ← (fun r => (Res.ok r, r) : Exec resolver resolver)
    match r.currentClass with
    | classTypeNone => reportResolutionError keyword "Cannot use 'super' outside of a class."
    | classTypeClass =>
      reportResolutionError keyword "Cannot use 'super' in a class with no superclass."
    | classTypeSubclass => pure ()
    resolver.resolveLocal (.super keyword method) keyword
  | .variable name => do
    resolver.checkOwnInitializer name
    resolver.resolveLocal (.variable name) name
/-- The loop over the arguments in `resolver.visitCallExpr`. -/
def resolver.resolveExpressions : List expr → Exec resolver Unit
  | [] => pure ()
  | a :: rest => do
    resolver.resolveExpression a
    resolver.resolveExpressions rest
end

/-- Read the resolver struct. -/
def resolver.read : Exec resolver resolver := fun r => (Res.ok r, r)

/-- The assignment `r.currentFunctionType = t`. -/
def resolver.setCurrentFunctionType (t : functionType) : Exec resolver Unit := fun r =>
  (Res.ok (), { r with currentFunctionType := t })

/-- The assignment `r.currentClass = c`. -/
def resolver.setCurrentClass (c : classType) : Exec resolver Unit := fun r =>
  (Res.ok (), { r with currentClass := c })

/-- The loop over the parameters in `resolver.resolveFunctionStmt`. -/
def resolver.declareParams : List token → Exec resolver Unit
  | [] => pure ()
  | p :: rest => do
    resolver.declare p
    resolver.define p
    resolver.declareParams rest

mutual
/-- The method `resolver.resolveStatement`, with the `visit...Statement` methods it
dispatches to. -/
def resolver.resolveStatement : stmt → Exec resolver Unit
  | .expression e => resolver.resolveExpression e
  | .print e => resolver.resolveExpression e
  | .ifStmt condition thenBranch elseBranch => do
    resolver.resolveExpression condition
    resolver.resolveStatement thenBranch
    match elseBranch with
    | some s => resolver.resolveStatement s
    | none => pure ()
  | .whileStmt condition body => do
    resolver.resolveStatement body
    resolver.resolveExpression condition
  | .returnStmt keyword value => do
    let r ← resolver.read
    if r.currentFunctionType = functionTypeNone then
      reportResolutionError keyword "Cannot return from top-level code."
    match value with
    | some v => do
      if r.currentFunctionType = functionTypeInitializer then
        reportResolutionError keyword "Cannot return from an initializer."
      resolver.resolveExpression v
    | none => pure ()
  | .classStmt methods name superClass => do
    let r ← resolver.read
    let ec := r.currentClass
    resolver.setCurrentClass classTypeClass
    resolver.declare name
    resolver.define name
    match superClass with
    | some sc =>
      if sc.lexeme = name.lexeme then
        reportResolutionError sc "A class cannot inherit from itself."
    | none => pure ()
    match superClass with
    | some sc => do
      resolver.setCurrentClass classTypeSubclass
      resolver.resolveExpression (expr.variable sc)
      resolver.beginScope
      resolver.setInPeekScope "super" true
    | none => pure ()
    resolver.beginScope
    resolver.setInPeekScope "this" true
    resolver.resolveMethods methods
    resolver.endScope
    match superClass with
    | some _ => resolver.endScope
    | none => pure ()
    resolver.setCurrentClass ec
  | .function f => do
    resolver.declare f.name
    resolver.define f.name
    resolver.resolveFunctionStmt f functionTypeFunction
  | .block statements => do
    resolver.beginScope
    resolver.resolveStatements statements
    resolver.endScope
  | .var name initializer => do
    resolver.declare name
    match initializer with
    | some e => resolver.resolveExpression e
    | none => pure ()
    resolver.define name
/-- The method `resolver.resolveStatements`. -/
def resolver.resolveStatements : List stmt → Exec resolver Unit
  | [] => pure ()
  | s :: rest => do
    resolver.resolveStatement s
    resolver.resolveStatements rest
/-- The method `resolver.resolveFunctionStmt`. -/
def resolver.resolveFunctionStmt : stmtFunction → functionType → Exec resolver Unit
  | .mk params body _, t => do
    let r ← resolver.read
    let enclosing := r.currentFunctionType
    resolver.setCurrentFunctionType t
    resolver.beginScope
    resolver.declareParams params
    resolver.resolveStatements body
    resolver.endScope
    resolver.setCurrentFunctionType enclosing
/-- The loop over the methods in `resolver.visitClassStatement`. -/
def resolver.resolveMethods : List stmtFunction → Exec resolver Unit
  | [] => pure ()
  | m :: rest => do
    resolver.resolveFunctionStmt m
      (if m.name.lexeme = "init" then functionTypeInitializer else functionTypeMethod)
    resolver.resolveMethods rest
end

/-- The method `resolver.resolve`: run the pass; the deferred `recover` swallows any panic, so
the caller only sees the state that is left. -/
def resolver.resolve (ss : List stmt) (r : resolver) : resolver :=
  (resolver.resolveStatements ss r).2

/-! ## interpreter.go, function.go, class.go, clock.go: the evaluator -/

/-- Read the interpreter struct. -/
def interpreter.read : Exec interpreter interpreter := fun i => (Res.ok i, i)

/-- The assignment `i.env = e`. -/
def interpreter.setEnv (e : Nat) : Exec interpreter Unit := fun i =>
  (Res.ok (), { i with env := e })

/-- The function `newInterpreter`: the globals hold `clock` and are the current environment. -/
def newInterpreter (now : Int) : interpreter :=
  { globals := 0, env := 0, locals := [],
    envs := [{ enclosing := none, values := [("clock", Value.clock)] }],
    fieldMaps := [], hadParserError := false, hadRuntimeError := false,
    hadResolutionError := false, stdout := [], now := now }

/-- The method `interpreter.isTruthy`. -/
def interpreter.isTruthy : Value → Bool
  | Value.bool b => b
  | Value.nil => false
  | _ => true

/-- The method `interpreter.checkNumberOperand`, returning the operand as a `float64`. -/
def interpreter.checkNumberOperand (operator : token) : Value → Exec interpreter float64
  | Value.number x => pure x
  | _ => reportRuntimeError operator "Operand must be a number."

/-- The method `interpreter.checkNumberOperands`, returning the operands as `float64`s. -/
def interpreter.checkNumberOperands (operator : token) :
    Value → Value → Exec interpreter (float64 × float64)
  | Value.number x, Value.number y => pure (x, y)
  | _, _ => reportRuntimeError operator "Operands must be numbers."

/-- Go's `==` on two `interface{}` values: different dynamic types are unequal; equal dynamic
types compare by content, and panic when the type has a slice or a map inside
(`loxFunction` through `stmtFunction.params`, `loxClass` and `loxInstance` through their
maps). -/
def Value.goEq : Value → Value → Res Bool
  | Value.nil, Value.nil => Res.ok true
  | Value.bool a, Value.bool b => Res.ok (decide (a = b))
  | Value.number a, Value.number b => Res.ok (a.eq b)
  | Value.str a, Value.str b => Res.ok (decide (a = b))
  | Value.int64 a, Value.int64 b => Res.ok (decide (a = b))
  | Value.clock, Value.clock => Res.ok true
  | Value.function _, Value.function _ =>
    Res.panic (Panic.goRuntime "comparing uncomparable type main.loxFunction")
  | Value.klass _, Value.klass _ =>
    Res.panic (Panic.goRuntime "comparing uncomparable type main.loxClass")
  | Value.inst _, Value.inst _ =>
    Res.panic (Panic.goRuntime "comparing uncomparable type main.loxInstance")
  | _, _ => Res.ok false

/-- The switch of `interpreter.visitBinaryExpr`, after both operands are evaluated. -/
def interpreter.binaryOp (operator : token) (left right : Value) : Exec interpreter Value :=
  match operator.tt with
  | tokenTypeMinus => do
    let (l, r) ← interpreter.checkNumberOperands operator left right
    pure (Value.number (l.sub r))
  | tokenTypeSlash => do
    let (l, den) ← interpreter.checkNumberOperands operator left right
    if den.eq 0 then
      reportRuntimeError operator "Division by zero"
    else
      pure (Value.number (l.div den))
  | tokenTypeStar => do
    let (l, r) ← interpreter.checkNumberOperands operator left right
    pure (Value.number (l.mul r))
  | tokenTypePlus =>
    match left, right with
    | Value.number l, Value.number r => pure (Value.number (l.add r))
    | Value.str l, Value.str r => pure (Value.str (l ++ r))
    | _, _ => reportRuntimeError operator "Operands must be two numbers or two strings."
  | tokenTypeGreater => do
    let (l, r) ← interpreter.checkNumberOperands operator left right
    pure (Value.bool (r.lt l))
  | tokenTypeGreaterEqual => do
    let (l, r) ← interpreter.checkNumberOperands operator left right
    pure (Value.bool (r.le l))
  | tokenTypeLess => do
    let (l, r) ← interpreter.checkNumberOperands operator left right
    pure (Value.bool (l.lt r))
  | tokenTypeLessEqual => do
    let (l, r) ← interpreter.checkNumberOperands operator left right
    pure (Value.bool (l.le r))
  | tokenTypeBangEqual =>
    match Value.goEq left right with
    | Res.ok b => pure (Value.bool (!b))
    | Res.panic p => throwPanic p
  | tokenTypeEqualEqual =>
    match Value.goEq left right with
    | Res.ok b => pure (Value.bool b)
    | Res.panic p => throwPanic p
  | _ => pure Value.nil

/-- The switch of `interpreter.visitUnaryExpr`, after the operand is evaluated. -/
def interpreter.unaryOp (operator : token) (r : Value) : Exec interpreter Value :=
  match operator.tt with
  | tokenTypeMinus => do
    let x ← interpreter.checkNumberOperand operator r
    pure (Value.number x.neg)
  | tokenTypeBang => pure (Value.bool (!interpreter.isTruthy r))
  | _ => pure Value.nil

/-- The map read `dist, ok := i.locals[e]`.  Hashing a key that holds an `exprCall` panics. -/
def interpreter.localsLookup (e : expr) : Exec interpreter (Option Nat) := fun i =>
  if e.hashable then (Res.ok (localsGet i.locals e), i)
  else (Res.panic (Panic.goRuntime "hash of unhashable type main.exprCall"), i)

/-- The method `interpreter.lookUpVariable`. -/
def interpreter.lookUpVariable (name : token) (e : expr) : Exec interpreter Value := do
  let d ← interpreter.localsLookup e
  let i ← interpreter.read
  match d with
  | some dist => environment.getAt i.env dist name
  | none => environment.get (some i.globals) name

/-- The loop of `loxFunction.call` that binds the parameters: `params[k]` is indexed by the
position of the argument, so an argument beyond the parameters is an index panic. -/
def loxFunction.defineParams (env : Nat) : List token → List Value → Exec interpreter Unit
  | _, [] => pure ()
  | [], _ :: _ => throwPanic (Panic.goRuntime "index out of range")
  | p :: ps, arg :: args => do
    environment.define env p.lexeme arg
    loxFunction.defineParams env ps args

/-- The loop of `interpreter.visitClassStatement` that fills the method table. -/
def interpreter.buildMethods (closure : Nat) :
    List stmtFunction → List (String × loxFunction) → List (String × loxFunction)
  | [], ms => ms
  | m :: rest, ms =>
    interpreter.buildMethods closure rest
      (mapSet ms m.name.lexeme
        { declaration := m, closure := closure, isInitializer := decide (m.name.lexeme = "init") })

/-- The interface `callable`, by the three types that implement it. -/
inductive callable
  | clock
  | function (f : loxFunction)
  | klass (c : loxClass)

/-- The type assertion `f, ok := callee.(callable)`. -/
def Value.asCallable : Value → Option callable
  | Value.clock => some callable.clock
  | Value.function f => some (callable.function f)
  | Value.klass c => some (callable.klass c)
  | _ => none

/-- The method `arity` of the interface: `clock.arity` is 0. -/
def callable.arity : callable → Nat
  | .clock => 0
  | .function f => f.arity
  | .klass c => c.arity

/-- The method `clock.call`: `time.Now().Unix()`, an `int64`. -/
def clock.call : Exec interpreter Value := fun i => (Res.ok (Value.int64 i.now), i)

/-- Allocation of the field map in `loxClass.call`. -/
def interpreter.newFieldMap : Exec interpreter Nat := fun i =>
  (Res.ok i.fieldMaps.length, { i with fieldMaps := i.fieldMaps ++ [[]] })

/-- The statement `fmt.Printf("%v\n", e)` of the print statement. -/
def interpreter.printValue (v : Value) : Exec interpreter Unit := fun i =>
  (Res.ok (), { i with stdout := i.stdout ++ [v] })

/-- The deferred function of `loxFunction.call`, applied to the outcome of the body: a
`returnValue` panic is recovered and becomes the result, any other panic goes on, and for an
initializer the result is replaced by `this` of the closure. -/
def loxFunction.callDeferred (l : loxFunction) (body : Res Unit) : Exec interpreter Value :=
  match body with
  | Res.panic (Panic.returnValue v) =>
    if l.isInitializer then environment.getAt l.closure 0 (tokenOfLexeme "this") else pure v
  | Res.panic p => throwPanic p
  | Res.ok _ =>
    if l.isInitializer then environment.getAt l.closure 0 (tokenOfLexeme "this")
    else pure Value.nil

mutual
/-- The method `interpreter.evaluate`, with the `visit...Expr` methods it dispatches to.  The
first argument bounds the depth of the run.  In `visitSuperExpr` a missing entry of `locals`
reads as distance 0, and `dist - 1` stops at 0: for a negative distance the loop of
`ancestor` does not run, as for 0. -/
def interpreter.evaluate : Nat → expr → Exec interpreter Value
  | 0, _ => throwPanic Panic.outOfSteps
  | n + 1, .binary left right operator => do
    let l ← interpreter.evaluate n left
    let r ← interpreter.evaluate n right
    interpreter.binaryOp operator l r
  | n + 1, .call paren args callee => do
    let c ← interpreter.evaluate n callee
    let as ← interpreter.evaluateArgs n args
    match c.asCallable with
    | none => reportRuntimeError paren "Can only call functions and classes."
    | some f =>
      if as.length ≠ f.arity then
        reportRuntimeError paren
          ("Expected " ++ toString f.arity ++ " arguments but got " ++ toString as.length ++ ".")
      else callable.call n f as
  | n + 1, .grouping exp => interpreter.evaluate n exp
  | _ + 1, .literal value => pure value.toValue
  | n + 1, .unary operator right => do
    let r ← interpreter.evaluate n right
    interpreter.unaryOp operator r
  | _ + 1, .variable name => interpreter.lookUpVariable name (.variable name)
  | n + 1, .assign name value => do
    let v ← interpreter.evaluate n value
    let d ← interpreter.localsLookup (.assign name value)
    let i ← interpreter.read
    match d with
    | some dist => environment.assignAt i.env dist name v
    | none => environment.assign (some i.globals) name v
    pure v
  | n + 1, .logical left right operator => do
    let l ← interpreter.evaluate n left
    match operator.tt with
    | tokenTypeAnd =>
      if !interpreter.isTruthy l then pure l else interpreter.evaluate n right
    | tokenTypeOr =>
      if interpreter.isTruthy l then pure l else interpreter.evaluate n right
    | _ => interpreter.evaluate n right
  | n + 1, .get name obj => do
    let o ← interpreter.evaluate n obj
    match o with
    | Value.inst inst => inst.get name
    | _ => reportRuntimeError name "only instances have properties."
  | n + 1, .set name obj value => do
    let o ← interpreter.evaluate n obj
    match o with
    | Value.inst inst => do
      let v ← interpreter.evaluate n value
      inst.set name v
      pure v
    | _ => reportRuntimeError name "Only instances have fields."
  | _ + 1, .this name => interpreter.lookUpVariable name (.this name)
  | _ + 1, .super keyword method => do
    let d ← interpreter.localsLookup (.super keyword method)
    let dist := d.getD 0
    let i ← interpreter.read
    let sup ← environment.getAt i.env dist (tokenOfLexeme "super")
    match sup with
    | Value.klass superClass => do
      let th ← environment.getAt i.env (dist - 1) (tokenOfLexeme "this")
      match th with
      | Value.inst this =>
        match superClass.findMethod method.lexeme with
        | none => reportRuntimeError method ("Undefined property '" ++ method.lexeme ++ "'.")
        | some m => do
          let f ← m.bind this
          pure (Value.function f)
      | _ => throwPanic (Panic.goRuntime "interface conversion: interface {} is not main.loxInstance")
    | _ => throwPanic (Panic.goRuntime "interface conversion: interface {} is not main.loxClass")
/-- The loop over the arguments in `interpreter.visitCallExpr`. -/
def interpreter.evaluateArgs : Nat → List expr → Exec interpreter (List Value)
  | 0, _ => throwPanic Panic.outOfSteps
  | _ + 1, [] => pure []
  | n + 1, a :: rest => do
    let v ← interpreter.evaluate n a
    let vs ← interpreter.evaluateArgs n rest
    pure (v :: vs)
/-- The method `interpreter.execute`, with the `visit...Statement` methods it dispatches to. -/
def interpreter.execute : Nat → stmt → Exec interpreter Unit
  | 0, _ => throwPanic Panic.outOfSteps
  | n + 1, .expression e => do
    let _ ← interpreter.evaluate n e
    pure ()
  | n + 1, .print e => do
    let v ← interpreter.evaluate n e
    interpreter.printValue v
  | n + 1, .var name initializer => do
    let v ← (match initializer with
      | some e => interpreter.evaluate n e
      | none => pure Value.nil)
    let i ← interpreter.read
    environment.define i.env name.lexeme v
  | n + 1, .block statements => do
    let i ← interpreter.read
    let env ← newEnvironmentWithParent i.env
    interpreter.executeBlock n statements env
  | n + 1, .ifStmt condition thenBranch elseBranch => do
    let c ← interpreter.evaluate n condition
    if interpreter.isTruthy c then interpreter.execute n thenBranch
    else
      match elseBranch with
      | some s => interpreter.execute n s
      | none => pure ()
  | n + 1, .whileStmt condition body => interpreter.whileLoop n condition body
  | _ + 1, .function f => do
    let i ← interpreter.read
    environment.define i.env f.name.lexeme
      (Value.function { declaration := f, closure := i.env, isInitializer := false })
  | n + 1, .returnStmt _ value => do
    let v ← (match value with
      | some e => interpreter.evaluate n e
      | none => pure Value.nil)
    throwPanic (Panic.returnValue v)
  | n + 1, .classStmt methods name superClass => do
    let sup ← (match superClass with
      | some sc => do
        let v ← interpreter.evaluate n (expr.variable sc)
        match v with
        | Value.klass k => pure k
        | _ => reportRuntimeError sc "Superclass must be a class."
      | none => pure loxClass.zero)
    let i ← interpreter.read
    environment.define i.env name.lexeme Value.nil
    match superClass with
    | some _ => do
      let env ← newEnvironmentWithParent i.env
      interpreter.setEnv env
      environment.define env "super" (Value.klass sup)
    | none => pure ()
    let i1 ← interpreter.read
    let c := loxClass.mk name.lexeme (interpreter.buildMethods i1.env methods []) (some sup)
    match superClass with
    | some _ =>
      match i1.envs[i1.env]?.bind (fun en => en.enclosing) with
      | some p => interpreter.setEnv p
      | none => throwPanic nilDereference
    | none => pure ()
    let i2 ← interpreter.read
    environment.assign (some i2.env) name (Value.klass c)
/-- The loop `for _, s := range statements { i.execute(s) }`. -/
def interpreter.executeStatements : Nat → List stmt → Exec interpreter Unit
  | 0, _ => throwPanic Panic.outOfSteps
  | _ + 1, [] => pure ()
  | n + 1, s :: rest => do
    interpreter.execute n s
    interpreter.executeStatements n rest
/-- The method `interpreter.executeBlock`: the deferred function restores `i.env` on every
way out, a panic included. -/
def interpreter.executeBlock : Nat → List stmt → Nat → Exec interpreter Unit
  | 0, _, _ => throwPanic Panic.outOfSteps
  | n + 1, statements, env => fun i =>
    let prev := i.env
    match interpreter.executeStatements n statements { i with env := env } with
    | (res, i1) => (res, { i1 with env := prev })
/-- The loop of `interpreter.visitWhileStatement`. -/
def interpreter.whileLoop : Nat → expr → stmt → Exec interpreter Unit
  | 0, _, _ => throwPanic Panic.outOfSteps
  | n + 1, condition, body => do
    let c ← interpreter.evaluate n condition
    if interpreter.isTruthy c then do
      interpreter.execute n body
      interpreter.whileLoop n condition body
    else pure ()
/-- The method `call` of the interface, dispatched on the dynamic type. -/
def callable.call : Nat → callable → List Value → Exec interpreter Value
  | 0, _, _ => throwPanic Panic.outOfSteps
  | _ + 1, .clock, _ => clock.call
  | n + 1, .function f, args => loxFunction.call n f args
  | n + 1, .klass c, args => loxClass.call n c args
/-- The method `loxFunction.call`. -/
def loxFunction.call : Nat → loxFunction → List Value → Exec interpreter Value
  | 0, _, _ => throwPanic Panic.outOfSteps
  | n + 1, l, args => do
    let env ← newEnvironmentWithParent l.closure
    loxFunction.defineParams env l.declaration.params args
    fun i =>
      match interpreter.executeBlock n l.declaration.body env i with
      | (res, i1) => loxFunction.callDeferred l res i1
/-- The method `loxClass.call`. -/
def loxClass.call : Nat → loxClass → List Value → Exec interpreter Value
  | 0, _, _ => throwPanic Panic.outOfSteps
  | n + 1, l, args => do
    let fields ← interpreter.newFieldMap
    let inst : loxInstance := { klass := l, fields := fields }
    match l.findMethod "init" with
    | some init => do
      let f ← init.bind inst
      let _ ← loxFunction.call n f args
      pure ()
    | none => pure ()
    pure (Value.inst inst)
end

/-- The method `interpreter.interpret`: run the statements; the deferred `recover` swallows a
panic and prints it.  The result is the recovered panic, if any, and the state left. -/
def interpreter.interpret (steps : Nat) (ss : List stmt) (i : interpreter) :
    Option Panic × interpreter :=
  match interpreter.executeStatements steps ss i with
  | (Res.ok _, i1) => (none, i1)
  | (Res.panic p, i1) => (some p, i1)

/-- The part of `run` that follows parsing: resolve, stop when the resolution flag is set,
otherwise interpret. -/
def runStatements (steps : Nat) (it : interpreter) (ss : List stmt) : Option Panic × interpreter :=
  let r := resolver.resolve ss
    { inter := it, scopes := [], currentFunctionType := functionTypeNone,
      currentClass := classTypeNone }
  if r.inter.hadResolutionError then (none, r.inter)
  else interpreter.interpret steps ss r.inter

/-! ## parser.go -/

/-- The struct `parser`, with the two package-level flags of `report.go` that parsing can
set. -/
structure parser where
  tokens : List token
  current : Nat
  hadParserError : Bool
  hadRuntimeError : Bool

/-- The function `reportParserError`: latch the flag, panic with the message; the text that
says where depends on whether the token is the end of the input. -/
def reportParserError {α : Type} (t : token) (message : String) : Exec parser α := fun p =>
  (Res.panic (Panic.parseError t.line
      (if t.tt = tokenTypeEOF then " at end" else " at '" ++ t.lexeme ++ "'") message),
    { p with hadParserError := true })

/-- The function `reportRuntimeError`, called from the parser. -/
def parser.reportRuntimeError {α : Type} (t : token) (message : String) : Exec parser α :=
  fun p => (Res.panic (Panic.runtimeError t.line message), { p with hadRuntimeError := true })

/-- The method `parser.peek`: the index expression panics outside the slice. -/
def parser.peek : Exec parser token := fun p =>
  match p.tokens[p.current]? with
  | some t => (Res.ok t, p)
  | none => (Res.panic (Panic.goRuntime "index out of range"), p)

/-- The method `parser.previous`. -/
def parser.previous : Exec parser token := fun p =>
  match p.current with
  | 0 => (Res.panic (Panic.goRuntime "index out of range [-1]"), p)
  | c + 1 =>
    match p.tokens[c]? with
    | some t => (Res.ok t, p)
    | none => (Res.panic (Panic.goRuntime "index out of range"), p)

/-- The method `parser.isAtEnd`. -/
def parser.isAtEnd : Exec parser Bool := do
  let t ← parser.peek
  pure (decide (t.tt = tokenTypeEOF))

/-- The method `parser.advance`. -/
def parser.advance : Exec parser token := do
  let e ← parser.isAtEnd
  if !e then
    (fun p => (Res.ok (), { p with current := p.current + 1 }) : Exec parser Unit)
  parser.previous

/-- The method `parser.check`. -/
def parser.check (t : tokenType) : Exec parser Bool := do
  let e ← parser.isAtEnd
  if e then pure false
  else do
    let tk ← parser.peek
    pure (decide (tk.tt = t))

/-- The method `parser.match`. -/
def parser.matchTokens : List tokenType → Exec parser Bool
  | [] => pure false
  | t :: ts => do
    let c ← parser.check t
    if c then do
      let _ ← parser.advance
      pure true
    else parser.matchTokens ts

/-- The method `parser.consume`. -/
def parser.consume (t : tokenType) (msg : String) : Exec parser token := do
  let c ← parser.check t
  if c then parser.advance
  else do
    let tk ← parser.peek
    reportParserError tk msg

/-- A text for a double: `+Inf`, `-Inf` and `NaN` as `%v` prints them, and a finite double
by its mantissa and its binary exponent, not by the shortest decimal digits that `%v`
prints. -/
def float64.format : float64 → String
  | .finite n m e => (if n then "-" else "") ++ toString m ++ "p" ++ toString ((e : Int) - 1074)
  | .inf n => if n then "-Inf" else "+Inf"
  | .nan => "NaN"

/-- How `%v` prints a literal, but for the digits of a finite number; the scanner gives no
literal to the identifier tokens that `formatToken` is used on. -/
def Literal.format : Literal → String
  | .nil => "<nil>"
  | .bool b => toString b
  | .number x => x.format
  | .str s => s

/-- How `%v` prints a token: the fields in braces, the type as its number. -/
def formatToken (t : token) : String :=
  "\x7b" ++ toString t.tt.toCtorIdx ++ " " ++ t.lexeme ++ " " ++ t.literal.format ++ " " ++
    toString t.line ++ "\x7d"

/-- The loop over the parameters in `parser.fun`. -/
def parser.paramsLoop : Nat → List token → Exec parser (List token)
  | 0, _ => throwPanic Panic.outOfSteps
  | n + 1, ps => do
    let c ← parser.check tokenTypeRightParen
    if !c then do
      let t ← parser.consume tokenTypeIdentifier "Expect parameter name."
      let m ← parser.matchTokens [tokenTypeComma]
      if !m then pure (ps ++ [t]) else parser.paramsLoop n (ps ++ [t])
    else pure ps

mutual
/-- The method `parser.expression`.  The first argument of the parsing methods bounds the
depth of the run. -/
def parser.expression : Nat → Exec parser expr
  | 0 => throwPanic Panic.outOfSteps
  | n + 1 => parser.assignment n
/-- The method `parser.assignment`. -/
def parser.assignment : Nat → Exec parser expr
  | 0 => throwPanic Panic.outOfSteps
  | n + 1 => do
    let e ← parser.or n
    let m ← parser.matchTokens [tokenTypeEqual]
    if m then do
      let equal ← parser.previous
      let v ← parser.assignment n
      match e with
      | .variable name => pure (expr.assign name v)
      | .get name obj => pure (expr.set name obj v)
      | _ => parser.reportRuntimeError equal "Invalid assignment target"
    else pure e
/-- The method `parser.or`. -/
def parser.or : Nat → Exec parser expr
  | 0 => throwPanic Panic.outOfSteps
  | n + 1 => do
    let e ← parser.and n
    parser.orLoop n e
/-- The loop of `parser.or`. -/
def parser.orLoop : Nat → expr → Exec parser expr
  | 0, _ => throwPanic Panic.outOfSteps
  | n + 1, e => do
    let m ← parser.matchTokens [tokenTypeOr]
    if m then do
      let op ← parser.previous
      let right ← parser.and n
      parser.orLoop n (expr.logical e right op)
    else pure e
/-- The method `parser.and`. -/
def parser.and : Nat → Exec parser expr
  | 0 => throwPanic Panic.outOfSteps
  | n + 1 => do
    let e ← parser.equality n
    parser.andLoop n e
/-- The loop of `parser.and`. -/
def parser.andLoop : Nat → expr → Exec parser expr
  | 0, _ => throwPanic Panic.outOfSteps
  | n + 1, e => do
    let m ← parser.matchTokens [tokenTypeAnd]
    if m then do
      let op ← parser.previous
      let right ← parser.equality n
      parser.andLoop n (expr.logical e right op)
    else pure e
/-- The method `parser.declaration`. -/
def parser.declaration : Nat → Exec parser stmt
  | 0 => throwPanic Panic.outOfSteps
  | n + 1 => do
    let v ← parser.matchTokens [tokenTypeVar]
    if v then parser.varDeclaration n
    else do
      let f ← parser.matchTokens [tokenTypeFun]
      if f then do
        let d ← parser.funDeclaration n "function"
        pure (stmt.function d)
      else do
        let c ← parser.matchTokens [tokenTypeClass]
        if c then parser.classDeclaration n
        else parser.statement n
/-- The method `parser.classDeclaration`. -/
def parser.classDeclaration : Nat → Exec parser stmt
  | 0 => throwPanic Panic.outOfSteps
  | n + 1 => do
    let name ← parser.consume tokenTypeIdentifier "Expect class name."
    let l ← parser.matchTokens [tokenTypeLess]
    let super ← (if l then do
        let _ ← parser.consume tokenTypeIdentifier "Expect superclass name."
        let sc ← parser.previous
        pure (some sc)
      else pure none : Exec parser (Option token))
    let _ ← parser.consume tokenTypeLeftBrace "Expect '\x7b' before class body."
    let methods ← parser.methodsLoop n []
    let _ ← parser.consume tokenTypeRightBrace "Expect '\x7d' after class body"
    pure (stmt.classStmt methods name super)
/-- The loop over the methods in `parser.classDeclaration`. -/
def parser.methodsLoop : Nat → List stmtFunction → Exec parser (List stmtFunction)
  | 0, _ => throwPanic Panic.outOfSteps
  | n + 1, methods => do
    let c ← parser.check tokenTypeRightBrace
    let e ← (if !c then parser.isAtEnd else pure true : Exec parser Bool)
    if !c && !e then do
      let m ← parser.funDeclaration n "method"
      parser.methodsLoop n (methods ++ [m])
    else pure methods
/-- The method `parser.fun`. -/
def parser.funDeclaration : Nat → String → Exec parser stmtFunction
  | 0, _ => throwPanic Panic.outOfSteps
  | n + 1, kind => do
    let name ← parser.consume tokenTypeIdentifier ("Expect " ++ kind ++ " name.")
    let _ ← parser.consume tokenTypeLeftParen
      ("Expect '(' after " ++ kind ++ " name of " ++ formatToken name)
    let ps ← parser.paramsLoop n []
    let _ ← parser.consume tokenTypeRightParen "Expect ')' after parameters"
    let _ ← parser.consume tokenTypeLeftBrace ("Expect '\x7b' before " ++ kind ++ " body")
    let body ← parser.blockStatement n
    match body with
    | .block statements => pure (stmtFunction.mk ps statements name)
    | _ => throwPanic (Panic.goRuntime "interface conversion: stmt is not main.stmtBlock")
/-- The method `parser.statement`. -/
def parser.statement : Nat → Exec parser stmt
  | 0 => throwPanic Panic.outOfSteps
  | n + 1 => do
    let m1 ← parser.matchTokens [tokenTypePrint]
    if m1 then parser.printStatement n
    else do
      let m2 ← parser.matchTokens [tokenTypeLeftBrace]
      if m2 then parser.blockStatement n
      else do
        let m3 ← parser.matchTokens [tokenTypeIf]
        if m3 then parser.ifStatement n
        else do
          let m4 ← parser.matchTokens [tokenTypeWhile]
          if m4 then parser.whileStatement n
          else do
            let m5 ← parser.matchTokens [tokenTypeFor]
            if m5 then parser.forStatement n
            else do
              let m6 ← parser.matchTokens [tokenTypeReturn]
              if m6 then parser.returnStatement n
              else parser.expressionStatement n
/-- The method `parser.returnStatement`. -/
def parser.returnStatement : Nat → Exec parser stmt
  | 0 => throwPanic Panic.outOfSteps
  | n + 1 => do
    let k ← parser.previous
    let c ← parser.check tokenTypeSemicolon
    let exp ← (if !c then do
        let e ← parser.expression n
        pure (some e)
      else pure none : Exec parser (Option expr))
    let _ ← parser.consume tokenTypeSemicolon "Expect ';' at the end of return statement"
    pure (stmt.returnStmt k exp)
/-- The method `parser.forStatement`. -/
def parser.forStatement : Nat → Exec parser stmt
  | 0 => throwPanic Panic.outOfSteps
  | n + 1 => do
    let _ ← parser.consume tokenTypeLeftParen "Expect '(' after 'while'."
    let m1 ← parser.matchTokens [tokenTypeSemicolon]
    let init ← (if m1 then pure none
      else do
        let m2 ← parser.matchTokens [tokenTypeVar]
        if m2 then do
          let s ← parser.varDeclaration n
          pure (some s)
        else do
          let s ← parser.expressionStatement n
          pure (some s) : Exec parser (Option stmt))
    let c1 ← parser.check tokenTypeSemicolon
    let cond ← (if !c1 then parser.expression n
      else pure (expr.literal (Literal.bool true)) : Exec parser expr)
    let _ ← parser.consume tokenTypeSemicolon "Expect ';' after loop condition."
    let c2 ← parser.check tokenTypeRightParen
    let incr ← (if !c2 then do
        let e ← parser.expression n
        pure (some e)
      else pure none : Exec parser (Option expr))
    let _ ← parser.consume tokenTypeRightParen "Expect ')' after condition"
    let body ← parser.statement n
    let body1 :=
      match incr with
      | some e => stmt.block [body, stmt.expression e]
      | none => body
    let body2 := stmt.whileStmt cond body1
    match init with
    | some s => pure (stmt.block [s, body2])
    | none => pure body2
/-- The method `parser.whileStatement`. -/
def parser.whileStatement : Nat → Exec parser stmt
  | 0 => throwPanic Panic.outOfSteps
  | n + 1 => do
    let _ ← parser.consume tokenTypeLeftParen "Expect '(' after 'while'."
    let cond ← parser.expression n
    let _ ← parser.consume tokenTypeRightParen "Expect ')' after condition"
    let body ← parser.statement n
    pure (stmt.whileStmt cond body)
/-- The method `parser.ifStatement`. -/
def parser.ifStatement : Nat → Exec parser stmt
  | 0 => throwPanic Panic.outOfSteps
  | n + 1 => do
    let _ ← parser.consume tokenTypeLeftParen "Expect '(' after 'if'."
    let cond ← parser.expression n
    let _ ← parser.consume tokenTypeRightParen "Expect ')' after if condition."
    let thenBr ← parser.statement n
    let m ← parser.matchTokens [tokenTypeElse]
    let elseBr ← (if m then do
        let s ← parser.statement n
        pure (some s)
      else pure none : Exec parser (Option stmt))
    pure (stmt.ifStmt cond thenBr elseBr)
/-- The method `parser.blockStatement`. -/
def parser.blockStatement : Nat → Exec parser stmt
  | 0 => throwPanic Panic.outOfSteps
  | n + 1 => do
    let ss ← parser.blockLoop n []
    let _ ← parser.consume tokenTypeRightBrace "Expect '\x7d' after block."
    pure (stmt.block ss)
/-- The loop of `parser.blockStatement`. -/
def parser.blockLoop : Nat → List stmt → Exec parser (List stmt)
  | 0, _ => throwPanic Panic.outOfSteps
  | n + 1, ss => do
    let c ← parser.check tokenTypeRightBrace
    let e ← (if !c then parser.isAtEnd else pure true : Exec parser Bool)
    if !c && !e then do
      let s ← parser.declaration n
      parser.blockLoop n (ss ++ [s])
    else pure ss
/-- The method `parser.printStatement`. -/
def parser.printStatement : Nat → Exec parser stmt
  | 0 => throwPanic Panic.outOfSteps
  | n + 1 => do
    let e ← parser.expression n
    let _ ← parser.consume tokenTypeSemicolon "Expect ';' after expression."
    pure (stmt.print e)
/-- The method `parser.varDeclaration`. -/
def parser.varDeclaration : Nat → Exec parser stmt
  | 0 => throwPanic Panic.outOfSteps
  | n + 1 => do
    let name ← parser.consume tokenTypeIdentifier "Expect variable name."
    let m ← parser.matchTokens [tokenTypeEqual]
    let init ← (if m then do
        let e ← parser.expression n
        pure (some e)
      else pure none : Exec parser (Option expr))
    let _ ← parser.consume tokenTypeSemicolon "Expect ';' after variable declaration."
    pure (stmt.var name init)
/-- The method `parser.expressionStatement`. -/
def parser.expressionStatement : Nat → Exec parser stmt
  | 0 => throwPanic Panic.outOfSteps
  | n + 1 => do
    let e ← parser.expression n
    let _ ← parser.consume tokenTypeSemicolon "Expect ';' after expression."
    pure (stmt.expression e)
/-- The method `parser.equality`. -/
def parser.equality : Nat → Exec parser expr
  | 0 => throwPanic Panic.outOfSteps
  | n + 1 => do
    let e ← parser.comparison n
    parser.equalityLoop n e
/-- The loop of `parser.equality`. -/
def parser.equalityLoop : Nat → expr → Exec parser expr
  | 0, _ => throwPanic Panic.outOfSteps
  | n + 1, e => do
    let m ← parser.matchTokens [tokenTypeBangEqual, tokenTypeEqualEqual]
    if m then do
      let op ← parser.previous
      let right ← parser.comparison n
      parser.equalityLoop n (expr.binary e right op)
    else pure e
/-- The method `parser.comparison`. -/
def parser.comparison : Nat → Exec parser expr
  | 0 => throwPanic Panic.outOfSteps
  | n + 1 => do
    let e ← parser.addition n
    parser.comparisonLoop n e
/-- The loop of `parser.comparison`. -/
def parser.comparisonLoop : Nat → expr → Exec parser expr
  | 0, _ => throwPanic Panic.outOfSteps
  | n + 1, e => do
    let m ← parser.matchTokens
      [tokenTypeGreater, tokenTypeGreaterEqual, tokenTypeLess, tokenTypeLessEqual]
    if m then do
      let o ← parser.previous
      let r ← parser.addition n
      parser.comparisonLoop n (expr.binary e r o)
    else pure e
/-- The method `parser.addition`. -/
def parser.addition : Nat → Exec parser expr
  | 0 => throwPanic Panic.outOfSteps
  | n + 1 => do
    let e ← parser.multiplication n
    parser.additionLoop n e
/-- The loop of `parser.addition`. -/
def parser.additionLoop : Nat → expr → Exec parser expr
  | 0, _ => throwPanic Panic.outOfSteps
  | n + 1, e => do
    let m ← parser.matchTokens [tokenTypeMinus, tokenTypePlus]
    if m then do
      let o ← parser.previous
      let r ← parser.multiplication n
      parser.additionLoop n (expr.binary e r o)
    else pure e
/-- The method `parser.multiplication`. -/
def parser.multiplication : Nat → Exec parser expr
  | 0 => throwPanic Panic.outOfSteps
  | n + 1 => do
    let e ← parser.unary n
    parser.multiplicationLoop n e
/-- The loop of `parser.multiplication`. -/
def parser.multiplicationLoop : Nat → expr → Exec parser expr
  | 0, _ => throwPanic Panic.outOfSteps
  | n + 1, e => do
    let m ← parser.matchTokens [tokenTypeSlash, tokenTypeStar]
    if m then do
      let o ← parser.previous
      let r ← parser.unary n
      parser.multiplicationLoop n (expr.binary e r o)
    else pure e
/-- The method `parser.unary`. -/
def parser.unary : Nat → Exec parser expr
  | 0 => throwPanic Panic.outOfSteps
  | n + 1 => do
    let m ← parser.matchTokens [tokenTypeBang, tokenTypeMinus]
    if m then do
      let o ← parser.previous
      let right ← parser.unary n
      pure (expr.unary o right)
    else parser.call n
/-- The method `parser.call`. -/
def parser.call : Nat → Exec parser expr
  | 0 => throwPanic Panic.outOfSteps
  | n + 1 => do
    let pr ← parser.primary n
    parser.callLoop n pr
/-- The loop of `parser.call`. -/
def parser.callLoop : Nat → expr → Exec parser expr
  | 0, _ => throwPanic Panic.outOfSteps
  | n + 1, pr => do
    let m1 ← parser.matchTokens [tokenTypeLeftParen]
    if m1 then do
      let c ← parser.finishCall n pr
      parser.callLoop n c
    else do
      let m2 ← parser.matchTokens [tokenTypeDot]
      if m2 then do
        let name ← parser.consume tokenTypeIdentifier "Expect property name after '.'."
        parser.callLoop n (expr.get name pr)
      else pure pr
/-- The method `parser.finishCall`. -/
def parser.finishCall : Nat → expr → Exec parser expr
  | 0, _ => throwPanic Panic.outOfSteps
  | n + 1, callee => do
    let c ← parser.check tokenTypeRightParen
    let args ← (if !c then parser.argsLoop n [] else pure [] : Exec parser (List expr))
    let paren ← parser.consume tokenTypeRightParen "Expect ')' after arguments."
    pure (expr.call paren args callee)
/-- The loop over the arguments in `parser.finishCall`. -/
def parser.argsLoop : Nat → List expr → Exec parser (List expr)
  | 0, _ => throwPanic Panic.outOfSteps
  | n + 1, args => do
    if args.length ≥ 255 then do
      let tk ← parser.peek
      reportParserError tk "Cannot have more than 255 arguments"
    let e ← parser.expression n
    let m ← parser.matchTokens [tokenTypeComma]
    if !m then pure (args ++ [e]) else parser.argsLoop n (args ++ [e])
/-- The method `parser.primary`. -/
def parser.primary : Nat → Exec parser expr
  | 0 => throwPanic Panic.outOfSteps
  | n + 1 => do
    let m1 ← parser.matchTokens [tokenTypeFalse]
    if m1 then pure (expr.literal (Literal.bool false))
    else do
      let m2 ← parser.matchTokens [tokenTypeTrue]
      if m2 then pure (expr.literal (Literal.bool true))
      else do
        let m3 ← parser.matchTokens [tokenTypeNil]
        if m3 then pure (expr.literal Literal.nil)
        else do
          let m4 ← parser.matchTokens [tokenTypeNumber, tokenTypeString]
          if m4 then do
            let t ← parser.previous
            pure (expr.literal t.literal)
          else do
            let m5 ← parser.matchTokens [tokenTypeLeftParen]
            if m5 then do
              let e ← parser.expression n
              let _ ← parser.consume tokenTypeRightParen "Expect ')' after expression."
              pure (expr.grouping e)
            else do
              let m6 ← parser.matchTokens [tokenTypeSuper]
              if m6 then do
                let k ← parser.previous
                let _ ← parser.consume tokenTypeDot "Expect '.' after 'super'."
                let m ← parser.consume tokenTypeIdentifier "Expect superclass method"
                pure (expr.super k m)
              else do
                let m7 ← parser.matchTokens [tokenTypeThis]
                if m7 then do
                  let t ← parser.previous
                  pure (expr.this t)
                else do
                  let m8 ← parser.matchTokens [tokenTypeIdentifier]
                  if m8 then do
                    let t ← parser.previous
                    pure (expr.variable t)
                  else do
                    let tk ← parser.peek
                    reportParserError tk "Expect expression."
end

/-- The loop of `parser.parse`. -/
def parser.parseLoop : Nat → List stmt → Exec parser (List stmt)
  | 0, _ => throwPanic Panic.outOfSteps
  | n + 1, ret => do
    let e ← parser.isAtEnd
    if !e then do
      let s ← parser.declaration n
      parser.parseLoop n (ret ++ [s])
    else pure ret

/-- The method `parser.parse`: the deferred `recover` swallows a panic and prints it, and the
method then returns the nil slice.  The result is the recovered panic, if any, the
statements and the state left. -/
def parser.parse (steps : Nat) (p : parser) : Option Panic × List stmt × parser :=
  match parser.parseLoop steps [] p with
  | (Res.ok ss, p1) => (none, ss, p1)
  | (Res.panic e, p1) => (some e, [], p1)

/-- A parser in front of the first of the tokens, with no flag set. -/
def newParser (ts : List token) : parser :=
  { tokens := ts, current := 0, hadParserError := false, hadRuntimeError := false }

/-- The function `run` from the tokens on: stop when the parser flag is set by the scanner,
parse, stop when the parser flag is set, then resolve and interpret as `runStatements` does.
The flags are package-level variables, so those that parsing sets are the ones seen
afterwards.  The result is the panic that `parse` recovered, the panic that `interpret`
recovered, and the state left. -/
def runTokens (steps : Nat) (it : interpreter) (ts : List token) :
    Option Panic × Option Panic × interpreter :=
  if it.hadParserError then (none, none, it)
  else
    match parser.parse steps
      { tokens := ts, current := 0, hadParserError := it.hadParserError,
        hadRuntimeError := it.hadRuntimeError } with
    | (e, ss, p1) =>
      let it1 : interpreter :=
        { it with hadParserError := p1.hadParserError, hadRuntimeError := p1.hadRuntimeError }
      if p1.hadParserError then (e, none, it1)
      else
        match runStatements steps it1 ss with
        | (e1, it2) => (e, e1, it2)

/-! ## scanner.go

A Go string is a sequence of bytes.  The source text is the list of its bytes, each byte
being the `Char` of that code; a lexeme is the `String` of the bytes of the slice.  The
`float64` of a number literal is the double nearest to the number that the digits denote,
as `strconv.ParseFloat` returns it, with its range error when that is the infinity. -/

/-- The struct `scanner`, with the package-level flag of `report.go` that scanning can
set. -/
structure scanner where
  source : List Char
  tokens : List token
  start : Nat
  current : Nat
  line : Int
  hadParserError : Bool
  deriving DecidableEq, Repr

/-- The call `reportParserError(token{line: s.line}, message)`: the token has the zero
value of every other field, so its type is not `tokenTypeEOF` and its lexeme is empty. -/
def scanner.reportParserError {α : Type} (message : String) : Exec scanner α := fun s =>
  (Res.panic (Panic.parseError s.line
      (if tokenTypeLeftParen = tokenTypeEOF then " at end" else " at '" ++ "" ++ "'") message),
    { s with hadParserError := true })

/-- The method `scanner.isAtEnd`. -/
def scanner.isAtEnd (s : scanner) : Bool :=
  decide (s.current ≥ s.source.length)

/-- The method `scanner.advance`; the index expression panics outside the string. -/
def scanner.advance : Exec scanner Char := fun s =>
  match s.source[s.current]? with
  | some c => (Res.ok c, { s with current := s.current + 1 })
  | none =>
    (Res.panic (Panic.goRuntime "index out of range"), { s with current := s.current + 1 })

/-- The method `scanner.peek`. -/
def scanner.peek (s : scanner) : Char :=
  if s.isAtEnd then Char.ofNat 0 else s.source.getD s.current (Char.ofNat 0)

/-- The method `scanner.peekNext`. -/
def scanner.peekNext (s : scanner) : Char :=
  scanner.peek { s with current := s.current + 1 }

/-- The method `scanner.match`. -/
def scanner.matchChar (char : Char) : Exec scanner Bool := fun s =>
  if s.isAtEnd then (Res.ok false, s)
  else if s.source.getD s.current (Char.ofNat 0) ≠ char then (Res.ok false, s)
  else (Res.ok true, { s with current := s.current + 1 })

/-- The method `scanner.addToken`; the slice expression panics when its bounds are not in
order. -/
def scanner.addToken (tt : tokenType) (literal : Literal) : Exec scanner Unit := fun s =>
  if s.start ≤ s.current ∧ s.current ≤ s.source.length then
    (Res.ok (),
      { s with
        tokens := s.tokens ++
          [{ tt := tt, lexeme := String.mk ((s.source.take s.current).drop s.start),
             literal := literal, line := s.line }] })
  else (Res.panic (Panic.goRuntime "slice bounds out of range"), s)

/-- The method `scanner.isDigit`. -/
def scanner.isDigit (c : Char) : Bool :=
  decide ('0' ≤ c) && decide (c ≤ '9')

/-- The method `scanner.isAlpha`. -/
def scanner.isAlpha (c : Char) : Bool :=
  (decide ('a' ≤ c) && decide (c ≤ 'z')) || (decide ('A' ≤ c) && decide (c ≤ 'Z')) ||
    decide (c = '_')

/-- A loop `for cond { s.advance() }`.  The first argument bounds the number of turns; the
callers pass the length of the source, which the loop cannot exceed. -/
def scanner.advanceWhile (cond : scanner → Bool) : Nat → Exec scanner Unit
  | 0 => throwPanic Panic.outOfSteps
  | n + 1 => fun s =>
    if cond s then
      (do
        let _ ← scanner.advance
        scanner.advanceWhile cond n : Exec scanner Unit) s
    else (Res.ok (), s)

/-- The method `scanner.parseString`. -/
def scanner.parseString : Exec scanner Unit := do
  (fun s => scanner.advanceWhile (fun s => s.peek ≠ Char.ofNat 34 && !s.isAtEnd)
    (s.source.length + 1) s : Exec scanner Unit)
  let s ← (fun s => (Res.ok s, s) : Exec scanner scanner)
  if s.isAtEnd then
    scanner.reportParserError "unterminated string"
  let _ ← scanner.advance
  let s ← (fun s => (Res.ok s, s) : Exec scanner scanner)
  if s.start + 1 ≤ s.current - 1 ∧ s.current - 1 ≤ s.source.length ∧ 1 ≤ s.current then
    scanner.addToken tokenTypeString
      (Literal.str (String.mk ((s.source.take (s.current - 1)).drop (s.start + 1))))
  else throwPanic (Panic.goRuntime "slice bounds out of range")

/-- The number that a string of decimal digits denotes. -/
def digitsValue (cs : List Char) : Nat :=
  cs.foldl (fun a c => 10 * a + (c.toNat - 48)) 0

/-- The call `strconv.ParseFloat(lexeme, 64)` on a lexeme of digits with or without a
fractional part: the double nearest to the decimal number, ties to even, or the text of
the error when that is the infinity. -/
def parseFloat (cs : List Char) : Except String float64 :=
  let whole := cs.takeWhile (fun c => c ≠ '.')
  let fraction := (cs.dropWhile (fun c => c ≠ '.')).drop 1
  match float64.round false
      ((digitsValue whole * 10 ^ fraction.length + digitsValue fraction) * 2 ^ 1074)
      (10 ^ fraction.length) with
  | float64.inf _ =>
    Except.error ("strconv.ParseFloat: parsing \"" ++ String.mk cs ++ "\": value out of range")
  | x => Except.ok x

/-- The method `scanner.parseNumber`. -/
def scanner.parseNumber : Exec scanner Unit := do
  (fun s => scanner.advanceWhile (fun s => scanner.isDigit s.peek)
    (s.source.length + 1) s : Exec scanner Unit)
  let s ← (fun s => (Res.ok s, s) : Exec scanner scanner)
  if s.peek = '.' && scanner.isDigit s.peekNext then do
    let _ ← scanner.advance
    (fun s => scanner.advanceWhile (fun s => scanner.isDigit s.peek)
      (s.source.length + 1) s : Exec scanner Unit)
  let s ← (fun s => (Res.ok s, s) : Exec scanner scanner)
  if s.start ≤ s.current ∧ s.current ≤ s.source.length then
    match parseFloat ((s.source.take s.current).drop s.start) with
    | Except.error err => scanner.reportParserError err
    | Except.ok v => scanner.addToken tokenTypeNumber (Literal.number v)
  else throwPanic (Panic.goRuntime "slice bounds out of range")

/-- The map `literalToKeywordTokenType`. -/
def literalToKeywordTokenType : List (String × tokenType) :=
  [("and", tokenTypeAnd), ("class", tokenTypeClass), ("else", tokenTypeElse),
    ("false", tokenTypeFalse), ("for", tokenTypeFor), ("fun", tokenTypeFun),
    ("if", tokenTypeIf), ("nil", tokenTypeNil), ("or", tokenTypeOr),
    ("print", tokenTypePrint), ("return", tokenTypeReturn), ("super", tokenTypeSuper),
    ("this", tokenTypeThis), ("true", tokenTypeTrue), ("var", tokenTypeVar),
    ("while", tokenTypeWhile)]

/-- The method `scanner.parseIdentifier`. -/
def scanner.parseIdentifier : Exec scanner Unit := do
  (fun s => scanner.advanceWhile
    (fun s => scanner.isAlpha s.peek || scanner.isDigit s.peek)
    (s.source.length + 1) s : Exec scanner Unit)
  let s ← (fun s => (Res.ok s, s) : Exec scanner scanner)
  if s.start ≤ s.current ∧ s.current ≤ s.source.length then
    match mapGet literalToKeywordTokenType
        (String.mk ((s.source.take s.current).drop s.start)) with
    | some tt => scanner.addToken tt Literal.nil
    | none => scanner.addToken tokenTypeIdentifier Literal.nil
  else throwPanic (Panic.goRuntime "slice bounds out of range")

/-- The body of the case for a slash in `scanner.scanToken`. -/
def scanner.scanSlash : Exec scanner Unit := do
  let line ← scanner.matchChar '/'
  if line then
    (fun s => scanner.advanceWhile (fun s => s.peek ≠ '\n' && !s.isAtEnd)
      (s.source.length + 1) s : Exec scanner Unit)
  else do
    let block ← scanner.matchChar '*'
    if block then do
      (fun s => scanner.advanceWhile (fun s => s.peek ≠ '*' && !s.isAtEnd)
        (s.source.length + 1) s : Exec scanner Unit)
      let s ← (fun s => (Res.ok s, s) : Exec scanner scanner)
      if s.isAtEnd || s.peekNext ≠ '/' then
        scanner.reportParserError "unterminated comment"
      let _ ← scanner.advance
      let _ ← scanner.advance
      pure ()
    else scanner.addToken tokenTypeSlash Literal.nil

/-- The two-character operators of `scanner.scanToken`: `long` when an equals sign
follows, `short` otherwise. -/
def scanner.scanOperator (long short : tokenType) : Exec scanner Unit := do
  let m ← scanner.matchChar '='
  if m then scanner.addToken long Literal.nil else scanner.addToken short Literal.nil

/-- The switch of `scanner.scanToken` on the byte that `advance` has returned. -/
def scanner.scanByte (c : Char) : Exec scanner Unit :=
  if c = '(' then scanner.addToken tokenTypeLeftParen Literal.nil
  else if c = ')' then scanner.addToken tokenTypeRightParen Literal.nil
  else if c = Char.ofNat 123 then scanner.addToken tokenTypeLeftBrace Literal.nil
  else if c = Char.ofNat 125 then scanner.addToken tokenTypeRightBrace Literal.nil
  else if c = ',' then scanner.addToken tokenTypeComma Literal.nil
  else if c = '.' then scanner.addToken tokenTypeDot Literal.nil
  else if c = '-' then scanner.addToken tokenTypeMinus Literal.nil
  else if c = '+' then scanner.addToken tokenTypePlus Literal.nil
  else if c = ';' then scanner.addToken tokenTypeSemicolon Literal.nil
  else if c = '*' then scanner.addToken tokenTypeStar Literal.nil
  else if c = '!' then scanner.scanOperator tokenTypeBangEqual tokenTypeBang
  else if c = '=' then scanner.scanOperator tokenTypeEqualEqual tokenTypeEqual
  else if c = '>' then scanner.scanOperator tokenTypeGreaterEqual tokenTypeGreater
  else if c = '<' then scanner.scanOperator tokenTypeLessEqual tokenTypeLess
  else if c = '/' then scanner.scanSlash
  else if c = ' ' ∨ c = '\r' ∨ c = '\t' then pure ()
  else if c = '\n' then (fun s => (Res.ok (), { s with line := s.line + 1 }))
  else if c = Char.ofNat 34 then scanner.parseString
  else if scanner.isDigit c then scanner.parseNumber
  else if scanner.isAlpha c then scanner.parseIdentifier
  else scanner.reportParserError "unexpected character"

/-- The method `scanner.scanToken`. -/
def scanner.scanToken : Exec scanner Unit := do
  let c ← scanner.advance
  scanner.scanByte c

/-- The loop of `scanner.scanTokens`.  The first argument bounds the number of turns. -/
def scanner.scanLoop : Nat → Exec scanner Unit
  | 0 => throwPanic Panic.outOfSteps
  | n + 1 => fun s =>
    if !s.isAtEnd then
      (do
        (fun s => (Res.ok (), { s with start := s.current }) : Exec scanner Unit)
        scanner.scanToken
        scanner.scanLoop n : Exec scanner Unit) s
    else (Res.ok (), s)

/-- The method `scanner.scanTokens`.  Every turn of its loop consumes a byte, so the bound
that is passed to the loop is not reached. -/
def scanner.scanTokens : Exec scanner (List token) := do
  (fun s => scanner.scanLoop (s.source.length + 1) s : Exec scanner Unit)
  (fun s =>
    (Res.ok (),
      { s with
        tokens := s.tokens ++
          [{ tt := tokenTypeEOF, lexeme := "", literal := Literal.nil, line := s.line }] }) :
    Exec scanner Unit)
  let s ← (fun s => (Res.ok s, s) : Exec scanner scanner)
  pure s.tokens

/-- The composite literal `&scanner{source: s}`, with the flag as it is at that time. -/
def newScanner (source : List Char) (hadParserError : Bool) : scanner :=
  { source := source, tokens := [], start := 0, current := 0, line := 0,
    hadParserError := hadParserError }

/-! ## main.go -/

/-- The function `run`.  `scanTokens` has no deferred `recover`, unlike `parse`, `resolve`
and `interpret`: a panic of the scanner leaves `run` as a panic.  The flag that the scanner
sets is the package-level one. -/
def run (steps : Nat) (source : List Char) : Exec interpreter (Option Panic × Option Panic) :=
  fun it =>
    match scanner.scanTokens (newScanner source it.hadParserError) with
    | (Res.panic p, s) => (Res.panic p, { it with hadParserError := s.hadParserError })
    | (Res.ok ts, s) =>
      match runTokens steps { it with hadParserError := s.hadParserError } ts with
      | (e, e1, it1) => (Res.ok (e, e1), it1)

/-- The three assignments that end a turn of the loop of `runPrompt`. -/
def resetFlags : Exec interpreter Unit := fun it =>
  (Res.ok (),
    { it with hadParserError := false, hadRuntimeError := false, hadResolutionError := false })

/-- The loop of `runPrompt` over the lines that standard input delivers. -/
def promptLoop (steps : Nat) : List (List Char) → Exec interpreter Unit
  | [] => pure ()
  | line :: rest => do
    let _ ← run steps line
    resetFlags
    promptLoop steps rest

/-- The function `runPrompt` on the lines that standard input delivers; `now` is the
reading of the clock.  The prompt that it prints is not part of the model. -/
def runPrompt (steps : Nat) (now : Int) (lines : List (List Char)) : Res Unit × interpreter :=
  promptLoop steps lines (newInterpreter now)

/-- The function `runFile` on the text of the file. -/
def runFile (steps : Nat) (now : Int) (source : List Char) :
    Res (Option Panic × Option Panic) × interpreter :=
  run steps source (newInterpreter now)

/-! ## Notions used to state the claims -/

/-- The chain `class, superclass, superclass of the superclass, ...` of a class value. -/
def loxClass.chain : loxClass → List loxClass
  | .mk name methods superClass =>
    .mk name methods superClass ::
      (match superClass with
       | some s => s.chain
       | none => [])

/-- The class value that `interpreter.visitClassStatement` builds for the statement
`class name < sup { methods }` when the method closures are the environment `closure`. -/
def builtClass (name : token) (methods : List stmtFunction) (closure : Nat) (sup : loxClass) :
    loxClass :=
  loxClass.mk name.lexeme (interpreter.buildMethods closure methods []) (some sup)

/-- The bindings that the parameter loop of `loxFunction.call` makes in the map `m`:
parameter `k` is bound to argument `k`. -/
def boundParams : List token → List Value → List (String × Value) → List (String × Value)
  | p :: ps, arg :: args, m => boundParams ps args (mapSet m p.lexeme arg)
  | _, _, m => m

/-- The state in which the body of `l` starts when `l` is called with `args` in state `j`: a
new environment that encloses the closure of `l`, holds the parameters, and is current. -/
def bodyStart (l : loxFunction) (args : List Value) (j : interpreter) : interpreter :=
  { j with
    envs := j.envs ++ [{ enclosing := some l.closure,
                         values := boundParams l.declaration.params args [] }]
    env := j.envs.length }

/-- The state after `loxFunction.bind`: one more environment, which encloses the closure of
the method and binds `this`. -/
def afterBind (l : loxFunction) (inst : loxInstance) (j : interpreter) : interpreter :=
  { j with
    envs := j.envs ++ [{ enclosing := some l.closure, values := [("this", Value.inst inst)] }] }

/-- Whether a panic is the `returnValue` of a return statement. -/
def Panic.isReturn : Panic → Bool
  | Panic.returnValue _ => true
  | _ => false

/-- The function `x` never ends in the panic of a return statement, whatever the state. -/
structure NoReturn {α : Type} (x : Exec interpreter α) : Prop where
  outcome : ∀ (i : interpreter) (v : Value), (x i).1 ≠ Res.panic (Panic.returnValue v)

/-- The function `y` ends like `x` from every state in which `x` ends within its step
budget. -/
structure Extends {α : Type} (x y : Exec interpreter α) : Prop where
  same : ∀ (i i1 : interpreter) (r : Res α),
    x i = (r, i1) → r ≠ Res.panic Panic.outOfSteps → y i = (r, i1)

/-- The value is of the number variant, a `float64`. -/
def Value.isNumber : Value → Bool
  | Value.number _ => true
  | _ => false

/-- The value is a number of which Go's `== 0` holds: one of the two zeros. -/
def Value.isZero : Value → Bool
  | Value.number y => y.eq 0
  | _ => false

/-- The operators `-`, `*`, `/`, `>`, `>=`, `<` and `<=`. -/
def isArithmeticOperator : tokenType → Bool
  | tokenTypeMinus => true
  | tokenTypeStar => true
  | tokenTypeSlash => true
  | tokenTypeGreater => true
  | tokenTypeGreaterEqual => true
  | tokenTypeLess => true
  | tokenTypeLessEqual => true
  | _ => false

/-- Scope `k` of the stack, counted from the outermost, holds the name `n`. -/
def resolver.holds (r : resolver) (k : Nat) (n : String) : Prop :=
  ∃ scope, r.scopes[k]? = some scope ∧ mapGet scope n ≠ none

/-- Whenever the resolver function `x` returns normally, the scope stack has grown by `d`
scopes, and the scopes that were on the stack and are not popped (when `d` is negative)
still hold the names they held. -/
structure Nests {α : Type} (d : Int) (x : Exec resolver α) : Prop where
  depth : ∀ (r r1 : resolver) (a : α), x r = (Res.ok a, r1) →
    (r1.scopes.length : Int) = r.scopes.length + d
  names : ∀ (r r1 : resolver) (a : α), x r = (Res.ok a, r1) →
    ∀ (k : Nat) (n : String), (k : Int) < r.scopes.length + min d 0 →
      r.holds k n → r1.holds k n

/-- The name that a statement declares in the current scope: variable, function and class
statements declare one. -/
def stmt.declares : stmt → Option token
  | .var name _ => some name
  | .function f => some f.name
  | .classStmt _ name _ => some name
  | _ => none

/-- What `visitClassStatement` does after the name of the class is declared and defined;
`ec` is the class type to restore at the end. -/
def resolver.classBody (methods : List stmtFunction) (name : token) (superClass : Option token)
    (ec : classType) : Exec resolver Unit := do
  match superClass with
  | some sc =>
    if sc.lexeme = name.lexeme then
      reportResolutionError sc "A class cannot inherit from itself."
  | none => pure ()
  match superClass with
  | some sc => do
    resolver.setCurrentClass classTypeSubclass
    resolver.resolveExpression (expr.variable sc)
    resolver.beginScope
    resolver.setInPeekScope "super" true
  | none => pure ()
  resolver.beginScope
  resolver.setInPeekScope "this" true
  resolver.resolveMethods methods
  resolver.endScope
  match superClass with
  | some _ => resolver.endScope
  | none => pure ()
  resolver.setCurrentClass ec

/-- The parser function `y` ends like `x` from every state in which `x` ends within its
step budget. -/
structure Prolongs {α : Type} (x y : Exec parser α) : Prop where
  same : ∀ (p p1 : parser) (r : Res α),
    x p = (r, p1) → r ≠ Res.panic Panic.outOfSteps → y p = (r, p1)

/-- Every parsing method ends with the budget `n + 1` as it ends with the budget `n`,
whenever it ends within the budget `n`. -/
structure ParserMono (n : Nat) : Prop where
  paramsLoop : ∀ ps, Prolongs (parser.paramsLoop n ps) (parser.paramsLoop (n + 1) ps)
  expression : Prolongs (parser.expression n) (parser.expression (n + 1))
  assignment : Prolongs (parser.assignment n) (parser.assignment (n + 1))
  or : Prolongs (parser.or n) (parser.or (n + 1))
  orLoop : ∀ e, Prolongs (parser.orLoop n e) (parser.orLoop (n + 1) e)
  and : Prolongs (parser.and n) (parser.and (n + 1))
  andLoop : ∀ e, Prolongs (parser.andLoop n e) (parser.andLoop (n + 1) e)
  declaration : Prolongs (parser.declaration n) (parser.declaration (n + 1))
  classDeclaration : Prolongs (parser.classDeclaration n) (parser.classDeclaration (n + 1))
  methodsLoop : ∀ ms, Prolongs (parser.methodsLoop n ms) (parser.methodsLoop (n + 1) ms)
  funDeclaration : ∀ kind,
    Prolongs (parser.funDeclaration n kind) (parser.funDeclaration (n + 1) kind)
  statement : Prolongs (parser.statement n) (parser.statement (n + 1))
  returnStatement : Prolongs (parser.returnStatement n) (parser.returnStatement (n + 1))
  forStatement : Prolongs (parser.forStatement n) (parser.forStatement (n + 1))
  whileStatement : Prolongs (parser.whileStatement n) (parser.whileStatement (n + 1))
  ifStatement : Prolongs (parser.ifStatement n) (parser.ifStatement (n + 1))
  blockStatement : Prolongs (parser.blockStatement n) (parser.blockStatement (n + 1))
  blockLoop : ∀ ss, Prolongs (parser.blockLoop n ss) (parser.blockLoop (n + 1) ss)
  printStatement : Prolongs (parser.printStatement n) (parser.printStatement (n + 1))
  varDeclaration : Prolongs (parser.varDeclaration n) (parser.varDeclaration (n + 1))
  expressionStatement :
    Prolongs (parser.expressionStatement n) (parser.expressionStatement (n + 1))
  equality : Prolongs (parser.equality n) (parser.equality (n + 1))
  equalityLoop : ∀ e, Prolongs (parser.equalityLoop n e) (parser.equalityLoop (n + 1) e)
  comparison : Prolongs (parser.comparison n) (parser.comparison (n + 1))
  comparisonLoop : ∀ e, Prolongs (parser.comparisonLoop n e) (parser.comparisonLoop (n + 1) e)
  addition : Prolongs (parser.addition n) (parser.addition (n + 1))
  additionLoop : ∀ e, Prolongs (parser.additionLoop n e) (parser.additionLoop (n + 1) e)
  multiplication : Prolongs (parser.multiplication n) (parser.multiplication (n + 1))
  multiplicationLoop : ∀ e,
    Prolongs (parser.multiplicationLoop n e) (parser.multiplicationLoop (n + 1) e)
  unary : Prolongs (parser.unary n) (parser.unary (n + 1))
  call : Prolongs (parser.call n) (parser.call (n + 1))
  callLoop : ∀ e, Prolongs (parser.callLoop n e) (parser.callLoop (n + 1) e)
  finishCall : ∀ e, Prolongs (parser.finishCall n e) (parser.finishCall (n + 1) e)
  argsLoop : ∀ es, Prolongs (parser.argsLoop n es) (parser.argsLoop (n + 1) es)
  primary : Prolongs (parser.primary n) (parser.primary (n + 1))
  parseLoop : ∀ ss, Prolongs (parser.parseLoop n ss) (parser.parseLoop (n + 1) ss)

/-- The parser reads the argument expressions `es`, each followed by a comma: it starts in
state `p`, is in state `q` after the last comma, and each expression is read within the
budget `n`. -/
inductive ArgsThen (n : Nat) : parser → List expr → parser → Prop
  | nil (p : parser) : ArgsThen n p [] p
  | cons (p p1 p2 q : parser) (e : expr) (es : List expr) :
    parser.expression n p = (Res.ok e, p1) →
    parser.matchTokens [tokenTypeComma] p1 = (Res.ok true, p2) →
    ArgsThen n p2 es q → ArgsThen n p (e :: es) q

/-- The text of `reportParserError` that says where the error is. -/
def errorPlace (t : token) : String :=
  if t.tt = tokenTypeEOF then " at end" else " at '" ++ t.lexeme ++ "'"

/-- The desugaring of a for statement in the words of the specification:
`Block[init, While(cond, Block[body, Expression(incr)])]`, with the outer block omitted when
`init` is absent, the literal `true` as condition when `cond` is absent, and `body` itself
as the body of the loop when `incr` is absent. -/
def desugarFor (init : Option stmt) (cond incr : Option expr) (body : stmt) : stmt :=
  let condition := cond.getD (expr.literal (Literal.bool true))
  let loopBody :=
    match incr with
    | some c => stmt.block [body, stmt.expression c]
    | none => body
  match init with
  | some a => stmt.block [a, stmt.whileStmt condition loopBody]
  | none => stmt.whileStmt condition loopBody

/-- The first slot of a for statement, read from state `p` to state `q` within the budget
`n`: it is absent when a semicolon stands there, a variable declaration when `var` stands
there, and an expression statement otherwise. -/
def ForInit (n : Nat) (p : parser) (init : Option stmt) (q : parser) : Prop :=
  (init = none ∧ parser.matchTokens [tokenTypeSemicolon] p = (Res.ok true, q)) ∨
  (∃ p1 s, parser.matchTokens [tokenTypeSemicolon] p = (Res.ok false, p) ∧
    parser.matchTokens [tokenTypeVar] p = (Res.ok true, p1) ∧
    parser.varDeclaration n p1 = (Res.ok s, q) ∧ init = some s) ∨
  (∃ s, parser.matchTokens [tokenTypeSemicolon] p = (Res.ok false, p) ∧
    parser.matchTokens [tokenTypeVar] p = (Res.ok false, p) ∧
    parser.expressionStatement n p = (Res.ok s, q) ∧ init = some s)

/-- The second or third slot of a for statement, read from state `p` to state `q` within
the budget `n`: it is absent when the closing token stands there, and an expression
otherwise. -/
def ForSlot (n : Nat) (closing : tokenType) (p : parser) (e : Option expr) (q : parser) : Prop :=
  (e = none ∧ parser.check closing p = (Res.ok true, p) ∧ q = p) ∨
  (∃ c, parser.check closing p = (Res.ok false, p) ∧
    parser.expression n p = (Res.ok c, q) ∧ e = some c)

/-- The shape that the methods `or`, `and`, `equality`, `comparison`, `addition` and
`multiplication` share: `whole` reads an operand with `operand` and then runs `loop`, which,
as long as one of the operators `ops` follows, reads a further operand and combines it with
`mk` onto what was read before. -/
structure IsLevel (whole operand : Nat → Exec parser expr)
    (loop : Nat → expr → Exec parser expr) (ops : List tokenType)
    (mk : expr → expr → token → expr) : Prop where
  whole_eq : ∀ (n : Nat) (p : parser), whole (n + 1) p = (operand n >>= loop n) p
  loop_eq : ∀ (n : Nat) (e : expr) (p : parser), loop (n + 1) e p =
    (parser.matchTokens ops >>= fun m =>
      if m then
        parser.previous >>= fun o => operand n >>= fun r => loop n (mk e r o)
      else pure e) p
  operand_mono : ∀ n, Prolongs (operand n) (operand (n + 1))

/-! ## Where return, this and super may stand -/

/-- The three constructs whose place the resolver checks. -/
inductive Placement
  | ofReturn | ofThis | ofSuper
  deriving DecidableEq, Repr

/-- The messages with which the resolver reports a construct of each kind. -/
def Placement.messages : Placement → List String
  | .ofReturn => ["Cannot return from top-level code.", "Cannot return from an initializer."]
  | .ofThis => ["Cannot use 'this' outside of a class."]
  | .ofSuper =>
    ["Cannot use 'super' outside of a class.",
      "Cannot use 'super' in a class with no superclass."]

/-- The panic is a report of a resolution error about a construct of kind `k`. -/
def Panic.reports (k : Placement) : Panic → Bool
  | .resolutionError _ m => decide (m ∈ k.messages)
  | _ => false

mutual
/-- In the words of the specification, for the text of an expression that stands in a class
of kind `c`: the expression contains a `this` outside of any class declaration (for
`ofThis`), or a `super` outside of any class declaration or in a class without a superclass
clause (for `ofSuper`). -/
def expr.misplaced (k : Placement) (c : classType) : expr → Bool
  | .binary left right _ => left.misplaced k c || right.misplaced k c
  | .grouping exp => exp.misplaced k c
  | .literal _ => false
  | .unary _ right => right.misplaced k c
  | .variable _ => false
  | .assign _ value => value.misplaced k c
  | .logical left right _ => left.misplaced k c || right.misplaced k c
  | .call _ args callee => callee.misplaced k c || expr.misplacedList k c args
  | .get _ obj => obj.misplaced k c
  | .set _ obj value => obj.misplaced k c || value.misplaced k c
  | .this _ => decide (k = Placement.ofThis ∧ c = classTypeNone)
  | .super _ _ => decide (k = Placement.ofSuper ∧ c ≠ classTypeSubclass)
/-- One of the expressions is misplaced. -/
def expr.misplacedList (k : Placement) (c : classType) : List expr → Bool
  | [] => false
  | e :: rest => e.misplaced k c || expr.misplacedList k c rest
end

/-- The kind of function that a method of the given name is. -/
def methodKind (name : token) : functionType :=
  if name.lexeme = "init" then functionTypeInitializer else functionTypeMethod

/-- The kind of class that a class declaration with the given superclass clause is. -/
def classKind (superClass : Option token) : classType :=
  match superClass with
  | some _ => classTypeSubclass
  | none => classTypeClass

mutual
/-- In the words of the specification, for the text of a statement whose innermost
enclosing function is of kind `f` (`functionTypeNone` outside of every function and method
body) and whose innermost enclosing class declaration is of kind `c` (`classTypeNone`
outside of every class declaration): the statement contains a misplaced construct of kind
`k`.  A return statement is misplaced outside of every function, and with a value in a
method named `init`. -/
def stmt.misplaced (k : Placement) (f : functionType) (c : classType) : stmt → Bool
  | .expression e => e.misplaced k c
  | .print e => e.misplaced k c
  | .var _ none => false
  | .var _ (some e) => e.misplaced k c
  | .block statements => stmt.misplacedList k f c statements
  | .ifStmt condition thenBranch none =>
    condition.misplaced k c || thenBranch.misplaced k f c
  | .ifStmt condition thenBranch (some s) =>
    condition.misplaced k c || (thenBranch.misplaced k f c || s.misplaced k f c)
  | .whileStmt condition body => body.misplaced k f c || condition.misplaced k c
  | .function fn => fn.misplaced k functionTypeFunction c
  | .returnStmt _ none => decide (k = Placement.ofReturn ∧ f = functionTypeNone)
  | .returnStmt _ (some v) =>
    decide (k = Placement.ofReturn ∧
        (f = functionTypeNone ∨ f = functionTypeInitializer)) ||
      v.misplaced k c
  | .classStmt methods _ superClass =>
    stmtFunction.misplacedMethods k (classKind superClass) methods
/-- One of the statements is misplaced. -/
def stmt.misplacedList (k : Placement) (f : functionType) (c : classType) :
    List stmt → Bool
  | [] => false
  | s :: rest => s.misplaced k f c || stmt.misplacedList k f c rest
/-- The body of a function of kind `t` holds a misplaced construct. -/
def stmtFunction.misplaced (k : Placement) (t : functionType) (c : classType) :
    stmtFunction → Bool
  | .mk _ body _ => stmt.misplacedList k t c body
/-- One of the methods of a class of kind `c` holds a misplaced construct. -/
def stmtFunction.misplacedMethods (k : Placement) (c : classType) :
    List stmtFunction → Bool
  | [] => false
  | m :: rest =>
    m.misplaced k (methodKind m.name) c || stmtFunction.misplacedMethods k c rest
end

/-- A Hoare triple for the resolver function `x`, run in a state whose function kind is `f`
and whose class kind is `c`: when it returns, the kinds are `f1` and `c1` and `b` is false;
when it panics with a report about a construct of kind `k`, `b` is true. -/
structure PlacedAt {α : Type} (k : Placement) (f : functionType) (c : classType)
    (f1 : functionType) (c1 : classType) (b : Bool) (x : Exec resolver α) : Prop where
  kinds : ∀ (r r1 : resolver) (a : α), r.currentFunctionType = f → r.currentClass = c →
    x r = (Res.ok a, r1) → r1.currentFunctionType = f1 ∧ r1.currentClass = c1
  accepted : ∀ (r r1 : resolver) (a : α), r.currentFunctionType = f → r.currentClass = c →
    x r = (Res.ok a, r1) → b = false
  reported : ∀ (r r1 : resolver) (p : Panic), r.currentFunctionType = f →
    r.currentClass = c → x r = (Res.panic p, r1) → p.reports k = true → b = true

/-- The state in which the resolver starts, as `run` builds it. -/
def newResolver (it : interpreter) : resolver :=
  { inter := it, scopes := [], currentFunctionType := functionTypeNone,
    currentClass := classTypeNone }

/-- What a program can observe of the interpreter, apart from the error flags and the map
of the resolver: the global and the current environment, the environments, the fields of
the instances and the lines printed. -/
def interpreter.memory (i : interpreter) :
    Nat × Nat × List environment × List (List (String × Value)) × List Value :=
  (i.globals, i.env, i.envs, i.fieldMaps, i.stdout)

/-- The resolver function `x` leaves the memory of the interpreter as it is, and when it
panics with a resolution error the resolution flag is set. -/
def Static {α : Type} (x : Exec resolver α) : Prop :=
  ∀ (r r1 : resolver) (res : Res α), x r = (res, r1) →
    r1.inter.memory = r.inter.memory ∧
      ∀ (l : Int) (m : String), res = Res.panic (Panic.resolutionError l m) →
        r1.inter.hadResolutionError = true

/-- The scanner function `x` stays on the line: when it returns, the source, the start of
the lexeme, the line and the flag are what they were, the cursor has not moved back, and
every token that it has added bears the line.  It never runs out of steps. -/
structure Scans {α : Type} (x : Exec scanner α) : Prop where
  keeps : ∀ (s s1 : scanner) (a : α), x s = (Res.ok a, s1) →
    s1.source = s.source ∧ s1.start = s.start ∧ s1.line = s.line ∧
      s1.hadParserError = s.hadParserError ∧ s.current ≤ s1.current ∧
      ∀ t ∈ s1.tokens, t ∈ s.tokens ∨ t.line = s.line
  bounded : ∀ (s s1 : scanner), x s ≠ (Res.panic Panic.outOfSteps, s1)

/-- The number of newline bytes in a text. -/
def newlines (cs : List Char) : Nat :=
  cs.count '\n'

/-- The state of the scanner between two tokens: the line is at least 0 and at most the
number of newline bytes in front of the cursor, and so is the line of every token. -/
def scanner.Counted (s : scanner) : Prop :=
  0 ≤ s.line ∧ s.line ≤ (newlines (s.source.take s.current) : Int) ∧
    ∀ t ∈ s.tokens, 0 ≤ t.line ∧ t.line ≤ s.line

/-- The cursor of the parser is on a token, and the last token is the end of the input. -/
def parser.InBounds (p : parser) : Prop :=
  p.current < p.tokens.length ∧
    ∃ t, p.tokens[p.tokens.length - 1]? = some t ∧ t.tt = tokenTypeEOF

/-- The number of tokens from the cursor on. -/
def parser.left (p : parser) : Nat :=
  p.tokens.length - p.current

/-- An outcome of the parser that is a return or one of its two reports: not a Go run-time
error, as an index out of range is, and not the end of the step budget. -/
def Res.Fine {α : Type} : Res α → Prop
  | .ok _ => True
  | .panic (.parseError _ _ _) => True
  | .panic (.runtimeError _ _) => True
  | .panic _ => False

/-- The parser function `x` goes well from every state whose cursor is in bounds with at
most `m` tokens left (and, when `one` is set, with a token behind the cursor): it leaves
the tokens as they are and the cursor in bounds, does not move the cursor back, ends
neither in a Go run-time error nor for lack of steps, has moved the cursor forward when it
returns, if `eats` is set, and has moved the cursor forward when it ends in the report of
a runtime error, if `rt` is set. -/
structure Goes {α : Type} (one eats rt : Bool) (m : Nat) (x : Exec parser α) : Prop where
  run : ∀ (p p1 : parser) (r : Res α), p.InBounds → p.left ≤ m →
    (one = true → 1 ≤ p.current) → x p = (r, p1) →
    p1.tokens = p.tokens ∧ p1.InBounds ∧ p.current ≤ p1.current ∧ r.Fine ∧
      (eats = true → ∀ a, r = Res.ok a → p.current < p1.current) ∧
      (rt = true → ∀ l msg, r = Res.panic (Panic.runtimeError l msg) → p.current < p1.current)

/-- The parsing methods go well at the budget `n`: a method that is entered with at most `m`
tokens from the cursor to the end, where `16 * m` plus the height of the method in the call
graph fits in `n`, keeps the cursor in bounds and ends neither for lack of steps nor in a
run-time panic of Go.  The methods that are marked as consuming return with the cursor
further on whenever they return, and every method has moved the cursor when it ends in the
report of a runtime error.  `returnStatement` starts with `previous`, so it needs a token
behind the cursor. -/
structure ParserGoes (n : Nat) : Prop where
  paramsLoop : ∀ (one : Bool) (ps : List token) (m : Nat), 16 * m + 0 ≤ n →
    Goes one false true m (parser.paramsLoop n ps)
  expression : ∀ (one : Bool) (m : Nat), 16 * m + 10 ≤ n →
    Goes one true true m (parser.expression n)
  assignment : ∀ (one : Bool) (m : Nat), 16 * m + 9 ≤ n →
    Goes one true true m (parser.assignment n)
  or : ∀ (one : Bool) (m : Nat), 16 * m + 8 ≤ n → Goes one true true m (parser.or n)
  orLoop : ∀ (one : Bool) (e : expr) (m : Nat), 16 * m + 0 ≤ n →
    Goes one false true m (parser.orLoop n e)
  and : ∀ (one : Bool) (m : Nat), 16 * m + 7 ≤ n → Goes one true true m (parser.and n)
  andLoop : ∀ (one : Bool) (e : expr) (m : Nat), 16 * m + 0 ≤ n →
    Goes one false true m (parser.andLoop n e)
  declaration : ∀ (one : Bool) (m : Nat), 16 * m + 13 ≤ n →
    Goes one true true m (parser.declaration n)
  classDeclaration : ∀ (one : Bool) (m : Nat), 16 * m + 0 ≤ n →
    Goes one true true m (parser.classDeclaration n)
  methodsLoop : ∀ (one : Bool) (ms : List stmtFunction) (m : Nat), 16 * m + 1 ≤ n →
    Goes one false true m (parser.methodsLoop n ms)
  funDeclaration : ∀ (one : Bool) (kind : String) (m : Nat), 16 * m + 0 ≤ n →
    Goes one true true m (parser.funDeclaration n kind)
  statement : ∀ (one : Bool) (m : Nat), 16 * m + 12 ≤ n →
    Goes one true true m (parser.statement n)
  returnStatement : ∀ (m : Nat), 16 * m + 11 ≤ n →
    Goes true true true m (parser.returnStatement n)
  forStatement : ∀ (one : Bool) (m : Nat), 16 * m + 0 ≤ n →
    Goes one true true m (parser.forStatement n)
  whileStatement : ∀ (one : Bool) (m : Nat), 16 * m + 0 ≤ n →
    Goes one true true m (parser.whileStatement n)
  ifStatement : ∀ (one : Bool) (m : Nat), 16 * m + 0 ≤ n →
    Goes one true true m (parser.ifStatement n)
  blockStatement : ∀ (one : Bool) (m : Nat), 16 * m + 15 ≤ n →
    Goes one true true m (parser.blockStatement n)
  blockLoop : ∀ (one : Bool) (ss : List stmt) (m : Nat), 16 * m + 14 ≤ n →
    Goes one false true m (parser.blockLoop n ss)
  printStatement : ∀ (one : Bool) (m : Nat), 16 * m + 11 ≤ n →
    Goes one true true m (parser.printStatement n)
  varDeclaration : ∀ (one : Bool) (m : Nat), 16 * m + 0 ≤ n →
    Goes one true true m (parser.varDeclaration n)
  expressionStatement : ∀ (one : Bool) (m : Nat), 16 * m + 11 ≤ n →
    Goes one true true m (parser.expressionStatement n)
  equality : ∀ (one : Bool) (m : Nat), 16 * m + 6 ≤ n →
    Goes one true true m (parser.equality n)
  equalityLoop : ∀ (one : Bool) (e : expr) (m : Nat), 16 * m + 0 ≤ n →
    Goes one false true m (parser.equalityLoop n e)
  comparison : ∀ (one : Bool) (m : Nat), 16 * m + 5 ≤ n →
    Goes one true true m (parser.comparison n)
  comparisonLoop : ∀ (one : Bool) (e : expr) (m : Nat), 16 * m + 0 ≤ n →
    Goes one false true m (parser.comparisonLoop n e)
  addition : ∀ (one : Bool) (m : Nat), 16 * m + 4 ≤ n →
    Goes one true true m (parser.addition n)
  additionLoop : ∀ (one : Bool) (e : expr) (m : Nat), 16 * m + 0 ≤ n →
    Goes one false true m (parser.additionLoop n e)
  multiplication : ∀ (one : Bool) (m : Nat), 16 * m + 3 ≤ n →
    Goes one true true m (parser.multiplication n)
  multiplicationLoop : ∀ (one : Bool) (e : expr) (m : Nat), 16 * m + 0 ≤ n →
    Goes one false true m (parser.multiplicationLoop n e)
  unary : ∀ (one : Bool) (m : Nat), 16 * m + 2 ≤ n → Goes one true true m (parser.unary n)
  call : ∀ (one : Bool) (m : Nat), 16 * m + 1 ≤ n → Goes one true true m (parser.call n)
  callLoop : ∀ (one : Bool) (e : expr) (m : Nat), 16 * m + 0 ≤ n →
    Goes one false true m (parser.callLoop n e)
  finishCall : ∀ (one : Bool) (e : expr) (m : Nat), 16 * m + 12 ≤ n →
    Goes one true true m (parser.finishCall n e)
  argsLoop : ∀ (one : Bool) (es : List expr) (m : Nat), 16 * m + 11 ≤ n →
    Goes one true true m (parser.argsLoop n es)
  primary : ∀ (one : Bool) (m : Nat), 16 * m + 0 ≤ n → Goes one true true m (parser.primary n)
  parseLoop : ∀ (one : Bool) (ss : List stmt) (m : Nat), 16 * m + 14 ≤ n →
    Goes one false true m (parser.parseLoop n ss)

/-- From the state `p` the parser function `x` ends in a return or in one of the two
reports, with the tokens as they were and the cursor in bounds, and it has consumed a token
unless it ends in the report of a parse error. -/
def Advances {α : Type} (x : Exec parser α) (p : parser) : Prop :=
  ∀ (r : Res α) (p1 : parser), x p = (r, p1) →
    r.Fine ∧ p1.tokens = p.tokens ∧ p1.current < p.tokens.length ∧
      (p.current < p1.current ∨ ∃ l pl msg, r = Res.panic (Panic.parseError l pl msg))

/-- The environment that is reached from the one at address `a` by `k` hops outward, when
none of the environments that are left binds `name`; `none` when one of them binds it, or
is the last of the chain, or is not on the heap. -/
def environment.outward (envs : List environment) (name : String) : Nat → Nat → Option Nat
  | a, 0 => some a
  | a, k + 1 =>
    match envs[a]? with
    | none => none
    | some en =>
      match mapGet en.values name, en.enclosing with
      | none, some p => environment.outward envs name p k
      | _, _ => none

/-- The state of the scanner between two tokens of a source that starts with `k` newline
bytes and holds no other: within these newlines the line is the number of bytes consumed
and no token has been added; past them the line is `k`, and so is the line of every
token. -/
def scanner.Leading (k : Nat) (s : scanner) : Prop :=
  (s.current ≤ k → s.line = (s.current : Int) ∧ s.tokens = []) ∧
    (k ≤ s.current → s.line = (k : Int) ∧ ∀ t ∈ s.tokens, t.line = (k : Int))

/-- The tokens that `scanTokens` leaves for a source text. -/
def tokensOf (source : List Char) : List token :=
  (scanner.scanTokens (newScanner source false)).2.tokens

/-- The statements that `parse` returns for a source text, within 400 steps. -/
def programOf (source : List Char) : List stmt :=
  (parser.parse 400 (newParser (tokensOf source))).2.1

/-! ## Programs used below

The trees are what the parser builds for the source text quoted with each program.  `run`
creates the scanner as `&scanner{source: s}`, so the first line of a source is line 0. -/

/-- An identifier token as the scanner emits it. -/
def identifier (lexeme : String) (line : Int) : token :=
  { tt := tokenTypeIdentifier, lexeme := lexeme, literal := Literal.nil, line := line }

/-- A keyword or punctuation token as the scanner emits it. -/
def plainToken (tt : tokenType) (lexeme : String) (line : Int) : token :=
  { tt := tt, lexeme := lexeme, literal := Literal.nil, line := line }

/-- The program `var a = 1; { var a = 2; print a; { print a; } }`, with the first `print a`
on line `l1` and the second on line `l2`; everything else is on line 0. -/
def shadowProgram (l1 l2 : Int) : List stmt :=
  [ stmt.var (identifier "a" 0) (some (expr.literal (Literal.number 1))),
    stmt.block
      [ stmt.var (identifier "a" 0) (some (expr.literal (Literal.number 2))),
        stmt.print (expr.variable (identifier "a" l1)),
        stmt.block [stmt.print (expr.variable (identifier "a" l2))] ] ]

/-- The program `var a = 0; fun f(x) { return x; } a = f(1); print a;` on one line. -/
def assignCallProgram : List stmt :=
  [ stmt.var (identifier "a" 0) (some (expr.literal (Literal.number 0))),
    stmt.function
      (stmtFunction.mk [identifier "x" 0]
        [stmt.returnStmt (plainToken tokenTypeReturn "return" 0)
          (some (expr.variable (identifier "x" 0)))]
        (identifier "f" 0)),
    stmt.expression
      (expr.assign (identifier "a" 0)
        (expr.call (plainToken tokenTypeRightParen ")" 0) [expr.literal (Literal.number 1)]
          (expr.variable (identifier "f" 0)))),
    stmt.print (expr.variable (identifier "a" 0)) ]

/-- The program
`class A { m() { print "A"; } } class B < A { m() { super.m(); { super.m(); } } } B().m();`
with the first `super.m()` on line `l1` and the second on line `l2`; everything else is on
line 0. -/
def superProgram (l1 l2 : Int) : List stmt :=
  [ stmt.classStmt
      [stmtFunction.mk [] [stmt.print (expr.literal (Literal.str "A"))] (identifier "m" 0)]
      (identifier "A" 0) none,
    stmt.classStmt
      [stmtFunction.mk []
        [ stmt.expression
            (expr.call (plainToken tokenTypeRightParen ")" l1) []
              (expr.super (plainToken tokenTypeSuper "super" l1) (identifier "m" l1))),
          stmt.block
            [stmt.expression
              (expr.call (plainToken tokenTypeRightParen ")" l2) []
                (expr.super (plainToken tokenTypeSuper "super" l2) (identifier "m" l2)))] ]
        (identifier "m" 0)]
      (identifier "B" 0) (some (identifier "A" 0)),
    stmt.expression
      (expr.call (plainToken tokenTypeRightParen ")" 0) []
        (expr.get (identifier "m" 0)
          (expr.call (plainToken tokenTypeRightParen ")" 0) []
            (expr.variable (identifier "B" 0))))) ]

/-- A function declaration `fun id(x) { return x; }` on line 0. -/
def identityFunction : stmtFunction :=
  stmtFunction.mk [identifier "x" 0]
    [stmt.returnStmt (plainToken tokenTypeReturn "return" 0)
      (some (expr.variable (identifier "x" 0)))]
    (identifier "id" 0)

/-- The declaration of the method `init() { return; }` on line 0. -/
def bareReturnInit : stmtFunction :=
  stmtFunction.mk [] [stmt.returnStmt (plainToken tokenTypeReturn "return" 0) none]
    (identifier "init" 0)

/-- The program `class C { init() { return; } } var x = C(); print x.init();` on one line. -/
def initReturnProgram : List stmt :=
  [ stmt.classStmt [bareReturnInit] (identifier "C" 0) none,
    stmt.var (identifier "x" 0)
      (some (expr.call (plainToken tokenTypeRightParen ")" 0) []
        (expr.variable (identifier "C" 0)))),
    stmt.print
      (expr.call (plainToken tokenTypeRightParen ")" 0) []
        (expr.get (identifier "init" 0) (expr.variable (identifier "x" 0)))) ]

/-- The interpreter after the resolver has run on `fun id(x) { return x; }`: the occurrence
of `x` in the body is recorded with distance 0. -/
def identityResolved : interpreter :=
  (resolver.resolve [stmt.function identityFunction]
    { inter := newInterpreter 0, scopes := [], currentFunctionType := functionTypeNone,
      currentClass := classTypeNone }).inter
/-- The class value that `class C { init() { return; } }` binds at top level. -/
def classC : loxClass :=
  builtClass (identifier "C" 0) [bareReturnInit] 0 loxClass.zero

/-- The interpreter after `class C { init() { return; } } var x = C();` has run: the global
`x` holds an instance of `C` whose field map, at address 0, is empty; environment 1 is the
one `bind` made for the call of `init` and environment 2 the one of the call itself. -/
def instanceState : interpreter :=
  { newInterpreter 0 with
    envs :=
      [ { enclosing := none,
          values := [ ("clock", Value.clock), ("C", Value.klass classC),
                      ("x", Value.inst { klass := classC, fields := 0 }) ] },
        { enclosing := some 0,
          values := [("this", Value.inst { klass := classC, fields := 0 })] },
        { enclosing := some 1, values := [] } ]
    fieldMaps := [[]] }
/-- The interpreter after the call `C()` in a new interpreter, for the class value `classC`:
the field map of the instance, the environment of `bind` and the environment of the call of
`init` have been allocated. -/
def afterInitState : interpreter :=
  { newInterpreter 0 with
    envs :=
      [ { enclosing := none, values := [("clock", Value.clock)] },
        { enclosing := some 0,
          values := [("this", Value.inst { klass := classC, fields := 0 })] },
        { enclosing := some 1, values := [] } ]
    fieldMaps := [[]] }

/-- A number token as the scanner emits it. -/
def numberToken (x : float64) (lexeme : String) (line : Int) : token :=
  { tt := tokenTypeNumber, lexeme := lexeme, literal := Literal.number x, line := line }

/-- The token that `scanTokens` appends at the end. -/
def eofToken (line : Int) : token :=
  { tt := tokenTypeEOF, lexeme := "", literal := Literal.nil, line := line }

/-- The tokens of `print 1 + 2 * 3;`. -/
def precedenceTokens : List token :=
  [ plainToken tokenTypePrint "print" 0, numberToken 1 "1" 0, plainToken tokenTypePlus "+" 0,
    numberToken 2 "2" 0, plainToken tokenTypeStar "*" 0, numberToken 3 "3" 0,
    plainToken tokenTypeSemicolon ";" 0, eofToken 0 ]

/-- The tokens of `fun f() {} print f == f;`. -/
def functionEqualityTokens : List token :=
  [ plainToken tokenTypeFun "fun" 0, identifier "f" 0, plainToken tokenTypeLeftParen "(" 0,
    plainToken tokenTypeRightParen ")" 0, plainToken tokenTypeLeftBrace "\x7b" 0,
    plainToken tokenTypeRightBrace "\x7d" 0, plainToken tokenTypePrint "print" 0,
    identifier "f" 0, plainToken tokenTypeEqualEqual "==" 0, identifier "f" 0,
    plainToken tokenTypeSemicolon ";" 0, eofToken 0 ]

/-- The tokens of `print clock() - clock();`. -/
def clockDifferenceTokens : List token :=
  [ plainToken tokenTypePrint "print" 0, identifier "clock" 0,
    plainToken tokenTypeLeftParen "(" 0, plainToken tokenTypeRightParen ")" 0,
    plainToken tokenTypeMinus "-" 0, identifier "clock" 0,
    plainToken tokenTypeLeftParen "(" 0, plainToken tokenTypeRightParen ")" 0,
    plainToken tokenTypeSemicolon ";" 0, eofToken 0 ]

/-- The tokens of `print clock() + 1;`. -/
def clockPlusOneTokens : List token :=
  [ plainToken tokenTypePrint "print" 0, identifier "clock" 0,
    plainToken tokenTypeLeftParen "(" 0, plainToken tokenTypeRightParen ")" 0,
    plainToken tokenTypePlus "+" 0, numberToken 1 "1" 0,
    plainToken tokenTypeSemicolon ";" 0, eofToken 0 ]

/-- The tokens of `1 = 2;`. -/
def literalTargetTokens : List token :=
  [ numberToken 1 "1" 0, plainToken tokenTypeEqual "=" 0, numberToken 2 "2" 0,
    plainToken tokenTypeSemicolon ";" 0, eofToken 0 ]

/-- The tokens of `(a) = 1;`. -/
def groupingTargetTokens : List token :=
  [ plainToken tokenTypeLeftParen "(" 0, identifier "a" 0, plainToken tokenTypeRightParen ")" 0,
    plainToken tokenTypeEqual "=" 0, numberToken 1 "1" 0,
    plainToken tokenTypeSemicolon ";" 0, eofToken 0 ]

/-- The tokens of `a = 1;`. -/
def variableTargetTokens : List token :=
  [ identifier "a" 0, plainToken tokenTypeEqual "=" 0, numberToken 1 "1" 0,
    plainToken tokenTypeSemicolon ";" 0, eofToken 0 ]

/-- The tokens of `a.b = 1;`. -/
def propertyTargetTokens : List token :=
  [ identifier "a" 0, plainToken tokenTypeDot "." 0, identifier "b" 0,
    plainToken tokenTypeEqual "=" 0, numberToken 1 "1" 0,
    plainToken tokenTypeSemicolon ";" 0, eofToken 0 ]

/-- The tokens of a call of `f` with `k + 1` arguments `a`, as the statement
`f(a, ..., a);`. -/
def manyArgumentsTokens (k : Nat) : List token :=
  [identifier "f" 0, plainToken tokenTypeLeftParen "(" 0] ++
    (List.replicate k [identifier "a" 0, plainToken tokenTypeComma "," 0]).flatten ++
    [identifier "a" 0, plainToken tokenTypeRightParen ")" 0,
      plainToken tokenTypeSemicolon ";" 0, eofToken 0]

/-- The tokens of `for (var i = 0; i < 3; i = i + 1) print i;`. -/
def forTokens : List token :=
  [ plainToken tokenTypeFor "for" 0, plainToken tokenTypeLeftParen "(" 0,
    plainToken tokenTypeVar "var" 0, identifier "i" 0, plainToken tokenTypeEqual "=" 0,
    numberToken 0 "0" 0, plainToken tokenTypeSemicolon ";" 0,
    identifier "i" 0, plainToken tokenTypeLess "<" 0, numberToken 3 "3" 0,
    plainToken tokenTypeSemicolon ";" 0,
    identifier "i" 0, plainToken tokenTypeEqual "=" 0, identifier "i" 0,
    plainToken tokenTypePlus "+" 0, numberToken 1 "1" 0,
    plainToken tokenTypeRightParen ")" 0,
    plainToken tokenTypePrint "print" 0, identifier "i" 0,
    plainToken tokenTypeSemicolon ";" 0, eofToken 0 ]

/-- The tokens of `{ var i = 0; while (i < 3) { print i; i = i + 1; } }`. -/
def forAsBlockTokens : List token :=
  [ plainToken tokenTypeLeftBrace "\x7b" 0,
    plainToken tokenTypeVar "var" 0, identifier "i" 0, plainToken tokenTypeEqual "=" 0,
    numberToken 0 "0" 0, plainToken tokenTypeSemicolon ";" 0,
    plainToken tokenTypeWhile "while" 0, plainToken tokenTypeLeftParen "(" 0,
    identifier "i" 0, plainToken tokenTypeLess "<" 0, numberToken 3 "3" 0,
    plainToken tokenTypeRightParen ")" 0, plainToken tokenTypeLeftBrace "\x7b" 0,
    plainToken tokenTypePrint "print" 0, identifier "i" 0,
    plainToken tokenTypeSemicolon ";" 0,
    identifier "i" 0, plainToken tokenTypeEqual "=" 0, identifier "i" 0,
    plainToken tokenTypePlus "+" 0, numberToken 1 "1" 0,
    plainToken tokenTypeSemicolon ";" 0,
    plainToken tokenTypeRightBrace "\x7d" 0, plainToken tokenTypeRightBrace "\x7d" 0,
    eofToken 0 ]

/-- The tokens of `for (;;) print 1;`. -/
def forEverTokens : List token :=
  [ plainToken tokenTypeFor "for" 0, plainToken tokenTypeLeftParen "(" 0,
    plainToken tokenTypeSemicolon ";" 0, plainToken tokenTypeSemicolon ";" 0,
    plainToken tokenTypeRightParen ")" 0,
    plainToken tokenTypePrint "print" 0, numberToken 1 "1" 0,
    plainToken tokenTypeSemicolon ";" 0, eofToken 0 ]

/-- The tokens of `while (true) print 1;`. -/
def whileTrueTokens : List token :=
  [ plainToken tokenTypeWhile "while" 0, plainToken tokenTypeLeftParen "(" 0,
    plainToken tokenTypeTrue "true" 0, plainToken tokenTypeRightParen ")" 0,
    plainToken tokenTypePrint "print" 0, numberToken 1 "1" 0,
    plainToken tokenTypeSemicolon ";" 0, eofToken 0 ]

/-- The statement `print i;` of `forTokens`. -/
def printI : stmt :=
  stmt.print (expr.variable (identifier "i" 0))

/-- The expression `i < 3` of `forTokens`. -/
def lessThanThree : expr :=
  expr.binary (expr.variable (identifier "i" 0)) (expr.literal (Literal.number 3))
    (plainToken tokenTypeLess "<" 0)

/-- The expression `i = i + 1` of `forTokens`. -/
def increment : expr :=
  expr.assign (identifier "i" 0)
    (expr.binary (expr.variable (identifier "i" 0)) (expr.literal (Literal.number 1))
      (plainToken tokenTypePlus "+" 0))

/-- The statement `var i = 0;` of `forTokens`. -/
def varIZero : stmt :=
  stmt.var (identifier "i" 0) (some (expr.literal (Literal.number 0)))

/-- The parser on `forTokens` in front of token `k`. -/
def forParser (k : Nat) : parser :=
  { tokens := forTokens, current := k, hadParserError := false, hadRuntimeError := false }

/-- The tokens of `a - b - c;`. -/
def subtractionTokens : List token :=
  [ identifier "a" 0, plainToken tokenTypeMinus "-" 0, identifier "b" 0,
    plainToken tokenTypeMinus "-" 0, identifier "c" 0,
    plainToken tokenTypeSemicolon ";" 0, eofToken 0 ]

/-- The tokens of `a + b * c;`. -/
def sumProductTokens : List token :=
  [ identifier "a" 0, plainToken tokenTypePlus "+" 0, identifier "b" 0,
    plainToken tokenTypeStar "*" 0, identifier "c" 0,
    plainToken tokenTypeSemicolon ";" 0, eofToken 0 ]

/-- The tokens of `a or b and c == d < e + f * -g;`. -/
def allLevelsTokens : List token :=
  [ identifier "a" 0, plainToken tokenTypeOr "or" 0, identifier "b" 0,
    plainToken tokenTypeAnd "and" 0, identifier "c" 0,
    plainToken tokenTypeEqualEqual "==" 0, identifier "d" 0,
    plainToken tokenTypeLess "<" 0, identifier "e" 0,
    plainToken tokenTypePlus "+" 0, identifier "f" 0,
    plainToken tokenTypeStar "*" 0, plainToken tokenTypeMinus "-" 0, identifier "g" 0,
    plainToken tokenTypeSemicolon ";" 0, eofToken 0 ]

/-- The tokens of `a = b = c;`. -/
def assignmentChainTokens : List token :=
  [ identifier "a" 0, plainToken tokenTypeEqual "=" 0, identifier "b" 0,
    plainToken tokenTypeEqual "=" 0, identifier "c" 0,
    plainToken tokenTypeSemicolon ";" 0, eofToken 0 ]

/-- The parser on `sumProductTokens` in front of token `k`. -/
def sumProductParser (k : Nat) : parser :=
  { tokens := sumProductTokens, current := k, hadParserError := false,
    hadRuntimeError := false }

/-- The variable expression of the identifier `name` on line 0. -/
def variableNamed (name : String) : expr :=
  expr.variable (identifier name 0)

/-- The statement `return 1;`. -/
def returnOne : stmt :=
  stmt.returnStmt (plainToken tokenTypeReturn "return" 0)
    (some (expr.literal (Literal.number 1)))

/-- The program `class A { init() { fun g() { return 1; } } }`. -/
def nestedReturnProgram : List stmt :=
  [stmt.classStmt
    [stmtFunction.mk [] [stmt.function (stmtFunction.mk [] [returnOne] (identifier "g" 0))]
      (identifier "init" 0)]
    (identifier "A" 0) none]

/-- The program `class A { init() { return 1; } }`. -/
def initReturnsValueProgram : List stmt :=
  [stmt.classStmt [stmtFunction.mk [] [returnOne] (identifier "init" 0)]
    (identifier "A" 0) none]

/-- The expression `this`. -/
def thisExpr : expr :=
  expr.this (plainToken tokenTypeThis "this" 0)

/-- The expression `super.m`. -/
def superExpr : expr :=
  expr.super (plainToken tokenTypeSuper "super" 0) (identifier "m" 0)

/-- The program `class A { m() { class B < A { n() { super.m; } } this; } }`: a class with a
superclass, nested in a method of a class without one. -/
def nestedClassProgram : List stmt :=
  [stmt.classStmt
    [stmtFunction.mk []
      [stmt.classStmt [stmtFunction.mk [] [stmt.expression superExpr] (identifier "n" 0)]
          (identifier "B" 0) (some (identifier "A" 0)),
        stmt.expression thisExpr]
      (identifier "m" 0)]
    (identifier "A" 0) none]

/-- The program `class A { m() { class B < A { } super.m; } }`: `super` after a nested
class with a superclass, in a class without one. -/
def superAfterNestedProgram : List stmt :=
  [stmt.classStmt
    [stmtFunction.mk []
      [stmt.classStmt [] (identifier "B" 0) (some (identifier "A" 0)),
        stmt.expression superExpr]
      (identifier "m" 0)]
    (identifier "A" 0) none]

/-- The text `print 1; print ;`: a statement, then a parse error. -/
def printThenParseError : List Char :=
  "print 1; print ;".toList

/-- The text `print 1; return;`: a statement, then a resolution error. -/
def printThenReturn : List Char :=
  "print 1; return;".toList

/-- The text `@`. -/
def unexpectedCharacterSource : List Char :=
  "@".toList

/-- The text of a string literal `abc` without its closing quote. -/
def unterminatedStringSource : List Char :=
  Char.ofNat 34 :: "abc".toList

/-- The text `/* abc`. -/
def unterminatedCommentSource : List Char :=
  "/* abc".toList

/-- The text `/* a * b */`. -/
def starCommentSource : List Char :=
  "/* a * b */".toList

/-- The text `/***/`. -/
def starsCommentSource : List Char :=
  "/***/".toList

/-- The text `/* a */ 1`. -/
def plainCommentSource : List Char :=
  "/* a */ 1".toList

/-- The text `print 1;`. -/
def printOneSource : List Char :=
  "print 1;".toList

/-- The text of the string literal with the two lines `a` and `b`, followed on the second
line by ` x`. -/
def stringThenNameSource : List Char :=
  Char.ofNat 34 :: ("a\nb".toList ++ Char.ofNat 34 :: " x".toList)

/-- A scanner in front of the string literal of the text `s = ` followed by the literal
with the two lines `a` and `b` and a semicolon; with `closed := false` the text ends
before the closing quote. -/
def stringScanner (closed : Bool) : scanner :=
  { source := "s = ".toList ++
      (Char.ofNat 34 :: ("a\nb".toList ++
        if closed then Char.ofNat 34 :: ";".toList else [])),
    tokens := [], start := 0, current := 4, line := 0, hadParserError := false }

/-- A scanner in front of the comment of the text `1 /* a * b`. -/
def commentScanner : scanner :=
  { source := "1 ".toList ++ ('/' :: '*' :: " a * b".toList),
    tokens := [], start := 0, current := 2, line := 0, hadParserError := false }

/-- The expression `a = 2`. -/
def innerAssign : expr :=
  expr.assign (identifier "a" 0) (expr.literal (Literal.number 2))

/-- The program `{ var a = 1; { var a = a = 2; } ... }`, with `tail` for the rest of the
outer block. -/
def selfAssignProgram (tail : List stmt) : List stmt :=
  [stmt.block
    ([stmt.var (identifier "a" 0) (some (expr.literal (Literal.number 1))),
      stmt.block [stmt.var (identifier "a" 0) (some innerAssign)]] ++ tail)]

/-- An interpreter whose current environment, at address 1, is empty and enclosed by the
environment at address 0, which binds `a` to 1. -/
def twoEnvironments : interpreter :=
  { newInterpreter 0 with
    envs := [{ enclosing := none, values := [("a", Value.number 1)] },
             { enclosing := some 0, values := [] }]
    env := 1 }

/-- The tokens of `print 1 + 2 * 3;` before the end of the input. -/
def precedenceBody : List token :=
  [ plainToken tokenTypePrint "print" 0, numberToken 1 "1" 0, plainToken tokenTypePlus "+" 0,
    numberToken 2 "2" 0, plainToken tokenTypeStar "*" 0, numberToken 3 "3" 0,
    plainToken tokenTypeSemicolon ";" 0 ]

/-- The expression `-0`, which evaluates to the negative zero. -/
def negativeZero : expr :=
  expr.unary (plainToken tokenTypeMinus "-" 0) (expr.literal (Literal.number 0))

/-- The double of the literal `0.1`. -/
def tenth : float64 :=
  float64.finite false 7205759403792794 1018

/-- The double of the literal `0.2`. -/
def twoTenths : float64 :=
  float64.finite false 7205759403792794 1019

/-- The double of the literal `0.3`. -/
def threeTenths : float64 :=
  float64.finite false 5404319552844595 1020

/-- The expression `1 / (0.1 + 0.2 - 0.3)`: the divisor is not zero, it is `2^(-54)`. -/
def oneByRoundingError : expr :=
  expr.binary (expr.literal (Literal.number 1))
    (expr.grouping
      (expr.binary
        (expr.binary (expr.literal (Literal.number tenth)) (expr.literal (Literal.number twoTenths))
          (plainToken tokenTypePlus "+" 0))
        (expr.literal (Literal.number threeTenths)) (plainToken tokenTypeMinus "-" 0)))
    (plainToken tokenTypeSlash "/" 0)

/-- An interpreter whose current environment, at address 2, is empty and enclosed by the
empty environment at address 1, which the environment at address 0 encloses; that one
binds `a` to 1. -/
def threeEnvironments : interpreter :=
  { newInterpreter 0 with
    envs := [{ enclosing := none, values := [("a", Value.number 1)] },
             { enclosing := some 0, values := [] },
             { enclosing := some 1, values := [] }]
    env := 2 }

/-- The text `print 1;` on the third line, after two empty lines. -/
def thirdLineSource : List Char :=
  List.replicate 2 '\n' ++ printOneSource

/-- A program whose block reads `a` in its own initializer, after an assignment of the
value of a call to a local, in a branch that is never taken. -/
def ownInitializerAfterCallSource : List Char :=
  "var a = 5; fun f() {} { var x; if (false) x = f(); var a = a; print a; }".toList

/-- The program of `ownInitializerAfterCallSource` without the assignment. -/
def ownInitializerSource : List Char :=
  "var a = 5; fun f() {} { var x; var a = a; print a; }".toList

/-- A program whose block declares `a` twice, with an assignment of the value of a call to
a local in between, in a branch that is never taken. -/
def twiceAfterCallSource : List Char :=
  "fun f() {} { var a; if (false) a = f(); var a; print 7; }".toList

/-- The program of `twiceAfterCallSource` without the assignment. -/
def twiceSource : List Char :=
  "fun f() {} { var a; var a; print 7; }".toList

/-- A program with a return at top level, after a function that assigns the value of a
call to a local and is never called. -/
def returnAfterCallSource : List Char :=
  "fun f() {} fun g() { var a; a = f(); } print 1; return;".toList

/-- The program of `returnAfterCallSource` without the assignment. -/
def returnSource : List Char :=
  "fun f() {} fun g() { var a; } print 1; return;".toList

/-- A program that reads `this` at top level, after a function that assigns the value of a
call to a local and is never called. -/
def thisAfterCallSource : List Char :=
  "fun f() {} fun g() { var a; a = f(); } print 1; print this;".toList

/-- The program of `thisAfterCallSource` with `super.x` for `this`. -/
def superAfterCallSource : List Char :=
  "fun f() {} fun g() { var a; a = f(); } print 1; print super.x;".toList

/-- The program of `thisAfterCallSource` without the assignment. -/
def thisSource : List Char :=
  "fun f() {} fun g() { var a; } print 1; print this;".toList

/-! ## Decidable equality of syntax trees and values

`expr.beq` is an equality test; the same is set up for statements and classes.  Concrete runs
of the model are then compared by evaluation. -/

mutual
theorem expr_eq_of_beq : ∀ (a b : expr), expr.beq a b = true → a = b := by
  intro a b h
  cases a <;> cases b <;>
    simp only [expr.beq, Bool.and_eq_true, decide_eq_true_eq, Bool.false_eq_true] at h <;>
    first
    | (obtain ⟨⟨h1, h2⟩, h3⟩ := h
       first
       | rw [expr_eq_of_beq _ _ h1, expr_eq_of_beq _ _ h2, h3]
       | rw [h1, expr_eq_of_beqList _ _ h2, expr_eq_of_beq _ _ h3]
       | rw [h1, expr_eq_of_beq _ _ h2, expr_eq_of_beq _ _ h3])
    | (obtain ⟨h1, h2⟩ := h
       first
       | rw [h1, expr_eq_of_beq _ _ h2]
       | rw [h1, h2])
    | rw [expr_eq_of_beq _ _ h]
    | rw [h]
theorem expr_eq_of_beqList : ∀ (a b : List expr), expr.beqList a b = true → a = b := by
  intro a b h
  cases a <;> cases b <;>
    simp only [expr.beqList, Bool.and_eq_true, Bool.false_eq_true] at h <;>
    first
    | rfl
    | rw [expr_eq_of_beq _ _ h.1, expr_eq_of_beqList _ _ h.2]
end

mutual
theorem expr_beq_refl : ∀ (a : expr), expr.beq a a = true := by
  intro a
  cases a <;>
    simp only [expr.beq, Bool.and_eq_true, decide_eq_true_eq, and_self, true_and, and_true] <;>
    first
    | exact ⟨expr_beq_refl _, expr_beq_refl _⟩
    | exact ⟨expr_beqList_refl _, expr_beq_refl _⟩
    | exact expr_beq_refl _
theorem expr_beqList_refl : ∀ (a : List expr), expr.beqList a a = true := by
  intro a
  cases a <;> simp only [expr.beqList, Bool.and_eq_true]
  exact ⟨expr_beq_refl _, expr_beqList_refl _⟩
end

theorem expr_beq_iff (a b : expr) : expr.beq a b = true ↔ a = b :=
  ⟨expr_eq_of_beq a b, fun h => h ▸ expr_beq_refl a⟩

instance : DecidableEq expr := fun a b =>
  decidable_of_iff (expr.beq a b = true) (expr_beq_iff a b)

mutual
/-- Equality test on statements. -/
def stmt.beq : stmt → stmt → Bool
  | .expression e => fun b => match b with
    | .expression e2 => decide (e = e2)
    | _ => false
  | .print e => fun b => match b with
    | .print e2 => decide (e = e2)
    | _ => false
  | .var n i => fun b => match b with
    | .var n2 i2 => decide (n = n2) && decide (i = i2)
    | _ => false
  | .block ss => fun b => match b with
    | .block ss2 => stmt.beqList ss ss2
    | _ => false
  | .ifStmt c t e => fun b => match b with
    | .ifStmt c2 t2 e2 => decide (c = c2) && stmt.beq t t2 && stmt.beqOption e e2
    | _ => false
  | .whileStmt c b1 => fun b => match b with
    | .whileStmt c2 b2 => decide (c = c2) && stmt.beq b1 b2
    | _ => false
  | .function f => fun b => match b with
    | .function f2 => stmtFunction.beq f f2
    | _ => false
  | .returnStmt k v => fun b => match b with
    | .returnStmt k2 v2 => decide (k = k2) && decide (v = v2)
    | _ => false
  | .classStmt ms n s => fun b => match b with
    | .classStmt ms2 n2 s2 => stmtFunction.beqList ms ms2 && decide (n = n2) && decide (s = s2)
    | _ => false
/-- Equality test on statement lists. -/
def stmt.beqList : List stmt → List stmt → Bool
  | [] => fun b => match b with
    | [] => true
    | _ => false
  | a :: as => fun b => match b with
    | b1 :: bs => stmt.beq a b1 && stmt.beqList as bs
    | _ => false
/-- Equality test on optional statements. -/
def stmt.beqOption : Option stmt → Option stmt → Bool
  | none => fun b => match b with
    | none => true
    | _ => false
  | some a => fun b => match b with
    | some b1 => stmt.beq a b1
    | _ => false
/-- Equality test on function declarations. -/
def stmtFunction.beq : stmtFunction → stmtFunction → Bool
  | .mk ps b n => fun x => match x with
    | .mk ps2 b2 n2 => decide (ps = ps2) && stmt.beqList b b2 && decide (n = n2)
/-- Equality test on lists of function declarations. -/
def stmtFunction.beqList : List stmtFunction → List stmtFunction → Bool
  | [] => fun b => match b with
    | [] => true
    | _ => false
  | a :: as => fun b => match b with
    | b1 :: bs => stmtFunction.beq a b1 && stmtFunction.beqList as bs
    | _ => false
end

mutual
theorem stmt_eq_of_beq : ∀ (a b : stmt), stmt.beq a b = true → a = b := by
  intro a b h
  cases a <;> cases b <;>
    simp only [stmt.beq, Bool.and_eq_true, decide_eq_true_eq, Bool.false_eq_true] at h <;>
    first
    | (obtain ⟨⟨h1, h2⟩, h3⟩ := h
       first
       | rw [h1, stmt_eq_of_beq _ _ h2, stmt_eq_of_beqOption _ _ h3]
       | rw [stmtFunction_eq_of_beqList _ _ h1, h2, h3])
    | (obtain ⟨h1, h2⟩ := h
       first
       | rw [h1, stmt_eq_of_beq _ _ h2]
       | rw [h1, h2])
    | rw [stmt_eq_of_beqList _ _ h]
    | rw [stmtFunction_eq_of_beq _ _ h]
    | rw [h]
theorem stmt_eq_of_beqList : ∀ (a b : List stmt), stmt.beqList a b = true → a = b := by
  intro a b h
  cases a <;> cases b <;>
    simp only [stmt.beqList, Bool.and_eq_true, Bool.false_eq_true] at h <;>
    first
    | rfl
    | rw [stmt_eq_of_beq _ _ h.1, stmt_eq_of_beqList _ _ h.2]
theorem stmt_eq_of_beqOption : ∀ (a b : Option stmt), stmt.beqOption a b = true → a = b := by
  intro a b h
  cases a <;> cases b <;>
    simp only [stmt.beqOption, Bool.false_eq_true] at h <;>
    first
    | rfl
    | rw [stmt_eq_of_beq _ _ h]
theorem stmtFunction_eq_of_beq : ∀ (a b : stmtFunction), stmtFunction.beq a b = true → a = b := by
  intro a b h
  cases a; cases b
  simp only [stmtFunction.beq, Bool.and_eq_true, decide_eq_true_eq] at h
  rw [h.1.1, stmt_eq_of_beqList _ _ h.1.2, h.2]
theorem stmtFunction_eq_of_beqList :
    ∀ (a b : List stmtFunction), stmtFunction.beqList a b = true → a = b := by
  intro a b h
  cases a <;> cases b <;>
    simp only [stmtFunction.beqList, Bool.and_eq_true, Bool.false_eq_true] at h <;>
    first
    | rfl
    | rw [stmtFunction_eq_of_beq _ _ h.1, stmtFunction_eq_of_beqList _ _ h.2]
end

mutual
theorem stmt_beq_refl : ∀ (a : stmt), stmt.beq a a = true := by
  intro a
  cases a <;>
    simp only [stmt.beq, Bool.and_eq_true, decide_eq_true_eq, and_self, true_and, and_true] <;>
    first
    | exact ⟨stmt_beq_refl _, stmt_beqOption_refl _⟩
    | exact stmt_beq_refl _
    | exact stmt_beqList_refl _
    | exact stmtFunction_beq_refl _
    | exact stmtFunction_beqList_refl _
theorem stmt_beqList_refl : ∀ (a : List stmt), stmt.beqList a a = true := by
  intro a
  cases a <;> simp only [stmt.beqList, Bool.and_eq_true]
  exact ⟨stmt_beq_refl _, stmt_beqList_refl _⟩
theorem stmt_beqOption_refl : ∀ (a : Option stmt), stmt.beqOption a a = true := by
  intro a
  cases a <;> simp only [stmt.beqOption]
  exact stmt_beq_refl _
theorem stmtFunction_beq_refl : ∀ (a : stmtFunction), stmtFunction.beq a a = true := by
  intro a
  cases a
  simp only [stmtFunction.beq, Bool.and_eq_true, decide_eq_true_eq, and_true, true_and]
  exact stmt_beqList_refl _
theorem stmtFunction_beqList_refl : ∀ (a : List stmtFunction), stmtFunction.beqList a a = true := by
  intro a
  cases a <;> simp only [stmtFunction.beqList, Bool.and_eq_true]
  exact ⟨stmtFunction_beq_refl _, stmtFunction_beqList_refl _⟩
end

instance : DecidableEq stmt := fun a b =>
  decidable_of_iff (stmt.beq a b = true) ⟨stmt_eq_of_beq a b, fun h => h ▸ stmt_beq_refl a⟩

instance : DecidableEq stmtFunction := fun a b =>
  decidable_of_iff (stmtFunction.beq a b = true)
    ⟨stmtFunction_eq_of_beq a b, fun h => h ▸ stmtFunction_beq_refl a⟩

deriving instance DecidableEq for loxFunction

mutual
/-- Equality test on classes. -/
def loxClass.beq : loxClass → loxClass → Bool
  | .mk n ms s => fun b =>
    match b with
    | .mk n2 ms2 s2 => decide (n = n2) && decide (ms = ms2) && loxClass.beqOption s s2
/-- Equality test on optional classes. -/
def loxClass.beqOption : Option loxClass → Option loxClass → Bool
  | none => fun b =>
    match b with
    | none => true
    | _ => false
  | some a => fun b =>
    match b with
    | some b1 => loxClass.beq a b1
    | _ => false
end

mutual
theorem loxClass_eq_of_beq : ∀ (a b : loxClass), loxClass.beq a b = true → a = b := by
  intro a b h
  cases a; cases b
  simp only [loxClass.beq, Bool.and_eq_true, decide_eq_true_eq] at h
  rw [h.1.1, h.1.2, loxClass_eq_of_beqOption _ _ h.2]
theorem loxClass_eq_of_beqOption :
    ∀ (a b : Option loxClass), loxClass.beqOption a b = true → a = b := by
  intro a b h
  cases a <;> cases b <;>
    simp only [loxClass.beqOption, Bool.false_eq_true] at h <;>
    first
    | rfl
    | rw [loxClass_eq_of_beq _ _ h]
end

mutual
theorem loxClass_beq_refl : ∀ (a : loxClass), loxClass.beq a a = true := by
  intro a
  cases a
  simp only [loxClass.beq, Bool.and_eq_true, decide_eq_true_eq, and_true, true_and]
  exact loxClass_beqOption_refl _
theorem loxClass_beqOption_refl : ∀ (a : Option loxClass), loxClass.beqOption a a = true := by
  intro a
  cases a <;> simp only [loxClass.beqOption]
  exact loxClass_beq_refl _
end

instance : DecidableEq loxClass := fun a b =>
  decidable_of_iff (loxClass.beq a b = true)
    ⟨loxClass_eq_of_beq a b, fun h => h ▸ loxClass_beq_refl a⟩

deriving instance DecidableEq for loxInstance
deriving instance DecidableEq for Value
deriving instance DecidableEq for environment
deriving instance DecidableEq for Panic
deriving instance DecidableEq for Res
deriving instance DecidableEq for interpreter
deriving instance DecidableEq for resolver

deriving instance DecidableEq for parser

/-! ## Auxiliary facts about the state monad, maps and heaps -/

theorem mapGet_mapSet_self {α : Type} (m : List (String × α)) (k : String) (v : α) :
    mapGet (mapSet m k v) k = some v := by
  induction m with
  | nil => simp [mapSet, mapGet]
  | cons hd tl ih =>
    obtain ⟨k2, v2⟩ := hd
    by_cases h : k2 = k
    · simp [mapSet, mapGet, h]
    · simp [mapSet, mapGet, h, ih]

theorem mapGet_mapSet_other {α : Type} (m : List (String × α)) (k k' : String) (v : α)
    (h : k' ≠ k) : mapGet (mapSet m k v) k' = mapGet m k' := by
  induction m with
  | nil => simp [mapSet, mapGet, Ne.symm h]
  | cons hd tl ih =>
    obtain ⟨k2, v2⟩ := hd
    by_cases h2 : k2 = k
    · subst h2
      simp [mapSet, mapGet, Ne.symm h]
    · by_cases h3 : k2 = k'
      · subst h3
        simp [mapSet, mapGet, h]
      · simp [mapSet, mapGet, h2, h3, ih]

theorem heapSet_length {α : Type} (h : List α) (a : Nat) (x : α) :
    (heapSet h a x).length = h.length := by
  induction h generalizing a with
  | nil => simp [heapSet]
  | cons hd tl ih => cases a <;> simp [heapSet, ih]

theorem heapSet_get_self {α : Type} (h : List α) (a : Nat) (x : α) (ha : a < h.length) :
    (heapSet h a x)[a]? = some x := by
  induction h generalizing a with
  | nil => simp at ha
  | cons hd tl ih =>
    cases a with
    | zero => simp [heapSet]
    | succ n =>
      simp only [List.length_cons, Nat.add_lt_add_iff_right] at ha
      simpa [heapSet] using ih n ha

theorem heapSet_get_other {α : Type} (h : List α) (a b : Nat) (x : α) (hab : b ≠ a) :
    (heapSet h a x)[b]? = h[b]? := by
  induction h generalizing a b with
  | nil => simp [heapSet]
  | cons hd tl ih =>
    cases a with
    | zero =>
      cases b with
      | zero => exact absurd rfl hab
      | succ m => simp [heapSet]
    | succ n =>
      cases b with
      | zero => simp [heapSet]
      | succ m =>
        have : m ≠ n := fun e => hab (by rw [e])
        simpa [heapSet] using ih n m this

theorem heapSet_append_last {α : Type} (h : List α) (y x : α) :
    heapSet (h ++ [y]) h.length x = h ++ [x] := by
  induction h with
  | nil => simp [heapSet]
  | cons hd tl ih => simp [heapSet, ih]

theorem lt_length_of_get {α : Type} (h : List α) (a : Nat) (x : α) (hx : h[a]? = some x) :
    a < h.length := by
  rcases Nat.lt_or_ge a h.length with hlt | hge
  · exact hlt
  · rw [List.getElem?_eq_none hge] at hx
    cases hx

theorem heapSet_heapSet {α : Type} (h : List α) (a : Nat) (x y : α) :
    heapSet (heapSet h a x) a y = heapSet h a y := by
  induction h generalizing a with
  | nil => simp [heapSet]
  | cons hd tl ih => cases a <;> simp [heapSet, ih]

theorem append_get_last {α : Type} (h : List α) (y : α) : (h ++ [y])[h.length]? = some y := by
  simp

theorem append_get_left {α : Type} (h : List α) (y x : α) (a : Nat) (hx : h[a]? = some x) :
    (h ++ [y])[a]? = some x := by
  rw [List.getElem?_append_left (lt_length_of_get _ _ _ hx)]
  exact hx

theorem heapSet_append_left {α : Type} (h : List α) (y x : α) (a : Nat) (ha : a < h.length) :
    heapSet (h ++ [y]) a x = heapSet h a x ++ [y] := by
  induction h generalizing a with
  | nil => simp at ha
  | cons hd tl ih =>
    cases a with
    | zero => simp [heapSet]
    | succ n =>
      simp only [List.length_cons, Nat.add_lt_add_iff_right] at ha
      simp [heapSet, ih n ha]

theorem defineParams_fresh (closure : Nat) (params : List token) (args : List Value)
    (j : interpreter) (e : Nat) (vals : List (String × Value))
    (h : args.length ≤ params.length) :
    loxFunction.defineParams j.envs.length params args
        { j with envs := j.envs ++ [{ enclosing := some closure, values := vals }], env := e } =
      (Res.ok (),
        { j with envs := j.envs ++ [{ enclosing := some closure,
                                       values := boundParams params args vals }],
                 env := e }) := by
  induction params generalizing args vals with
  | nil =>
    cases args with
    | nil => simp only [loxFunction.defineParams, boundParams, pure, Exec.pure]
    | cons a as => simp at h
  | cons p ps ih =>
    cases args with
    | nil => simp only [loxFunction.defineParams, boundParams, pure, Exec.pure]
    | cons a as =>
      have h2 : as.length ≤ ps.length := by simpa using h
      simp only [loxFunction.defineParams, bind, Exec.bind, environment.define, append_get_last,
        heapSet_append_last, boundParams]
      exact ih as _ h2

theorem executeBlock_eq (n : Nat) (statements : List stmt) (env : Nat) (i : interpreter) :
    interpreter.executeBlock (n + 1) statements env i =
      ((interpreter.executeStatements n statements { i with env := env }).1,
        { (interpreter.executeStatements n statements { i with env := env }).2 with
          env := i.env }) := by
  simp only [interpreter.executeBlock]

theorem loxFunction_call_eq (n : Nat) (l : loxFunction) (args : List Value) (j : interpreter)
    (h : args.length ≤ l.declaration.params.length) :
    loxFunction.call (n + 2) l args j =
      loxFunction.callDeferred l (interpreter.executeStatements n l.declaration.body (bodyStart l args j)).1
        { (interpreter.executeStatements n l.declaration.body (bodyStart l args j)).2 with
          env := j.env } := by
  have hd := defineParams_fresh l.closure l.declaration.params args j j.env [] h
  simp only [loxFunction.call, bind, Exec.bind, newEnvironmentWithParent, executeBlock_eq]
  rw [hd]
  rfl

theorem bind_eq (l : loxFunction) (inst : loxInstance) (j : interpreter) :
    l.bind inst j =
      (Res.ok { declaration := l.declaration, closure := j.envs.length,
                isInitializer := l.isInitializer }, afterBind l inst j) := by
  simp only [loxFunction.bind, bind, Exec.bind, newEnvironmentWithParent, environment.define,
    append_get_last, heapSet_append_last, mapSet, pure, Exec.pure, afterBind]

/-! ## No expression lets the panic of a return statement through -/

theorem noReturn_pure {α : Type} (a : α) : NoReturn (pure a : Exec interpreter α) :=
  ⟨fun _ _ h => by cases h⟩

theorem noReturn_bind {α β : Type} (x : Exec interpreter α) (f : α → Exec interpreter β)
    (hx : NoReturn x) (hf : ∀ a, NoReturn (f a)) : NoReturn (x >>= f) := by
  constructor
  intro i v
  simp only [bind, Exec.bind]
  cases h : x i with
  | mk r s =>
    cases r with
    | ok a => exact (hf a).outcome s v
    | panic p =>
      have := hx.outcome i v
      rw [h] at this
      simpa using this

theorem noReturn_report {α : Type} (t : token) (message : String) :
    NoReturn (reportRuntimeError t message : Exec interpreter α) :=
  ⟨fun _ _ h => by cases h⟩

theorem noReturn_throw {α : Type} (p : Panic) (hp : p.isReturn = false) :
    NoReturn (throwPanic p : Exec interpreter α) := by
  constructor
  intro i v h
  simp only [throwPanic, Res.panic.injEq] at h
  rw [h] at hp
  cases hp

theorem noReturn_read : NoReturn interpreter.read :=
  ⟨fun _ _ h => by cases h⟩

theorem noReturn_setEnv (e : Nat) : NoReturn (interpreter.setEnv e) :=
  ⟨fun _ _ h => by cases h⟩

theorem noReturn_newEnvironment (p : Nat) : NoReturn (newEnvironmentWithParent p) :=
  ⟨fun _ _ h => by cases h⟩

theorem noReturn_newFieldMap : NoReturn interpreter.newFieldMap :=
  ⟨fun _ _ h => by cases h⟩

theorem noReturn_printValue (v : Value) : NoReturn (interpreter.printValue v) :=
  ⟨fun _ _ h => by cases h⟩

theorem noReturn_clock : NoReturn clock.call :=
  ⟨fun _ _ h => by cases h⟩

theorem noReturn_define (e : Nat) (name : String) (v : Value) :
    NoReturn (environment.define e name v) := by
  constructor
  intro i w
  simp only [environment.define]
  split <;> simp [nilDereference]

theorem noReturn_getFrom (name : token) (steps : Nat) (e : Option Nat) :
    NoReturn (environment.getFrom name steps e) := by
  induction steps generalizing e with
  | zero => exact ⟨fun _ _ h => by cases h⟩
  | succ k ih =>
    cases e with
    | none => exact ⟨fun _ _ h => by cases h⟩
    | some a =>
      constructor
      intro i w
      simp only [environment.getFrom]
      split
      · simp [nilDereference]
      · split
        · simp
        · exact (ih _).outcome i w
        · simp [reportRuntimeError]

theorem noReturn_get (e : Option Nat) (name : token) : NoReturn (environment.get e name) :=
  ⟨fun i w => (noReturn_getFrom name _ e).outcome i w⟩

theorem ancestor_ne_return (envs : List environment) (e : Option Nat) (dist : Nat) (v : Value) :
    environment.ancestor envs e dist ≠ Res.panic (Panic.returnValue v) := by
  induction dist generalizing e with
  | zero => simp [environment.ancestor]
  | succ k ih =>
    simp only [environment.ancestor]
    split
    · simp [nilDereference]
    · split
      · simp [nilDereference]
      · exact ih _

theorem noReturn_getAt (e dist : Nat) (name : token) :
    NoReturn (environment.getAt e dist name) := by
  constructor
  intro i w
  simp only [environment.getAt]
  split
  · rename_i p hp
    intro h
    simp only [Res.panic.injEq] at h
    subst h
    exact ancestor_ne_return _ _ _ _ hp
  · exact (noReturn_get _ name).outcome i w

theorem noReturn_assignFrom (name : token) (v : Value) (steps : Nat) (e : Option Nat) :
    NoReturn (environment.assignFrom name v steps e) := by
  induction steps generalizing e with
  | zero => exact ⟨fun _ _ h => by cases h⟩
  | succ k ih =>
    cases e with
    | none => exact ⟨fun _ _ h => by cases h⟩
    | some a =>
      constructor
      intro i w
      simp only [environment.assignFrom]
      split
      · simp [nilDereference]
      · split
        · simp
        · exact (ih _).outcome i w
        · simp [reportRuntimeError]

theorem noReturn_assign (e : Option Nat) (name : token) (v : Value) :
    NoReturn (environment.assign e name v) :=
  ⟨fun i w => (noReturn_assignFrom name v _ e).outcome i w⟩

theorem noReturn_assignAt (e dist : Nat) (name : token) (v : Value) :
    NoReturn (environment.assignAt e dist name v) := by
  constructor
  intro i w
  simp only [environment.assignAt]
  split
  · rename_i p hp
    intro h
    simp only [Res.panic.injEq] at h
    subst h
    exact ancestor_ne_return _ _ _ _ hp
  · exact (noReturn_assign _ name v).outcome i w

theorem noReturn_localsLookup (e : expr) : NoReturn (interpreter.localsLookup e) := by
  constructor
  intro i w
  simp only [interpreter.localsLookup]
  split <;> simp

theorem noReturn_lookUpVariable (name : token) (e : expr) :
    NoReturn (interpreter.lookUpVariable name e) := by
  unfold interpreter.lookUpVariable
  apply noReturn_bind _ _ (noReturn_localsLookup e)
  intro d
  apply noReturn_bind _ _ noReturn_read
  intro i
  cases d with
  | none => exact noReturn_get _ _
  | some dist => exact noReturn_getAt _ _ _

theorem noReturn_functionBind (l : loxFunction) (inst : loxInstance) :
    NoReturn (l.bind inst) := by
  unfold loxFunction.bind
  apply noReturn_bind _ _ (noReturn_newEnvironment _)
  intro env
  apply noReturn_bind _ _ (noReturn_define _ _ _)
  intro _
  exact noReturn_pure _

theorem noReturn_instanceGet (l : loxInstance) (name : token) : NoReturn (l.get name) := by
  constructor
  intro i w
  simp only [loxInstance.get]
  split
  · simp
  · split
    · exact (noReturn_bind _ _ (noReturn_functionBind _ _) (fun _ => noReturn_pure _)).outcome i w
    · simp [reportRuntimeError]

theorem noReturn_instanceSet (l : loxInstance) (name : token) (v : Value) :
    NoReturn (l.set name v) := by
  constructor
  intro i w
  simp only [loxInstance.set]
  split <;> simp

theorem noReturn_checkNumberOperand (operator : token) (v : Value) :
    NoReturn (interpreter.checkNumberOperand operator v) := by
  unfold interpreter.checkNumberOperand
  split
  · exact noReturn_pure _
  · exact noReturn_report _ _

theorem noReturn_checkNumberOperands (operator : token) (l r : Value) :
    NoReturn (interpreter.checkNumberOperands operator l r) := by
  unfold interpreter.checkNumberOperands
  split
  · exact noReturn_pure _
  · exact noReturn_report _ _

theorem goEq_ne_return (l r : Value) (v : Value) :
    Value.goEq l r ≠ Res.panic (Panic.returnValue v) := by
  cases l <;> cases r <;> simp [Value.goEq]

theorem noReturn_unaryOp (operator : token) (r : Value) :
    NoReturn (interpreter.unaryOp operator r) := by
  unfold interpreter.unaryOp
  split
  · exact noReturn_bind _ _ (noReturn_checkNumberOperand _ _) (fun _ => noReturn_pure _)
  · exact noReturn_pure _
  · exact noReturn_pure _

theorem noReturn_binaryOp (operator : token) (l r : Value) :
    NoReturn (interpreter.binaryOp operator l r) := by
  unfold interpreter.binaryOp
  split
  · exact noReturn_bind _ _ (noReturn_checkNumberOperands _ _ _) (fun _ => noReturn_pure _)
  · apply noReturn_bind _ _ (noReturn_checkNumberOperands _ _ _)
    intro a
    split
    split
    · exact noReturn_report _ _
    · exact noReturn_pure _
  · exact noReturn_bind _ _ (noReturn_checkNumberOperands _ _ _) (fun _ => noReturn_pure _)
  · split
    · exact noReturn_pure _
    · exact noReturn_pure _
    · exact noReturn_report _ _
  · exact noReturn_bind _ _ (noReturn_checkNumberOperands _ _ _) (fun _ => noReturn_pure _)
  · exact noReturn_bind _ _ (noReturn_checkNumberOperands _ _ _) (fun _ => noReturn_pure _)
  · exact noReturn_bind _ _ (noReturn_checkNumberOperands _ _ _) (fun _ => noReturn_pure _)
  · exact noReturn_bind _ _ (noReturn_checkNumberOperands _ _ _) (fun _ => noReturn_pure _)
  · split
    · exact noReturn_pure _
    · rename_i p hp
      refine noReturn_throw p ?_
      cases p <;> first | rfl | exact absurd hp (goEq_ne_return _ _ _)
  · split
    · exact noReturn_pure _
    · rename_i p hp
      refine noReturn_throw p ?_
      cases p <;> first | rfl | exact absurd hp (goEq_ne_return _ _ _)
  · exact noReturn_pure _

theorem noReturn_defineParams (env : Nat) (params : List token) (args : List Value) :
    NoReturn (loxFunction.defineParams env params args) := by
  induction params generalizing args with
  | nil =>
    cases args with
    | nil => exact noReturn_pure _
    | cons a as => exact noReturn_throw _ rfl
  | cons p ps ih =>
    cases args with
    | nil => exact noReturn_pure _
    | cons a as =>
      unfold loxFunction.defineParams
      exact noReturn_bind _ _ (noReturn_define _ _ _) (fun _ => ih as)

theorem noReturn_callDeferred (l : loxFunction) (res : Res Unit) :
    NoReturn (loxFunction.callDeferred l res) := by
  unfold loxFunction.callDeferred
  split
  · split
    · exact noReturn_getAt _ _ _
    · exact noReturn_pure _
  · rename_i p hp
    refine noReturn_throw p ?_
    cases p <;> first | rfl | exact absurd rfl (hp _)
  · split
    · exact noReturn_getAt _ _ _
    · exact noReturn_pure _

theorem noReturn_evaluate_succ (n : Nat)
    (ihE : ∀ e, NoReturn (interpreter.evaluate n e))
    (ihA : ∀ es, NoReturn (interpreter.evaluateArgs n es))
    (ihC : ∀ c as, NoReturn (callable.call n c as)) :
    ∀ e, NoReturn (interpreter.evaluate (n + 1) e) := by
  intro e
  match e with
  | .binary left right operator =>
    rw [interpreter.evaluate]
    exact noReturn_bind _ _ (ihE _)
      (fun _ => noReturn_bind _ _ (ihE _) (fun _ => noReturn_binaryOp _ _ _))
  | .grouping exp =>
    rw [interpreter.evaluate]
    exact ihE _
  | .literal value =>
    rw [interpreter.evaluate]
    exact noReturn_pure _
  | .unary operator right =>
    rw [interpreter.evaluate]
    exact noReturn_bind _ _ (ihE _) (fun _ => noReturn_unaryOp _ _)
  | .variable name =>
    rw [interpreter.evaluate]
    exact noReturn_lookUpVariable _ _
  | .assign name value =>
    rw [interpreter.evaluate]
    apply noReturn_bind _ _ (ihE _)
    intro v
    apply noReturn_bind _ _ (noReturn_localsLookup _)
    intro d
    apply noReturn_bind _ _ noReturn_read
    intro i
    dsimp only
    split
    · exact noReturn_bind _ _ (noReturn_assignAt _ _ _ _) (fun _ => noReturn_pure _)
    · exact noReturn_bind _ _ (noReturn_assign _ _ _) (fun _ => noReturn_pure _)
  | .logical left right operator =>
    rw [interpreter.evaluate]
    apply noReturn_bind _ _ (ihE _)
    intro l
    split
    · split
      · exact noReturn_pure _
      · exact ihE _
    · split
      · exact noReturn_pure _
      · exact ihE _
    · exact ihE _
  | .call paren args callee =>
    rw [interpreter.evaluate]
    apply noReturn_bind _ _ (ihE _)
    intro c
    apply noReturn_bind _ _ (ihA _)
    intro as
    split
    · exact noReturn_report _ _
    · split
      · exact noReturn_report _ _
      · exact ihC _ _
  | .get name obj =>
    rw [interpreter.evaluate]
    apply noReturn_bind _ _ (ihE _)
    intro o
    split
    · exact noReturn_instanceGet _ _
    · exact noReturn_report _ _
  | .set name obj value =>
    rw [interpreter.evaluate]
    apply noReturn_bind _ _ (ihE _)
    intro o
    split
    · exact noReturn_bind _ _ (ihE _)
        (fun _ => noReturn_bind _ _ (noReturn_instanceSet _ _ _) (fun _ => noReturn_pure _))
    · exact noReturn_report _ _
  | .this name =>
    rw [interpreter.evaluate]
    exact noReturn_lookUpVariable _ _
  | .super keyword method =>
    rw [interpreter.evaluate]
    apply noReturn_bind _ _ (noReturn_localsLookup _)
    intro d
    apply noReturn_bind _ _ noReturn_read
    intro i
    apply noReturn_bind _ _ (noReturn_getAt _ _ _)
    intro sup
    split
    · apply noReturn_bind _ _ (noReturn_getAt _ _ _)
      intro th
      split
      · split
        · exact noReturn_report _ _
        · exact noReturn_bind _ _ (noReturn_functionBind _ _) (fun _ => noReturn_pure _)
      · exact noReturn_throw _ rfl
    · exact noReturn_throw _ rfl

theorem noReturn_all (n : Nat) :
    (∀ e, NoReturn (interpreter.evaluate n e)) ∧
    (∀ es, NoReturn (interpreter.evaluateArgs n es)) ∧
    (∀ c as, NoReturn (callable.call n c as)) ∧
    (∀ f as, NoReturn (loxFunction.call n f as)) ∧
    (∀ k as, NoReturn (loxClass.call n k as)) := by
  induction n with
  | zero =>
    refine ⟨?_, ?_, ?_, ?_, ?_⟩
    · intro e
      rw [interpreter.evaluate]
      exact noReturn_throw _ rfl
    · intro es
      rw [interpreter.evaluateArgs]
      exact noReturn_throw _ rfl
    · intro c as
      rw [callable.call]
      exact noReturn_throw _ rfl
    · intro f as
      rw [loxFunction.call]
      exact noReturn_throw _ rfl
    · intro k as
      rw [loxClass.call]
      exact noReturn_throw _ rfl
  | succ n ih =>
    obtain ⟨ihE, ihA, ihC, ihF, ihK⟩ := ih
    refine ⟨noReturn_evaluate_succ n ihE ihA ihC, ?_, ?_, ?_, ?_⟩
    · intro es
      cases es with
      | nil =>
        rw [interpreter.evaluateArgs]
        exact noReturn_pure _
      | cons a rest =>
        rw [interpreter.evaluateArgs]
        exact noReturn_bind _ _ (ihE _)
          (fun _ => noReturn_bind _ _ (ihA _) (fun _ => noReturn_pure _))
    · intro c as
      cases c with
      | clock =>
        rw [callable.call]
        exact noReturn_clock
      | function f =>
        rw [callable.call]
        exact ihF _ _
      | klass k =>
        rw [callable.call]
        exact ihK _ _
    · intro f as
      rw [loxFunction.call]
      apply noReturn_bind _ _ (noReturn_newEnvironment _)
      intro env
      apply noReturn_bind _ _ (noReturn_defineParams _ _ _)
      intro _
      constructor
      intro i v
      exact (noReturn_callDeferred f _).outcome _ v
    · intro k as
      rw [loxClass.call]
      apply noReturn_bind _ _ noReturn_newFieldMap
      intro fields
      dsimp only
      split
      · exact noReturn_bind _ _ (noReturn_functionBind _ _)
          (fun _ => noReturn_bind _ _ (ihF _ _)
            (fun _ => noReturn_bind _ _ (noReturn_pure _) (fun _ => noReturn_pure _)))
      · exact noReturn_bind _ _ (noReturn_pure _) (fun _ => noReturn_pure _)

theorem callDeferred_plain (l : loxFunction) (res : Res Unit) (j : interpreter)
    (hinit : l.isInitializer = false) :
    loxFunction.callDeferred l res j =
      (match res with
        | Res.ok _ => Res.ok Value.nil
        | Res.panic (Panic.returnValue v) => Res.ok v
        | Res.panic p => Res.panic p, j) := by
  cases res with
  | ok u => simp [loxFunction.callDeferred, hinit, pure, Exec.pure]
  | panic p => cases p <;> simp [loxFunction.callDeferred, hinit, pure, Exec.pure, throwPanic]

theorem functionStmt_eq (n : Nat) (f : stmtFunction) (i : interpreter) (en : environment)
    (hen : i.envs[i.env]? = some en) :
    interpreter.execute (n + 1) (stmt.function f) i =
      (Res.ok (),
        { i with
          envs := heapSet i.envs i.env
                    { en with
                      values := mapSet en.values f.name.lexeme
                        (Value.function { declaration := f, closure := i.env,
                                          isInitializer := false }) } }) := by
  simp only [interpreter.execute, bind, Exec.bind, interpreter.read, environment.define, hen]

theorem findMethod_eq_chain (c : loxClass) (name : String) :
    c.findMethod name = c.chain.findSome? (fun k => mapGet k.methods name) := by
  match c with
  | .mk n ms none =>
    simp only [loxClass.findMethod, loxClass.chain, List.findSome?_cons, loxClass.methods]
    cases mapGet ms name <;> simp
  | .mk n ms (some s) =>
    simp only [loxClass.findMethod, loxClass.chain, List.findSome?_cons, loxClass.methods]
    cases mapGet ms name with
    | some m => simp
    | none => simpa using findMethod_eq_chain s name

theorem classStmt_no_super (n : Nat) (methods : List stmtFunction) (name : token)
    (i : interpreter) (en : environment) (hen : i.envs[i.env]? = some en) :
    interpreter.execute (n + 1) (stmt.classStmt methods name none) i =
      (Res.ok (),
        { i with
          envs := heapSet i.envs i.env
                    { en with
                      values := mapSet (mapSet en.values name.lexeme Value.nil) name.lexeme
                                  (Value.klass (builtClass name methods i.env loxClass.zero)) } }) := by
  have hlt := lt_length_of_get _ _ _ hen
  simp only [interpreter.execute, pure, bind, Exec.bind, Exec.pure, interpreter.read,
    environment.define, hen, environment.assign, environment.assignFrom, heapSet_length,
    heapSet_get_self _ _ _ hlt, mapGet_mapSet_self, heapSet_heapSet, builtClass]

theorem classStmt_with_super (n : Nat) (methods : List stmtFunction) (name sc : token)
    (i i0 : interpreter) (k : loxClass) (en : environment)
    (hsup : interpreter.evaluate n (expr.variable sc) i = (Res.ok (Value.klass k), i0))
    (hen : i0.envs[i0.env]? = some en) :
    interpreter.execute (n + 1) (stmt.classStmt methods name (some sc)) i =
      (Res.ok (),
        { i0 with
          envs := heapSet i0.envs i0.env
                    { en with
                      values := mapSet (mapSet en.values name.lexeme Value.nil) name.lexeme
                                  (Value.klass (builtClass name methods i0.envs.length k)) } ++
                  [{ enclosing := some i0.env, values := [("super", Value.klass k)] }] }) := by
  have hlt := lt_length_of_get _ _ _ hen
  have hlt1 : i0.env < (heapSet i0.envs i0.env
      { enclosing := en.enclosing, values := mapSet en.values name.lexeme Value.nil }).length := by
    rw [heapSet_length]; exact hlt
  have hne : i0.env ≠ i0.envs.length := Nat.ne_of_lt hlt
  simp only [interpreter.execute, pure, bind, Exec.bind, Exec.pure, interpreter.read, hsup,
    environment.define, hen, newEnvironmentWithParent, interpreter.setEnv,
    append_get_last, heapSet_append_last, Option.bind,
    environment.assign, environment.assignFrom,
    append_get_left _ _ _ _ (heapSet_get_self _ _ _ hlt), mapGet_mapSet_self,
    heapSet_append_left _ _ _ _ hlt1, heapSet_heapSet, builtClass]
  simp only [heapSet_length, mapSet]

theorem getAt_this_of_closure (closure : Nat) (j : interpreter) (en : environment) (x : Value)
    (hen : j.envs[closure]? = some en) (hthis : mapGet en.values "this" = some x) :
    environment.getAt closure 0 (tokenOfLexeme "this") j = (Res.ok x, j) := by
  simp only [environment.getAt, environment.ancestor, environment.get, environment.getFrom, hen,
    tokenOfLexeme, hthis]

theorem getAt_this_from_body (l : loxFunction) (args : List Value) (j : interpreter)
    (en : environment) (x : Value)
    (hen : j.envs[l.closure]? = some en) (hthis : mapGet en.values "this" = some x) :
    environment.getAt (bodyStart l args j).env 1 (tokenOfLexeme "this") (bodyStart l args j)
      = (Res.ok x, bodyStart l args j) := by
  have h1 : (bodyStart l args j).envs[(bodyStart l args j).env]?
      = some { enclosing := some l.closure,
               values := boundParams l.declaration.params args [] } := by
    simp only [bodyStart, append_get_last]
  have h2 : (bodyStart l args j).envs[l.closure]? = some en := by
    simp only [bodyStart]
    exact append_get_left _ _ _ _ hen
  simp only [environment.getAt, environment.ancestor, h1, environment.get, environment.getFrom,
    h2, tokenOfLexeme, hthis]

theorem buildMethods_spec (closure : Nat) (methods : List stmtFunction)
    (acc : List (String × loxFunction))
    (hacc : ∀ nm f, mapGet acc nm = some f →
      f.closure = closure ∧ f.isInitializer = decide (nm = "init") ∧ f.declaration.name.lexeme = nm)
    (nm : String) (f : loxFunction)
    (h : mapGet (interpreter.buildMethods closure methods acc) nm = some f) :
    f.closure = closure ∧ f.isInitializer = decide (nm = "init") ∧
      f.declaration.name.lexeme = nm := by
  induction methods generalizing acc with
  | nil => exact hacc nm f h
  | cons m rest ih =>
    simp only [interpreter.buildMethods] at h
    refine ih _ ?_ h
    intro nm2 f2 h2
    by_cases hk : nm2 = m.name.lexeme
    · subst hk
      rw [mapGet_mapSet_self] at h2
      cases h2
      exact ⟨rfl, rfl, rfl⟩
    · rw [mapGet_mapSet_other _ _ _ _ hk] at h2
      exact hacc nm2 f2 h2

theorem instanceState_is_the_run :
    (runStatements 100 (newInterpreter 0) (initReturnProgram.take 2)).1 = none ∧
    (runStatements 100 (newInterpreter 0) (initReturnProgram.take 2)).2 = instanceState := by
  decide!

/-! ## A larger step budget does not change a finished run -/

theorem extends_refl {α : Type} (x : Exec interpreter α) : Extends x x :=
  ⟨fun _ _ _ h _ => h⟩

theorem extends_trans {α : Type} (x y z : Exec interpreter α) (h1 : Extends x y)
    (h2 : Extends y z) : Extends x z :=
  ⟨fun i i1 r h hr => h2.same i i1 r (h1.same i i1 r h hr) hr⟩

theorem extends_outOfSteps {α : Type} (y : Exec interpreter α) :
    Extends (throwPanic Panic.outOfSteps) y :=
  ⟨fun i i1 r h hr => by
    simp only [throwPanic, Prod.mk.injEq] at h
    exact absurd h.1.symm hr⟩

theorem extends_bind {α β : Type} (x y : Exec interpreter α) (f g : α → Exec interpreter β)
    (hx : Extends x y) (hf : ∀ a, Extends (f a) (g a)) : Extends (x >>= f) (y >>= g) := by
  constructor
  intro i i1 r h hr
  simp only [bind, Exec.bind] at h ⊢
  cases hxi : x i with
  | mk rx s =>
    rw [hxi] at h
    cases rx with
    | ok a =>
      rw [hx.same i s (Res.ok a) hxi (by simp)]
      exact (hf a).same s i1 r h hr
    | panic p =>
      simp only [Prod.mk.injEq] at h
      obtain ⟨h1, h2⟩ := h
      subst h1 h2
      have hp : (Res.panic p : Res α) ≠ Res.panic Panic.outOfSteps := by
        intro e
        apply hr
        simp only [Res.panic.injEq] at e
        rw [e]
      rw [hx.same i s (Res.panic p) hxi hp]

theorem extends_bind_same {α β : Type} (x : Exec interpreter α) (f g : α → Exec interpreter β)
    (hf : ∀ a, Extends (f a) (g a)) : Extends (x >>= f) (x >>= g) :=
  extends_bind x x f g (extends_refl x) hf

theorem extends_evaluate_succ (n : Nat)
    (ihE : ∀ e, Extends (interpreter.evaluate n e) (interpreter.evaluate (n + 1) e))
    (ihA : ∀ es, Extends (interpreter.evaluateArgs n es) (interpreter.evaluateArgs (n + 1) es))
    (ihC : ∀ c as, Extends (callable.call n c as) (callable.call (n + 1) c as)) :
    ∀ e, Extends (interpreter.evaluate (n + 1) e) (interpreter.evaluate (n + 1 + 1) e) := by
  intro e
  match e with
  | .binary left right operator =>
    rw [interpreter.evaluate, interpreter.evaluate]
    exact extends_bind _ _ _ _ (ihE _)
      (fun _ => extends_bind _ _ _ _ (ihE _) (fun _ => extends_refl _))
  | .grouping exp =>
    rw [interpreter.evaluate, interpreter.evaluate]
    exact ihE _
  | .literal value =>
    rw [interpreter.evaluate, interpreter.evaluate]
    exact extends_refl _
  | .unary operator right =>
    rw [interpreter.evaluate, interpreter.evaluate]
    exact extends_bind _ _ _ _ (ihE _) (fun _ => extends_refl _)
  | .variable name =>
    rw [interpreter.evaluate, interpreter.evaluate]
    exact extends_refl _
  | .assign name value =>
    rw [interpreter.evaluate, interpreter.evaluate]
    exact extends_bind _ _ _ _ (ihE _) (fun _ => extends_refl _)
  | .logical left right operator =>
    rw [interpreter.evaluate, interpreter.evaluate]
    apply extends_bind _ _ _ _ (ihE _)
    intro l
    split
    · split
      · exact extends_refl _
      · exact ihE _
    · split
      · exact extends_refl _
      · exact ihE _
    · exact ihE _
  | .call paren args callee =>
    rw [interpreter.evaluate, interpreter.evaluate]
    apply extends_bind _ _ _ _ (ihE _)
    intro c
    apply extends_bind _ _ _ _ (ihA _)
    intro as
    split
    · exact extends_refl _
    · split
      · exact extends_refl _
      · exact ihC _ _
  | .get name obj =>
    rw [interpreter.evaluate, interpreter.evaluate]
    exact extends_bind _ _ _ _ (ihE _) (fun _ => extends_refl _)
  | .set name obj value =>
    rw [interpreter.evaluate, interpreter.evaluate]
    apply extends_bind _ _ _ _ (ihE _)
    intro o
    split
    · exact extends_bind _ _ _ _ (ihE _) (fun _ => extends_refl _)
    · exact extends_refl _
  | .this name =>
    rw [interpreter.evaluate, interpreter.evaluate]
    exact extends_refl _
  | .super keyword method =>
    rw [interpreter.evaluate, interpreter.evaluate]
    exact extends_refl _

theorem extends_execute_succ (n : Nat)
    (ihE : ∀ e, Extends (interpreter.evaluate n e) (interpreter.evaluate (n + 1) e))
    (ihS : ∀ s, Extends (interpreter.execute n s) (interpreter.execute (n + 1) s))
    (ihB : ∀ ss env, Extends (interpreter.executeBlock n ss env)
      (interpreter.executeBlock (n + 1) ss env))
    (ihW : ∀ c b, Extends (interpreter.whileLoop n c b) (interpreter.whileLoop (n + 1) c b)) :
    ∀ s, Extends (interpreter.execute (n + 1) s) (interpreter.execute (n + 1 + 1) s) := by
  intro s
  match s with
  | .expression e =>
    rw [interpreter.execute, interpreter.execute]
    exact extends_bind _ _ _ _ (ihE _) (fun _ => extends_refl _)
  | .print e =>
    rw [interpreter.execute, interpreter.execute]
    exact extends_bind _ _ _ _ (ihE _) (fun _ => extends_refl _)
  | .var name initializer =>
    cases initializer with
    | none =>
      simp only [interpreter.execute]
      exact extends_refl _
    | some e =>
      simp only [interpreter.execute]
      exact extends_bind _ _ _ _ (ihE _) (fun _ => extends_refl _)
  | .block statements =>
    rw [interpreter.execute, interpreter.execute]
    exact extends_bind_same _ _ _
      (fun _ => extends_bind_same _ _ _ (fun _ => ihB _ _))
  | .ifStmt condition thenBranch elseBranch =>
    cases elseBranch with
    | none =>
      simp only [interpreter.execute]
      apply extends_bind _ _ _ _ (ihE _)
      intro c
      split
      · exact ihS _
      · exact extends_refl _
    | some s2 =>
      simp only [interpreter.execute]
      apply extends_bind _ _ _ _ (ihE _)
      intro c
      split
      · exact ihS _
      · exact ihS _
  | .whileStmt condition body =>
    rw [interpreter.execute, interpreter.execute]
    exact ihW _ _
  | .function f =>
    rw [interpreter.execute, interpreter.execute]
    exact extends_refl _
  | .returnStmt keyword value =>
    cases value with
    | none =>
      simp only [interpreter.execute]
      exact extends_refl _
    | some e =>
      simp only [interpreter.execute]
      exact extends_bind _ _ _ _ (ihE _) (fun _ => extends_refl _)
  | .classStmt methods name superClass =>
    cases superClass with
    | none =>
      simp only [interpreter.execute]
      exact extends_refl _
    | some sc =>
      simp only [interpreter.execute]
      exact extends_bind _ _ _ _
        (extends_bind _ _ _ _ (ihE _) (fun _ => extends_refl _)) (fun _ => extends_refl _)

theorem extends_all (n : Nat) :
    (∀ e, Extends (interpreter.evaluate n e) (interpreter.evaluate (n + 1) e)) ∧
    (∀ es, Extends (interpreter.evaluateArgs n es) (interpreter.evaluateArgs (n + 1) es)) ∧
    (∀ s, Extends (interpreter.execute n s) (interpreter.execute (n + 1) s)) ∧
    (∀ ss, Extends (interpreter.executeStatements n ss)
      (interpreter.executeStatements (n + 1) ss)) ∧
    (∀ ss env, Extends (interpreter.executeBlock n ss env)
      (interpreter.executeBlock (n + 1) ss env)) ∧
    (∀ c b, Extends (interpreter.whileLoop n c b) (interpreter.whileLoop (n + 1) c b)) ∧
    (∀ c as, Extends (callable.call n c as) (callable.call (n + 1) c as)) ∧
    (∀ f as, Extends (loxFunction.call n f as) (loxFunction.call (n + 1) f as)) ∧
    (∀ k as, Extends (loxClass.call n k as) (loxClass.call (n + 1) k as)) := by
  induction n with
  | zero =>
    refine ⟨?_, ?_, ?_, ?_, ?_, ?_, ?_, ?_, ?_⟩
    · intro e
      rw [interpreter.evaluate]
      exact extends_outOfSteps _
    · intro es
      rw [interpreter.evaluateArgs]
      exact extends_outOfSteps _
    · intro s
      rw [interpreter.execute]
      exact extends_outOfSteps _
    · intro ss
      rw [interpreter.executeStatements]
      exact extends_outOfSteps _
    · intro ss env
      rw [interpreter.executeBlock]
      exact extends_outOfSteps _
    · intro c b
      rw [interpreter.whileLoop]
      exact extends_outOfSteps _
    · intro c as
      rw [callable.call]
      exact extends_outOfSteps _
    · intro f as
      rw [loxFunction.call]
      exact extends_outOfSteps _
    · intro k as
      rw [loxClass.call]
      exact extends_outOfSteps _
  | succ n ih =>
    obtain ⟨ihE, ihA, ihS, ihSS, ihB, ihW, ihC, ihF, ihK⟩ := ih
    refine ⟨extends_evaluate_succ n ihE ihA ihC, ?_, extends_execute_succ n ihE ihS ihB ihW,
      ?_, ?_, ?_, ?_, ?_, ?_⟩
    · intro es
      cases es with
      | nil =>
        rw [interpreter.evaluateArgs, interpreter.evaluateArgs]
        exact extends_refl _
      | cons a rest =>
        rw [interpreter.evaluateArgs, interpreter.evaluateArgs]
        exact extends_bind _ _ _ _ (ihE _)
          (fun _ => extends_bind _ _ _ _ (ihA _) (fun _ => extends_refl _))
    · intro ss
      cases ss with
      | nil =>
        rw [interpreter.executeStatements, interpreter.executeStatements]
        exact extends_refl _
      | cons s rest =>
        rw [interpreter.executeStatements, interpreter.executeStatements]
        exact extends_bind _ _ _ _ (ihS _) (fun _ => ihSS _)
    · intro ss env
      constructor
      intro i i1 r h hr
      rw [executeBlock_eq] at h ⊢
      simp only [Prod.mk.injEq] at h
      obtain ⟨h1, h2⟩ := h
      have hrun : interpreter.executeStatements n ss { i with env := env }
          = (r, (interpreter.executeStatements n ss { i with env := env }).2) := by
        rw [← h1]
      rw [(ihSS ss).same _ _ r hrun hr]
      simp only [h2]
    · intro c b
      rw [interpreter.whileLoop, interpreter.whileLoop]
      apply extends_bind _ _ _ _ (ihE _)
      intro cv
      split
      · exact extends_bind _ _ _ _ (ihS _) (fun _ => ihW _ _)
      · exact extends_refl _
    · intro c as
      cases c with
      | clock =>
        rw [callable.call, callable.call]
        exact extends_refl _
      | function f =>
        rw [callable.call, callable.call]
        exact ihF _ _
      | klass k =>
        rw [callable.call, callable.call]
        exact ihK _ _
    · intro f as
      rw [loxFunction.call, loxFunction.call]
      apply extends_bind_same
      intro env
      apply extends_bind_same
      intro _
      constructor
      intro i i1 r h hr
      simp only at h ⊢
      cases hb : interpreter.executeBlock n f.declaration.body env i with
      | mk rb sb =>
        rw [hb] at h
        have hrb : rb ≠ Res.panic Panic.outOfSteps := by
          intro e
          subst e
          simp only [loxFunction.callDeferred, throwPanic, Prod.mk.injEq] at h
          exact hr h.1.symm
        rw [(ihB _ _).same i sb rb hb hrb]
        exact h
    · intro k as
      rw [loxClass.call, loxClass.call]
      apply extends_bind_same
      intro fields
      dsimp only
      split
      · exact extends_bind_same _ _ _
          (fun _ => extends_bind _ _ _ _ (ihF _ _) (fun _ => extends_refl _))
      · exact extends_refl _

/-- A run that ends within `n` steps ends the same way within any larger budget. -/
theorem evaluate_steps_mono (n k : Nat) (e : expr) (i i1 : interpreter) (r : Res Value)
    (h : interpreter.evaluate n e i = (r, i1)) (hr : r ≠ Res.panic Panic.outOfSteps) :
    interpreter.evaluate (n + k) e i = (r, i1) := by
  induction k with
  | zero => exact h
  | succ k ih => exact ((extends_all (n + k)).1 e).same i i1 r ih hr

theorem execute_steps_mono (n k : Nat) (s : stmt) (i i1 : interpreter) (r : Res Unit)
    (h : interpreter.execute n s i = (r, i1)) (hr : r ≠ Res.panic Panic.outOfSteps) :
    interpreter.execute (n + k) s i = (r, i1) := by
  induction k with
  | zero => exact h
  | succ k ih => exact ((extends_all (n + k)).2.2.1 s).same i i1 r ih hr

theorem executeStatements_steps_mono (n k : Nat) (ss : List stmt) (i i1 : interpreter)
    (r : Res Unit) (h : interpreter.executeStatements n ss i = (r, i1))
    (hr : r ≠ Res.panic Panic.outOfSteps) :
    interpreter.executeStatements (n + k) ss i = (r, i1) := by
  induction k with
  | zero => exact h
  | succ k ih => exact ((extends_all (n + k)).2.2.2.1 ss).same i i1 r ih hr

theorem functionCall_steps_mono (n k : Nat) (f : loxFunction) (as : List Value)
    (i i1 : interpreter) (r : Res Value) (h : loxFunction.call n f as i = (r, i1))
    (hr : r ≠ Res.panic Panic.outOfSteps) : loxFunction.call (n + k) f as i = (r, i1) := by
  induction k with
  | zero => exact h
  | succ k ih => exact ((extends_all (n + k)).2.2.2.2.2.2.2.1 f as).same i i1 r ih hr

theorem classCall_steps_mono (n k : Nat) (c : loxClass) (as : List Value)
    (i i1 : interpreter) (r : Res Value) (h : loxClass.call n c as i = (r, i1))
    (hr : r ≠ Res.panic Panic.outOfSteps) : loxClass.call (n + k) c as i = (r, i1) := by
  induction k with
  | zero => exact h
  | succ k ih => exact ((extends_all (n + k)).2.2.2.2.2.2.2.2 c as).same i i1 r ih hr

/-! ## The operators of binary expressions -/

theorem evaluate_binary_eq (n : Nat) (left right : expr) (operator : token)
    (i i1 i2 : interpreter) (l r : Value)
    (hl : interpreter.evaluate n left i = (Res.ok l, i1))
    (hr : interpreter.evaluate n right i1 = (Res.ok r, i2)) :
    interpreter.evaluate (n + 1) (expr.binary left right operator) i =
      interpreter.binaryOp operator l r i2 := by
  simp only [interpreter.evaluate, bind, Exec.bind, hl, hr]

theorem binaryOp_not_numbers (operator : token) (l r : Value) (i : interpreter)
    (hop : isArithmeticOperator operator.tt = true)
    (h : l.isNumber = false ∨ r.isNumber = false) :
    interpreter.binaryOp operator l r i =
      (Res.panic (Panic.runtimeError operator.line "Operands must be numbers."),
        { i with hadRuntimeError := true }) := by
  have hc : interpreter.checkNumberOperands operator l r i =
      (Res.panic (Panic.runtimeError operator.line "Operands must be numbers."),
        { i with hadRuntimeError := true }) := by
    cases l <;> cases r <;>
      simp_all [Value.isNumber, interpreter.checkNumberOperands, reportRuntimeError]
  unfold interpreter.binaryOp
  cases ht : operator.tt <;> simp only [ht, isArithmeticOperator, Bool.false_eq_true] at hop ⊢ <;>
    simp only [bind, Exec.bind, hc]

theorem float64_zero : (0 : float64) = float64.finite false 0 0 := by
  decide!

/-- Go's `== 0` holds of the zeros and of no other double. -/
theorem float64_eq_zero (y : float64) : y.eq 0 = true ↔ ∃ n e, y = float64.finite n 0 e := by
  rw [float64_zero]
  constructor
  · intro h
    cases y with
    | nan => simp only [float64.eq, Bool.false_eq_true] at h
    | inf n => simp only [float64.eq, Bool.false_eq_true] at h
    | finite n m e =>
      have hm : m = 0 := by
        cases n <;> simp [float64.eq, float64.units] at h <;> exact h
      exact ⟨n, e, by rw [hm]⟩
  · rintro ⟨n, e, h⟩
    rw [h]
    cases n <;> simp [float64.eq, float64.units]

theorem isZero_iff (r : Value) :
    r.isZero = true ↔ ∃ neg e, r = Value.number (float64.finite neg 0 e) := by
  cases r <;> simp only [Value.isZero, Bool.false_eq_true, reduceCtorEq, exists_false,
    exists_const, Value.number.injEq]
  exact float64_eq_zero _

theorem binaryOp_division_by_zero (operator : token) (x y : float64) (i : interpreter)
    (hop : operator.tt = tokenTypeSlash) (hy : y.eq 0 = true) :
    interpreter.binaryOp operator (Value.number x) (Value.number y) i =
      (Res.panic (Panic.runtimeError operator.line "Division by zero"),
        { i with hadRuntimeError := true }) := by
  unfold interpreter.binaryOp
  simp only [hop, bind, Exec.bind, interpreter.checkNumberOperands, pure, Exec.pure, hy,
    if_true, reportRuntimeError]

theorem binaryOp_numbers (operator : token) (x y : float64) (i : interpreter)
    (hop : isArithmeticOperator operator.tt = true)
    (h : ¬ (operator.tt = tokenTypeSlash ∧ y.eq 0 = true)) :
    ∃ v, interpreter.binaryOp operator (Value.number x) (Value.number y) i = (Res.ok v, i) := by
  unfold interpreter.binaryOp
  cases ht : operator.tt <;> simp only [ht, isArithmeticOperator, Bool.false_eq_true] at hop ⊢ <;>
    simp only [bind, Exec.bind, interpreter.checkNumberOperands, pure, Exec.pure]
  case tokenTypeSlash =>
    have hy : ¬ (y.eq 0 = true) := fun e => h ⟨ht, e⟩
    rw [if_neg hy]
    exact ⟨_, rfl⟩
  all_goals exact ⟨_, rfl⟩

/-! ## The scope stack of the resolver -/

theorem nests_of_same_scopes {α : Type} (x : Exec resolver α)
    (h : ∀ (r r1 : resolver) (a : α), x r = (Res.ok a, r1) → r1.scopes = r.scopes) :
    Nests 0 x :=
  ⟨fun r r1 a hx => by rw [h r r1 a hx]; simp,
   fun r r1 a hx k n _ hk => by
    unfold resolver.holds at hk ⊢
    rw [h r r1 a hx]
    exact hk⟩

theorem nests_pure {α : Type} (a : α) : Nests 0 (pure a : Exec resolver α) :=
  nests_of_same_scopes _ (fun r r1 b h => by
    simp only [pure, Exec.pure, Prod.mk.injEq] at h
    rw [← h.2])

theorem nests_bind {α β : Type} (d1 d2 : Int) (h2 : d2 ≤ 0) (h12 : d1 + d2 ≤ 0)
    (x : Exec resolver α) (f : α → Exec resolver β) (hx : Nests d1 x)
    (hf : ∀ a, Nests d2 (f a)) : Nests (d1 + d2) (x >>= f) := by
  constructor
  · intro r r1 b h
    simp only [bind, Exec.bind] at h
    cases hxr : x r with
    | mk rx s =>
      rw [hxr] at h
      cases rx with
      | ok a =>
        have e1 := hx.depth r s a hxr
        have e2 := (hf a).depth s r1 b h
        omega
      | panic p =>
        simp only [Prod.mk.injEq, reduceCtorEq, false_and] at h
  · intro r r1 b h k n hk hheld
    simp only [bind, Exec.bind] at h
    cases hxr : x r with
    | mk rx s =>
      rw [hxr] at h
      cases rx with
      | ok a =>
        have e1 := hx.depth r s a hxr
        have n1 := hx.names r s a hxr k n (by omega) hheld
        exact (hf a).names s r1 b h k n (by omega) n1
      | panic p =>
        simp only [Prod.mk.injEq, reduceCtorEq, false_and] at h

theorem nests_bind_zero {α β : Type} (d : Int) (hd : d ≤ 0) (x : Exec resolver α)
    (f : α → Exec resolver β) (hx : Nests 0 x) (hf : ∀ a, Nests d (f a)) :
    Nests d (x >>= f) := by
  have h := nests_bind 0 d hd (by omega) x f hx hf
  simpa using h

theorem nests_seq {α β : Type} (x : Exec resolver α) (f : α → Exec resolver β)
    (hx : Nests 0 x) (hf : ∀ a, Nests 0 (f a)) : Nests 0 (x >>= f) :=
  nests_bind_zero 0 (Int.le_refl 0) x f hx hf

theorem nests_cast {α : Type} {d e : Int} {x : Exec resolver α} (h : d = e)
    (hx : Nests d x) : Nests e x :=
  h ▸ hx

theorem nests_report {α : Type} (d : Int) (t : token) (message : String) :
    Nests d (reportResolutionError t message : Exec resolver α) :=
  ⟨fun r r1 a h => by
    simp only [reportResolutionError, Prod.mk.injEq, reduceCtorEq, false_and] at h,
   fun r r1 a h => by
    simp only [reportResolutionError, Prod.mk.injEq, reduceCtorEq, false_and] at h⟩

theorem nests_read : Nests 0 resolver.read :=
  nests_of_same_scopes _ (fun r r1 a h => by
    simp only [resolver.read, Prod.mk.injEq] at h
    rw [← h.2])

theorem nests_setCurrentFunctionType (t : functionType) :
    Nests 0 (resolver.setCurrentFunctionType t) :=
  nests_of_same_scopes _ (fun r r1 a h => by
    simp only [resolver.setCurrentFunctionType, Prod.mk.injEq] at h
    rw [← h.2])

theorem nests_setCurrentClass (c : classType) : Nests 0 (resolver.setCurrentClass c) :=
  nests_of_same_scopes _ (fun r r1 a h => by
    simp only [resolver.setCurrentClass, Prod.mk.injEq] at h
    rw [← h.2])

theorem nests_beginScope : Nests 1 resolver.beginScope :=
  ⟨fun r r1 a h => by
    simp only [resolver.beginScope, resolver.pushScope, Prod.mk.injEq] at h
    rw [← h.2]
    simp,
   fun r r1 a h k n _ hk => by
    simp only [resolver.beginScope, resolver.pushScope, Prod.mk.injEq] at h
    obtain ⟨scope, hs, hn⟩ := hk
    refine ⟨scope, ?_, hn⟩
    rw [← h.2]
    exact append_get_left r.scopes [] scope k hs⟩

theorem nests_endScope : Nests (-1) resolver.endScope :=
  ⟨fun r r1 a h => by
    simp only [resolver.endScope, resolver.popScope] at h
    cases hs : r.scopes with
    | nil => simp only [hs, Prod.mk.injEq, reduceCtorEq, false_and] at h
    | cons s rest =>
      simp only [hs, Prod.mk.injEq] at h
      rw [← h.2]
      simp,
   fun r r1 a h k n hlt hk => by
    simp only [resolver.endScope, resolver.popScope] at h
    split at h
    · simp only [Prod.mk.injEq, reduceCtorEq, false_and] at h
    · simp only [Prod.mk.injEq] at h
      obtain ⟨scope, hsc, hn⟩ := hk
      refine ⟨scope, ?_, hn⟩
      rw [← h.2]
      simp only
      rw [List.getElem?_dropLast, if_pos (by omega)]
      exact hsc⟩

theorem nests_peekScope : Nests 0 resolver.peekScope :=
  nests_of_same_scopes _ (fun r r1 a h => by
    simp only [resolver.peekScope] at h
    split at h
    · simp only [Prod.mk.injEq, reduceCtorEq, false_and] at h
    · simp only [Prod.mk.injEq] at h
      rw [← h.2])

theorem mapGet_mapSet_ne_none {α : Type} (m : List (String × α)) (k n : String) (v : α)
    (h : mapGet m n ≠ none) : mapGet (mapSet m k v) n ≠ none := by
  by_cases e : n = k
  · rw [e, mapGet_mapSet_self]
    simp
  · rw [mapGet_mapSet_other m k n v e]
    exact h

theorem nests_setInPeekScope (name : String) (b : Bool) :
    Nests 0 (resolver.setInPeekScope name b) := by
  constructor
  · intro r r1 a h
    simp only [resolver.setInPeekScope, bind, Exec.bind, resolver.peekScope] at h
    split at h
    · rename_i hp
      split at hp
      · simp only [Prod.mk.injEq, reduceCtorEq, false_and] at hp
      · simp only [Prod.mk.injEq] at hp h
        rw [← h.2, ← hp.2]
        simp [heapSet_length]
    · simp only [Prod.mk.injEq, reduceCtorEq, false_and] at h
  · intro r r1 a h k n _ hk
    simp only [resolver.setInPeekScope, bind, Exec.bind, resolver.peekScope] at h
    split at h
    · rename_i p s hp
      split at hp
      · simp only [Prod.mk.injEq, reduceCtorEq, false_and] at hp
      · rename_i scope htop
        simp only [Prod.mk.injEq, Res.ok.injEq] at hp h
        obtain ⟨sc, hsc, hn⟩ := hk
        rw [← h.2, ← hp.2]
        unfold resolver.holds
        simp only
        by_cases e : k = r.scopes.length - 1
        · rw [e] at hsc ⊢
          rw [heapSet_get_self r.scopes _ _ (lt_length_of_get r.scopes _ sc hsc)]
          refine ⟨_, rfl, ?_⟩
          rw [htop] at hsc
          simp only [Option.some.injEq] at hsc
          rw [← hp.1, hsc]
          exact mapGet_mapSet_ne_none sc name n b hn
        · rw [heapSet_get_other r.scopes _ k _ e]
          exact ⟨sc, hsc, hn⟩
    · simp only [Prod.mk.injEq, reduceCtorEq, false_and] at h

theorem nests_declare (name : token) : Nests 0 (resolver.declare name) := by
  constructor
  · intro r r1 a h
    unfold resolver.declare at h
    split at h
    · simp only [Prod.mk.injEq] at h
      rw [← h.2]
      simp
    · refine (nests_seq _ _ nests_peekScope (fun p => ?_)).depth r r1 a h
      split
      · exact nests_report 0 _ _
      · exact nests_setInPeekScope _ _
  · intro r r1 a h k n hk hheld
    unfold resolver.declare at h
    split at h
    · simp only [Prod.mk.injEq] at h
      rw [← h.2]
      exact hheld
    · refine (nests_seq _ _ nests_peekScope (fun p => ?_)).names r r1 a h k n hk hheld
      split
      · exact nests_report 0 _ _
      · exact nests_setInPeekScope _ _

theorem nests_define (name : token) : Nests 0 (resolver.define name) := by
  constructor
  · intro r r1 a h
    cases he : r.isScopeEmpty
    · simp only [resolver.define, he, Bool.false_eq_true, if_false] at h
      exact (nests_setInPeekScope _ _).depth r r1 a h
    · simp only [resolver.define, he, if_true, Prod.mk.injEq] at h
      rw [← h.2]
      simp
  · intro r r1 a h k n hk hheld
    cases he : r.isScopeEmpty
    · simp only [resolver.define, he, Bool.false_eq_true, if_false] at h
      exact (nests_setInPeekScope _ _).names r r1 a h k n hk hheld
    · simp only [resolver.define, he, if_true, Prod.mk.injEq] at h
      rw [← h.2]
      exact hheld

theorem nests_resolveLocal (e : expr) (name : token) :
    Nests 0 (resolver.resolveLocal e name) :=
  nests_of_same_scopes _ (fun r r1 a h => by
    unfold resolver.resolveLocal at h
    split at h
    · simp only [Prod.mk.injEq] at h
      rw [← h.2]
    · simp only [Prod.mk.injEq] at h
      rw [← h.2])

theorem nests_checkOwnInitializer (name : token) :
    Nests 0 (resolver.checkOwnInitializer name) := by
  constructor
  · intro r r1 a h
    unfold resolver.checkOwnInitializer at h
    split at h
    · simp only [Prod.mk.injEq] at h
      rw [← h.2]
      simp
    · refine (nests_seq _ _ nests_peekScope (fun p => ?_)).depth r r1 a h
      split
      · exact nests_report 0 _ _
      · exact nests_pure _
  · intro r r1 a h k n hk hheld
    unfold resolver.checkOwnInitializer at h
    split at h
    · simp only [Prod.mk.injEq] at h
      rw [← h.2]
      exact hheld
    · refine (nests_seq _ _ nests_peekScope (fun p => ?_)).names r r1 a h k n hk hheld
      split
      · exact nests_report 0 _ _
      · exact nests_pure _

theorem nests_declareParams (params : List token) :
    Nests 0 (resolver.declareParams params) := by
  induction params with
  | nil => exact nests_pure _
  | cons p rest ih =>
    unfold resolver.declareParams
    exact nests_seq _ _ (nests_declare p) (fun _ => nests_seq _ _ (nests_define p) (fun _ => ih))

mutual
theorem nests_resolveExpression : ∀ e : expr, Nests 0 (resolver.resolveExpression e)
  | .binary left right _ => by
    rw [resolver.resolveExpression]
    exact nests_seq _ _ (nests_resolveExpression left)
      (fun _ => nests_resolveExpression right)
  | .grouping exp => by
    rw [resolver.resolveExpression]
    exact nests_resolveExpression exp
  | .literal _ => by
    rw [resolver.resolveExpression]
    exact nests_pure _
  | .unary _ right => by
    rw [resolver.resolveExpression]
    exact nests_resolveExpression right
  | .logical left right _ => by
    rw [resolver.resolveExpression]
    exact nests_seq _ _ (nests_resolveExpression left)
      (fun _ => nests_resolveExpression right)
  | .call _ args callee => by
    rw [resolver.resolveExpression]
    exact nests_seq _ _ (nests_resolveExpression callee)
      (fun _ => nests_resolveExpressions args)
  | .assign name value => by
    rw [resolver.resolveExpression]
    exact nests_seq _ _ (nests_resolveExpression value)
      (fun _ => nests_resolveLocal _ _)
  | .get _ obj => by
    rw [resolver.resolveExpression]
    exact nests_resolveExpression obj
  | .set _ obj value => by
    rw [resolver.resolveExpression]
    exact nests_seq _ _ (nests_resolveExpression obj)
      (fun _ => nests_resolveExpression value)
  | .this name => by
    rw [resolver.resolveExpression]
    refine nests_seq _ _ nests_read (fun r => ?_)
    dsimp only
    split
    · exact nests_seq _ _ (nests_report 0 _ _) (fun _ => nests_resolveLocal _ _)
    · exact nests_seq _ _ (nests_pure _) (fun _ => nests_resolveLocal _ _)
  | .super keyword method => by
    rw [resolver.resolveExpression]
    refine nests_seq _ _ nests_read (fun r => ?_)
    dsimp only
    split
    · exact nests_seq _ _ (nests_report 0 _ _) (fun _ => nests_resolveLocal _ _)
    · exact nests_seq _ _ (nests_report 0 _ _) (fun _ => nests_resolveLocal _ _)
    · exact nests_seq _ _ (nests_pure _) (fun _ => nests_resolveLocal _ _)
  | .variable name => by
    rw [resolver.resolveExpression]
    exact nests_seq _ _ (nests_checkOwnInitializer _)
      (fun _ => nests_resolveLocal _ _)
theorem nests_resolveExpressions : ∀ es : List expr, Nests 0 (resolver.resolveExpressions es)
  | [] => by
    rw [resolver.resolveExpressions]
    exact nests_pure _
  | a :: rest => by
    rw [resolver.resolveExpressions]
    exact nests_seq _ _ (nests_resolveExpression a)
      (fun _ => nests_resolveExpressions rest)
end

mutual
theorem nests_resolveStatement : ∀ s : stmt, Nests 0 (resolver.resolveStatement s)
  | .expression e => by
    rw [resolver.resolveStatement]
    exact nests_resolveExpression e
  | .print e => by
    rw [resolver.resolveStatement]
    exact nests_resolveExpression e
  | .ifStmt condition thenBranch none => by
    simp only [resolver.resolveStatement]
    exact nests_seq _ _ (nests_resolveExpression condition)
      (fun _ => nests_seq _ _ (nests_resolveStatement thenBranch)
        (fun _ => nests_pure _))
  | .ifStmt condition thenBranch (some s) => by
    simp only [resolver.resolveStatement]
    exact nests_seq _ _ (nests_resolveExpression condition)
      (fun _ => nests_seq _ _ (nests_resolveStatement thenBranch)
        (fun _ => nests_resolveStatement s))
  | .whileStmt condition body => by
    rw [resolver.resolveStatement]
    exact nests_seq _ _ (nests_resolveStatement body)
      (fun _ => nests_resolveExpression condition)
  | .returnStmt keyword none => by
    simp only [resolver.resolveStatement]
    refine nests_seq _ _ nests_read (fun r => ?_)
    split
    · exact nests_seq _ _ (nests_report 0 _ _) (fun _ => nests_pure _)
    · exact nests_seq _ _ (nests_pure _) (fun _ => nests_pure _)
  | .returnStmt keyword (some v) => by
    simp only [resolver.resolveStatement]
    refine nests_seq _ _ nests_read (fun r => ?_)
    have hv : Nests 0 (do
        if r.currentFunctionType = functionTypeInitializer then
          reportResolutionError keyword "Cannot return from an initializer."
        resolver.resolveExpression v : Exec resolver Unit) := by
      split
      · exact nests_seq _ _ (nests_report 0 _ _)
          (fun _ => nests_resolveExpression v)
      · exact nests_seq _ _ (nests_pure _) (fun _ => nests_resolveExpression v)
    split
    · exact nests_seq _ _ (nests_report 0 _ _) (fun _ => hv)
    · exact nests_seq _ _ (nests_pure _) (fun _ => hv)
  | .classStmt methods name none => by
    simp only [resolver.resolveStatement]
    refine nests_seq _ _ nests_read (fun r => ?_)
    refine nests_seq _ _ (nests_setCurrentClass _) (fun _ => ?_)
    refine nests_seq _ _ (nests_declare _) (fun _ => ?_)
    refine nests_seq _ _ (nests_define _) (fun _ => ?_)
    refine nests_seq _ _ (nests_pure _) (fun _ => ?_)
    refine nests_seq _ _ (nests_pure _) (fun _ => ?_)
    have h := nests_bind 1 (-1) (by norm_num) (by norm_num) _ _ nests_beginScope (fun _ =>
      nests_bind_zero (-1) (by norm_num) _ _ (nests_setInPeekScope "this" true) (fun _ =>
        nests_bind_zero (-1) (by norm_num) _ _ (nests_resolveMethods methods) (fun _ =>
          nests_bind (-1) 0 (by norm_num) (by norm_num) _ _ nests_endScope (fun _ =>
            nests_seq _ _ (nests_pure ()) (fun _ =>
              nests_setCurrentClass r.currentClass)))))
    simpa using h
  | .classStmt methods name (some sc) => by
    simp only [resolver.resolveStatement]
    refine nests_seq _ _ nests_read (fun r => ?_)
    refine nests_seq _ _ (nests_setCurrentClass _) (fun _ => ?_)
    refine nests_seq _ _ (nests_declare _) (fun _ => ?_)
    refine nests_seq _ _ (nests_define _) (fun _ => ?_)
    split <;>
      (first
        | refine nests_seq _ _ (nests_report 0 _ _) (fun _ => ?_)
        | refine nests_seq _ _ (nests_pure _) (fun _ => ?_)) <;>
      (refine nests_seq _ _ (nests_setCurrentClass _) (fun _ => ?_)
       refine nests_seq _ _ (nests_resolveExpression _) (fun _ => ?_)
       refine nests_cast (by norm_num)
         (nests_bind 1 (-1) (by norm_num) (by norm_num) _ _ nests_beginScope (fun _ => ?_))
       refine nests_bind_zero (-1) (by norm_num) _ _ (nests_setInPeekScope _ _) (fun _ => ?_)
       refine nests_cast (by norm_num)
         (nests_bind 1 (-2) (by norm_num) (by norm_num) _ _ nests_beginScope (fun _ => ?_))
       refine nests_bind_zero (-2) (by norm_num) _ _ (nests_setInPeekScope _ _) (fun _ => ?_)
       refine nests_bind_zero (-2) (by norm_num) _ _ (nests_resolveMethods methods) (fun _ => ?_)
       refine nests_cast (by norm_num)
         (nests_bind (-1) (-1) (by norm_num) (by norm_num) _ _ nests_endScope (fun _ => ?_))
       refine nests_cast (by norm_num)
         (nests_bind (-1) 0 (by norm_num) (by norm_num) _ _ nests_endScope (fun _ => ?_))
       exact nests_setCurrentClass _)
  | .function f => by
    rw [resolver.resolveStatement]
    exact nests_seq _ _ (nests_declare _)
      (fun _ => nests_seq _ _ (nests_define _)
        (fun _ => nests_resolveFunctionStmt f _))
  | .block statements => by
    rw [resolver.resolveStatement]
    have h := nests_bind 1 (-1) (by norm_num) (by norm_num) _ _ nests_beginScope (fun _ =>
      nests_bind_zero (-1) (by norm_num) _ _ (nests_resolveStatements statements) (fun _ =>
        nests_endScope))
    simpa using h
  | .var name none => by
    simp only [resolver.resolveStatement]
    exact nests_seq _ _ (nests_declare _)
      (fun _ => nests_seq _ _ (nests_pure _) (fun _ => nests_define _))
  | .var name (some e) => by
    simp only [resolver.resolveStatement]
    exact nests_seq _ _ (nests_declare _)
      (fun _ => nests_seq _ _ (nests_resolveExpression e)
        (fun _ => nests_define _))
theorem nests_resolveStatements :
    ∀ ss : List stmt, Nests 0 (resolver.resolveStatements ss)
  | [] => by
    rw [resolver.resolveStatements]
    exact nests_pure _
  | s :: rest => by
    rw [resolver.resolveStatements]
    exact nests_seq _ _ (nests_resolveStatement s)
      (fun _ => nests_resolveStatements rest)
theorem nests_resolveFunctionStmt :
    ∀ (f : stmtFunction) (t : functionType), Nests 0 (resolver.resolveFunctionStmt f t)
  | .mk params body name, t => by
    rw [resolver.resolveFunctionStmt]
    refine nests_seq _ _ nests_read (fun r => ?_)
    refine nests_seq _ _ (nests_setCurrentFunctionType _) (fun _ => ?_)
    have h := nests_bind 1 (-1) (by norm_num) (by norm_num) _ _ nests_beginScope (fun _ =>
      nests_bind_zero (-1) (by norm_num) _ _ (nests_declareParams params) (fun _ =>
        nests_bind_zero (-1) (by norm_num) _ _ (nests_resolveStatements body) (fun _ =>
          nests_bind (-1) 0 (by norm_num) (by norm_num) _ _ nests_endScope (fun _ =>
            nests_setCurrentFunctionType r.currentFunctionType))))
    simpa using h
theorem nests_resolveMethods :
    ∀ ms : List stmtFunction, Nests 0 (resolver.resolveMethods ms)
  | [] => by
    rw [resolver.resolveMethods]
    exact nests_pure _
  | m :: rest => by
    rw [resolver.resolveMethods]
    exact nests_seq _ _ (nests_resolveFunctionStmt m _)
      (fun _ => nests_resolveMethods rest)
end

/-! ## Declarations and reads in the innermost scope -/

theorem peekScope_eq (r : resolver) (scope : List (String × Bool))
    (h : r.scopes.getLast? = some scope) : resolver.peekScope r = (Res.ok scope, r) := by
  rw [List.getLast?_eq_getElem?] at h
  simp only [resolver.peekScope, h]

theorem isScopeEmpty_of_getLast (r : resolver) (scope : List (String × Bool))
    (h : r.scopes.getLast? = some scope) : r.isScopeEmpty = false := by
  cases hs : r.scopes with
  | nil => simp [hs] at h
  | cons s rest => simp [resolver.isScopeEmpty, hs]

theorem isScopeEmpty_of_nil (r : resolver) (h : r.scopes = []) : r.isScopeEmpty = true := by
  simp [resolver.isScopeEmpty, h]

theorem declare_global (name : token) (r : resolver) (h : r.scopes = []) :
    resolver.declare name r = (Res.ok (), r) := by
  simp only [resolver.declare, isScopeEmpty_of_nil r h, if_true]

theorem declare_again (name : token) (r : resolver) (scope : List (String × Bool)) (b : Bool)
    (h : r.scopes.getLast? = some scope) (hb : mapGet scope name.lexeme = some b) :
    resolver.declare name r =
      (Res.panic (Panic.resolutionError name.line
          "Variable with this name already declared in this scope."),
        { r with inter := { r.inter with hadResolutionError := true } }) := by
  simp only [resolver.declare, isScopeEmpty_of_getLast r scope h, Bool.false_eq_true, if_false,
    bind, Exec.bind, peekScope_eq r scope h, hb, reportResolutionError]

theorem declare_fresh (name : token) (r : resolver) (scope : List (String × Bool))
    (h : r.scopes.getLast? = some scope) (hb : mapGet scope name.lexeme = none) :
    resolver.declare name r =
      (Res.ok (),
        { r with
          scopes := heapSet r.scopes (r.scopes.length - 1) (mapSet scope name.lexeme false) }) := by
  simp only [resolver.declare, isScopeEmpty_of_getLast r scope h, Bool.false_eq_true, if_false,
    bind, Exec.bind, peekScope_eq r scope h, hb, resolver.setInPeekScope]

theorem define_global (name : token) (r : resolver) (h : r.scopes = []) :
    resolver.define name r = (Res.ok (), r) := by
  simp only [resolver.define, isScopeEmpty_of_nil r h, if_true]

theorem getLast_heapSet_last {α : Type} (xs : List α) (x : α) (h : xs ≠ []) :
    (heapSet xs (xs.length - 1) x).getLast? = some x := by
  rw [List.getLast?_eq_getElem?, heapSet_length]
  exact heapSet_get_self xs (xs.length - 1) x
    (Nat.sub_lt (List.length_pos.mpr h) Nat.one_pos)

theorem checkOwnInitializer_global (name : token) (r : resolver) (h : r.scopes = []) :
    resolver.checkOwnInitializer name r = (Res.ok (), r) := by
  simp only [resolver.checkOwnInitializer, isScopeEmpty_of_nil r h, if_true]

theorem checkOwnInitializer_declared (name : token) (r : resolver)
    (scope : List (String × Bool)) (h : r.scopes.getLast? = some scope)
    (hb : mapGet scope name.lexeme = some false) :
    resolver.checkOwnInitializer name r =
      (Res.panic (Panic.resolutionError name.line
          "Cannot read local variable in its own initializer."),
        { r with inter := { r.inter with hadResolutionError := true } }) := by
  simp only [resolver.checkOwnInitializer, isScopeEmpty_of_getLast r scope h,
    Bool.false_eq_true, if_false, bind, Exec.bind, peekScope_eq r scope h, hb,
    reportResolutionError]

theorem checkOwnInitializer_other (name : token) (r : resolver)
    (scope : List (String × Bool)) (h : r.scopes.getLast? = some scope)
    (hb : mapGet scope name.lexeme ≠ some false) :
    resolver.checkOwnInitializer name r = (Res.ok (), r) := by
  simp only [resolver.checkOwnInitializer, isScopeEmpty_of_getLast r scope h,
    Bool.false_eq_true, if_false, bind, Exec.bind, peekScope_eq r scope h]
  rfl

theorem resolveLocal_variable_ok (name : token) (r : resolver) :
    ∃ r1, resolver.resolveLocal (expr.variable name) name r = (Res.ok (), r1) ∧
      r1.scopes = r.scopes ∧
      r1.inter.hadResolutionError = r.inter.hadResolutionError := by
  unfold resolver.resolveLocal
  split
  · exact ⟨r, rfl, rfl, rfl⟩
  · simp only [interpreter.resolveLocal, expr.hashable, if_true]
    exact ⟨_, rfl, rfl, rfl⟩

theorem resolveStatements_append (pre rest : List stmt) (r : resolver) :
    resolver.resolveStatements (pre ++ rest) r =
      match resolver.resolveStatements pre r with
      | (Res.ok _, r1) => resolver.resolveStatements rest r1
      | (Res.panic p, r1) => (Res.panic p, r1) := by
  induction pre generalizing r with
  | nil => simp only [List.nil_append, resolver.resolveStatements, pure, Exec.pure]
  | cons s pre ih =>
    simp only [List.cons_append, resolver.resolveStatements, bind, Exec.bind]
    cases hs : resolver.resolveStatement s r with
    | mk res r1 =>
      cases res with
      | ok u => exact ih r1
      | panic p => rfl

theorem getLast_of_length_pos {α : Type} (xs : List α) (h : 0 < xs.length) :
    ∃ x, xs.getLast? = some x := by
  cases hx : xs.getLast? with
  | none =>
    rw [List.getLast?_eq_none_iff] at hx
    rw [hx] at h
    exact absurd h (by simp)
  | some x => exact ⟨x, rfl⟩

theorem resolve_var_self_local (a : token) (r : resolver) (scope : List (String × Bool))
    (h : r.scopes.getLast? = some scope) :
    (resolver.resolveStatement (stmt.var a (some (expr.variable a))) r).1 =
        Res.panic (Panic.resolutionError a.line
          (if mapGet scope a.lexeme = none
            then "Cannot read local variable in its own initializer."
            else "Variable with this name already declared in this scope.")) ∧
      (resolver.resolveStatement (stmt.var a (some (expr.variable a))) r).2.inter.hadResolutionError
        = true := by
  have hne : r.scopes ≠ [] := by
    intro e
    rw [e] at h
    simp at h
  cases hb : mapGet scope a.lexeme with
  | none =>
    have hc := checkOwnInitializer_declared a
      { r with
        scopes := heapSet r.scopes (r.scopes.length - 1) (mapSet scope a.lexeme false) }
      (mapSet scope a.lexeme false) (getLast_heapSet_last r.scopes _ hne)
      (mapGet_mapSet_self scope a.lexeme false)
    simp only [resolver.resolveStatement, resolver.resolveExpression, bind, Exec.bind,
      declare_fresh a r scope h hb, hc, if_true, and_self]
  | some b =>
    simp only [resolver.resolveStatement, bind, Exec.bind, declare_again a r scope b h hb,
      reduceCtorEq, if_false, and_self]

theorem resolve_var_self_global (a : token) (r : resolver) (h : r.scopes = []) :
    resolver.resolveStatement (stmt.var a (some (expr.variable a))) r = (Res.ok (), r) := by
  simp only [resolver.resolveStatement, resolver.resolveExpression, bind, Exec.bind,
    declare_global a r h, checkOwnInitializer_global a r h, define_global a r h,
    resolver.resolveLocal, h, List.length_nil, resolver.resolveLocalLoop]

theorem resolve_var_self_after (a : token) (pre post : List stmt) (r r1 : resolver)
    (hpre : resolver.resolveStatements pre r = (Res.ok (), r1)) (hr : 0 < r.scopes.length) :
    ∃ message r2,
      resolver.resolveStatements (pre ++ stmt.var a (some (expr.variable a)) :: post) r =
        (Res.panic (Panic.resolutionError a.line message), r2) ∧
      r2.inter.hadResolutionError = true ∧
      (message = "Cannot read local variable in its own initializer." ∨
        message = "Variable with this name already declared in this scope.") := by
  have hd := (nests_resolveStatements pre).depth r r1 () hpre
  have hpos : 0 < r1.scopes.length := by omega
  obtain ⟨scope, hscope⟩ := getLast_of_length_pos r1.scopes hpos
  obtain ⟨h2, hflag⟩ := resolve_var_self_local a r1 scope hscope
  cases hx : resolver.resolveStatement (stmt.var a (some (expr.variable a))) r1 with
  | mk res r2 =>
    rw [hx] at h2 hflag
    simp only at h2 hflag
    subst h2
    refine ⟨if mapGet scope a.lexeme = none
        then "Cannot read local variable in its own initializer."
        else "Variable with this name already declared in this scope.", r2, ?_, hflag, ?_⟩
    · rw [resolveStatements_append, hpre]
      simp only [resolver.resolveStatements, bind, Exec.bind, hx]
    · split
      · exact Or.inl rfl
      · exact Or.inr rfl

theorem block_run (ss : List stmt) (r : resolver) :
    resolver.resolveStatement (stmt.block ss) r =
      match resolver.resolveStatements ss { r with scopes := r.scopes ++ [[]] } with
      | (Res.ok _, r1) => resolver.endScope r1
      | (Res.panic p, r1) => (Res.panic p, r1) := by
  simp only [resolver.resolveStatement, bind, Exec.bind, resolver.beginScope,
    resolver.pushScope]
  cases resolver.resolveStatements ss { r with scopes := r.scopes ++ [[]] } with
  | mk res r1 => cases res <;> rfl

theorem function_run (params : List token) (name : token) (r : resolver) :
    (∃ p r1, ∀ body,
      resolver.resolveStatement (stmt.function (stmtFunction.mk params body name)) r =
        (Res.panic p, r1)) ∨
    (∃ rd t, 0 < rd.scopes.length ∧ ∀ body,
      resolver.resolveStatement (stmt.function (stmtFunction.mk params body name)) r =
        match resolver.resolveStatements body rd with
        | (Res.ok _, re) => (resolver.endScope >>= fun _ => resolver.setCurrentFunctionType t) re
        | (Res.panic p, re) => (Res.panic p, re)) := by
  cases h1 : resolver.declare name r with
  | mk res1 ra =>
    cases res1 with
    | panic p =>
      left
      refine ⟨p, ra, fun body => ?_⟩
      simp only [resolver.resolveStatement, stmtFunction.name, bind, Exec.bind, h1]
    | ok u1 =>
      cases h2 : resolver.define name ra with
      | mk res2 rb =>
        cases res2 with
        | panic p =>
          left
          refine ⟨p, rb, fun body => ?_⟩
          simp only [resolver.resolveStatement, stmtFunction.name, bind, Exec.bind, h1, h2]
        | ok u2 =>
          cases h3 : resolver.declareParams params
              { rb with currentFunctionType := functionTypeFunction,
                        scopes := rb.scopes ++ [[]] } with
          | mk res3 rd =>
            cases res3 with
            | panic p =>
              left
              refine ⟨p, rd, fun body => ?_⟩
              simp only [resolver.resolveStatement, stmtFunction.name, bind, Exec.bind, h1, h2,
                resolver.resolveFunctionStmt, resolver.read, resolver.setCurrentFunctionType,
                resolver.beginScope, resolver.pushScope, h3]
            | ok u3 =>
              right
              refine ⟨rd, rb.currentFunctionType, ?_, fun body => ?_⟩
              · have hd := (nests_declareParams params).depth _ rd u3 h3
                simp only [List.length_append, List.length_singleton, Nat.cast_add,
                  Nat.cast_one, add_zero] at hd
                omega
              · simp only [resolver.resolveStatement, stmtFunction.name, bind, Exec.bind, h1,
                  h2, resolver.resolveFunctionStmt, resolver.read,
                  resolver.setCurrentFunctionType, resolver.beginScope, resolver.pushScope, h3]
                cases resolver.resolveStatements body rd with
                | mk res4 re => cases res4 <;> rfl

theorem block_var_self (a : token) (pre post : List stmt) (r r1 : resolver)
    (hpre : resolver.resolveStatement (stmt.block pre) r = (Res.ok (), r1)) :
    ∃ message r2,
      resolver.resolveStatement
          (stmt.block (pre ++ stmt.var a (some (expr.variable a)) :: post)) r =
        (Res.panic (Panic.resolutionError a.line message), r2) ∧
      r2.inter.hadResolutionError = true ∧
      (message = "Cannot read local variable in its own initializer." ∨
        message = "Variable with this name already declared in this scope.") := by
  rw [block_run] at hpre
  cases hp : resolver.resolveStatements pre { r with scopes := r.scopes ++ [[]] } with
  | mk res r0 =>
    rw [hp] at hpre
    cases res with
    | panic p => simp only [Prod.mk.injEq, reduceCtorEq, false_and] at hpre
    | ok u =>
      obtain ⟨message, r2, h2, hflag, hm⟩ :=
        resolve_var_self_after a pre post { r with scopes := r.scopes ++ [[]] } r0 hp (by simp)
      refine ⟨message, r2, ?_, hflag, hm⟩
      rw [block_run, h2]

theorem function_var_self (a name : token) (params : List token) (pre post : List stmt)
    (r r1 : resolver)
    (hpre : resolver.resolveStatement (stmt.function (stmtFunction.mk params pre name)) r =
      (Res.ok (), r1)) :
    ∃ message r2,
      resolver.resolveStatement (stmt.function
          (stmtFunction.mk params (pre ++ stmt.var a (some (expr.variable a)) :: post) name)) r =
        (Res.panic (Panic.resolutionError a.line message), r2) ∧
      r2.inter.hadResolutionError = true ∧
      (message = "Cannot read local variable in its own initializer." ∨
        message = "Variable with this name already declared in this scope.") := by
  rcases function_run params name r with ⟨p, r', h⟩ | ⟨rd, t, hpos, h⟩
  · rw [h pre] at hpre
    simp only [Prod.mk.injEq, reduceCtorEq, false_and] at hpre
  · rw [h pre] at hpre
    cases hp : resolver.resolveStatements pre rd with
    | mk res r0 =>
      rw [hp] at hpre
      cases res with
      | panic p => simp only [Prod.mk.injEq, reduceCtorEq, false_and] at hpre
      | ok u =>
        obtain ⟨message, r2, h2, hflag, hm⟩ := resolve_var_self_after a pre post rd r0 hp hpos
        refine ⟨message, r2, ?_, hflag, hm⟩
        rw [h, h2]

/-! ## Two declarations of a name in one scope -/

theorem holds_top_iff (r : resolver) (n : String) :
    r.holds (r.scopes.length - 1) n ↔
      ∃ scope, r.scopes.getLast? = some scope ∧ mapGet scope n ≠ none := by
  unfold resolver.holds
  rw [List.getLast?_eq_getElem?]

theorem define_local (name : token) (r : resolver) (scope : List (String × Bool))
    (h : r.scopes.getLast? = some scope) :
    resolver.define name r =
      (Res.ok (),
        { r with
          scopes := heapSet r.scopes (r.scopes.length - 1) (mapSet scope name.lexeme true) }) := by
  simp only [resolver.define, isScopeEmpty_of_getLast r scope h, Bool.false_eq_true, if_false,
    resolver.setInPeekScope, bind, Exec.bind, peekScope_eq r scope h]

theorem ne_nil_of_getLast {α : Type} (xs : List α) (x : α) (h : xs.getLast? = some x) :
    xs ≠ [] := by
  intro e
  rw [e] at h
  simp at h

theorem define_holds (name : token) (r r1 : resolver) (u : Unit) (hne : r.scopes ≠ [])
    (h : resolver.define name r = (Res.ok u, r1)) :
    r1.holds (r.scopes.length - 1) name.lexeme := by
  obtain ⟨scope, hs⟩ := getLast_of_length_pos r.scopes (List.length_pos.mpr hne)
  rw [define_local name r scope hs] at h
  simp only [Prod.mk.injEq] at h
  rw [← h.2]
  refine ⟨mapSet scope name.lexeme true, ?_, ?_⟩
  · exact heapSet_get_self r.scopes _ _ (Nat.sub_lt (List.length_pos.mpr hne) Nat.one_pos)
  · rw [mapGet_mapSet_self]
    simp

theorem declare_held (name : token) (r : resolver)
    (h : r.holds (r.scopes.length - 1) name.lexeme) :
    resolver.declare name r =
      (Res.panic (Panic.resolutionError name.line
          "Variable with this name already declared in this scope."),
        { r with inter := { r.inter with hadResolutionError := true } }) := by
  rw [holds_top_iff] at h
  obtain ⟨scope, hs, hn⟩ := h
  cases hb : mapGet scope name.lexeme with
  | none => exact absurd hb hn
  | some b => exact declare_again name r scope b hs hb

theorem declare_local_cases (name : token) (r : resolver) (hne : r.scopes ≠ []) :
    resolver.declare name r =
        (Res.panic (Panic.resolutionError name.line
            "Variable with this name already declared in this scope."),
          { r with inter := { r.inter with hadResolutionError := true } }) ∨
      ∃ r1, resolver.declare name r = (Res.ok (), r1) := by
  obtain ⟨scope, hs⟩ := getLast_of_length_pos r.scopes (List.length_pos.mpr hne)
  cases hb : mapGet scope name.lexeme with
  | none => exact Or.inr ⟨_, declare_fresh name r scope hs hb⟩
  | some b => exact Or.inl (declare_again name r scope b hs hb)

theorem ne_nil_of_length_eq {α : Type} (xs ys : List α) (h : (ys.length : Int) = xs.length + 0)
    (hne : xs ≠ []) : ys ≠ [] := by
  intro e
  rw [e] at h
  have := List.length_pos.mpr hne
  simp at h
  omega

theorem declare_then_define (name : token) (r ra : resolver) (hne : r.scopes ≠ [])
    (h : resolver.declare name r = (Res.ok (), ra)) :
    ∃ rb, resolver.define name ra = (Res.ok (), rb) ∧ rb.scopes.length = r.scopes.length ∧
      rb.scopes ≠ [] ∧ rb.holds (r.scopes.length - 1) name.lexeme ∧
      ∀ n, r.holds (r.scopes.length - 1) n → rb.holds (r.scopes.length - 1) n := by
  have ha := (nests_declare name).depth r ra () h
  have hane : ra.scopes ≠ [] := ne_nil_of_length_eq _ _ ha hne
  obtain ⟨scope, hs⟩ := getLast_of_length_pos ra.scopes (List.length_pos.mpr hane)
  have hdef := define_local name ra scope hs
  have hb := (nests_define name).depth ra _ () hdef
  have hlen : ra.scopes.length = r.scopes.length := by omega
  have hpos := List.length_pos.mpr hne
  refine ⟨_, hdef, ?_, ?_, ?_, ?_⟩
  · simp only [heapSet_length]
    exact hlen
  · exact ne_nil_of_length_eq _ _ hb hane
  · have hh := define_holds name ra _ () hane hdef
    have e : ra.scopes.length - 1 = r.scopes.length - 1 := by rw [hlen]
    rw [← e]
    exact hh
  · intro n hn
    have h1 := (nests_declare name).names r ra () h (r.scopes.length - 1) n
      (by simp; omega) hn
    exact (nests_define name).names ra _ () hdef (r.scopes.length - 1) n
      (by simp; omega) h1

theorem declareParams_held (params : List token) (n : String) (r : resolver)
    (hne : r.scopes ≠ []) (hn : r.holds (r.scopes.length - 1) n)
    (hmem : n ∈ params.map (fun p => p.lexeme)) :
    ∃ line r1, resolver.declareParams params r =
        (Res.panic (Panic.resolutionError line
          "Variable with this name already declared in this scope."), r1) ∧
      r1.inter.hadResolutionError = true := by
  induction params generalizing r with
  | nil => simp at hmem
  | cons p rest ih =>
    rcases declare_local_cases p r hne with hd | ⟨ra, hd⟩
    · refine ⟨p.line, { r with inter := { r.inter with hadResolutionError := true } }, ?_, rfl⟩
      simp only [resolver.declareParams, bind, Exec.bind, hd]
    · obtain ⟨rb, hdef, hlen, hbne, _, hkeep⟩ := declare_then_define p r ra hne hd
      have hp : p.lexeme ≠ n := by
        intro e
        rw [← e] at hn
        rw [declare_held p r hn] at hd
        simp at hd
      have hmem2 : n ∈ rest.map (fun p => p.lexeme) := by
        simp only [List.map_cons, List.mem_cons] at hmem
        rcases hmem with e | e
        · exact absurd e.symm hp
        · exact e
      have hn2 : rb.holds (rb.scopes.length - 1) n := by
        rw [hlen]
        exact hkeep n hn
      obtain ⟨line, r1, h1, hflag⟩ := ih rb hbne hn2 hmem2
      exact ⟨line, r1, by simp only [resolver.declareParams, bind, Exec.bind, hd, hdef, h1],
        hflag⟩

theorem declareParams_dup (params : List token) (r : resolver) (hne : r.scopes ≠ [])
    (hdup : ¬ (params.map (fun p => p.lexeme)).Nodup) :
    ∃ line r1, resolver.declareParams params r =
        (Res.panic (Panic.resolutionError line
          "Variable with this name already declared in this scope."), r1) ∧
      r1.inter.hadResolutionError = true := by
  induction params generalizing r with
  | nil => simp at hdup
  | cons p rest ih =>
    rcases declare_local_cases p r hne with hd | ⟨ra, hd⟩
    · refine ⟨p.line, { r with inter := { r.inter with hadResolutionError := true } }, ?_, rfl⟩
      simp only [resolver.declareParams, bind, Exec.bind, hd]
    · obtain ⟨rb, hdef, hlen, hbne, hholds, _⟩ := declare_then_define p r ra hne hd
      simp only [List.map_cons, List.nodup_cons, not_and_or, not_not] at hdup
      have hrest : ∃ line r1, resolver.declareParams rest rb =
          (Res.panic (Panic.resolutionError line
            "Variable with this name already declared in this scope."), r1) ∧
          r1.inter.hadResolutionError = true := by
        rcases hdup with hmem | hdup
        · refine declareParams_held rest p.lexeme rb hbne ?_ hmem
          rw [hlen]
          exact hholds
        · exact ih rb hbne hdup
      obtain ⟨line, r1, h1, hflag⟩ := hrest
      exact ⟨line, r1, by simp only [resolver.declareParams, bind, Exec.bind, hd, hdef, h1],
        hflag⟩

theorem declareParams_holds (params : List token) (r r1 : resolver) (hne : r.scopes ≠ [])
    (h : resolver.declareParams params r = (Res.ok (), r1)) :
    ∀ n, (n ∈ params.map (fun p => p.lexeme) ∨ r.holds (r.scopes.length - 1) n) →
      r1.holds (r1.scopes.length - 1) n := by
  induction params generalizing r with
  | nil =>
    intro n hn
    simp only [resolver.declareParams, pure, Exec.pure, Prod.mk.injEq, true_and] at h
    rw [← h]
    simpa using hn
  | cons p rest ih =>
    intro n hn
    rcases declare_local_cases p r hne with hd | ⟨ra, hd⟩
    · simp only [resolver.declareParams, bind, Exec.bind, hd, Prod.mk.injEq, reduceCtorEq,
        false_and] at h
    · obtain ⟨rb, hdef, hlen, hbne, hholds, hkeep⟩ := declare_then_define p r ra hne hd
      simp only [resolver.declareParams, bind, Exec.bind, hd, hdef] at h
      refine ih rb hbne h n ?_
      simp only [List.map_cons, List.mem_cons] at hn
      rw [hlen]
      rcases hn with (e | e) | e
      · right
        rw [e]
        exact hholds
      · left
        exact e
      · right
        exact hkeep n e

theorem classStmt_eq (methods : List stmtFunction) (name : token) (superClass : Option token)
    (r : resolver) :
    resolver.resolveStatement (stmt.classStmt methods name superClass) r =
      (resolver.declare name >>= fun _ => resolver.define name >>= fun _ =>
        resolver.classBody methods name superClass r.currentClass)
        { r with currentClass := classTypeClass } := by
  cases superClass <;>
    simp only [resolver.resolveStatement, resolver.classBody, bind, Exec.bind, resolver.read,
      resolver.setCurrentClass]

theorem nests_classBody (methods : List stmtFunction) (name : token)
    (superClass : Option token) (ec : classType) :
    Nests 0 (resolver.classBody methods name superClass ec) := by
  cases superClass with
  | none =>
    simp only [resolver.classBody]
    refine nests_seq _ _ (nests_pure _) (fun _ => ?_)
    refine nests_seq _ _ (nests_pure _) (fun _ => ?_)
    refine nests_cast (by norm_num)
      (nests_bind 1 (-1) (by norm_num) (by norm_num) _ _ nests_beginScope (fun _ => ?_))
    refine nests_bind_zero (-1) (by norm_num) _ _ (nests_setInPeekScope _ _) (fun _ => ?_)
    refine nests_bind_zero (-1) (by norm_num) _ _ (nests_resolveMethods methods) (fun _ => ?_)
    refine nests_cast (by norm_num)
      (nests_bind (-1) 0 (by norm_num) (by norm_num) _ _ nests_endScope (fun _ => ?_))
    exact nests_seq _ _ (nests_pure _) (fun _ => nests_setCurrentClass _)
  | some sc =>
    simp only [resolver.classBody]
    split <;>
      (first
        | refine nests_seq _ _ (nests_report 0 _ _) (fun _ => ?_)
        | refine nests_seq _ _ (nests_pure _) (fun _ => ?_)) <;>
      (refine nests_seq _ _ (nests_setCurrentClass _) (fun _ => ?_)
       refine nests_seq _ _ (nests_resolveExpression _) (fun _ => ?_)
       refine nests_cast (by norm_num)
         (nests_bind 1 (-1) (by norm_num) (by norm_num) _ _ nests_beginScope (fun _ => ?_))
       refine nests_bind_zero (-1) (by norm_num) _ _ (nests_setInPeekScope _ _) (fun _ => ?_)
       refine nests_cast (by norm_num)
         (nests_bind 1 (-2) (by norm_num) (by norm_num) _ _ nests_beginScope (fun _ => ?_))
       refine nests_bind_zero (-2) (by norm_num) _ _ (nests_setInPeekScope _ _) (fun _ => ?_)
       refine nests_bind_zero (-2) (by norm_num) _ _ (nests_resolveMethods methods)
         (fun _ => ?_)
       refine nests_cast (by norm_num)
         (nests_bind (-1) (-1) (by norm_num) (by norm_num) _ _ nests_endScope (fun _ => ?_))
       refine nests_cast (by norm_num)
         (nests_bind (-1) 0 (by norm_num) (by norm_num) _ _ nests_endScope (fun _ => ?_))
       exact nests_setCurrentClass _)

theorem bind_ok_inv {σ α β : Type} (x : Exec σ α) (f : α → Exec σ β) (s s1 : σ) (b : β)
    (h : (x >>= f) s = (Res.ok b, s1)) :
    ∃ a s0, x s = (Res.ok a, s0) ∧ f a s0 = (Res.ok b, s1) := by
  simp only [bind, Exec.bind] at h
  cases hx : x s with
  | mk res s0 =>
    rw [hx] at h
    cases res with
    | ok a => exact ⟨a, s0, rfl, h⟩
    | panic p => simp only [Prod.mk.injEq, reduceCtorEq, false_and] at h

theorem holds_after_declare_define {β : Type} (name : token) (rest : Exec resolver β)
    (hrest : Nests 0 rest) (r r1 : resolver) (b : β) (hne : r.scopes ≠ [])
    (h : (resolver.declare name >>= fun _ => resolver.define name >>= fun _ => rest) r =
      (Res.ok b, r1)) :
    r1.holds (r.scopes.length - 1) name.lexeme := by
  obtain ⟨_, ra, hd, h2⟩ := bind_ok_inv _ _ r r1 b h
  obtain ⟨rb, hdef, hlen, _, hholds, _⟩ := declare_then_define name r ra hne hd
  obtain ⟨_, rb', hdef', h3⟩ := bind_ok_inv _ _ ra r1 b h2
  rw [hdef] at hdef'
  simp only [Prod.mk.injEq, true_and] at hdef'
  subst hdef'
  have hpos := List.length_pos.mpr hne
  exact hrest.names rb r1 b h3 (r.scopes.length - 1) name.lexeme (by simp; omega) hholds

theorem declaring_holds (s : stmt) (a : token) (r r1 : resolver) (hs : s.declares = some a)
    (hne : r.scopes ≠ []) (h : resolver.resolveStatement s r = (Res.ok (), r1)) :
    r1.holds (r.scopes.length - 1) a.lexeme := by
  match s, hs with
  | .var name none, hs =>
    simp only [stmt.declares, Option.some.injEq] at hs
    subst hs
    simp only [resolver.resolveStatement] at h
    refine holds_after_declare_define name (pure ()) (nests_pure _) r r1 () hne ?_
    obtain ⟨_, ra, hd, h2⟩ := bind_ok_inv _ _ r r1 () h
    simp only [bind, Exec.bind, hd, pure, Exec.pure] at h2 ⊢
    cases hdef : resolver.define name ra with
    | mk res rb =>
      rw [hdef] at h2
      simp only [Prod.mk.injEq] at h2
      simp only [h2.1, h2.2]
  | .var name (some e), hs =>
    simp only [stmt.declares, Option.some.injEq] at hs
    subst hs
    simp only [resolver.resolveStatement] at h
    obtain ⟨_, ra, hd, h2⟩ := bind_ok_inv _ _ r r1 () h
    obtain ⟨_, rb, he, h3⟩ := bind_ok_inv _ _ ra r1 () h2
    have e1 := (nests_declare name).depth r ra () hd
    have e2 := (nests_resolveExpression e).depth ra rb () he
    have hbne : rb.scopes ≠ [] := by
      intro e
      have := List.length_pos.mpr hne
      rw [e] at e2
      simp at e2
      omega
    have hh := define_holds name rb r1 () hbne h3
    have e3 : rb.scopes.length - 1 = r.scopes.length - 1 := by omega
    rw [← e3]
    exact hh
  | .function f, hs =>
    simp only [stmt.declares, Option.some.injEq] at hs
    subst hs
    rw [resolver.resolveStatement] at h
    exact holds_after_declare_define f.name _ (nests_resolveFunctionStmt f _) r r1 () hne h
  | .classStmt methods name superClass, hs =>
    simp only [stmt.declares, Option.some.injEq] at hs
    subst hs
    rw [classStmt_eq] at h
    exact holds_after_declare_define name _ (nests_classBody methods name superClass _)
      { r with currentClass := classTypeClass } r1 () hne h

theorem declaring_held (s : stmt) (a : token) (r : resolver) (hs : s.declares = some a)
    (hheld : r.holds (r.scopes.length - 1) a.lexeme) :
    ∃ r2, resolver.resolveStatement s r =
        (Res.panic (Panic.resolutionError a.line
          "Variable with this name already declared in this scope."), r2) ∧
      r2.inter.hadResolutionError = true := by
  match s, hs with
  | .var name none, hs =>
    simp only [stmt.declares, Option.some.injEq] at hs
    subst hs
    refine ⟨{ r with inter := { r.inter with hadResolutionError := true } }, ?_, rfl⟩
    simp only [resolver.resolveStatement, bind, Exec.bind, declare_held name r hheld]
  | .var name (some e), hs =>
    simp only [stmt.declares, Option.some.injEq] at hs
    subst hs
    refine ⟨{ r with inter := { r.inter with hadResolutionError := true } }, ?_, rfl⟩
    simp only [resolver.resolveStatement, bind, Exec.bind, declare_held name r hheld]
  | .function f, hs =>
    simp only [stmt.declares, Option.some.injEq] at hs
    subst hs
    refine ⟨{ r with inter := { r.inter with hadResolutionError := true } }, ?_, rfl⟩
    simp only [resolver.resolveStatement, bind, Exec.bind, declare_held f.name r hheld]
  | .classStmt methods name superClass, hs =>
    simp only [stmt.declares, Option.some.injEq] at hs
    subst hs
    refine ⟨{ r with currentClass := classTypeClass,
                     inter := { r.inter with hadResolutionError := true } }, ?_, rfl⟩
    rw [classStmt_eq]
    have hd := declare_held name { r with currentClass := classTypeClass } hheld
    simp only [bind, Exec.bind, hd]

theorem declare_cases (name : token) (r : resolver) :
    resolver.declare name r =
        (Res.panic (Panic.resolutionError name.line
            "Variable with this name already declared in this scope."),
          { r with inter := { r.inter with hadResolutionError := true } }) ∨
      ∃ r1, resolver.declare name r = (Res.ok (), r1) := by
  by_cases h : r.scopes = []
  · exact Or.inr ⟨r, declare_global name r h⟩
  · exact declare_local_cases name r h

theorem define_ok (name : token) (r : resolver) :
    ∃ r1, resolver.define name r = (Res.ok (), r1) := by
  by_cases h : r.scopes = []
  · exact ⟨r, define_global name r h⟩
  · obtain ⟨scope, hs⟩ := getLast_of_length_pos r.scopes (List.length_pos.mpr h)
    exact ⟨_, define_local name r scope hs⟩

theorem declareParams_panic (params : List token) (r r1 : resolver) (p : Panic)
    (hne : r.scopes ≠ []) (h : resolver.declareParams params r = (Res.panic p, r1)) :
    ∃ line, p = Panic.resolutionError line
        "Variable with this name already declared in this scope." ∧
      r1.inter.hadResolutionError = true := by
  induction params generalizing r with
  | nil => simp only [resolver.declareParams, pure, Exec.pure, Prod.mk.injEq, reduceCtorEq,
      false_and] at h
  | cons q rest ih =>
    rcases declare_local_cases q r hne with hd | ⟨ra, hd⟩
    · simp only [resolver.declareParams, bind, Exec.bind, hd, Prod.mk.injEq,
        Res.panic.injEq] at h
      exact ⟨q.line, h.1.symm, by rw [← h.2]⟩
    · obtain ⟨rb, hdef, _, hbne, _, _⟩ := declare_then_define q r ra hne hd
      simp only [resolver.declareParams, bind, Exec.bind, hd, hdef] at h
      exact ih rb hbne h

theorem held_after (pre : List stmt) (n : String) (r r1 : resolver)
    (hrun : resolver.resolveStatements pre r = (Res.ok (), r1))
    (hne : r.scopes ≠ []) (hheld : r.holds (r.scopes.length - 1) n) :
    r1.holds (r1.scopes.length - 1) n := by
  have hd := (nests_resolveStatements pre).depth r r1 () hrun
  have hpos := List.length_pos.mpr hne
  have hk := (nests_resolveStatements pre).names r r1 () hrun (r.scopes.length - 1) n
    (by simp; omega) hheld
  have e : r1.scopes.length - 1 = r.scopes.length - 1 := by omega
  rw [e]
  exact hk

theorem declared_after_held (pre post : List stmt) (s2 : stmt) (a2 : token) (r r1 : resolver)
    (hrun : resolver.resolveStatements pre r = (Res.ok (), r1))
    (hne : r.scopes ≠ []) (hheld : r.holds (r.scopes.length - 1) a2.lexeme)
    (h2 : s2.declares = some a2) :
    ∃ r2, resolver.resolveStatements (pre ++ s2 :: post) r =
        (Res.panic (Panic.resolutionError a2.line
          "Variable with this name already declared in this scope."), r2) ∧
      r2.inter.hadResolutionError = true := by
  obtain ⟨r2, hs2, hflag⟩ := declaring_held s2 a2 r1 h2 (held_after pre a2.lexeme r r1 hrun hne hheld)
  refine ⟨r2, ?_, hflag⟩
  rw [resolveStatements_append, hrun]
  simp only [resolver.resolveStatements, bind, Exec.bind, hs2]

theorem resolveStatements_append_ok (pre rest : List stmt) (r r1 : resolver)
    (h : resolver.resolveStatements (pre ++ rest) r = (Res.ok (), r1)) :
    ∃ ra, resolver.resolveStatements pre r = (Res.ok (), ra) ∧
      resolver.resolveStatements rest ra = (Res.ok (), r1) := by
  rw [resolveStatements_append] at h
  cases hp : resolver.resolveStatements pre r with
  | mk res ra =>
    rw [hp] at h
    cases res with
    | ok u => exact ⟨ra, rfl, h⟩
    | panic p => simp only [Prod.mk.injEq, reduceCtorEq, false_and] at h

theorem twice_in_sequence (pre mid post : List stmt) (s1 s2 : stmt) (a1 a2 : token)
    (r r1 : resolver) (hne : r.scopes ≠ []) (h1 : s1.declares = some a1)
    (h2 : s2.declares = some a2) (ha : a1.lexeme = a2.lexeme)
    (hrun : resolver.resolveStatements (pre ++ s1 :: mid) r = (Res.ok (), r1)) :
    ∃ r2, resolver.resolveStatements (pre ++ s1 :: (mid ++ s2 :: post)) r =
        (Res.panic (Panic.resolutionError a2.line
          "Variable with this name already declared in this scope."), r2) ∧
      r2.inter.hadResolutionError = true := by
  obtain ⟨ra, hpre, hrest⟩ := resolveStatements_append_ok pre (s1 :: mid) r r1 hrun
  simp only [resolver.resolveStatements] at hrest
  obtain ⟨_, rb, hs1, hmid⟩ := bind_ok_inv _ _ ra r1 () hrest
  have ea := (nests_resolveStatements pre).depth r ra () hpre
  have eb := (nests_resolveStatement s1).depth ra rb () hs1
  have hane : ra.scopes ≠ [] := ne_nil_of_length_eq _ _ ea hne
  have hbne : rb.scopes ≠ [] := ne_nil_of_length_eq _ _ eb hane
  have hh := declaring_holds s1 a1 ra rb h1 hane hs1
  have e : ra.scopes.length - 1 = rb.scopes.length - 1 := by omega
  rw [e, ha] at hh
  obtain ⟨r2, htail, hflag⟩ := declared_after_held mid post s2 a2 rb r1 hmid hbne hh h2
  refine ⟨r2, ?_, hflag⟩
  rw [resolveStatements_append, hpre]
  simp only [resolver.resolveStatements, bind, Exec.bind, hs1]
  exact htail

theorem block_twice (pre mid post : List stmt) (s1 s2 : stmt) (a1 a2 : token)
    (r r1 : resolver) (h1 : s1.declares = some a1) (h2 : s2.declares = some a2)
    (ha : a1.lexeme = a2.lexeme)
    (hrun : resolver.resolveStatement (stmt.block (pre ++ s1 :: mid)) r = (Res.ok (), r1)) :
    ∃ r2, resolver.resolveStatement (stmt.block (pre ++ s1 :: (mid ++ s2 :: post))) r =
        (Res.panic (Panic.resolutionError a2.line
          "Variable with this name already declared in this scope."), r2) ∧
      r2.inter.hadResolutionError = true := by
  rw [block_run] at hrun
  cases hp : resolver.resolveStatements (pre ++ s1 :: mid)
      { r with scopes := r.scopes ++ [[]] } with
  | mk res r0 =>
    rw [hp] at hrun
    cases res with
    | panic p => simp only [Prod.mk.injEq, reduceCtorEq, false_and] at hrun
    | ok u =>
      obtain ⟨r2, hs2, hflag⟩ := twice_in_sequence pre mid post s1 s2 a1 a2
        { r with scopes := r.scopes ++ [[]] } r0 (by simp) h1 h2 ha hp
      refine ⟨r2, ?_, hflag⟩
      rw [block_run, hs2]

theorem function_run_params (params : List token) (name : token) (r : resolver) :
    (∃ line r1, r1.inter.hadResolutionError = true ∧ ∀ body,
      resolver.resolveStatement (stmt.function (stmtFunction.mk params body name)) r =
        (Res.panic (Panic.resolutionError line
          "Variable with this name already declared in this scope."), r1)) ∨
    (∃ rd t, rd.scopes ≠ [] ∧ (params.map (fun p => p.lexeme)).Nodup ∧
      (∀ n, n ∈ params.map (fun p => p.lexeme) → rd.holds (rd.scopes.length - 1) n) ∧
      ∀ body,
        resolver.resolveStatement (stmt.function (stmtFunction.mk params body name)) r =
          match resolver.resolveStatements body rd with
          | (Res.ok _, re) =>
            (resolver.endScope >>= fun _ => resolver.setCurrentFunctionType t) re
          | (Res.panic p, re) => (Res.panic p, re)) := by
  rcases declare_cases name r with h1 | ⟨ra, h1⟩
  · left
    refine ⟨name.line, { r with inter := { r.inter with hadResolutionError := true } }, rfl,
      fun body => ?_⟩
    simp only [resolver.resolveStatement, stmtFunction.name, bind, Exec.bind, h1]
  · obtain ⟨rb, h2⟩ := define_ok name ra
    have hcne : ({ rb with currentFunctionType := functionTypeFunction,
                           scopes := rb.scopes ++ [[]] } : resolver).scopes ≠ [] := by simp
    cases h3 : resolver.declareParams params
        { rb with currentFunctionType := functionTypeFunction,
                  scopes := rb.scopes ++ [[]] } with
    | mk res3 rd =>
      cases res3 with
      | panic p =>
        left
        obtain ⟨line, hp, hflag⟩ := declareParams_panic params _ rd p hcne h3
        subst hp
        refine ⟨line, rd, hflag, fun body => ?_⟩
        simp only [resolver.resolveStatement, stmtFunction.name, bind, Exec.bind, h1, h2,
          resolver.resolveFunctionStmt, resolver.read, resolver.setCurrentFunctionType,
          resolver.beginScope, resolver.pushScope, h3]
      | ok u3 =>
        right
        refine ⟨rd, rb.currentFunctionType, ?_, ?_, ?_, fun body => ?_⟩
        · have hd := (nests_declareParams params).depth _ rd u3 h3
          exact ne_nil_of_length_eq _ _ hd hcne
        · by_contra hdup
          obtain ⟨line, r1, hp, _⟩ := declareParams_dup params _ hcne hdup
          rw [hp] at h3
          simp only [Prod.mk.injEq, reduceCtorEq, false_and] at h3
        · intro n hn
          exact declareParams_holds params _ rd hcne h3 n (Or.inl hn)
        · simp only [resolver.resolveStatement, stmtFunction.name, bind, Exec.bind, h1,
            h2, resolver.resolveFunctionStmt, resolver.read,
            resolver.setCurrentFunctionType, resolver.beginScope, resolver.pushScope, h3]
          cases resolver.resolveStatements body rd with
          | mk res4 re => cases res4 <;> rfl

theorem function_twice (params : List token) (name : token) (pre mid post : List stmt)
    (s1 s2 : stmt) (a1 a2 : token) (r r1 : resolver) (h1 : s1.declares = some a1)
    (h2 : s2.declares = some a2) (ha : a1.lexeme = a2.lexeme)
    (hrun : resolver.resolveStatement
        (stmt.function (stmtFunction.mk params (pre ++ s1 :: mid) name)) r = (Res.ok (), r1)) :
    ∃ r2, resolver.resolveStatement (stmt.function
          (stmtFunction.mk params (pre ++ s1 :: (mid ++ s2 :: post)) name)) r =
        (Res.panic (Panic.resolutionError a2.line
          "Variable with this name already declared in this scope."), r2) ∧
      r2.inter.hadResolutionError = true := by
  rcases function_run_params params name r with ⟨line, r', _, h⟩ | ⟨rd, t, hne, _, _, h⟩
  · rw [h] at hrun
    simp only [Prod.mk.injEq, reduceCtorEq, false_and] at hrun
  · rw [h] at hrun
    cases hp : resolver.resolveStatements (pre ++ s1 :: mid) rd with
    | mk res r0 =>
      rw [hp] at hrun
      cases res with
      | panic p => simp only [Prod.mk.injEq, reduceCtorEq, false_and] at hrun
      | ok u =>
        obtain ⟨r2, hs2, hflag⟩ :=
          twice_in_sequence pre mid post s1 s2 a1 a2 rd r0 hne h1 h2 ha hp
        refine ⟨r2, ?_, hflag⟩
        rw [h, hs2]

theorem function_param_again (params : List token) (name : token) (pre post : List stmt)
    (s2 : stmt) (a2 : token) (r r1 : resolver) (h2 : s2.declares = some a2)
    (ha : a2.lexeme ∈ params.map (fun p => p.lexeme))
    (hrun : resolver.resolveStatement
        (stmt.function (stmtFunction.mk params pre name)) r = (Res.ok (), r1)) :
    ∃ r2, resolver.resolveStatement (stmt.function
          (stmtFunction.mk params (pre ++ s2 :: post) name)) r =
        (Res.panic (Panic.resolutionError a2.line
          "Variable with this name already declared in this scope."), r2) ∧
      r2.inter.hadResolutionError = true := by
  rcases function_run_params params name r with ⟨line, r', _, h⟩ | ⟨rd, t, hne, _, hheld, h⟩
  · rw [h] at hrun
    simp only [Prod.mk.injEq, reduceCtorEq, false_and] at hrun
  · rw [h] at hrun
    cases hp : resolver.resolveStatements pre rd with
    | mk res r0 =>
      rw [hp] at hrun
      cases res with
      | panic p => simp only [Prod.mk.injEq, reduceCtorEq, false_and] at hrun
      | ok u =>
        obtain ⟨r2, hs2, hflag⟩ :=
          declared_after_held pre post s2 a2 rd r0 hp hne (hheld _ ha) h2
        refine ⟨r2, ?_, hflag⟩
        rw [h, hs2]

theorem function_params_dup (params : List token) (name : token) (body : List stmt)
    (r : resolver) (hdup : ¬ (params.map (fun p => p.lexeme)).Nodup) :
    ∃ line r1, resolver.resolveStatement
          (stmt.function (stmtFunction.mk params body name)) r =
        (Res.panic (Panic.resolutionError line
          "Variable with this name already declared in this scope."), r1) ∧
      r1.inter.hadResolutionError = true := by
  rcases function_run_params params name r with ⟨line, r', hflag, h⟩ | ⟨rd, t, _, hnodup, _, _⟩
  · exact ⟨line, r', h body, hflag⟩
  · exact absurd hnodup hdup

theorem global_var_twice (name : token) (r : resolver) (hr : r.scopes = []) :
    resolver.resolveStatements [stmt.var name none, stmt.var name none] r = (Res.ok (), r) := by
  simp only [resolver.resolveStatements, resolver.resolveStatement, bind, Exec.bind,
    declare_global name r hr, define_global name r hr, pure, Exec.pure]

/-! ## A larger step budget does not change a finished parse -/

theorem prolongs_refl {α : Type} (x : Exec parser α) : Prolongs x x :=
  ⟨fun _ _ _ h _ => h⟩

theorem prolongs_outOfSteps {α : Type} (y : Exec parser α) :
    Prolongs (throwPanic Panic.outOfSteps) y :=
  ⟨fun p p1 r h hr => by
    simp only [throwPanic, Prod.mk.injEq] at h
    exact absurd h.1.symm hr⟩

theorem prolongs_bind {α β : Type} (x y : Exec parser α) (f g : α → Exec parser β)
    (hx : Prolongs x y) (hf : ∀ a, Prolongs (f a) (g a)) : Prolongs (x >>= f) (y >>= g) := by
  constructor
  intro p p1 r h hr
  simp only [bind, Exec.bind] at h ⊢
  cases hxp : x p with
  | mk rx s =>
    rw [hxp] at h
    cases rx with
    | ok a =>
      rw [hx.same p s (Res.ok a) hxp (by simp)]
      exact (hf a).same s p1 r h hr
    | panic e =>
      simp only [Prod.mk.injEq] at h
      obtain ⟨h1, h2⟩ := h
      subst h1 h2
      have he : (Res.panic e : Res α) ≠ Res.panic Panic.outOfSteps := by
        intro c
        apply hr
        simp only [Res.panic.injEq] at c
        rw [c]
      rw [hx.same p s (Res.panic e) hxp he]

theorem parserMono_zero : ParserMono 0 where
  paramsLoop := by
    intro _
    rw [parser.paramsLoop]
    exact prolongs_outOfSteps _
  expression := by
    rw [parser.expression]
    exact prolongs_outOfSteps _
  assignment := by
    rw [parser.assignment]
    exact prolongs_outOfSteps _
  or := by
    rw [parser.or]
    exact prolongs_outOfSteps _
  orLoop := by
    intro _
    rw [parser.orLoop]
    exact prolongs_outOfSteps _
  and := by
    rw [parser.and]
    exact prolongs_outOfSteps _
  andLoop := by
    intro _
    rw [parser.andLoop]
    exact prolongs_outOfSteps _
  declaration := by
    rw [parser.declaration]
    exact prolongs_outOfSteps _
  classDeclaration := by
    rw [parser.classDeclaration]
    exact prolongs_outOfSteps _
  methodsLoop := by
    intro _
    rw [parser.methodsLoop]
    exact prolongs_outOfSteps _
  funDeclaration := by
    intro _
    rw [parser.funDeclaration]
    exact prolongs_outOfSteps _
  statement := by
    rw [parser.statement]
    exact prolongs_outOfSteps _
  returnStatement := by
    rw [parser.returnStatement]
    exact prolongs_outOfSteps _
  forStatement := by
    rw [parser.forStatement]
    exact prolongs_outOfSteps _
  whileStatement := by
    rw [parser.whileStatement]
    exact prolongs_outOfSteps _
  ifStatement := by
    rw [parser.ifStatement]
    exact prolongs_outOfSteps _
  blockStatement := by
    rw [parser.blockStatement]
    exact prolongs_outOfSteps _
  blockLoop := by
    intro _
    rw [parser.blockLoop]
    exact prolongs_outOfSteps _
  printStatement := by
    rw [parser.printStatement]
    exact prolongs_outOfSteps _
  varDeclaration := by
    rw [parser.varDeclaration]
    exact prolongs_outOfSteps _
  expressionStatement := by
    rw [parser.expressionStatement]
    exact prolongs_outOfSteps _
  equality := by
    rw [parser.equality]
    exact prolongs_outOfSteps _
  equalityLoop := by
    intro _
    rw [parser.equalityLoop]
    exact prolongs_outOfSteps _
  comparison := by
    rw [parser.comparison]
    exact prolongs_outOfSteps _
  comparisonLoop := by
    intro _
    rw [parser.comparisonLoop]
    exact prolongs_outOfSteps _
  addition := by
    rw [parser.addition]
    exact prolongs_outOfSteps _
  additionLoop := by
    intro _
    rw [parser.additionLoop]
    exact prolongs_outOfSteps _
  multiplication := by
    rw [parser.multiplication]
    exact prolongs_outOfSteps _
  multiplicationLoop := by
    intro _
    rw [parser.multiplicationLoop]
    exact prolongs_outOfSteps _
  unary := by
    rw [parser.unary]
    exact prolongs_outOfSteps _
  call := by
    rw [parser.call]
    exact prolongs_outOfSteps _
  callLoop := by
    intro _
    rw [parser.callLoop]
    exact prolongs_outOfSteps _
  finishCall := by
    intro _
    rw [parser.finishCall]
    exact prolongs_outOfSteps _
  argsLoop := by
    intro _
    rw [parser.argsLoop]
    exact prolongs_outOfSteps _
  primary := by
    rw [parser.primary]
    exact prolongs_outOfSteps _
  parseLoop := by
    intro _
    rw [parser.parseLoop]
    exact prolongs_outOfSteps _

theorem parserMono_succ (n : Nat) (ih : ParserMono n) : ParserMono (n + 1) where
  paramsLoop := by
    intro _
    rw [parser.paramsLoop, parser.paramsLoop]
    repeat (first
      | with_reducible exact ih.paramsLoop _
      | with_reducible exact prolongs_refl _
      | with_reducible apply prolongs_bind
      | intro _
      | split)
  expression := by
    rw [parser.expression, parser.expression]
    repeat (first
      | with_reducible exact ih.assignment
      | with_reducible exact prolongs_refl _
      | with_reducible apply prolongs_bind
      | intro _
      | split)
  assignment := by
    rw [parser.assignment, parser.assignment]
    repeat (first
      | with_reducible exact ih.or
      | with_reducible exact ih.assignment
      | with_reducible exact prolongs_refl _
      | with_reducible apply prolongs_bind
      | intro _
      | split)
  or := by
    rw [parser.or, parser.or]
    repeat (first
      | with_reducible exact ih.and
      | with_reducible exact ih.orLoop _
      | with_reducible exact prolongs_refl _
      | with_reducible apply prolongs_bind
      | intro _
      | split)
  orLoop := by
    intro _
    rw [parser.orLoop, parser.orLoop]
    repeat (first
      | with_reducible exact ih.and
      | with_reducible exact ih.orLoop _
      | with_reducible exact prolongs_refl _
      | with_reducible apply prolongs_bind
      | intro _
      | split)
  and := by
    rw [parser.and, parser.and]
    repeat (first
      | with_reducible exact ih.equality
      | with_reducible exact ih.andLoop _
      | with_reducible exact prolongs_refl _
      | with_reducible apply prolongs_bind
      | intro _
      | split)
  andLoop := by
    intro _
    rw [parser.andLoop, parser.andLoop]
    repeat (first
      | with_reducible exact ih.equality
      | with_reducible exact ih.andLoop _
      | with_reducible exact prolongs_refl _
      | with_reducible apply prolongs_bind
      | intro _
      | split)
  declaration := by
    rw [parser.declaration, parser.declaration]
    repeat (first
      | with_reducible exact ih.varDeclaration
      | with_reducible exact ih.funDeclaration _
      | with_reducible exact ih.classDeclaration
      | with_reducible exact ih.statement
      | with_reducible exact prolongs_refl _
      | with_reducible apply prolongs_bind
      | intro _
      | split)
  classDeclaration := by
    rw [parser.classDeclaration, parser.classDeclaration]
    repeat (first
      | with_reducible exact ih.methodsLoop _
      | with_reducible exact prolongs_refl _
      | with_reducible apply prolongs_bind
      | intro _
      | split)
  methodsLoop := by
    intro _
    rw [parser.methodsLoop, parser.methodsLoop]
    repeat (first
      | with_reducible exact ih.funDeclaration _
      | with_reducible exact ih.methodsLoop _
      | with_reducible exact prolongs_refl _
      | with_reducible apply prolongs_bind
      | intro _
      | split)
  funDeclaration := by
    intro _
    rw [parser.funDeclaration, parser.funDeclaration]
    repeat (first
      | with_reducible exact ih.paramsLoop _
      | with_reducible exact ih.blockStatement
      | with_reducible exact prolongs_refl _
      | with_reducible apply prolongs_bind
      | intro _
      | split)
  statement := by
    rw [parser.statement, parser.statement]
    repeat (first
      | with_reducible exact ih.printStatement
      | with_reducible exact ih.blockStatement
      | with_reducible exact ih.ifStatement
      | with_reducible exact ih.whileStatement
      | with_reducible exact ih.forStatement
      | with_reducible exact ih.returnStatement
      | with_reducible exact ih.expressionStatement
      | with_reducible exact prolongs_refl _
      | with_reducible apply prolongs_bind
      | intro _
      | split)
  returnStatement := by
    rw [parser.returnStatement, parser.returnStatement]
    repeat (first
      | with_reducible exact ih.expression
      | with_reducible exact prolongs_refl _
      | with_reducible apply prolongs_bind
      | intro _
      | split)
  forStatement := by
    rw [parser.forStatement, parser.forStatement]
    repeat (first
      | with_reducible exact ih.varDeclaration
      | with_reducible exact ih.expressionStatement
      | with_reducible exact ih.expression
      | with_reducible exact ih.statement
      | with_reducible exact prolongs_refl _
      | with_reducible apply prolongs_bind
      | intro _
      | split)
  whileStatement := by
    rw [parser.whileStatement, parser.whileStatement]
    repeat (first
      | with_reducible exact ih.expression
      | with_reducible exact ih.statement
      | with_reducible exact prolongs_refl _
      | with_reducible apply prolongs_bind
      | intro _
      | split)
  ifStatement := by
    rw [parser.ifStatement, parser.ifStatement]
    repeat (first
      | with_reducible exact ih.expression
      | with_reducible exact ih.statement
      | with_reducible exact prolongs_refl _
      | with_reducible apply prolongs_bind
      | intro _
      | split)
  blockStatement := by
    rw [parser.blockStatement, parser.blockStatement]
    repeat (first
      | with_reducible exact ih.blockLoop _
      | with_reducible exact prolongs_refl _
      | with_reducible apply prolongs_bind
      | intro _
      | split)
  blockLoop := by
    intro _
    rw [parser.blockLoop, parser.blockLoop]
    repeat (first
      | with_reducible exact ih.declaration
      | with_reducible exact ih.blockLoop _
      | with_reducible exact prolongs_refl _
      | with_reducible apply prolongs_bind
      | intro _
      | split)
  printStatement := by
    rw [parser.printStatement, parser.printStatement]
    repeat (first
      | with_reducible exact ih.expression
      | with_reducible exact prolongs_refl _
      | with_reducible apply prolongs_bind
      | intro _
      | split)
  varDeclaration := by
    rw [parser.varDeclaration, parser.varDeclaration]
    repeat (first
      | with_reducible exact ih.expression
      | with_reducible exact prolongs_refl _
      | with_reducible apply prolongs_bind
      | intro _
      | split)
  expressionStatement := by
    rw [parser.expressionStatement, parser.expressionStatement]
    repeat (first
      | with_reducible exact ih.expression
      | with_reducible exact prolongs_refl _
      | with_reducible apply prolongs_bind
      | intro _
      | split)
  equality := by
    rw [parser.equality, parser.equality]
    repeat (first
      | with_reducible exact ih.comparison
      | with_reducible exact ih.equalityLoop _
      | with_reducible exact prolongs_refl _
      | with_reducible apply prolongs_bind
      | intro _
      | split)
  equalityLoop := by
    intro _
    rw [parser.equalityLoop, parser.equalityLoop]
    repeat (first
      | with_reducible exact ih.comparison
      | with_reducible exact ih.equalityLoop _
      | with_reducible exact prolongs_refl _
      | with_reducible apply prolongs_bind
      | intro _
      | split)
  comparison := by
    rw [parser.comparison, parser.comparison]
    repeat (first
      | with_reducible exact ih.addition
      | with_reducible exact ih.comparisonLoop _
      | with_reducible exact prolongs_refl _
      | with_reducible apply prolongs_bind
      | intro _
      | split)
  comparisonLoop := by
    intro _
    rw [parser.comparisonLoop, parser.comparisonLoop]
    repeat (first
      | with_reducible exact ih.addition
      | with_reducible exact ih.comparisonLoop _
      | with_reducible exact prolongs_refl _
      | with_reducible apply prolongs_bind
      | intro _
      | split)
  addition := by
    rw [parser.addition, parser.addition]
    repeat (first
      | with_reducible exact ih.multiplication
      | with_reducible exact ih.additionLoop _
      | with_reducible exact prolongs_refl _
      | with_reducible apply prolongs_bind
      | intro _
      | split)
  additionLoop := by
    intro _
    rw [parser.additionLoop, parser.additionLoop]
    repeat (first
      | with_reducible exact ih.multiplication
      | with_reducible exact ih.additionLoop _
      | with_reducible exact prolongs_refl _
      | with_reducible apply prolongs_bind
      | intro _
      | split)
  multiplication := by
    rw [parser.multiplication, parser.multiplication]
    repeat (first
      | with_reducible exact ih.unary
      | with_reducible exact ih.multiplicationLoop _
      | with_reducible exact prolongs_refl _
      | with_reducible apply prolongs_bind
      | intro _
      | split)
  multiplicationLoop := by
    intro _
    rw [parser.multiplicationLoop, parser.multiplicationLoop]
    repeat (first
      | with_reducible exact ih.unary
      | with_reducible exact ih.multiplicationLoop _
      | with_reducible exact prolongs_refl _
      | with_reducible apply prolongs_bind
      | intro _
      | split)
  unary := by
    rw [parser.unary, parser.unary]
    repeat (first
      | with_reducible exact ih.unary
      | with_reducible exact ih.call
      | with_reducible exact prolongs_refl _
      | with_reducible apply prolongs_bind
      | intro _
      | split)
  call := by
    rw [parser.call, parser.call]
    repeat (first
      | with_reducible exact ih.primary
      | with_reducible exact ih.callLoop _
      | with_reducible exact prolongs_refl _
      | with_reducible apply prolongs_bind
      | intro _
      | split)
  callLoop := by
    intro _
    rw [parser.callLoop, parser.callLoop]
    repeat (first
      | with_reducible exact ih.finishCall _
      | with_reducible exact ih.callLoop _
      | with_reducible exact prolongs_refl _
      | with_reducible apply prolongs_bind
      | intro _
      | split)
  finishCall := by
    intro _
    rw [parser.finishCall, parser.finishCall]
    repeat (first
      | with_reducible exact ih.argsLoop _
      | with_reducible exact prolongs_refl _
      | with_reducible apply prolongs_bind
      | intro _
      | split)
  argsLoop := by
    intro _
    rw [parser.argsLoop, parser.argsLoop]
    repeat (first
      | with_reducible exact ih.expression
      | with_reducible exact ih.argsLoop _
      | with_reducible exact prolongs_refl _
      | with_reducible apply prolongs_bind
      | intro _
      | split)
  primary := by
    rw [parser.primary, parser.primary]
    repeat (first
      | with_reducible exact ih.expression
      | with_reducible exact prolongs_refl _
      | with_reducible apply prolongs_bind
      | intro _
      | split)
  parseLoop := by
    intro _
    rw [parser.parseLoop, parser.parseLoop]
    repeat (first
      | with_reducible exact ih.declaration
      | with_reducible exact ih.parseLoop _
      | with_reducible exact prolongs_refl _
      | with_reducible apply prolongs_bind
      | intro _
      | split)

theorem parserMono_all (n : Nat) : ParserMono n := by
  induction n with
  | zero => exact parserMono_zero
  | succ n ih => exact parserMono_succ n ih

theorem prolongs_steps {α : Type} (f : Nat → Exec parser α)
    (h : ∀ n, Prolongs (f n) (f (n + 1))) (n k : Nat) (p p1 : parser) (r : Res α)
    (hrun : f n p = (r, p1)) (hr : r ≠ Res.panic Panic.outOfSteps) :
    f (n + k) p = (r, p1) := by
  induction k with
  | zero => exact hrun
  | succ k ih => exact (h (n + k)).same p p1 r ih hr

theorem prolongs_steps_le {α : Type} (f : Nat → Exec parser α)
    (h : ∀ n, Prolongs (f n) (f (n + 1))) (n m : Nat) (hnm : n ≤ m) (p p1 : parser)
    (r : Res α) (hrun : f n p = (r, p1)) (hr : r ≠ Res.panic Panic.outOfSteps) :
    f m p = (r, p1) := by
  obtain ⟨k, rfl⟩ := Nat.exists_eq_add_of_le hnm
  exact prolongs_steps f h n k p p1 r hrun hr

/-- A parse that ends within `n` steps ends the same way within any larger budget. -/
theorem parse_steps_mono (n k : Nat) (p : parser) (e : Option Panic)
    (he : e ≠ some Panic.outOfSteps) (ss : List stmt) (p1 : parser)
    (h : parser.parse n p = (e, ss, p1)) : parser.parse (n + k) p = (e, ss, p1) := by
  unfold parser.parse at h ⊢
  cases hl : parser.parseLoop n [] p with
  | mk res q =>
    rw [hl] at h
    cases res with
    | ok v =>
      rw [prolongs_steps (fun m => parser.parseLoop m []) (fun m => (parserMono_all m).parseLoop [])
        n k p q (Res.ok v) hl (by simp)]
      exact h
    | panic x =>
      simp only [Prod.mk.injEq] at h
      have hx : (Res.panic x : Res (List stmt)) ≠ Res.panic Panic.outOfSteps := by
        intro c
        simp only [Res.panic.injEq] at c
        apply he
        rw [← h.1, c]
      rw [prolongs_steps (fun m => parser.parseLoop m []) (fun m => (parserMono_all m).parseLoop [])
        n k p q (Res.panic x) hl hx]
      simp only [h.1, h.2]

/-! ## The arguments of a call -/

theorem expression_steps (n m : Nat) (hnm : n ≤ m) (p p1 : parser) (e : expr)
    (h : parser.expression n p = (Res.ok e, p1)) : parser.expression m p = (Res.ok e, p1) :=
  prolongs_steps_le parser.expression (fun k => (parserMono_all k).expression) n m hnm p p1 _ h
    (by simp)

theorem argsLoop_full (n : Nat) (args : List expr) (p : parser) (tk : token)
    (hlen : 255 ≤ args.length) (hpeek : parser.peek p = (Res.ok tk, p)) :
    parser.argsLoop (n + 1) args p =
      (Res.panic (Panic.parseError tk.line (errorPlace tk)
          "Cannot have more than 255 arguments"),
        { p with hadParserError := true }) := by
  have hge : args.length ≥ 255 := hlen
  simp only [parser.argsLoop, hge, if_true, bind, Exec.bind, hpeek, reportParserError,
    errorPlace]

theorem argsLoop_next (n : Nat) (args : List expr) (p : parser) (hlen : args.length < 255) :
    parser.argsLoop (n + 1) args p =
      (parser.expression n >>= fun e => parser.matchTokens [tokenTypeComma] >>= fun m =>
        if !m then pure (args ++ [e]) else parser.argsLoop n (args ++ [e])) p := by
  have hge : ¬ args.length ≥ 255 := by omega
  simp only [parser.argsLoop, hge, if_false, bind, Exec.bind, pure, Exec.pure]

theorem argsLoop_length (n : Nat) : ∀ (args es : List expr) (p q : parser),
    parser.argsLoop n args p = (Res.ok es, q) → es.length ≤ 255 := by
  induction n with
  | zero =>
    intro args es p q h
    simp only [parser.argsLoop, throwPanic, Prod.mk.injEq, reduceCtorEq, false_and] at h
  | succ n ih =>
    intro args es p q h
    by_cases hlen : args.length < 255
    · rw [argsLoop_next n args p hlen] at h
      obtain ⟨e, p1, _, h1⟩ := bind_ok_inv _ _ p q es h
      obtain ⟨m, p2, _, h2⟩ := bind_ok_inv _ _ p1 q es h1
      cases m with
      | false =>
        simp only [Bool.not_false, if_true, pure, Exec.pure, Prod.mk.injEq,
          Res.ok.injEq] at h2
        rw [← h2.1]
        simp only [List.length_append, List.length_singleton]
        omega
      | true =>
        simp only [Bool.not_true, Bool.false_eq_true, if_false] at h2
        exact ih _ es p2 q h2
    · have hge : args.length ≥ 255 := by omega
      simp only [parser.argsLoop, hge, if_true] at h
      obtain ⟨tk, p1, _, h1⟩ := bind_ok_inv _ _ p q es h
      obtain ⟨_, p2, h2, _⟩ := bind_ok_inv _ _ p1 q es h1
      simp only [reportParserError, Prod.mk.injEq, reduceCtorEq, false_and] at h2

theorem argsLoop_report (n : Nat) (p q : parser) (es : List expr) (hrun : ArgsThen n p es q) :
    ∀ (acc : List expr) (tk : token), acc.length + es.length = 255 →
      parser.peek q = (Res.ok tk, q) →
      ∀ k, parser.argsLoop (n + es.length + 1 + k) acc p =
        (Res.panic (Panic.parseError tk.line (errorPlace tk)
            "Cannot have more than 255 arguments"),
          { q with hadParserError := true }) := by
  induction hrun with
  | nil p =>
    intro acc tk hlen hpeek k
    simp only [List.length_nil, Nat.add_zero] at hlen ⊢
    have e : n + 1 + k = (n + k) + 1 := by omega
    rw [e]
    exact argsLoop_full (n + k) acc p tk (by omega) hpeek
  | cons p p1 p2 q e es he hm _ ih =>
    intro acc tk hlen hpeek k
    simp only [List.length_cons] at hlen ⊢
    have e1 : n + (es.length + 1) + 1 + k = (n + es.length + 1 + k) + 1 := by omega
    rw [e1, argsLoop_next _ acc p (by omega)]
    have he' := expression_steps n (n + es.length + 1 + k) (by omega) p p1 e he
    simp only [bind, Exec.bind, he', hm, Bool.not_true, Bool.false_eq_true, if_false]
    exact ih (acc ++ [e]) tk (by simp; omega) hpeek k

theorem argsLoop_read (n : Nat) (p q : parser) (es : List expr) (hrun : ArgsThen n p es q) :
    ∀ (acc : List expr) (e : expr) (q1 : parser), acc.length + es.length < 255 →
      parser.expression n q = (Res.ok e, q1) →
      parser.matchTokens [tokenTypeComma] q1 = (Res.ok false, q1) →
      ∀ k, parser.argsLoop (n + es.length + 1 + k) acc p = (Res.ok (acc ++ es ++ [e]), q1) := by
  induction hrun with
  | nil p =>
    intro acc e q1 hlen he hm k
    simp only [List.length_nil, Nat.add_zero, List.append_nil] at hlen ⊢
    have e1 : n + 1 + k = (n + k) + 1 := by omega
    rw [e1, argsLoop_next _ acc p hlen]
    have he' := expression_steps n (n + k) (by omega) p q1 e he
    simp only [bind, Exec.bind, he', hm, Bool.not_false, if_true, pure, Exec.pure]
  | cons p p1 p2 q e0 es he0 hm0 _ ih =>
    intro acc e q1 hlen he hm k
    simp only [List.length_cons] at hlen ⊢
    have e1 : n + (es.length + 1) + 1 + k = (n + es.length + 1 + k) + 1 := by omega
    rw [e1, argsLoop_next _ acc p (by omega)]
    have he' := expression_steps n (n + es.length + 1 + k) (by omega) p p1 e0 he0
    simp only [bind, Exec.bind, he', hm0, Bool.not_true, Bool.false_eq_true, if_false]
    rw [ih (acc ++ [e0]) e q1 (by simp; omega) he hm k]
    simp only [List.append_assoc, List.singleton_append]

theorem finishCall_report (n : Nat) (callee : expr) (p q : parser) (es : List expr)
    (tk : token) (hcheck : parser.check tokenTypeRightParen p = (Res.ok false, p))
    (hrun : ArgsThen n p es q) (hlen : es.length = 255)
    (hpeek : parser.peek q = (Res.ok tk, q)) (k : Nat) :
    parser.finishCall (n + 257 + k) callee p =
      (Res.panic (Panic.parseError tk.line (errorPlace tk)
          "Cannot have more than 255 arguments"),
        { q with hadParserError := true }) := by
  have e1 : n + 257 + k = (n + es.length + 1 + k) + 1 := by omega
  rw [e1, parser.finishCall]
  simp only [bind, Exec.bind, hcheck, Bool.not_false, if_true,
    argsLoop_report n p q es hrun [] tk (by simp; omega) hpeek k]

theorem finishCall_read (n : Nat) (callee e : expr) (p q q1 q2 : parser) (es : List expr)
    (paren : token) (hcheck : parser.check tokenTypeRightParen p = (Res.ok false, p))
    (hrun : ArgsThen n p es q) (hlen : es.length < 255)
    (he : parser.expression n q = (Res.ok e, q1))
    (hm : parser.matchTokens [tokenTypeComma] q1 = (Res.ok false, q1))
    (hparen : parser.consume tokenTypeRightParen "Expect ')' after arguments." q1 =
      (Res.ok paren, q2)) (k : Nat) :
    parser.finishCall (n + es.length + 2 + k) callee p =
      (Res.ok (expr.call paren (es ++ [e]) callee), q2) := by
  have e1 : n + es.length + 2 + k = (n + es.length + 1 + k) + 1 := by omega
  rw [e1, parser.finishCall]
  have hl := argsLoop_read n p q es hrun [] e q1 (by simp; omega) he hm k
  simp only [List.nil_append] at hl
  simp only [bind, Exec.bind, hcheck, Bool.not_false, if_true, hl, hparen, pure, Exec.pure]

theorem finishCall_length (n : Nat) (callee e : expr) (p q : parser)
    (h : parser.finishCall n callee p = (Res.ok e, q)) :
    ∃ paren args, e = expr.call paren args callee ∧ args.length ≤ 255 := by
  cases n with
  | zero => simp only [parser.finishCall, throwPanic, Prod.mk.injEq, reduceCtorEq,
      false_and] at h
  | succ n =>
    rw [parser.finishCall] at h
    obtain ⟨c, p1, _, h1⟩ := bind_ok_inv _ _ p q e h
    obtain ⟨args, p2, hargs, h2⟩ := bind_ok_inv _ _ p1 q e h1
    obtain ⟨paren, p3, _, h3⟩ := bind_ok_inv _ _ p2 q e h2
    simp only [pure, Exec.pure, Prod.mk.injEq, Res.ok.injEq] at h3
    refine ⟨paren, args, h3.1.symm, ?_⟩
    cases c with
    | false =>
      simp only [Bool.not_false, if_true] at hargs
      exact argsLoop_length n [] args p1 p2 hargs
    | true =>
      simp only [Bool.not_true, Bool.false_eq_true, if_false, pure, Exec.pure, Prod.mk.injEq,
        Res.ok.injEq] at hargs
      rw [← hargs.1]
      simp

/-! ## The for statement -/

theorem forStatement_run (n : Nat) (p p1 p2 p3 p4 p5 p6 p7 : parser) (t1 t2 t3 : token)
    (init : Option stmt) (cond incr : Option expr) (body : stmt)
    (h1 : parser.consume tokenTypeLeftParen "Expect '(' after 'while'." p = (Res.ok t1, p1))
    (hinit : ForInit n p1 init p2)
    (hcond : ForSlot n tokenTypeSemicolon p2 cond p3)
    (h2 : parser.consume tokenTypeSemicolon "Expect ';' after loop condition." p3 =
      (Res.ok t2, p4))
    (hincr : ForSlot n tokenTypeRightParen p4 incr p5)
    (h3 : parser.consume tokenTypeRightParen "Expect ')' after condition" p5 = (Res.ok t3, p6))
    (hbody : parser.statement n p6 = (Res.ok body, p7)) :
    parser.forStatement (n + 1) p = (Res.ok (desugarFor init cond incr body), p7) := by
  have e1 : (parser.matchTokens [tokenTypeSemicolon] >>= fun m1 =>
      (if m1 then pure none
        else do
          let m2 ← parser.matchTokens [tokenTypeVar]
          if m2 then do
            let s ← parser.varDeclaration n
            pure (some s)
          else do
            let s ← parser.expressionStatement n
            pure (some s) : Exec parser (Option stmt))) p1 = (Res.ok init, p2) := by
    rcases hinit with ⟨hi, hm⟩ | ⟨q, s, hm, hv, hs, hi⟩ | ⟨s, hm, hv, hs, hi⟩
    · simp only [bind, Exec.bind, hm, if_true, pure, Exec.pure, hi]
    · simp only [bind, Exec.bind, hm, hv, hs, Bool.false_eq_true, if_false, if_true, pure,
        Exec.pure, hi]
    · simp only [bind, Exec.bind, hm, hv, hs, Bool.false_eq_true, if_false, pure,
        Exec.pure, hi]
  have e2 : (parser.check tokenTypeSemicolon >>= fun c1 =>
      (if !c1 then parser.expression n
        else pure (expr.literal (Literal.bool true)) : Exec parser expr)) p2 =
      (Res.ok (cond.getD (expr.literal (Literal.bool true))), p3) := by
    rcases hcond with ⟨hc, hch, hq⟩ | ⟨c, hch, he, hc⟩
    · simp only [bind, Exec.bind, hch, Bool.not_true, Bool.false_eq_true, if_false, pure,
        Exec.pure, hc, hq, Option.getD_none]
    · simp only [bind, Exec.bind, hch, Bool.not_false, if_true, he, hc, Option.getD_some]
  have e3 : (parser.check tokenTypeRightParen >>= fun c2 =>
      (if !c2 then do
          let e ← parser.expression n
          pure (some e)
        else pure none : Exec parser (Option expr))) p4 = (Res.ok incr, p5) := by
    rcases hincr with ⟨hc, hch, hq⟩ | ⟨c, hch, he, hc⟩
    · simp only [bind, Exec.bind, hch, Bool.not_true, Bool.false_eq_true, if_false, pure,
        Exec.pure, hc, hq]
    · simp only [bind, Exec.bind, hch, Bool.not_false, if_true, he, hc, pure, Exec.pure]
  simp only [bind, Exec.bind] at e1 e2 e3
  rw [parser.forStatement]
  simp only [bind, Exec.bind, h1]
  cases hm1 : parser.matchTokens [tokenTypeSemicolon] p1 with
  | mk r1 s1 =>
    rw [hm1] at e1
    cases r1 with
    | panic x => simp only [Prod.mk.injEq, reduceCtorEq, false_and] at e1
    | ok m1 =>
      simp only at e1 ⊢
      rw [e1]
      simp only
      cases hc1 : parser.check tokenTypeSemicolon p2 with
      | mk r2 s2 =>
        rw [hc1] at e2
        cases r2 with
        | panic x => simp only [Prod.mk.injEq, reduceCtorEq, false_and] at e2
        | ok c1 =>
          simp only at e2 ⊢
          rw [e2]
          simp only [h2]
          cases hc2 : parser.check tokenTypeRightParen p4 with
          | mk r3 s3 =>
            rw [hc2] at e3
            cases r3 with
            | panic x => simp only [Prod.mk.injEq, reduceCtorEq, false_and] at e3
            | ok c2 =>
              simp only at e3 ⊢
              rw [e3]
              simp only [h3, hbody]
              cases init <;> cases incr <;> rfl

/-! ## Precedence and associativity -/

theorem isLevel_or :
    IsLevel parser.or parser.and parser.orLoop [tokenTypeOr] expr.logical :=
  ⟨fun n p => by rw [parser.or], fun n e p => by rw [parser.orLoop],
    fun n => (parserMono_all n).and⟩

theorem isLevel_and :
    IsLevel parser.and parser.equality parser.andLoop [tokenTypeAnd] expr.logical :=
  ⟨fun n p => by rw [parser.and], fun n e p => by rw [parser.andLoop],
    fun n => (parserMono_all n).equality⟩

theorem isLevel_equality :
    IsLevel parser.equality parser.comparison parser.equalityLoop
      [tokenTypeBangEqual, tokenTypeEqualEqual] expr.binary :=
  ⟨fun n p => by rw [parser.equality], fun n e p => by rw [parser.equalityLoop],
    fun n => (parserMono_all n).comparison⟩

theorem isLevel_comparison :
    IsLevel parser.comparison parser.addition parser.comparisonLoop
      [tokenTypeGreater, tokenTypeGreaterEqual, tokenTypeLess, tokenTypeLessEqual]
      expr.binary :=
  ⟨fun n p => by rw [parser.comparison], fun n e p => by rw [parser.comparisonLoop],
    fun n => (parserMono_all n).addition⟩

theorem isLevel_addition :
    IsLevel parser.addition parser.multiplication parser.additionLoop
      [tokenTypeMinus, tokenTypePlus] expr.binary :=
  ⟨fun n p => by rw [parser.addition], fun n e p => by rw [parser.additionLoop],
    fun n => (parserMono_all n).multiplication⟩

theorem isLevel_multiplication :
    IsLevel parser.multiplication parser.unary parser.multiplicationLoop
      [tokenTypeSlash, tokenTypeStar] expr.binary :=
  ⟨fun n p => by rw [parser.multiplication],
    fun n e p => by rw [parser.multiplicationLoop],
    fun n => (parserMono_all n).unary⟩

theorem level_operand {whole operand : Nat → Exec parser expr}
    {loop : Nat → expr → Exec parser expr} {ops : List tokenType}
    {mk : expr → expr → token → expr} (hl : IsLevel whole operand loop ops mk)
    (n m : Nat) (hnm : n ≤ m) (p p1 : parser) (a : expr)
    (h : operand n p = (Res.ok a, p1)) : operand m p = (Res.ok a, p1) :=
  prolongs_steps_le operand hl.operand_mono n m hnm p p1 _ h (by simp)

theorem level_loop_stop {whole operand : Nat → Exec parser expr}
    {loop : Nat → expr → Exec parser expr} {ops : List tokenType}
    {mk : expr → expr → token → expr} (hl : IsLevel whole operand loop ops mk)
    (n : Nat) (e : expr) (p : parser)
    (hm : parser.matchTokens ops p = (Res.ok false, p)) :
    loop (n + 1) e p = (Res.ok e, p) := by
  rw [hl.loop_eq]
  simp only [bind, Exec.bind, hm, Bool.false_eq_true, if_false, pure, Exec.pure]

theorem level_loop_step {whole operand : Nat → Exec parser expr}
    {loop : Nat → expr → Exec parser expr} {ops : List tokenType}
    {mk : expr → expr → token → expr} (hl : IsLevel whole operand loop ops mk)
    (n m : Nat) (hnm : n ≤ m) (e r : expr) (o : token) (p p1 p2 : parser)
    (hm : parser.matchTokens ops p = (Res.ok true, p1))
    (hp : parser.previous p1 = (Res.ok o, p1))
    (hr : operand n p1 = (Res.ok r, p2)) :
    loop (m + 1) e p = loop m (mk e r o) p2 := by
  rw [hl.loop_eq]
  simp only [bind, Exec.bind, hm, if_true, hp, level_operand hl n m hnm p1 p2 r hr]

theorem level_left_assoc {whole operand : Nat → Exec parser expr}
    {loop : Nat → expr → Exec parser expr} {ops : List tokenType}
    {mk : expr → expr → token → expr} (hl : IsLevel whole operand loop ops mk)
    (n : Nat) (p0 p1 p2 p3 p4 p5 : parser) (a b c : expr) (o1 o2 : token)
    (ha : operand n p0 = (Res.ok a, p1))
    (h1 : parser.matchTokens ops p1 = (Res.ok true, p2))
    (ho1 : parser.previous p2 = (Res.ok o1, p2))
    (hb : operand n p2 = (Res.ok b, p3))
    (h2 : parser.matchTokens ops p3 = (Res.ok true, p4))
    (ho2 : parser.previous p4 = (Res.ok o2, p4))
    (hc : operand n p4 = (Res.ok c, p5))
    (h3 : parser.matchTokens ops p5 = (Res.ok false, p5)) (k : Nat) :
    whole (n + 4 + k) p0 = (Res.ok (mk (mk a b o1) c o2), p5) := by
  have e0 : n + 4 + k = (n + 3 + k) + 1 := by omega
  rw [e0, hl.whole_eq]
  simp only [bind, Exec.bind, level_operand hl n (n + 3 + k) (by omega) p0 p1 a ha]
  have e1 : n + 3 + k = (n + 2 + k) + 1 := by omega
  rw [e1, level_loop_step hl n (n + 2 + k) (by omega) a b o1 p1 p2 p3 h1 ho1 hb]
  have e2 : n + 2 + k = (n + 1 + k) + 1 := by omega
  rw [e2, level_loop_step hl n (n + 1 + k) (by omega) _ c o2 p3 p4 p5 h2 ho2 hc]
  have e3 : n + 1 + k = (n + k) + 1 := by omega
  rw [e3, level_loop_stop hl (n + k) _ p5 h3]

theorem level_tighter {whole1 whole2 operand2 : Nat → Exec parser expr}
    {loop1 loop2 : Nat → expr → Exec parser expr} {ops1 ops2 : List tokenType}
    {mk1 mk2 : expr → expr → token → expr}
    (hl1 : IsLevel whole1 whole2 loop1 ops1 mk1)
    (hl2 : IsLevel whole2 operand2 loop2 ops2 mk2)
    (n : Nat) (p0 p1 p2 p3 p4 p5 : parser) (a b c : expr) (o1 o2 : token)
    (ha : operand2 n p0 = (Res.ok a, p1))
    (h0 : parser.matchTokens ops2 p1 = (Res.ok false, p1))
    (h1 : parser.matchTokens ops1 p1 = (Res.ok true, p2))
    (ho1 : parser.previous p2 = (Res.ok o1, p2))
    (hb : operand2 n p2 = (Res.ok b, p3))
    (h2 : parser.matchTokens ops2 p3 = (Res.ok true, p4))
    (ho2 : parser.previous p4 = (Res.ok o2, p4))
    (hc : operand2 n p4 = (Res.ok c, p5))
    (h3 : parser.matchTokens ops2 p5 = (Res.ok false, p5))
    (h4 : parser.matchTokens ops1 p5 = (Res.ok false, p5)) (k : Nat) :
    whole1 (n + 5 + k) p0 = (Res.ok (mk1 a (mk2 b c o2) o1), p5) := by
  have hwa : whole2 (n + 2) p0 = (Res.ok a, p1) := by
    rw [hl2.whole_eq]
    simp only [bind, Exec.bind, level_operand hl2 n (n + 1) (by omega) p0 p1 a ha]
    exact level_loop_stop hl2 n a p1 h0
  have hwb : whole2 (n + 3) p2 = (Res.ok (mk2 b c o2), p5) := by
    rw [hl2.whole_eq]
    simp only [bind, Exec.bind, level_operand hl2 n (n + 2) (by omega) p2 p3 b hb]
    rw [level_loop_step hl2 n (n + 1) (by omega) b c o2 p3 p4 p5 h2 ho2 hc]
    exact level_loop_stop hl2 n _ p5 h3
  have e0 : n + 5 + k = (n + 4 + k) + 1 := by omega
  rw [e0, hl1.whole_eq]
  simp only [bind, Exec.bind, level_operand hl1 (n + 2) (n + 4 + k) (by omega) p0 p1 a hwa]
  have e1 : n + 4 + k = (n + 3 + k) + 1 := by omega
  rw [e1, level_loop_step hl1 (n + 3) (n + 3 + k) (by omega) a _ o1 p1 p2 p5 h1 ho1 hwb]
  have e2 : n + 3 + k = (n + 2 + k) + 1 := by omega
  rw [e2, level_loop_stop hl1 (n + 2 + k) _ p5 h4]

theorem unary_applied (n : Nat) (p0 p1 p2 : parser) (o : token) (a : expr)
    (hm : parser.matchTokens [tokenTypeBang, tokenTypeMinus] p0 = (Res.ok true, p1))
    (ho : parser.previous p1 = (Res.ok o, p1))
    (ha : parser.unary n p1 = (Res.ok a, p2)) (k : Nat) :
    parser.unary (n + 1 + k) p0 = (Res.ok (expr.unary o a), p2) := by
  refine prolongs_steps parser.unary (fun m => (parserMono_all m).unary) (n + 1) k p0 p2 _ ?_
    (by simp)
  rw [parser.unary]
  simp only [bind, Exec.bind, hm, if_true, ho, ha, pure, Exec.pure]

theorem unary_tighter (n : Nat) (p0 p1 p2 p3 p4 : parser) (o o2 : token) (a b : expr)
    (hm : parser.matchTokens [tokenTypeBang, tokenTypeMinus] p0 = (Res.ok true, p1))
    (ho : parser.previous p1 = (Res.ok o, p1))
    (ha : parser.unary n p1 = (Res.ok a, p2))
    (h1 : parser.matchTokens [tokenTypeSlash, tokenTypeStar] p2 = (Res.ok true, p3))
    (ho2 : parser.previous p3 = (Res.ok o2, p3))
    (hb : parser.unary n p3 = (Res.ok b, p4))
    (h2 : parser.matchTokens [tokenTypeSlash, tokenTypeStar] p4 = (Res.ok false, p4))
    (k : Nat) :
    parser.multiplication (n + 4 + k) p0 =
      (Res.ok (expr.binary (expr.unary o a) b o2), p4) := by
  have hu := unary_applied n p0 p1 p2 o a hm ho ha 0
  have e0 : n + 4 + k = (n + 3 + k) + 1 := by omega
  rw [e0, isLevel_multiplication.whole_eq]
  simp only [bind, Exec.bind,
    level_operand isLevel_multiplication (n + 1 + 0) (n + 3 + k) (by omega) p0 p2 _ hu]
  have e1 : n + 3 + k = (n + 2 + k) + 1 := by omega
  rw [e1, level_loop_step isLevel_multiplication n (n + 2 + k) (by omega) _ b o2 p2 p3 p4 h1
    ho2 hb]
  have e2 : n + 2 + k = (n + 1 + k) + 1 := by omega
  rw [e2, level_loop_stop isLevel_multiplication (n + 1 + k) _ p4 h2]

theorem assignment_right_assoc (n : Nat) (p0 p1 p2 p3 p4 p5 : parser) (x y o1 o2 : token)
    (v : expr)
    (hx : parser.or n p0 = (Res.ok (expr.variable x), p1))
    (h1 : parser.matchTokens [tokenTypeEqual] p1 = (Res.ok true, p2))
    (ho1 : parser.previous p2 = (Res.ok o1, p2))
    (hy : parser.or n p2 = (Res.ok (expr.variable y), p3))
    (h2 : parser.matchTokens [tokenTypeEqual] p3 = (Res.ok true, p4))
    (ho2 : parser.previous p4 = (Res.ok o2, p4))
    (hv : parser.assignment n p4 = (Res.ok v, p5)) (k : Nat) :
    parser.assignment (n + 2 + k) p0 =
      (Res.ok (expr.assign x (expr.assign y v)), p5) := by
  have hinner : parser.assignment (n + 1) p2 = (Res.ok (expr.assign y v), p5) := by
    rw [parser.assignment]
    simp only [bind, Exec.bind, hy, h2, if_true, ho2, hv, pure, Exec.pure]
  refine prolongs_steps parser.assignment (fun m => (parserMono_all m).assignment) (n + 2) k
    p0 p5 _ ?_ (by simp)
  rw [parser.assignment]
  have hx' := prolongs_steps parser.or (fun m => (parserMono_all m).or) n 1 p0 p1 _ hx
    (by simp)
  simp only [bind, Exec.bind, hx', h1, if_true, ho1, hinner, pure, Exec.pure]

/-! ## Reading single tokens -/

theorem peek_eq (p : parser) (t : token) (h : p.tokens[p.current]? = some t) :
    parser.peek p = (Res.ok t, p) := by
  simp only [parser.peek, h]

theorem isAtEnd_eq (p : parser) (t : token) (h : p.tokens[p.current]? = some t) :
    parser.isAtEnd p = (Res.ok (decide (t.tt = tokenTypeEOF)), p) := by
  simp only [parser.isAtEnd, bind, Exec.bind, peek_eq p t h, pure, Exec.pure]

theorem check_eq (p : parser) (t : token) (tt : tokenType)
    (h : p.tokens[p.current]? = some t) :
    parser.check tt p =
      (Res.ok (if t.tt = tokenTypeEOF then false else decide (t.tt = tt)), p) := by
  simp only [parser.check, bind, Exec.bind, isAtEnd_eq p t h]
  by_cases e : t.tt = tokenTypeEOF
  · simp only [e, decide_True, if_true, pure, Exec.pure]
  · simp only [e, decide_False, Bool.false_eq_true, if_false, bind, Exec.bind,
      peek_eq p t h, pure, Exec.pure]

theorem matchTokens_none (p : parser) (t : token) (ts : List tokenType)
    (h : p.tokens[p.current]? = some t) (hn : t.tt ∉ ts) :
    parser.matchTokens ts p = (Res.ok false, p) := by
  induction ts with
  | nil => rfl
  | cons x rest ih =>
    simp only [List.mem_cons, not_or] at hn
    simp only [parser.matchTokens, bind, Exec.bind, check_eq p t x h]
    have hx : (if t.tt = tokenTypeEOF then false else decide (t.tt = x)) = false := by
      split
      · rfl
      · simp only [hn.1, decide_False]
    simp only [hx, Bool.false_eq_true, if_false]
    exact ih hn.2

theorem previous_eq (p : parser) (t : token) (h : p.tokens[p.current]? = some t) :
    parser.previous { p with current := p.current + 1 } =
      (Res.ok t, { p with current := p.current + 1 }) := by
  simp only [parser.previous, h]

theorem advance_eq (p : parser) (t : token) (h : p.tokens[p.current]? = some t)
    (hne : t.tt ≠ tokenTypeEOF) :
    parser.advance p = (Res.ok t, { p with current := p.current + 1 }) := by
  simp only [parser.advance, bind, Exec.bind, isAtEnd_eq p t h, hne, decide_False,
    Bool.not_false, if_true, previous_eq p t h]

theorem matchTokens_one (p : parser) (t : token) (tt : tokenType)
    (h : p.tokens[p.current]? = some t) (ht : t.tt = tt) (hne : tt ≠ tokenTypeEOF) :
    parser.matchTokens [tt] p = (Res.ok true, { p with current := p.current + 1 }) := by
  have hne2 : t.tt ≠ tokenTypeEOF := by rw [ht]; exact hne
  have hc : parser.check tt p = (Res.ok true, p) := by
    rw [check_eq p t tt h, if_neg hne2, ht, decide_eq_true rfl]
  simp only [parser.matchTokens, bind, Exec.bind, hc, if_true, advance_eq p t h hne2,
    pure, Exec.pure]

theorem or_identifier (n : Nat) (p : parser) (t t2 : token)
    (h0 : p.tokens[p.current]? = some t) (ht : t.tt = tokenTypeIdentifier)
    (h1 : p.tokens[p.current + 1]? = some t2) (ht2 : t2.tt = tokenTypeComma) :
    parser.or (n + 9) p =
      (Res.ok (expr.variable t), { p with current := p.current + 1 }) := by
  have hq : ({ p with current := p.current + 1 } : parser).tokens[
      ({ p with current := p.current + 1 } : parser).current]? = some t2 := h1
  have none0 : ∀ ts : List tokenType, tokenTypeIdentifier ∉ ts →
      parser.matchTokens ts p = (Res.ok false, p) := by
    intro ts hts
    exact matchTokens_none p t ts h0 (by rw [ht]; exact hts)
  have none1 : ∀ ts : List tokenType, tokenTypeComma ∉ ts →
      parser.matchTokens ts { p with current := p.current + 1 } =
        (Res.ok false, { p with current := p.current + 1 }) := by
    intro ts hts
    exact matchTokens_none _ t2 ts hq (by rw [ht2]; exact hts)
  have hprimary : parser.primary (n + 1) p =
      (Res.ok (expr.variable t), { p with current := p.current + 1 }) := by
    rw [parser.primary]
    simp only [bind, Exec.bind, none0 [tokenTypeFalse] (by decide),
      none0 [tokenTypeTrue] (by decide), none0 [tokenTypeNil] (by decide),
      none0 [tokenTypeNumber, tokenTypeString] (by decide),
      none0 [tokenTypeLeftParen] (by decide), none0 [tokenTypeSuper] (by decide),
      none0 [tokenTypeThis] (by decide),
      matchTokens_one p t tokenTypeIdentifier h0 ht (by decide), previous_eq p t h0,
      Bool.false_eq_true, if_false, if_true, pure, Exec.pure]
  have hcall : parser.call (n + 2) p =
      (Res.ok (expr.variable t), { p with current := p.current + 1 }) := by
    rw [parser.call]
    simp only [bind, Exec.bind, hprimary]
    rw [parser.callLoop]
    simp only [bind, Exec.bind, none1 [tokenTypeLeftParen] (by decide),
      none1 [tokenTypeDot] (by decide), Bool.false_eq_true, if_false, pure, Exec.pure]
  have hunary : parser.unary (n + 3) p =
      (Res.ok (expr.variable t), { p with current := p.current + 1 }) := by
    rw [parser.unary]
    simp only [bind, Exec.bind, none0 [tokenTypeBang, tokenTypeMinus] (by decide),
      Bool.false_eq_true, if_false, hcall]
  have hmul : parser.multiplication (n + 4) p =
      (Res.ok (expr.variable t), { p with current := p.current + 1 }) := by
    rw [(isLevel_multiplication).whole_eq]
    simp only [bind, Exec.bind, hunary]
    exact level_loop_stop isLevel_multiplication _ _ _ (none1 _ (by decide))
  have hadd : parser.addition (n + 5) p =
      (Res.ok (expr.variable t), { p with current := p.current + 1 }) := by
    rw [(isLevel_addition).whole_eq]
    simp only [bind, Exec.bind, hmul]
    exact level_loop_stop isLevel_addition _ _ _ (none1 _ (by decide))
  have hcmp : parser.comparison (n + 6) p =
      (Res.ok (expr.variable t), { p with current := p.current + 1 }) := by
    rw [(isLevel_comparison).whole_eq]
    simp only [bind, Exec.bind, hadd]
    exact level_loop_stop isLevel_comparison _ _ _ (none1 _ (by decide))
  have heq : parser.equality (n + 7) p =
      (Res.ok (expr.variable t), { p with current := p.current + 1 }) := by
    rw [(isLevel_equality).whole_eq]
    simp only [bind, Exec.bind, hcmp]
    exact level_loop_stop isLevel_equality _ _ _ (none1 _ (by decide))
  have hand : parser.and (n + 8) p =
      (Res.ok (expr.variable t), { p with current := p.current + 1 }) := by
    rw [(isLevel_and).whole_eq]
    simp only [bind, Exec.bind, heq]
    exact level_loop_stop isLevel_and _ _ _ (none1 _ (by decide))
  rw [(isLevel_or).whole_eq]
  simp only [bind, Exec.bind, hand]
  exact level_loop_stop isLevel_or _ _ _ (none1 _ (by decide))

/-- An identifier that a comma follows is read as a variable expression. -/
theorem expression_identifier (n : Nat) (p : parser) (t t2 : token)
    (h0 : p.tokens[p.current]? = some t) (ht : t.tt = tokenTypeIdentifier)
    (h1 : p.tokens[p.current + 1]? = some t2) (ht2 : t2.tt = tokenTypeComma) :
    parser.expression (n + 12) p =
      (Res.ok (expr.variable t), { p with current := p.current + 1 }) := by
  have hq : ({ p with current := p.current + 1 } : parser).tokens[
      ({ p with current := p.current + 1 } : parser).current]? = some t2 := h1
  have hor : parser.or (n + 10) p =
      (Res.ok (expr.variable t), { p with current := p.current + 1 }) :=
    or_identifier (n + 1) p t t2 h0 ht h1 ht2
  have hm := matchTokens_none _ t2 [tokenTypeEqual] hq (by rw [ht2]; decide)
  rw [parser.expression, parser.assignment]
  simp only [bind, Exec.bind, hor, hm, Bool.false_eq_true, if_false, pure, Exec.pure]

/-- A panic of `finishCall` in the statement `f(...` ends the parse with that panic and
without statements. -/
theorem parse_of_call_panic (n : Nat) (p : parser) (t t2 : token) (x : Panic) (q : parser)
    (hc : p.current = 0)
    (h0 : p.tokens[0]? = some t) (ht : t.tt = tokenTypeIdentifier)
    (h1 : p.tokens[1]? = some t2) (ht2 : t2.tt = tokenTypeLeftParen)
    (hx : parser.finishCall n (expr.variable t) { p with current := 2 } = (Res.panic x, q)) :
    parser.parse (n + 15) p = (some x, [], q) := by
  have h0' : p.tokens[p.current]? = some t := by rw [hc]; exact h0
  have hp1 : ({ p with current := p.current + 1 } : parser) = { p with current := 1 } := by
    rw [hc]
  have hq : ({ p with current := 1 } : parser).tokens[
      ({ p with current := 1 } : parser).current]? = some t2 := h1
  have none0 : ∀ ts : List tokenType, tokenTypeIdentifier ∉ ts →
      parser.matchTokens ts p = (Res.ok false, p) := by
    intro ts hts
    exact matchTokens_none p t ts h0' (by rw [ht]; exact hts)
  have hm1 : parser.matchTokens [tokenTypeIdentifier] p =
      (Res.ok true, { p with current := 1 }) := by
    rw [← hp1]; exact matchTokens_one p t tokenTypeIdentifier h0' ht (by decide)
  have hprev : parser.previous { p with current := 1 } =
      (Res.ok t, { p with current := 1 }) := by
    rw [← hp1]; exact previous_eq p t h0'
  have hprimary : parser.primary (n + 1) p =
      (Res.ok (expr.variable t), { p with current := 1 }) := by
    rw [parser.primary]
    simp only [bind, Exec.bind, none0 [tokenTypeFalse] (by decide),
      none0 [tokenTypeTrue] (by decide), none0 [tokenTypeNil] (by decide),
      none0 [tokenTypeNumber, tokenTypeString] (by decide),
      none0 [tokenTypeLeftParen] (by decide), none0 [tokenTypeSuper] (by decide),
      none0 [tokenTypeThis] (by decide),
      hm1, hprev, Bool.false_eq_true, if_false, if_true, pure, Exec.pure]
  have hm := matchTokens_one { p with current := 1 } t2 tokenTypeLeftParen hq ht2 (by decide)
  have hcall : parser.call (n + 2) p = (Res.panic x, q) := by
    rw [parser.call]
    simp only [bind, Exec.bind, hprimary]
    rw [parser.callLoop]
    simp only [bind, Exec.bind, hm, if_true, hx]
  have hunary : parser.unary (n + 3) p = (Res.panic x, q) := by
    rw [parser.unary]
    simp only [bind, Exec.bind, none0 [tokenTypeBang, tokenTypeMinus] (by decide),
      Bool.false_eq_true, if_false, hcall]
  have hmul : parser.multiplication (n + 4) p = (Res.panic x, q) := by
    rw [(isLevel_multiplication).whole_eq]
    simp only [bind, Exec.bind, hunary]
  have hadd : parser.addition (n + 5) p = (Res.panic x, q) := by
    rw [(isLevel_addition).whole_eq]
    simp only [bind, Exec.bind, hmul]
  have hcmp : parser.comparison (n + 6) p = (Res.panic x, q) := by
    rw [(isLevel_comparison).whole_eq]
    simp only [bind, Exec.bind, hadd]
  have heq : parser.equality (n + 7) p = (Res.panic x, q) := by
    rw [(isLevel_equality).whole_eq]
    simp only [bind, Exec.bind, hcmp]
  have hand : parser.and (n + 8) p = (Res.panic x, q) := by
    rw [(isLevel_and).whole_eq]
    simp only [bind, Exec.bind, heq]
  have hor : parser.or (n + 9) p = (Res.panic x, q) := by
    rw [(isLevel_or).whole_eq]
    simp only [bind, Exec.bind, hand]
  have hexpr : parser.expression (n + 11) p = (Res.panic x, q) := by
    rw [parser.expression, parser.assignment]
    simp only [bind, Exec.bind, hor]
  have hes : parser.expressionStatement (n + 12) p = (Res.panic x, q) := by
    rw [parser.expressionStatement]
    simp only [bind, Exec.bind, hexpr]
  have hst : parser.statement (n + 13) p = (Res.panic x, q) := by
    rw [parser.statement]
    simp only [bind, Exec.bind, none0 [tokenTypePrint] (by decide),
      none0 [tokenTypeLeftBrace] (by decide), none0 [tokenTypeIf] (by decide),
      none0 [tokenTypeWhile] (by decide), none0 [tokenTypeFor] (by decide),
      none0 [tokenTypeReturn] (by decide), Bool.false_eq_true, if_false, hes]
  have hde : parser.declaration (n + 14) p = (Res.panic x, q) := by
    rw [parser.declaration]
    simp only [bind, Exec.bind, none0 [tokenTypeVar] (by decide),
      none0 [tokenTypeFun] (by decide), none0 [tokenTypeClass] (by decide),
      Bool.false_eq_true, if_false, hst]
  have hloop : parser.parseLoop (n + 15) [] p = (Res.panic x, q) := by
    rw [parser.parseLoop]
    simp only [bind, Exec.bind, isAtEnd_eq p t h0', ht, reduceCtorEq, decide_False,
      Bool.not_false, if_true, hde]
  simp only [parser.parse, hloop]

/-! ## The tokens of a call with many arguments -/

theorem pairs_getElem (x y : token) (tl : List token) (k : Nat) :
    (∀ j, j < k → ((List.replicate k [x, y]).flatten ++ tl)[2 * j]? = some x) ∧
    (∀ j, j < k → ((List.replicate k [x, y]).flatten ++ tl)[2 * j + 1]? = some y) ∧
    (∀ i, ((List.replicate k [x, y]).flatten ++ tl)[2 * k + i]? = tl[i]?) := by
  induction k with
  | zero =>
    refine ⟨fun j hj => absurd hj (Nat.not_lt_zero j), fun j hj => absurd hj (Nat.not_lt_zero j),
      fun i => ?_⟩
    simp
  | succ k ih =>
    have e : (List.replicate (k + 1) [x, y]).flatten ++ tl =
        x :: y :: ((List.replicate k [x, y]).flatten ++ tl) := by
      simp [List.replicate_succ]
    rw [e]
    refine ⟨fun j hj => ?_, fun j hj => ?_, fun i => ?_⟩
    · cases j with
      | zero => rfl
      | succ j =>
        have e2 : 2 * (j + 1) = 2 * j + 1 + 1 := by omega
        rw [e2, List.getElem?_cons_succ, List.getElem?_cons_succ]
        exact ih.1 j (by omega)
    · cases j with
      | zero => simp
      | succ j =>
        have e2 : 2 * (j + 1) + 1 = (2 * j + 1) + 1 + 1 := by omega
        rw [e2, List.getElem?_cons_succ, List.getElem?_cons_succ]
        exact ih.2.1 j (by omega)
    · have e2 : 2 * (k + 1) + i = (2 * k + i) + 1 + 1 := by omega
      rw [e2, List.getElem?_cons_succ, List.getElem?_cons_succ]
      exact ih.2.2 i

theorem manyArguments_first (k : Nat) :
    (manyArgumentsTokens k)[0]? = some (identifier "f" 0) ∧
    (manyArgumentsTokens k)[1]? = some (plainToken tokenTypeLeftParen "(" 0) :=
  ⟨by simp [manyArgumentsTokens], by simp [manyArgumentsTokens]⟩

theorem manyArguments_argument (k j : Nat) (hj : j ≤ k) :
    (manyArgumentsTokens k)[2 + 2 * j]? = some (identifier "a" 0) := by
  have e : 2 + 2 * j = (2 * j) + 1 + 1 := by omega
  rw [e]
  simp only [manyArgumentsTokens, List.cons_append, List.nil_append, List.append_assoc,
    List.getElem?_cons_succ]
  rcases Nat.lt_or_ge j k with h | h
  · exact (pairs_getElem _ _ _ k).1 j h
  · have ejk : j = k := by omega
    subst ejk
    have := (pairs_getElem (identifier "a" 0) (plainToken tokenTypeComma "," 0)
      [identifier "a" 0, plainToken tokenTypeRightParen ")" 0,
        plainToken tokenTypeSemicolon ";" 0, eofToken 0] j).2.2 0
    simpa using this

theorem manyArguments_comma (k j : Nat) (hj : j < k) :
    (manyArgumentsTokens k)[2 + 2 * j + 1]? = some (plainToken tokenTypeComma "," 0) := by
  have e : 2 + 2 * j + 1 = (2 * j + 1) + 1 + 1 := by omega
  rw [e]
  simp only [manyArgumentsTokens, List.cons_append, List.nil_append, List.append_assoc,
    List.getElem?_cons_succ]
  exact (pairs_getElem _ _ _ k).2.1 j hj

/-- Reading the arguments of `manyArgumentsTokens k` from the one with index `j` on: `m`
of them are read, each with its comma. -/
theorem manyArguments_read (k : Nat) (b1 b2 : Bool) (n m : Nat) :
    ∀ j, j + m ≤ k →
      ArgsThen (n + 12)
        { tokens := manyArgumentsTokens k, current := 2 + 2 * j, hadParserError := b1,
          hadRuntimeError := b2 }
        (List.replicate m (expr.variable (identifier "a" 0)))
        { tokens := manyArgumentsTokens k, current := 2 + 2 * (j + m), hadParserError := b1,
          hadRuntimeError := b2 } := by
  induction m with
  | zero => intro j _; exact ArgsThen.nil _
  | succ m ih =>
    intro j hj
    have ha := manyArguments_argument k j (by omega)
    have hc := manyArguments_comma k j (by omega)
    have he := expression_identifier n
      { tokens := manyArgumentsTokens k, current := 2 + 2 * j, hadParserError := b1,
        hadRuntimeError := b2 } _ _ ha rfl hc rfl
    have hm := matchTokens_one
      { tokens := manyArgumentsTokens k, current := 2 + 2 * j + 1, hadParserError := b1,
        hadRuntimeError := b2 } _ tokenTypeComma hc rfl (by decide)
    have e1 : 2 + 2 * j + 1 + 1 = 2 + 2 * (j + 1) := by omega
    have e2 : 2 + 2 * (j + (m + 1)) = 2 + 2 * (j + 1 + m) := by omega
    have hrest := ih (j + 1) (by omega)
    simp only [e1] at hm
    rw [e2]
    exact ArgsThen.cons _ _ _ _ _ _ he hm hrest

theorem check_other (p : parser) (t : token) (tt : tokenType)
    (h : p.tokens[p.current]? = some t) (hne : t.tt ≠ tt) :
    parser.check tt p = (Res.ok false, p) := by
  rw [check_eq p t tt h]
  split
  · rfl
  · rw [decide_eq_false hne]

theorem errorPlace_a : errorPlace (identifier "a" 0) = " at 'a'" := by
  decide

/-- The parse of `f(a, ..., a);` with 256 arguments, traced step by step. -/
theorem manyArguments_parse (k : Nat) :
    parser.parse (300 + k) (newParser (manyArgumentsTokens 255)) =
      (some (Panic.parseError 0 " at 'a'" "Cannot have more than 255 arguments"), [],
        { tokens := manyArgumentsTokens 255, current := 512, hadParserError := true,
          hadRuntimeError := false }) := by
  have hrun := manyArguments_read 255 false false 0 255 0 (by omega)
  have hpeek := peek_eq
    { tokens := manyArgumentsTokens 255, current := 2 + 2 * (0 + 255), hadParserError := false,
      hadRuntimeError := false } _ (manyArguments_argument 255 255 (le_refl _))
  have hcheck := check_other
    { tokens := manyArgumentsTokens 255, current := 2 + 2 * 0, hadParserError := false,
      hadRuntimeError := false } _ tokenTypeRightParen
    (manyArguments_argument 255 0 (by omega)) (by decide)
  have hfin := finishCall_report 12 (expr.variable (identifier "f" 0)) _ _ _ _ hcheck hrun
    (List.length_replicate _ _) hpeek (16 + k)
  rw [errorPlace_a] at hfin
  have e : 300 + k = (12 + 257 + (16 + k)) + 15 := by omega
  rw [e]
  exact parse_of_call_panic _ (newParser (manyArgumentsTokens 255)) _ _ _ _ rfl
    (manyArguments_first 255).1 rfl (manyArguments_first 255).2 rfl hfin

/-! ## The function kind and the class kind during resolution -/

theorem placedAt_cast {α : Type} {k : Placement} {f f1 : functionType} {c c1 : classType}
    {b b1 : Bool} {x : Exec resolver α} (h : b = b1) (hx : PlacedAt k f c f1 c1 b x) :
    PlacedAt k f c f1 c1 b1 x :=
  h ▸ hx

theorem placedAt_bind {α β : Type} {k : Placement} {f f1 f2 : functionType}
    {c c1 c2 : classType} {b1 b2 : Bool} (x : Exec resolver α) (g : α → Exec resolver β)
    (hx : PlacedAt k f c f1 c1 b1 x) (hg : ∀ a, PlacedAt k f1 c1 f2 c2 b2 (g a)) :
    PlacedAt k f c f2 c2 (b1 || b2) (x >>= g) := by
  constructor
  · intro r r1 a hf hc h
    simp only [bind, Exec.bind] at h
    cases hxr : x r with
    | mk rx s =>
      rw [hxr] at h
      cases rx with
      | ok v =>
        have e := hx.kinds r s v hf hc hxr
        exact (hg v).kinds s r1 a e.1 e.2 h
      | panic p => simp only [Prod.mk.injEq, reduceCtorEq, false_and] at h
  · intro r r1 a hf hc h
    simp only [bind, Exec.bind] at h
    cases hxr : x r with
    | mk rx s =>
      rw [hxr] at h
      cases rx with
      | ok v =>
        have e := hx.kinds r s v hf hc hxr
        rw [hx.accepted r s v hf hc hxr, (hg v).accepted s r1 a e.1 e.2 h]
        rfl
      | panic p => simp only [Prod.mk.injEq, reduceCtorEq, false_and] at h
  · intro r r1 p hf hc h hp
    simp only [bind, Exec.bind] at h
    cases hxr : x r with
    | mk rx s =>
      rw [hxr] at h
      cases rx with
      | ok v =>
        have e := hx.kinds r s v hf hc hxr
        rw [(hg v).reported s r1 p e.1 e.2 h hp]
        exact Bool.or_true _
      | panic q =>
        simp only [Prod.mk.injEq, Res.panic.injEq] at h
        rw [hx.reported r s q hf hc hxr (by rw [h.1]; exact hp)]
        exact Bool.true_or _

theorem placedAt_after {α β : Type} {k : Placement} {f f1 f2 : functionType}
    {c c1 c2 : classType} {b : Bool} (x : Exec resolver α) (g : α → Exec resolver β)
    (hx : PlacedAt k f c f1 c1 false x) (hg : ∀ a, PlacedAt k f1 c1 f2 c2 b (g a)) :
    PlacedAt k f c f2 c2 b (x >>= g) :=
  placedAt_cast (Bool.false_or b) (placedAt_bind x g hx hg)

theorem placedAt_before {α β : Type} {k : Placement} {f f1 f2 : functionType}
    {c c1 c2 : classType} {b : Bool} (x : Exec resolver α) (g : α → Exec resolver β)
    (hx : PlacedAt k f c f1 c1 b x) (hg : ∀ a, PlacedAt k f1 c1 f2 c2 false (g a)) :
    PlacedAt k f c f2 c2 b (x >>= g) :=
  placedAt_cast (Bool.or_false b) (placedAt_bind x g hx hg)

theorem placedAt_quiet {α : Type} (k : Placement) (f : functionType) (c : classType)
    (x : Exec resolver α)
    (hk : ∀ (r r1 : resolver) (a : α), x r = (Res.ok a, r1) →
      r1.currentFunctionType = r.currentFunctionType ∧ r1.currentClass = r.currentClass)
    (hp : ∀ (r r1 : resolver) (p : Panic), x r = (Res.panic p, r1) → p.reports k = false) :
    PlacedAt k f c f c false x :=
  ⟨fun r r1 a hf hc h => by
    have e := hk r r1 a h
    exact ⟨e.1.trans hf, e.2.trans hc⟩,
   fun _ _ _ _ _ _ => rfl,
   fun r r1 p _ _ h hrep => by
    rw [hp r r1 p h] at hrep
    exact hrep⟩

theorem placedAt_pure {α : Type} (k : Placement) (f : functionType) (c : classType) (a : α) :
    PlacedAt k f c f c false (pure a : Exec resolver α) :=
  placedAt_quiet k f c _
    (fun r r1 b h => by
      simp only [pure, Exec.pure, Prod.mk.injEq] at h
      rw [← h.2]
      exact ⟨rfl, rfl⟩)
    (fun r r1 p h => by
      simp only [pure, Exec.pure, Prod.mk.injEq, reduceCtorEq, false_and] at h)

theorem placedAt_report {α : Type} (k : Placement) (f f1 : functionType) (c c1 : classType)
    (b : Bool) (t : token) (message : String)
    (h : message ∈ k.messages → b = true) :
    PlacedAt k f c f1 c1 b (reportResolutionError t message : Exec resolver α) :=
  ⟨fun r r1 a _ _ hx => by
    simp only [reportResolutionError, Prod.mk.injEq, reduceCtorEq, false_and] at hx,
   fun r r1 a _ _ hx => by
    simp only [reportResolutionError, Prod.mk.injEq, reduceCtorEq, false_and] at hx,
   fun r r1 p _ _ hx hp => by
    simp only [reportResolutionError, Prod.mk.injEq, Res.panic.injEq] at hx
    rw [← hx.1] at hp
    simp only [Panic.reports, decide_eq_true_eq] at hp
    exact h hp⟩

theorem placedAt_report_bind {β : Type} (k : Placement) (f f1 : functionType)
    (c c1 : classType) (b : Bool) (t : token) (message : String)
    (g : Unit → Exec resolver β) (h : message ∈ k.messages → b = true) :
    PlacedAt k f c f1 c1 b ((reportResolutionError t message : Exec resolver Unit) >>= g) :=
  ⟨fun r r1 a _ _ hx => by
    simp only [bind, Exec.bind, reportResolutionError, Prod.mk.injEq, reduceCtorEq,
      false_and] at hx,
   fun r r1 a _ _ hx => by
    simp only [bind, Exec.bind, reportResolutionError, Prod.mk.injEq, reduceCtorEq,
      false_and] at hx,
   fun r r1 p _ _ hx hp => by
    simp only [bind, Exec.bind, reportResolutionError, Prod.mk.injEq, Res.panic.injEq] at hx
    rw [← hx.1] at hp
    simp only [Panic.reports, decide_eq_true_eq] at hp
    exact h hp⟩

theorem placedAt_read {β : Type} {k : Placement} {f f2 : functionType} {c c2 : classType}
    {b : Bool} (g : resolver → Exec resolver β)
    (hg : ∀ r0 : resolver, r0.currentFunctionType = f → r0.currentClass = c →
      PlacedAt k f c f2 c2 b (g r0)) :
    PlacedAt k f c f2 c2 b (resolver.read >>= g) :=
  ⟨fun r r1 a hf hc h => (hg r hf hc).kinds r r1 a hf hc h,
   fun r r1 a hf hc h => (hg r hf hc).accepted r r1 a hf hc h,
   fun r r1 p hf hc h hp => (hg r hf hc).reported r r1 p hf hc h hp⟩

theorem placedAt_setCurrentFunctionType (k : Placement) (f t : functionType)
    (c : classType) : PlacedAt k f c t c false (resolver.setCurrentFunctionType t) :=
  ⟨fun r r1 a _ hc h => by
    simp only [resolver.setCurrentFunctionType, Prod.mk.injEq] at h
    rw [← h.2]
    exact ⟨rfl, hc⟩,
   fun _ _ _ _ _ _ => rfl,
   fun r r1 p _ _ h _ => by
    simp only [resolver.setCurrentFunctionType, Prod.mk.injEq, reduceCtorEq, false_and] at h⟩

theorem placedAt_setCurrentClass (k : Placement) (f : functionType) (c t : classType) :
    PlacedAt k f c f t false (resolver.setCurrentClass t) :=
  ⟨fun r r1 a hf _ h => by
    simp only [resolver.setCurrentClass, Prod.mk.injEq] at h
    rw [← h.2]
    exact ⟨hf, rfl⟩,
   fun _ _ _ _ _ _ => rfl,
   fun r r1 p _ _ h _ => by
    simp only [resolver.setCurrentClass, Prod.mk.injEq, reduceCtorEq, false_and] at h⟩

theorem placedAt_pushScope (k : Placement) (f : functionType) (c : classType)
    (scope : List (String × Bool)) : PlacedAt k f c f c false (resolver.pushScope scope) :=
  placedAt_quiet k f c _
    (fun r r1 a h => by
      simp only [resolver.pushScope, Prod.mk.injEq] at h
      rw [← h.2]
      exact ⟨rfl, rfl⟩)
    (fun r r1 p h => by
      simp only [resolver.pushScope, Prod.mk.injEq, reduceCtorEq, false_and] at h)

theorem placedAt_beginScope (k : Placement) (f : functionType) (c : classType) :
    PlacedAt k f c f c false resolver.beginScope :=
  placedAt_pushScope k f c []

theorem placedAt_endScope (k : Placement) (f : functionType) (c : classType) :
    PlacedAt k f c f c false resolver.endScope :=
  placedAt_quiet k f c _
    (fun r r1 a h => by
      simp only [resolver.endScope, resolver.popScope] at h
      split at h
      · simp only [Prod.mk.injEq, reduceCtorEq, false_and] at h
      · simp only [Prod.mk.injEq] at h
        rw [← h.2]
        exact ⟨rfl, rfl⟩)
    (fun r r1 p h => by
      simp only [resolver.endScope, resolver.popScope] at h
      split at h
      · simp only [Prod.mk.injEq, Res.panic.injEq] at h
        rw [← h.1]
        rfl
      · simp only [Prod.mk.injEq, reduceCtorEq, false_and] at h)

theorem placedAt_peekScope (k : Placement) (f : functionType) (c : classType) :
    PlacedAt k f c f c false resolver.peekScope :=
  placedAt_quiet k f c _
    (fun r r1 a h => by
      simp only [resolver.peekScope] at h
      split at h
      · simp only [Prod.mk.injEq, reduceCtorEq, false_and] at h
      · simp only [Prod.mk.injEq] at h
        rw [← h.2]
        exact ⟨rfl, rfl⟩)
    (fun r r1 p h => by
      simp only [resolver.peekScope] at h
      split at h
      · simp only [Prod.mk.injEq, Res.panic.injEq] at h
        rw [← h.1]
        rfl
      · simp only [Prod.mk.injEq, reduceCtorEq, false_and] at h)

theorem placedAt_setInPeekScope (k : Placement) (f : functionType) (c : classType)
    (name : String) (v : Bool) : PlacedAt k f c f c false (resolver.setInPeekScope name v) := by
  unfold resolver.setInPeekScope
  refine placedAt_after _ _ (placedAt_peekScope k f c) (fun p => ?_)
  exact placedAt_quiet k f c _
    (fun r r1 a h => by
      simp only [Prod.mk.injEq] at h
      rw [← h.2]
      exact ⟨rfl, rfl⟩)
    (fun r r1 q h => by
      simp only [Prod.mk.injEq, reduceCtorEq, false_and] at h)

theorem not_mem_messages_declared (k : Placement) :
    "Variable with this name already declared in this scope." ∉ k.messages := by
  cases k <;> decide

theorem not_mem_messages_own (k : Placement) :
    "Cannot read local variable in its own initializer." ∉ k.messages := by
  cases k <;> decide

theorem not_mem_messages_itself (k : Placement) :
    "A class cannot inherit from itself." ∉ k.messages := by
  cases k <;> decide

theorem placedAt_declare (k : Placement) (f : functionType) (c : classType) (name : token) :
    PlacedAt k f c f c false (resolver.declare name) := by
  constructor
  · intro r r1 a hf hc h
    unfold resolver.declare at h
    split at h
    · simp only [Prod.mk.injEq] at h
      rw [← h.2]
      exact ⟨hf, hc⟩
    · refine (@placedAt_after _ _ k f f f c c c false _ _ (placedAt_peekScope k f c)
        (fun p => ?_)).kinds r r1 a hf hc h
      split
      · exact placedAt_report k f f c c false _ _
          (fun hm => absurd hm (not_mem_messages_declared k))
      · exact placedAt_setInPeekScope k f c _ _
  · intro _ _ _ _ _ _
    rfl
  · intro r r1 p hf hc h hp
    unfold resolver.declare at h
    split at h
    · simp only [Prod.mk.injEq, reduceCtorEq, false_and] at h
    · refine (@placedAt_after _ _ k f f f c c c false _ _ (placedAt_peekScope k f c)
        (fun p => ?_)).reported r r1 p hf hc h hp
      split
      · exact placedAt_report k f f c c false _ _
          (fun hm => absurd hm (not_mem_messages_declared k))
      · exact placedAt_setInPeekScope k f c _ _

theorem placedAt_define (k : Placement) (f : functionType) (c : classType) (name : token) :
    PlacedAt k f c f c false (resolver.define name) := by
  constructor
  · intro r r1 a hf hc h
    unfold resolver.define at h
    split at h
    · simp only [Prod.mk.injEq] at h
      rw [← h.2]
      exact ⟨hf, hc⟩
    · exact (placedAt_setInPeekScope k f c _ _).kinds r r1 a hf hc h
  · intro _ _ _ _ _ _
    rfl
  · intro r r1 p hf hc h hp
    unfold resolver.define at h
    split at h
    · simp only [Prod.mk.injEq, reduceCtorEq, false_and] at h
    · exact (placedAt_setInPeekScope k f c _ _).reported r r1 p hf hc h hp

theorem placedAt_resolveLocal (k : Placement) (f : functionType) (c : classType) (e : expr)
    (name : token) : PlacedAt k f c f c false (resolver.resolveLocal e name) :=
  placedAt_quiet k f c _
    (fun r r1 a h => by
      unfold resolver.resolveLocal at h
      split at h
      · simp only [Prod.mk.injEq] at h
        rw [← h.2]
        exact ⟨rfl, rfl⟩
      · simp only [Prod.mk.injEq] at h
        rw [← h.2]
        exact ⟨rfl, rfl⟩)
    (fun r r1 p h => by
      unfold resolver.resolveLocal at h
      split at h
      · simp only [Prod.mk.injEq, reduceCtorEq, false_and] at h
      · rename_i depth _
        simp only [interpreter.resolveLocal, Prod.mk.injEq] at h
        split at h
        · simp only [reduceCtorEq, false_and] at h
        · simp only [Res.panic.injEq] at h
          rw [← h.1]
          rfl)

theorem placedAt_checkOwnInitializer (k : Placement) (f : functionType) (c : classType)
    (name : token) : PlacedAt k f c f c false (resolver.checkOwnInitializer name) := by
  constructor
  · intro r r1 a hf hc h
    unfold resolver.checkOwnInitializer at h
    split at h
    · simp only [Prod.mk.injEq] at h
      rw [← h.2]
      exact ⟨hf, hc⟩
    · refine (@placedAt_after _ _ k f f f c c c false _ _ (placedAt_peekScope k f c)
        (fun p => ?_)).kinds r r1 a hf hc h
      split
      · exact placedAt_report k f f c c false _ _
          (fun hm => absurd hm (not_mem_messages_own k))
      · exact placedAt_pure k f c _
  · intro _ _ _ _ _ _
    rfl
  · intro r r1 p hf hc h hp
    unfold resolver.checkOwnInitializer at h
    split at h
    · simp only [Prod.mk.injEq, reduceCtorEq, false_and] at h
    · refine (@placedAt_after _ _ k f f f c c c false _ _ (placedAt_peekScope k f c)
        (fun p => ?_)).reported r r1 p hf hc h hp
      split
      · exact placedAt_report k f f c c false _ _
          (fun hm => absurd hm (not_mem_messages_own k))
      · exact placedAt_pure k f c _

theorem placedAt_declareParams (k : Placement) (f : functionType) (c : classType)
    (params : List token) : PlacedAt k f c f c false (resolver.declareParams params) := by
  induction params with
  | nil => exact placedAt_pure k f c _
  | cons p rest ih =>
    unfold resolver.declareParams
    exact placedAt_after _ _ (placedAt_declare k f c p)
      (fun _ => placedAt_after _ _ (placedAt_define k f c p) (fun _ => ih))

mutual
theorem placedAt_resolveExpression (k : Placement) (f : functionType) (c : classType) :
    ∀ e : expr, PlacedAt k f c f c (e.misplaced k c) (resolver.resolveExpression e)
  | .binary left right _ => by
    rw [resolver.resolveExpression, expr.misplaced]
    exact placedAt_bind _ _ (placedAt_resolveExpression k f c left)
      (fun _ => placedAt_resolveExpression k f c right)
  | .grouping exp => by
    rw [resolver.resolveExpression, expr.misplaced]
    exact placedAt_resolveExpression k f c exp
  | .literal _ => by
    rw [resolver.resolveExpression, expr.misplaced]
    exact placedAt_pure k f c _
  | .unary _ right => by
    rw [resolver.resolveExpression, expr.misplaced]
    exact placedAt_resolveExpression k f c right
  | .logical left right _ => by
    rw [resolver.resolveExpression, expr.misplaced]
    exact placedAt_bind _ _ (placedAt_resolveExpression k f c left)
      (fun _ => placedAt_resolveExpression k f c right)
  | .call _ args callee => by
    rw [resolver.resolveExpression, expr.misplaced]
    exact placedAt_bind _ _ (placedAt_resolveExpression k f c callee)
      (fun _ => placedAt_resolveExpressions k f c args)
  | .assign name value => by
    rw [resolver.resolveExpression, expr.misplaced]
    exact placedAt_before _ _ (placedAt_resolveExpression k f c value)
      (fun _ => placedAt_resolveLocal k f c _ _)
  | .get _ obj => by
    rw [resolver.resolveExpression, expr.misplaced]
    exact placedAt_resolveExpression k f c obj
  | .set _ obj value => by
    rw [resolver.resolveExpression, expr.misplaced]
    exact placedAt_bind _ _ (placedAt_resolveExpression k f c obj)
      (fun _ => placedAt_resolveExpression k f c value)
  | .this name => by
    rw [resolver.resolveExpression, expr.misplaced]
    refine placedAt_read _ (fun r0 _ hc => ?_)
    dsimp only
    rw [hc]
    split
    · rename_i hcn
      refine placedAt_before _ _ (placedAt_report k f f c c _ _ _ (fun hm => ?_))
        (fun _ => placedAt_resolveLocal k f c _ _)
      cases k <;> first | exact absurd hm (by decide) | simp [hcn]
    · rename_i hcn
      refine placedAt_cast ?_ (placedAt_after _ _ (placedAt_pure k f c _)
        (fun _ => placedAt_resolveLocal k f c _ _))
      simp [hcn]
  | .super keyword method => by
    rw [resolver.resolveExpression, expr.misplaced]
    refine placedAt_read _ (fun r0 _ hc => ?_)
    dsimp only
    rw [hc]
    split
    · refine placedAt_before _ _ (placedAt_report k f f _ _ _ _ _ (fun hm => ?_))
        (fun _ => placedAt_resolveLocal k f _ _ _)
      cases k <;> first | exact absurd hm (by decide) | simp
    · refine placedAt_before _ _ (placedAt_report k f f _ _ _ _ _ (fun hm => ?_))
        (fun _ => placedAt_resolveLocal k f _ _ _)
      cases k <;> first | exact absurd hm (by decide) | simp
    · refine placedAt_cast ?_ (placedAt_after _ _ (placedAt_pure k f _ _)
        (fun _ => placedAt_resolveLocal k f _ _ _))
      simp
  | .variable name => by
    rw [resolver.resolveExpression, expr.misplaced]
    exact placedAt_after _ _ (placedAt_checkOwnInitializer k f c _)
      (fun _ => placedAt_resolveLocal k f c _ _)
theorem placedAt_resolveExpressions (k : Placement) (f : functionType) (c : classType) :
    ∀ es : List expr,
      PlacedAt k f c f c (expr.misplacedList k c es) (resolver.resolveExpressions es)
  | [] => by
    rw [resolver.resolveExpressions, expr.misplacedList]
    exact placedAt_pure k f c _
  | a :: rest => by
    rw [resolver.resolveExpressions, expr.misplacedList]
    exact placedAt_bind _ _ (placedAt_resolveExpression k f c a)
      (fun _ => placedAt_resolveExpressions k f c rest)
end

mutual
theorem placedAt_resolveStatement (k : Placement) :
    ∀ (s : stmt) (f : functionType) (c : classType),
      PlacedAt k f c f c (s.misplaced k f c) (resolver.resolveStatement s)
  | .expression e, f, c => by
    rw [resolver.resolveStatement, stmt.misplaced]
    exact placedAt_resolveExpression k f c e
  | .print e, f, c => by
    rw [resolver.resolveStatement, stmt.misplaced]
    exact placedAt_resolveExpression k f c e
  | .ifStmt condition thenBranch none, f, c => by
    simp only [resolver.resolveStatement, stmt.misplaced]
    exact placedAt_bind _ _ (placedAt_resolveExpression k f c condition)
      (fun _ => placedAt_before _ _ (placedAt_resolveStatement k thenBranch f c)
        (fun _ => placedAt_pure k f c _))
  | .ifStmt condition thenBranch (some s), f, c => by
    simp only [resolver.resolveStatement, stmt.misplaced]
    exact placedAt_bind _ _ (placedAt_resolveExpression k f c condition)
      (fun _ => placedAt_bind _ _ (placedAt_resolveStatement k thenBranch f c)
        (fun _ => placedAt_resolveStatement k s f c))
  | .whileStmt condition body, f, c => by
    rw [resolver.resolveStatement, stmt.misplaced]
    exact placedAt_bind _ _ (placedAt_resolveStatement k body f c)
      (fun _ => placedAt_resolveExpression k f c condition)
  | .returnStmt keyword none, f, c => by
    simp only [resolver.resolveStatement, stmt.misplaced]
    refine placedAt_read _ (fun r0 hf _ => ?_)
    rw [hf]
    split
    · rename_i hfn
      refine placedAt_before _ _ (placedAt_report k f f c c _ _ _ (fun hm => ?_))
        (fun _ => placedAt_pure k f c _)
      cases k <;> first | exact absurd hm (by decide) | simp [hfn]
    · rename_i hfn
      refine placedAt_cast ?_ (placedAt_after _ _ (placedAt_pure k f c _)
        (fun _ => placedAt_pure k f c _))
      simp [hfn]
  | .returnStmt keyword (some v), f, c => by
    simp only [resolver.resolveStatement, stmt.misplaced]
    refine placedAt_read _ (fun r0 hf _ => ?_)
    rw [hf]
    split
    · rename_i hfn
      refine placedAt_report_bind k f f c c _ _ _ _ (fun hm => ?_)
      cases k <;> first | exact absurd hm (by decide) | simp [hfn]
    · rename_i hfn
      refine placedAt_after _ _ (placedAt_pure k f c _) (fun _ => ?_)
      split
      · rename_i hfi
        refine placedAt_report_bind k f f c c _ _ _ _ (fun hm => ?_)
        cases k <;> first | exact absurd hm (by decide) | simp [hfi]
      · rename_i hfi
        refine placedAt_cast ?_ (placedAt_after _ _ (placedAt_pure k f c _)
          (fun _ => placedAt_resolveExpression k f c v))
        simp [hfn, hfi]
  | .classStmt methods name none, f, c => by
    simp only [resolver.resolveStatement, stmt.misplaced, classKind]
    refine placedAt_read _ (fun r0 _ hc => ?_)
    rw [hc]
    refine placedAt_after _ _ (placedAt_setCurrentClass k f c classTypeClass) (fun _ => ?_)
    refine placedAt_after _ _ (placedAt_declare k f _ _) (fun _ => ?_)
    refine placedAt_after _ _ (placedAt_define k f _ _) (fun _ => ?_)
    refine placedAt_after _ _ (placedAt_pure k f _ _) (fun _ => ?_)
    refine placedAt_after _ _ (placedAt_pure k f _ _) (fun _ => ?_)
    refine placedAt_after _ _ (placedAt_beginScope k f _) (fun _ => ?_)
    refine placedAt_after _ _ (placedAt_setInPeekScope k f _ _ _) (fun _ => ?_)
    refine placedAt_before _ _ (placedAt_resolveMethods k methods f classTypeClass)
      (fun _ => ?_)
    refine placedAt_after _ _ (placedAt_endScope k f _) (fun _ => ?_)
    refine placedAt_after _ _ (placedAt_pure k f _ _) (fun _ => ?_)
    exact placedAt_setCurrentClass k f _ c
  | .classStmt methods name (some sc), f, c => by
    simp only [resolver.resolveStatement, stmt.misplaced, classKind]
    refine placedAt_read _ (fun r0 _ hc => ?_)
    rw [hc]
    refine placedAt_after _ _ (placedAt_setCurrentClass k f c classTypeClass) (fun _ => ?_)
    refine placedAt_after _ _ (placedAt_declare k f _ _) (fun _ => ?_)
    refine placedAt_after _ _ (placedAt_define k f _ _) (fun _ => ?_)
    have hrest : PlacedAt k f classTypeClass f c
        (stmtFunction.misplacedMethods k classTypeSubclass methods)
        (do
          resolver.setCurrentClass classTypeSubclass
          resolver.resolveExpression (expr.variable sc)
          resolver.beginScope
          resolver.setInPeekScope "super" true
          resolver.beginScope
          resolver.setInPeekScope "this" true
          resolver.resolveMethods methods
          resolver.endScope
          resolver.endScope
          resolver.setCurrentClass c : Exec resolver Unit) := by
      refine placedAt_after _ _ (placedAt_setCurrentClass k f _ classTypeSubclass)
        (fun _ => ?_)
      refine placedAt_after _ _ (placedAt_resolveExpression k f _ (expr.variable sc))
        (fun _ => ?_)
      refine placedAt_after _ _ (placedAt_beginScope k f _) (fun _ => ?_)
      refine placedAt_after _ _ (placedAt_setInPeekScope k f _ _ _) (fun _ => ?_)
      refine placedAt_after _ _ (placedAt_beginScope k f _) (fun _ => ?_)
      refine placedAt_after _ _ (placedAt_setInPeekScope k f _ _ _) (fun _ => ?_)
      refine placedAt_before _ _ (placedAt_resolveMethods k methods f classTypeSubclass)
        (fun _ => ?_)
      refine placedAt_after _ _ (placedAt_endScope k f _) (fun _ => ?_)
      refine placedAt_after _ _ (placedAt_endScope k f _) (fun _ => ?_)
      exact placedAt_setCurrentClass k f _ c
    split
    · refine placedAt_after _ _ (placedAt_report k f f classTypeClass classTypeClass false _ _
        (fun hm => absurd hm (not_mem_messages_itself k))) (fun _ => ?_)
      simpa only [bind_assoc] using hrest
    · refine placedAt_after _ _ (placedAt_pure k f _ _) (fun _ => ?_)
      simpa only [bind_assoc] using hrest
  | .function fn, f, c => by
    rw [resolver.resolveStatement, stmt.misplaced]
    exact placedAt_after _ _ (placedAt_declare k f c _)
      (fun _ => placedAt_after _ _ (placedAt_define k f c _)
        (fun _ => placedAt_resolveFunctionStmt k fn functionTypeFunction f c))
  | .block statements, f, c => by
    rw [resolver.resolveStatement, stmt.misplaced]
    exact placedAt_after _ _ (placedAt_beginScope k f c)
      (fun _ => placedAt_before _ _ (placedAt_resolveStatements k statements f c)
        (fun _ => placedAt_endScope k f c))
  | .var name none, f, c => by
    simp only [resolver.resolveStatement, stmt.misplaced]
    exact placedAt_after _ _ (placedAt_declare k f c _)
      (fun _ => placedAt_after _ _ (placedAt_pure k f c _)
        (fun _ => placedAt_define k f c _))
  | .var name (some e), f, c => by
    simp only [resolver.resolveStatement, stmt.misplaced]
    exact placedAt_after _ _ (placedAt_declare k f c _)
      (fun _ => placedAt_before _ _ (placedAt_resolveExpression k f c e)
        (fun _ => placedAt_define k f c _))
theorem placedAt_resolveStatements (k : Placement) :
    ∀ (ss : List stmt) (f : functionType) (c : classType),
      PlacedAt k f c f c (stmt.misplacedList k f c ss) (resolver.resolveStatements ss)
  | [], f, c => by
    rw [resolver.resolveStatements, stmt.misplacedList]
    exact placedAt_pure k f c _
  | s :: rest, f, c => by
    rw [resolver.resolveStatements, stmt.misplacedList]
    exact placedAt_bind _ _ (placedAt_resolveStatement k s f c)
      (fun _ => placedAt_resolveStatements k rest f c)
theorem placedAt_resolveFunctionStmt (k : Placement) :
    ∀ (fn : stmtFunction) (t f : functionType) (c : classType),
      PlacedAt k f c f c (fn.misplaced k t c) (resolver.resolveFunctionStmt fn t)
  | .mk params body name, t, f, c => by
    rw [resolver.resolveFunctionStmt, stmtFunction.misplaced]
    refine placedAt_read _ (fun r0 hf _ => ?_)
    rw [hf]
    refine placedAt_after _ _ (placedAt_setCurrentFunctionType k f t c) (fun _ => ?_)
    refine placedAt_after _ _ (placedAt_beginScope k t c) (fun _ => ?_)
    refine placedAt_after _ _ (placedAt_declareParams k t c params) (fun _ => ?_)
    refine placedAt_before _ _ (placedAt_resolveStatements k body t c) (fun _ => ?_)
    refine placedAt_after _ _ (placedAt_endScope k t c) (fun _ => ?_)
    exact placedAt_setCurrentFunctionType k t f c
theorem placedAt_resolveMethods (k : Placement) :
    ∀ (ms : List stmtFunction) (f : functionType) (c : classType),
      PlacedAt k f c f c (stmtFunction.misplacedMethods k c ms) (resolver.resolveMethods ms)
  | [], f, c => by
    rw [resolver.resolveMethods, stmtFunction.misplacedMethods]
    exact placedAt_pure k f c _
  | m :: rest, f, c => by
    rw [resolver.resolveMethods, stmtFunction.misplacedMethods]
    exact placedAt_bind _ _ (placedAt_resolveFunctionStmt k m (methodKind m.name) f c)
      (fun _ => placedAt_resolveMethods k rest f c)
end

/-! ## The resolver does not run the program -/

theorem static_bind {α β : Type} (x : Exec resolver α) (f : α → Exec resolver β)
    (hx : Static x) (hf : ∀ a, Static (f a)) : Static (x >>= f) := by
  intro r r1 res h
  simp only [bind, Exec.bind] at h
  cases hxr : x r with
  | mk rx s =>
    rw [hxr] at h
    cases rx with
    | ok a =>
      have e1 := hx r s _ hxr
      have e2 := hf a s r1 res h
      exact ⟨e2.1.trans e1.1, e2.2⟩
    | panic p =>
      simp only [Prod.mk.injEq] at h
      have e1 := hx r s _ hxr
      rw [← h.2]
      refine ⟨e1.1, fun l m hres => e1.2 l m ?_⟩
      rw [← h.1] at hres
      simp only [Res.panic.injEq] at hres
      rw [hres]

theorem static_of_same_inter {α : Type} (x : Exec resolver α)
    (h : ∀ (r r1 : resolver) (res : Res α), x r = (res, r1) →
      r1.inter = r.inter ∧ ∀ l m, res ≠ Res.panic (Panic.resolutionError l m)) :
    Static x := by
  intro r r1 res hx
  have e := h r r1 res hx
  exact ⟨by rw [e.1], fun l m hres => absurd hres (e.2 l m)⟩

theorem static_pure {α : Type} (a : α) : Static (pure a : Exec resolver α) :=
  static_of_same_inter _ (fun r r1 res h => by
    simp only [pure, Exec.pure, Prod.mk.injEq] at h
    rw [← h.1, ← h.2]
    exact ⟨rfl, fun l m hres => Res.noConfusion hres⟩)

theorem static_report {α : Type} (t : token) (message : String) :
    Static (reportResolutionError t message : Exec resolver α) := by
  intro r r1 res h
  simp only [reportResolutionError, Prod.mk.injEq] at h
  rw [← h.2]
  exact ⟨rfl, fun _ _ _ => rfl⟩

theorem static_read : Static resolver.read :=
  static_of_same_inter _ (fun r r1 res h => by
    simp only [resolver.read, Prod.mk.injEq] at h
    rw [← h.1, ← h.2]
    exact ⟨rfl, fun l m hres => Res.noConfusion hres⟩)

theorem static_setCurrentFunctionType (t : functionType) :
    Static (resolver.setCurrentFunctionType t) :=
  static_of_same_inter _ (fun r r1 res h => by
    simp only [resolver.setCurrentFunctionType, Prod.mk.injEq] at h
    rw [← h.1, ← h.2]
    exact ⟨rfl, fun l m hres => Res.noConfusion hres⟩)

theorem static_setCurrentClass (c : classType) : Static (resolver.setCurrentClass c) :=
  static_of_same_inter _ (fun r r1 res h => by
    simp only [resolver.setCurrentClass, Prod.mk.injEq] at h
    rw [← h.1, ← h.2]
    exact ⟨rfl, fun l m hres => Res.noConfusion hres⟩)

theorem static_beginScope : Static resolver.beginScope :=
  static_of_same_inter _ (fun r r1 res h => by
    simp only [resolver.beginScope, resolver.pushScope, Prod.mk.injEq] at h
    rw [← h.1, ← h.2]
    exact ⟨rfl, fun l m hres => Res.noConfusion hres⟩)

theorem static_endScope : Static resolver.endScope :=
  static_of_same_inter _ (fun r r1 res h => by
    simp only [resolver.endScope, resolver.popScope] at h
    split at h <;>
      (simp only [Prod.mk.injEq] at h
       rw [← h.1, ← h.2]
       exact ⟨rfl, fun l m hres => by simp only [Res.panic.injEq, reduceCtorEq] at hres⟩))

theorem static_peekScope : Static resolver.peekScope :=
  static_of_same_inter _ (fun r r1 res h => by
    simp only [resolver.peekScope] at h
    split at h <;>
      (simp only [Prod.mk.injEq] at h
       rw [← h.1, ← h.2]
       exact ⟨rfl, fun l m hres => by simp only [Res.panic.injEq, reduceCtorEq] at hres⟩))

theorem static_setInPeekScope (name : String) (b : Bool) :
    Static (resolver.setInPeekScope name b) := by
  unfold resolver.setInPeekScope
  refine static_bind _ _ static_peekScope (fun p => ?_)
  exact static_of_same_inter _ (fun r r1 res h => by
    simp only [Prod.mk.injEq] at h
    rw [← h.1, ← h.2]
    exact ⟨rfl, fun l m hres => Res.noConfusion hres⟩)

theorem static_declare (name : token) : Static (resolver.declare name) := by
  intro r r1 res h
  unfold resolver.declare at h
  split at h
  · simp only [Prod.mk.injEq] at h
    rw [← h.1, ← h.2]
    exact ⟨rfl, fun l m hres => Res.noConfusion hres⟩
  · refine static_bind _ _ static_peekScope (fun p => ?_) r r1 res h
    split
    · exact static_report _ _
    · exact static_setInPeekScope _ _

theorem static_define (name : token) : Static (resolver.define name) := by
  intro r r1 res h
  unfold resolver.define at h
  split at h
  · simp only [Prod.mk.injEq] at h
    rw [← h.1, ← h.2]
    exact ⟨rfl, fun l m hres => Res.noConfusion hres⟩
  · exact static_setInPeekScope _ _ r r1 res h

theorem static_resolveLocal (e : expr) (name : token) :
    Static (resolver.resolveLocal e name) := by
  intro r r1 res h
  unfold resolver.resolveLocal at h
  split at h
  · simp only [Prod.mk.injEq] at h
    rw [← h.1, ← h.2]
    exact ⟨rfl, fun l m hres => Res.noConfusion hres⟩
  · simp only [interpreter.resolveLocal, Prod.mk.injEq] at h
    split at h <;>
      (rw [← h.1, ← h.2]
       exact ⟨rfl, fun l m hres => by simp only [Res.panic.injEq, reduceCtorEq] at hres⟩)

theorem static_checkOwnInitializer (name : token) :
    Static (resolver.checkOwnInitializer name) := by
  intro r r1 res h
  unfold resolver.checkOwnInitializer at h
  split at h
  · simp only [Prod.mk.injEq] at h
    rw [← h.1, ← h.2]
    exact ⟨rfl, fun l m hres => Res.noConfusion hres⟩
  · refine static_bind _ _ static_peekScope (fun p => ?_) r r1 res h
    split
    · exact static_report _ _
    · exact static_pure _

theorem static_declareParams (params : List token) :
    Static (resolver.declareParams params) := by
  induction params with
  | nil => exact static_pure _
  | cons p rest ih =>
    unfold resolver.declareParams
    exact static_bind _ _ (static_declare p)
      (fun _ => static_bind _ _ (static_define p) (fun _ => ih))

mutual
theorem static_resolveExpression : ∀ e : expr, Static (resolver.resolveExpression e)
  | .binary left right _ => by
    rw [resolver.resolveExpression]
    exact static_bind _ _ (static_resolveExpression left)
      (fun _ => static_resolveExpression right)
  | .grouping exp => by
    rw [resolver.resolveExpression]
    exact static_resolveExpression exp
  | .literal _ => by
    rw [resolver.resolveExpression]
    exact static_pure _
  | .unary _ right => by
    rw [resolver.resolveExpression]
    exact static_resolveExpression right
  | .logical left right _ => by
    rw [resolver.resolveExpression]
    exact static_bind _ _ (static_resolveExpression left)
      (fun _ => static_resolveExpression right)
  | .call _ args callee => by
    rw [resolver.resolveExpression]
    exact static_bind _ _ (static_resolveExpression callee)
      (fun _ => static_resolveExpressions args)
  | .assign name value => by
    rw [resolver.resolveExpression]
    exact static_bind _ _ (static_resolveExpression value)
      (fun _ => static_resolveLocal _ _)
  | .get _ obj => by
    rw [resolver.resolveExpression]
    exact static_resolveExpression obj
  | .set _ obj value => by
    rw [resolver.resolveExpression]
    exact static_bind _ _ (static_resolveExpression obj)
      (fun _ => static_resolveExpression value)
  | .this name => by
    rw [resolver.resolveExpression]
    refine static_bind _ _ static_read (fun r => ?_)
    dsimp only
    split
    · exact static_bind _ _ (static_report _ _) (fun _ => static_resolveLocal _ _)
    · exact static_bind _ _ (static_pure _) (fun _ => static_resolveLocal _ _)
  | .super keyword method => by
    rw [resolver.resolveExpression]
    refine static_bind _ _ static_read (fun r => ?_)
    dsimp only
    split
    · exact static_bind _ _ (static_report _ _) (fun _ => static_resolveLocal _ _)
    · exact static_bind _ _ (static_report _ _) (fun _ => static_resolveLocal _ _)
    · exact static_bind _ _ (static_pure _) (fun _ => static_resolveLocal _ _)
  | .variable name => by
    rw [resolver.resolveExpression]
    exact static_bind _ _ (static_checkOwnInitializer _)
      (fun _ => static_resolveLocal _ _)
theorem static_resolveExpressions : ∀ es : List expr, Static (resolver.resolveExpressions es)
  | [] => by
    rw [resolver.resolveExpressions]
    exact static_pure _
  | a :: rest => by
    rw [resolver.resolveExpressions]
    exact static_bind _ _ (static_resolveExpression a)
      (fun _ => static_resolveExpressions rest)
end

mutual
theorem static_resolveStatement : ∀ s : stmt, Static (resolver.resolveStatement s)
  | .expression e => by
    rw [resolver.resolveStatement]
    exact static_resolveExpression e
  | .print e => by
    rw [resolver.resolveStatement]
    exact static_resolveExpression e
  | .ifStmt condition thenBranch none => by
    simp only [resolver.resolveStatement]
    exact static_bind _ _ (static_resolveExpression condition)
      (fun _ => static_bind _ _ (static_resolveStatement thenBranch)
        (fun _ => static_pure _))
  | .ifStmt condition thenBranch (some s) => by
    simp only [resolver.resolveStatement]
    exact static_bind _ _ (static_resolveExpression condition)
      (fun _ => static_bind _ _ (static_resolveStatement thenBranch)
        (fun _ => static_resolveStatement s))
  | .whileStmt condition body => by
    rw [resolver.resolveStatement]
    exact static_bind _ _ (static_resolveStatement body)
      (fun _ => static_resolveExpression condition)
  | .returnStmt keyword none => by
    simp only [resolver.resolveStatement]
    refine static_bind _ _ static_read (fun r => ?_)
    split
    · exact static_bind _ _ (static_report _ _) (fun _ => static_pure _)
    · exact static_bind _ _ (static_pure _) (fun _ => static_pure _)
  | .returnStmt keyword (some v) => by
    simp only [resolver.resolveStatement]
    refine static_bind _ _ static_read (fun r => ?_)
    have hv : Static (do
        if r.currentFunctionType = functionTypeInitializer then
          reportResolutionError keyword "Cannot return from an initializer."
        resolver.resolveExpression v : Exec resolver Unit) := by
      split
      · exact static_bind _ _ (static_report _ _)
          (fun _ => static_resolveExpression v)
      · exact static_bind _ _ (static_pure _) (fun _ => static_resolveExpression v)
    split
    · exact static_bind _ _ (static_report _ _) (fun _ => hv)
    · exact static_bind _ _ (static_pure _) (fun _ => hv)
  | .classStmt methods name none => by
    simp only [resolver.resolveStatement]
    refine static_bind _ _ static_read (fun r => ?_)
    refine static_bind _ _ (static_setCurrentClass _) (fun _ => ?_)
    refine static_bind _ _ (static_declare _) (fun _ => ?_)
    refine static_bind _ _ (static_define _) (fun _ => ?_)
    refine static_bind _ _ (static_pure _) (fun _ => ?_)
    refine static_bind _ _ (static_pure _) (fun _ => ?_)
    refine static_bind _ _ static_beginScope (fun _ => ?_)
    refine static_bind _ _ (static_setInPeekScope _ _) (fun _ => ?_)
    refine static_bind _ _ (static_resolveMethods methods) (fun _ => ?_)
    refine static_bind _ _ static_endScope (fun _ => ?_)
    refine static_bind _ _ (static_pure _) (fun _ => ?_)
    exact static_setCurrentClass _
  | .classStmt methods name (some sc) => by
    simp only [resolver.resolveStatement]
    refine static_bind _ _ static_read (fun r => ?_)
    refine static_bind _ _ (static_setCurrentClass _) (fun _ => ?_)
    refine static_bind _ _ (static_declare _) (fun _ => ?_)
    refine static_bind _ _ (static_define _) (fun _ => ?_)
    split <;>
      (first
        | refine static_bind _ _ (static_report _ _) (fun _ => ?_)
        | refine static_bind _ _ (static_pure _) (fun _ => ?_)) <;>
      (refine static_bind _ _ (static_setCurrentClass _) (fun _ => ?_)
       refine static_bind _ _ (static_resolveExpression _) (fun _ => ?_)
       refine static_bind _ _ static_beginScope (fun _ => ?_)
       refine static_bind _ _ (static_setInPeekScope _ _) (fun _ => ?_)
       refine static_bind _ _ static_beginScope (fun _ => ?_)
       refine static_bind _ _ (static_setInPeekScope _ _) (fun _ => ?_)
       refine static_bind _ _ (static_resolveMethods methods) (fun _ => ?_)
       refine static_bind _ _ static_endScope (fun _ => ?_)
       refine static_bind _ _ static_endScope (fun _ => ?_)
       exact static_setCurrentClass _)
  | .function f => by
    rw [resolver.resolveStatement]
    exact static_bind _ _ (static_declare _)
      (fun _ => static_bind _ _ (static_define _)
        (fun _ => static_resolveFunctionStmt f _))
  | .block statements => by
    rw [resolver.resolveStatement]
    exact static_bind _ _ static_beginScope
      (fun _ => static_bind _ _ (static_resolveStatements statements)
        (fun _ => static_endScope))
  | .var name none => by
    simp only [resolver.resolveStatement]
    exact static_bind _ _ (static_declare _)
      (fun _ => static_bind _ _ (static_pure _) (fun _ => static_define _))
  | .var name (some e) => by
    simp only [resolver.resolveStatement]
    exact static_bind _ _ (static_declare _)
      (fun _ => static_bind _ _ (static_resolveExpression e)
        (fun _ => static_define _))
theorem static_resolveStatements :
    ∀ ss : List stmt, Static (resolver.resolveStatements ss)
  | [] => by
    rw [resolver.resolveStatements]
    exact static_pure _
  | s :: rest => by
    rw [resolver.resolveStatements]
    exact static_bind _ _ (static_resolveStatement s)
      (fun _ => static_resolveStatements rest)
theorem static_resolveFunctionStmt :
    ∀ (f : stmtFunction) (t : functionType), Static (resolver.resolveFunctionStmt f t)
  | .mk params body name, t => by
    rw [resolver.resolveFunctionStmt]
    refine static_bind _ _ static_read (fun r => ?_)
    refine static_bind _ _ (static_setCurrentFunctionType _) (fun _ => ?_)
    refine static_bind _ _ static_beginScope (fun _ => ?_)
    refine static_bind _ _ (static_declareParams params) (fun _ => ?_)
    refine static_bind _ _ (static_resolveStatements body) (fun _ => ?_)
    refine static_bind _ _ static_endScope (fun _ => ?_)
    exact static_setCurrentFunctionType _
theorem static_resolveMethods :
    ∀ ms : List stmtFunction, Static (resolver.resolveMethods ms)
  | [] => by
    rw [resolver.resolveMethods]
    exact static_pure _
  | m :: rest => by
    rw [resolver.resolveMethods]
    exact static_bind _ _ (static_resolveFunctionStmt m _)
      (fun _ => static_resolveMethods rest)
end

/-! ## The phases of `run` -/

theorem resolve_memory (ss : List stmt) (r : resolver) :
    (resolver.resolve ss r).inter.memory = r.inter.memory :=
  (static_resolveStatements ss r _ _ rfl).1

theorem resolve_reported (ss : List stmt) (r r1 : resolver) (l : Int) (m : String)
    (h : resolver.resolveStatements ss r = (Res.panic (Panic.resolutionError l m), r1)) :
    (resolver.resolve ss r).inter.hadResolutionError = true := by
  have e := (static_resolveStatements ss r r1 _ h).2 l m rfl
  simp only [resolver.resolve, h]
  exact e

theorem parse_panic_no_statements (steps : Nat) (p : parser) (x : Panic) :
    (parser.parse steps p).1 = some x → (parser.parse steps p).2.1 = [] := by
  unfold parser.parse
  split
  · intro h
    exact Option.noConfusion h
  · intro _
    rfl

theorem runStatements_nil_memory (steps : Nat) (it : interpreter) :
    (runStatements steps it []).2.memory = it.memory := by
  unfold runStatements
  simp only [resolver.resolve, resolver.resolveStatements, pure, Exec.pure]
  split
  · rfl
  · cases steps with
    | zero => simp only [interpreter.interpret, interpreter.executeStatements, throwPanic]
    | succ n =>
      simp only [interpreter.interpret, interpreter.executeStatements, pure, Exec.pure]

theorem runStatements_flagged (steps : Nat) (it : interpreter) (ss : List stmt)
    (h : (resolver.resolve ss (newResolver it)).inter.hadResolutionError = true) :
    runStatements steps it ss = (none, (resolver.resolve ss (newResolver it)).inter) := by
  unfold newResolver at h ⊢
  unfold runStatements
  simp only [h, if_true]

/-! ## The scanner, step by step -/

theorem scans_pure {α : Type} (a : α) : Scans (pure a : Exec scanner α) :=
  ⟨fun s s1 b h => by
    simp only [pure, Exec.pure, Prod.mk.injEq] at h
    rw [← h.2]
    exact ⟨rfl, rfl, rfl, rfl, le_refl _, fun t ht => Or.inl ht⟩,
   fun s s1 h => by
    simp only [pure, Exec.pure, Prod.mk.injEq, reduceCtorEq, false_and] at h⟩

theorem scans_bind {α β : Type} (x : Exec scanner α) (f : α → Exec scanner β)
    (hx : Scans x) (hf : ∀ a, Scans (f a)) : Scans (x >>= f) := by
  constructor
  · intro s s1 b h
    simp only [bind, Exec.bind] at h
    cases hxs : x s with
    | mk rx s2 =>
      rw [hxs] at h
      cases rx with
      | ok a =>
        have e1 := hx.keeps s s2 a hxs
        have e2 := (hf a).keeps s2 s1 b h
        refine ⟨e2.1.trans e1.1, e2.2.1.trans e1.2.1, e2.2.2.1.trans e1.2.2.1,
          e2.2.2.2.1.trans e1.2.2.2.1, le_trans e1.2.2.2.2.1 e2.2.2.2.2.1, fun t ht => ?_⟩
        rcases e2.2.2.2.2.2 t ht with h2 | h2
        · exact e1.2.2.2.2.2 t h2
        · exact Or.inr (h2.trans e1.2.2.1)
      | panic p => simp only [Prod.mk.injEq, reduceCtorEq, false_and] at h
  · intro s s1 h
    simp only [bind, Exec.bind] at h
    cases hxs : x s with
    | mk rx s2 =>
      rw [hxs] at h
      cases rx with
      | ok a => exact (hf a).bounded s2 s1 h
      | panic p =>
        simp only [Prod.mk.injEq, Res.panic.injEq] at h
        rw [h.1, h.2] at hxs
        exact hx.bounded s s1 hxs

theorem scans_report {α : Type} (message : String) :
    Scans (scanner.reportParserError message : Exec scanner α) :=
  ⟨fun s s1 a h => by
    simp only [scanner.reportParserError, Prod.mk.injEq, reduceCtorEq, false_and] at h,
   fun s s1 h => by
    simp only [scanner.reportParserError, Prod.mk.injEq, Res.panic.injEq, reduceCtorEq,
      false_and] at h⟩

theorem scans_throw {α : Type} (message : String) :
    Scans (throwPanic (Panic.goRuntime message) : Exec scanner α) :=
  ⟨fun s s1 a h => by
    simp only [throwPanic, Prod.mk.injEq, reduceCtorEq, false_and] at h,
   fun s s1 h => by
    simp only [throwPanic, Prod.mk.injEq, Res.panic.injEq, reduceCtorEq, false_and] at h⟩

theorem scans_read : Scans (fun s => (Res.ok s, s) : Exec scanner scanner) :=
  ⟨fun s s1 a h => by
    simp only [Prod.mk.injEq] at h
    rw [← h.2]
    exact ⟨rfl, rfl, rfl, rfl, le_refl _, fun t ht => Or.inl ht⟩,
   fun s s1 h => by
    simp only [Prod.mk.injEq, reduceCtorEq, false_and] at h⟩

theorem scans_advance : Scans scanner.advance :=
  ⟨fun s s1 a h => by
    simp only [scanner.advance] at h
    split at h
    · simp only [Prod.mk.injEq] at h
      rw [← h.2]
      exact ⟨rfl, rfl, rfl, rfl, Nat.le_succ _, fun t ht => Or.inl ht⟩
    · simp only [Prod.mk.injEq, reduceCtorEq, false_and] at h,
   fun s s1 h => by
    simp only [scanner.advance] at h
    split at h <;> simp only [Prod.mk.injEq, Res.panic.injEq, reduceCtorEq, false_and] at h⟩

theorem scans_matchChar (char : Char) : Scans (scanner.matchChar char) :=
  ⟨fun s s1 a h => by
    simp only [scanner.matchChar] at h
    split at h
    · simp only [Prod.mk.injEq] at h
      rw [← h.2]
      exact ⟨rfl, rfl, rfl, rfl, le_refl _, fun t ht => Or.inl ht⟩
    · split at h
      · simp only [Prod.mk.injEq] at h
        rw [← h.2]
        exact ⟨rfl, rfl, rfl, rfl, le_refl _, fun t ht => Or.inl ht⟩
      · simp only [Prod.mk.injEq] at h
        rw [← h.2]
        exact ⟨rfl, rfl, rfl, rfl, Nat.le_succ _, fun t ht => Or.inl ht⟩,
   fun s s1 h => by
    simp only [scanner.matchChar] at h
    split at h
    · simp only [Prod.mk.injEq, reduceCtorEq, false_and] at h
    · split at h <;> simp only [Prod.mk.injEq, reduceCtorEq, false_and] at h⟩

theorem scans_addToken (tt : tokenType) (literal : Literal) :
    Scans (scanner.addToken tt literal) :=
  ⟨fun s s1 a h => by
    simp only [scanner.addToken] at h
    split at h
    · simp only [Prod.mk.injEq] at h
      rw [← h.2]
      refine ⟨rfl, rfl, rfl, rfl, le_refl _, fun t ht => ?_⟩
      simp only [List.mem_append, List.mem_singleton] at ht
      rcases ht with ht | ht
      · exact Or.inl ht
      · right
        rw [ht]
    · simp only [Prod.mk.injEq, reduceCtorEq, false_and] at h,
   fun s s1 h => by
    simp only [scanner.addToken] at h
    split at h <;> simp only [Prod.mk.injEq, Res.panic.injEq, reduceCtorEq, false_and] at h⟩

/-- The loop `for cond { s.advance() }` within a bound that exceeds what is left of the
source, for a condition that fails at the end of the source. -/
theorem advanceWhile_run (cond : scanner → Bool)
    (hcond : ∀ s : scanner, cond s = true → s.current < s.source.length) (n : Nat) :
    ∀ s : scanner, s.source.length < s.current + (n + 1) →
      ∃ s1, scanner.advanceWhile cond (n + 1) s = (Res.ok (), s1) ∧ cond s1 = false ∧
        s1.source = s.source ∧ s1.start = s.start ∧ s1.line = s.line ∧
        s1.hadParserError = s.hadParserError ∧ s1.tokens = s.tokens ∧
        s.current ≤ s1.current ∧
        ∀ k, s.current ≤ k → k < s1.current →
          cond { s with current := k } = true := by
  induction n with
  | zero =>
    intro s hs
    rw [scanner.advanceWhile]
    cases hc : cond s with
    | false =>
      simp only [hc, Bool.false_eq_true, if_false]
      exact ⟨s, rfl, hc, rfl, rfl, rfl, rfl, rfl, le_refl _,
        fun k h1 h2 => absurd h2 (by omega)⟩
    | true =>
      have hlt := hcond s hc
      exact absurd hs (by omega)
  | succ n ih =>
    intro s hs
    rw [scanner.advanceWhile]
    cases hc : cond s with
    | false =>
      simp only [hc, Bool.false_eq_true, if_false]
      exact ⟨s, rfl, hc, rfl, rfl, rfl, rfl, rfl, le_refl _,
        fun k h1 h2 => absurd h2 (by omega)⟩
    | true =>
      have hlt := hcond s hc
      obtain ⟨c, hget⟩ : ∃ c, s.source[s.current]? = some c :=
        ⟨s.source[s.current], List.getElem?_eq_getElem hlt⟩
      simp only [hc, if_true, bind, Exec.bind, scanner.advance, hget]
      obtain ⟨s1, h1, h2, h3, h4, h5, h6, h7, h8, h9⟩ :=
        ih { s with current := s.current + 1 } (by simp only; omega)
      refine ⟨s1, h1, h2, h3, h4, h5, h6, h7, by simp only at h8; omega, fun k hk1 hk2 => ?_⟩
      rcases Nat.eq_or_lt_of_le hk1 with e | e
      · rw [← e]
        exact hc
      · exact h9 k e hk2

theorem scans_advanceWhile (cond : scanner → Bool)
    (hcond : ∀ s : scanner, cond s = true → s.current < s.source.length) :
    Scans (fun s => scanner.advanceWhile cond (s.source.length + 1) s : Exec scanner Unit) := by
  constructor
  · intro s s1 a h
    obtain ⟨s2, h1, _, h3, h4, h5, h6, h7, h8, _⟩ :=
      advanceWhile_run cond hcond s.source.length s (by omega)
    simp only [h1, Prod.mk.injEq] at h
    rw [← h.2]
    exact ⟨h3, h4, h5, h6, h8, fun t ht => Or.inl (h7 ▸ ht)⟩
  · intro s s1 h
    obtain ⟨s2, h1, _⟩ := advanceWhile_run cond hcond s.source.length s (by omega)
    simp only [h1, Prod.mk.injEq, reduceCtorEq, false_and] at h

theorem lt_of_not_atEnd (s : scanner) (h : s.isAtEnd = false) :
    s.current < s.source.length := by
  simp only [scanner.isAtEnd, ge_iff_le, decide_eq_false_iff_not, not_le] at h
  exact h

theorem lt_of_isDigit_peek (s : scanner) (h : scanner.isDigit s.peek = true) :
    s.current < s.source.length := by
  cases he : s.isAtEnd with
  | false => exact lt_of_not_atEnd s he
  | true =>
    simp only [scanner.peek, he, if_true] at h
    exact absurd h (by decide)

theorem lt_of_isAlpha_peek (s : scanner) (h : scanner.isAlpha s.peek = true) :
    s.current < s.source.length := by
  cases he : s.isAtEnd with
  | false => exact lt_of_not_atEnd s he
  | true =>
    simp only [scanner.peek, he, if_true] at h
    exact absurd h (by decide)

theorem lt_of_until (c : Char) (s : scanner)
    (h : (s.peek ≠ c && !s.isAtEnd) = true) : s.current < s.source.length := by
  simp only [Bool.and_eq_true, Bool.not_eq_true'] at h
  exact lt_of_not_atEnd s h.2

theorem scans_digits :
    Scans (fun s => scanner.advanceWhile (fun s => scanner.isDigit s.peek)
      (s.source.length + 1) s : Exec scanner Unit) :=
  scans_advanceWhile _ lt_of_isDigit_peek

theorem scans_until (c : Char) :
    Scans (fun s => scanner.advanceWhile (fun s => s.peek ≠ c && !s.isAtEnd)
      (s.source.length + 1) s : Exec scanner Unit) :=
  scans_advanceWhile _ (lt_of_until c)

theorem scans_parseString : Scans scanner.parseString := by
  unfold scanner.parseString
  refine scans_bind _ _ (scans_until _) (fun _ => ?_)
  refine scans_bind _ _ scans_read (fun s => ?_)
  dsimp only
  split <;>
    (first
      | refine scans_bind _ _ (scans_report _) (fun _ => ?_)
      | refine scans_bind _ _ (scans_pure _) (fun _ => ?_)) <;>
    (refine scans_bind _ _ scans_advance (fun _ => ?_)
     refine scans_bind _ _ scans_read (fun s => ?_)
     split
     · exact scans_addToken _ _
     · exact scans_throw _)

theorem scans_numberEnd :
    Scans (do
      let s ← (fun s => (Res.ok s, s) : Exec scanner scanner)
      if s.start ≤ s.current ∧ s.current ≤ s.source.length then
        match parseFloat ((s.source.take s.current).drop s.start) with
        | Except.error err => scanner.reportParserError err
        | Except.ok v => scanner.addToken tokenTypeNumber (Literal.number v)
      else throwPanic (Panic.goRuntime "slice bounds out of range") : Exec scanner Unit) := by
  refine scans_bind _ _ scans_read (fun s => ?_)
  split
  · split
    · exact scans_report _
    · exact scans_addToken _ _
  · exact scans_throw _

theorem scans_parseNumber : Scans scanner.parseNumber := by
  unfold scanner.parseNumber
  refine scans_bind _ _ scans_digits (fun _ => ?_)
  refine scans_bind _ _ scans_read (fun s => ?_)
  dsimp only
  split
  · exact scans_bind _ _ scans_advance
      (fun _ => scans_bind _ _ scans_digits (fun _ => scans_numberEnd))
  · exact scans_bind _ _ (scans_pure _) (fun _ => scans_numberEnd)

theorem scans_parseIdentifier : Scans scanner.parseIdentifier := by
  unfold scanner.parseIdentifier
  refine scans_bind _ _ (scans_advanceWhile _ (fun s h => ?_)) (fun _ => ?_)
  · simp only [Bool.or_eq_true] at h
    rcases h with h | h
    · exact lt_of_isAlpha_peek s h
    · exact lt_of_isDigit_peek s h
  refine scans_bind _ _ scans_read (fun s => ?_)
  split
  · split
    · exact scans_addToken _ _
    · exact scans_addToken _ _
  · exact scans_throw _

theorem scans_scanSlash : Scans scanner.scanSlash := by
  unfold scanner.scanSlash
  refine scans_bind _ _ (scans_matchChar _) (fun line => ?_)
  split
  · exact scans_until _
  · refine scans_bind _ _ (scans_matchChar _) (fun block => ?_)
    split
    · refine scans_bind _ _ (scans_until _) (fun _ => ?_)
      refine scans_bind _ _ scans_read (fun s => ?_)
      dsimp only
      split <;>
        (first
          | refine scans_bind _ _ (scans_report _) (fun _ => ?_)
          | refine scans_bind _ _ (scans_pure _) (fun _ => ?_)) <;>
        exact scans_bind _ _ scans_advance
          (fun _ => scans_bind _ _ scans_advance (fun _ => scans_pure _))
    · exact scans_addToken _ _

theorem scans_scanOperator (long short : tokenType) :
    Scans (scanner.scanOperator long short) := by
  unfold scanner.scanOperator
  refine scans_bind _ _ (scans_matchChar _) (fun m => ?_)
  split
  · exact scans_addToken _ _
  · exact scans_addToken _ _

theorem scans_scanByte (c : Char) (hc : c ≠ '\n') : Scans (scanner.scanByte c) := by
  unfold scanner.scanByte
  by_cases h0 : c = '('
  · rw [if_pos h0]
    exact scans_addToken _ _
  rw [if_neg h0]
  by_cases h1 : c = ')'
  · rw [if_pos h1]
    exact scans_addToken _ _
  rw [if_neg h1]
  by_cases h2 : c = Char.ofNat 123
  · rw [if_pos h2]
    exact scans_addToken _ _
  rw [if_neg h2]
  by_cases h3 : c = Char.ofNat 125
  · rw [if_pos h3]
    exact scans_addToken _ _
  rw [if_neg h3]
  by_cases h4 : c = ','
  · rw [if_pos h4]
    exact scans_addToken _ _
  rw [if_neg h4]
  by_cases h5 : c = '.'
  · rw [if_pos h5]
    exact scans_addToken _ _
  rw [if_neg h5]
  by_cases h6 : c = '-'
  · rw [if_pos h6]
    exact scans_addToken _ _
  rw [if_neg h6]
  by_cases h7 : c = '+'
  · rw [if_pos h7]
    exact scans_addToken _ _
  rw [if_neg h7]
  by_cases h8 : c = ';'
  · rw [if_pos h8]
    exact scans_addToken _ _
  rw [if_neg h8]
  by_cases h9 : c = '*'
  · rw [if_pos h9]
    exact scans_addToken _ _
  rw [if_neg h9]
  by_cases h10 : c = '!'
  · rw [if_pos h10]
    exact scans_scanOperator _ _
  rw [if_neg h10]
  by_cases h11 : c = '='
  · rw [if_pos h11]
    exact scans_scanOperator _ _
  rw [if_neg h11]
  by_cases h12 : c = '>'
  · rw [if_pos h12]
    exact scans_scanOperator _ _
  rw [if_neg h12]
  by_cases h13 : c = '<'
  · rw [if_pos h13]
    exact scans_scanOperator _ _
  rw [if_neg h13]
  by_cases h14 : c = '/'
  · rw [if_pos h14]
    exact scans_scanSlash
  rw [if_neg h14]
  by_cases h15 : c = ' ' ∨ c = '\r' ∨ c = '\t'
  · rw [if_pos h15]
    exact scans_pure _
  rw [if_neg h15]
  rw [if_neg hc]
  by_cases hq : c = Char.ofNat 34
  · rw [if_pos hq]
    exact scans_parseString
  rw [if_neg hq]
  split
  · exact scans_parseNumber
  · split
    · exact scans_parseIdentifier
    · exact scans_report _

theorem scanByte_newline :
    scanner.scanByte '\n' = fun s => (Res.ok (), { s with line := s.line + 1 }) := by
  unfold scanner.scanByte
  simp only [Char.reduceEq, if_false, false_or, if_true]

/-- One call of `scanToken` that returns: it has consumed a byte; either it stayed on the
line, or the byte was a newline, the only byte consumed, and the line went up by one. -/
theorem scanToken_step (s s1 : scanner) (h : scanner.scanToken s = (Res.ok (), s1)) :
    s1.source = s.source ∧ s1.start = s.start ∧ s1.hadParserError = s.hadParserError ∧
      s.current < s1.current ∧
      ((s1.line = s.line ∧ ∀ t ∈ s1.tokens, t ∈ s.tokens ∨ t.line = s.line) ∨
        (s1.line = s.line + 1 ∧ s1.tokens = s.tokens ∧ s1.current = s.current + 1 ∧
          s.source[s.current]? = some '\n')) := by
  unfold scanner.scanToken at h
  cases hget : s.source[s.current]? with
  | none =>
    simp only [bind, Exec.bind, scanner.advance, hget, Prod.mk.injEq, reduceCtorEq,
      false_and] at h
  | some c =>
    simp only [bind, Exec.bind, scanner.advance, hget] at h
    by_cases hc : c = '\n'
    · rw [hc, scanByte_newline] at h
      simp only [Prod.mk.injEq, true_and] at h
      rw [← h]
      refine ⟨rfl, rfl, rfl, Nat.lt_succ_self _, Or.inr ⟨rfl, rfl, rfl, ?_⟩⟩
      rw [hc]
    · have e := (scans_scanByte c hc).keeps _ s1 () h
      simp only at e
      exact ⟨e.1, e.2.1, e.2.2.2.1, by omega, Or.inl ⟨e.2.2.1, e.2.2.2.2.2⟩⟩

theorem scanToken_bounded (s s1 : scanner) :
    scanner.scanToken s ≠ (Res.panic Panic.outOfSteps, s1) := by
  intro h
  unfold scanner.scanToken at h
  cases hget : s.source[s.current]? with
  | none =>
    simp only [bind, Exec.bind, scanner.advance, hget, Prod.mk.injEq, Res.panic.injEq,
      reduceCtorEq, false_and] at h
  | some c =>
    simp only [bind, Exec.bind, scanner.advance, hget] at h
    by_cases hc : c = '\n'
    · rw [hc, scanByte_newline] at h
      simp only [Prod.mk.injEq, reduceCtorEq, false_and] at h
    · exact (scans_scanByte c hc).bounded _ s1 h

/-! ## The lines of the tokens -/

theorem newlines_take_le (cs : List Char) (a b : Nat) (h : a ≤ b) :
    newlines (cs.take a) ≤ newlines (cs.take b) := by
  unfold newlines
  exact List.Sublist.count_le (List.take_sublist_take_left cs h) _

theorem newlines_take_succ (cs : List Char) (a : Nat) (h : cs[a]? = some '\n') :
    newlines (cs.take (a + 1)) = newlines (cs.take a) + 1 := by
  unfold newlines
  rw [List.take_succ, h]
  simp

theorem newlines_take_le_all (cs : List Char) (a : Nat) :
    newlines (cs.take a) ≤ newlines cs := by
  unfold newlines
  exact List.Sublist.count_le (List.take_sublist a cs) _

theorem counted_step (s s1 : scanner) (hs : s.Counted)
    (h : scanner.scanToken s = (Res.ok (), s1)) : s1.Counted := by
  obtain ⟨h0, h1, h2⟩ := hs
  obtain ⟨e1, _, _, e4, e5⟩ := scanToken_step s s1 h
  rcases e5 with ⟨el, et⟩ | ⟨el, et, ec, en⟩
  · refine ⟨by rw [el]; exact h0, ?_, fun t ht => ?_⟩
    · rw [el, e1]
      have := newlines_take_le s.source s.current s1.current (le_of_lt e4)
      omega
    · rw [el]
      rcases et t ht with hm | hm
      · exact h2 t hm
      · rw [hm]
        exact ⟨h0, le_refl _⟩
  · refine ⟨by rw [el]; omega, ?_, fun t ht => ?_⟩
    · rw [el, e1, ec, newlines_take_succ s.source s.current en]
      push_cast
      omega
    · rw [et] at ht
      have := h2 t ht
      rw [el]
      omega

theorem scanLoop_counted (n : Nat) :
    ∀ s s1 : scanner, s.Counted → scanner.scanLoop n s = (Res.ok (), s1) →
      s1.Counted ∧ s1.source = s.source := by
  induction n with
  | zero =>
    intro s s1 _ h
    simp only [scanner.scanLoop, throwPanic, Prod.mk.injEq, reduceCtorEq, false_and] at h
  | succ n ih =>
    intro s s1 hs h
    rw [scanner.scanLoop] at h
    cases he : s.isAtEnd with
    | true =>
      simp only [he, Bool.not_true, Bool.false_eq_true, if_false, Prod.mk.injEq,
        true_and] at h
      rw [← h]
      exact ⟨hs, rfl⟩
    | false =>
      simp only [he, Bool.not_false, if_true, bind, Exec.bind] at h
      cases ht : scanner.scanToken { s with start := s.current } with
      | mk rt s2 =>
        rw [ht] at h
        cases rt with
        | panic p => simp only [Prod.mk.injEq, reduceCtorEq, false_and] at h
        | ok u =>
          have hc2 := counted_step { s with start := s.current } s2 hs ht
          have hsrc := (scanToken_step { s with start := s.current } s2 ht).1
          have := ih s2 s1 hc2 h
          exact ⟨this.1, this.2.trans hsrc⟩

theorem scanLoop_bounded (n : Nat) :
    ∀ s s1 : scanner, s.source.length ≤ s.current + n →
      scanner.scanLoop (n + 1) s ≠ (Res.panic Panic.outOfSteps, s1) := by
  induction n with
  | zero =>
    intro s s1 hs h
    rw [scanner.scanLoop] at h
    have he : s.isAtEnd = true := by
      simp only [scanner.isAtEnd, ge_iff_le, decide_eq_true_eq]
      omega
    simp only [he, Bool.not_true, Bool.false_eq_true, if_false, Prod.mk.injEq, reduceCtorEq,
      false_and] at h
  | succ n ih =>
    intro s s1 hs h
    rw [scanner.scanLoop] at h
    cases he : s.isAtEnd with
    | true =>
      simp only [he, Bool.not_true, Bool.false_eq_true, if_false, Prod.mk.injEq,
        reduceCtorEq, false_and] at h
    | false =>
      simp only [he, Bool.not_false, if_true, bind, Exec.bind] at h
      cases ht : scanner.scanToken { s with start := s.current } with
      | mk rt s2 =>
        rw [ht] at h
        cases rt with
        | panic p =>
          simp only [Prod.mk.injEq, Res.panic.injEq] at h
          rw [h.1, h.2] at ht
          exact scanToken_bounded _ s1 ht
        | ok u =>
          obtain ⟨e1, _, _, e4, _⟩ := scanToken_step _ s2 ht
          simp only at e1 e4
          exact ih s2 s1 (by rw [e1]; omega) h

/-- The bound that `scanTokens` passes to its loop is never reached. -/
theorem scanTokens_bounded (source : List Char) (flag : Bool) (s1 : scanner) :
    scanner.scanTokens (newScanner source flag) ≠ (Res.panic Panic.outOfSteps, s1) := by
  intro h
  unfold scanner.scanTokens at h
  simp only [bind, Exec.bind] at h
  cases hl : scanner.scanLoop ((newScanner source flag).source.length + 1)
      (newScanner source flag) with
  | mk rl s2 =>
    rw [hl] at h
    cases rl with
    | panic p =>
      simp only [Prod.mk.injEq, Res.panic.injEq] at h
      rw [h.1, h.2] at hl
      exact scanLoop_bounded _ _ s1 (by simp [newScanner]) hl
    | ok u =>
      simp only [pure, Exec.pure, Prod.mk.injEq, reduceCtorEq, false_and] at h

/-- The lines of the tokens that `scanTokens` returns. -/
theorem scanTokens_lines (source : List Char) (flag : Bool) (ts : List token) (s1 : scanner)
    (h : scanner.scanTokens (newScanner source flag) = (Res.ok ts, s1)) :
    ∀ t ∈ ts, 0 ≤ t.line ∧ t.line ≤ (newlines source : Int) := by
  unfold scanner.scanTokens at h
  simp only [bind, Exec.bind] at h
  cases hl : scanner.scanLoop ((newScanner source flag).source.length + 1)
      (newScanner source flag) with
  | mk rl s2 =>
    rw [hl] at h
    cases rl with
    | panic p => simp only [Prod.mk.injEq, reduceCtorEq, false_and] at h
    | ok u =>
      simp only [pure, Exec.pure, Prod.mk.injEq, Res.ok.injEq] at h
      have h0 : (newScanner source flag).Counted := by
        refine ⟨le_refl _, ?_, fun t ht => ?_⟩
        · simp [newScanner, newlines]
        · simp [newScanner] at ht
      obtain ⟨⟨c0, c1, c2⟩, hsrc⟩ := scanLoop_counted _ _ s2 h0 hl
      have hle : s2.line ≤ (newlines source : Int) := by
        have := newlines_take_le_all s2.source s2.current
        rw [hsrc] at this
        simp only [newScanner] at this
        simp only [hsrc, newScanner] at c1
        omega
      intro t ht
      rw [← h.1] at ht
      simp only [List.mem_append, List.mem_singleton] at ht
      rcases ht with ht | ht
      · have := c2 t ht
        omega
      · rw [ht]
        exact ⟨c0, hle⟩

/-! ## Strings and comments -/

theorem scanByte_quote : scanner.scanByte (Char.ofNat 34) = scanner.parseString := by
  unfold scanner.scanByte
  rw [if_neg (by decide : ¬ Char.ofNat 34 = '(')]
  rw [if_neg (by decide : ¬ Char.ofNat 34 = ')')]
  rw [if_neg (by decide : ¬ Char.ofNat 34 = Char.ofNat 123)]
  rw [if_neg (by decide : ¬ Char.ofNat 34 = Char.ofNat 125)]
  rw [if_neg (by decide : ¬ Char.ofNat 34 = ',')]
  rw [if_neg (by decide : ¬ Char.ofNat 34 = '.')]
  rw [if_neg (by decide : ¬ Char.ofNat 34 = '-')]
  rw [if_neg (by decide : ¬ Char.ofNat 34 = '+')]
  rw [if_neg (by decide : ¬ Char.ofNat 34 = ';')]
  rw [if_neg (by decide : ¬ Char.ofNat 34 = '*')]
  rw [if_neg (by decide : ¬ Char.ofNat 34 = '!')]
  rw [if_neg (by decide : ¬ Char.ofNat 34 = '=')]
  rw [if_neg (by decide : ¬ Char.ofNat 34 = '>')]
  rw [if_neg (by decide : ¬ Char.ofNat 34 = '<')]
  rw [if_neg (by decide : ¬ Char.ofNat 34 = '/')]
  rw [if_neg (by decide : ¬ (Char.ofNat 34 = ' ' ∨ Char.ofNat 34 = '\r' ∨ Char.ofNat 34 = '\t'))]
  rw [if_neg (by decide : ¬ Char.ofNat 34 = '\n'), if_pos rfl]

theorem scanByte_slash : scanner.scanByte '/' = scanner.scanSlash := by
  unfold scanner.scanByte
  rw [if_neg (by decide : ¬ '/' = '(')]
  rw [if_neg (by decide : ¬ '/' = ')')]
  rw [if_neg (by decide : ¬ '/' = Char.ofNat 123)]
  rw [if_neg (by decide : ¬ '/' = Char.ofNat 125)]
  rw [if_neg (by decide : ¬ '/' = ',')]
  rw [if_neg (by decide : ¬ '/' = '.')]
  rw [if_neg (by decide : ¬ '/' = '-')]
  rw [if_neg (by decide : ¬ '/' = '+')]
  rw [if_neg (by decide : ¬ '/' = ';')]
  rw [if_neg (by decide : ¬ '/' = '*')]
  rw [if_neg (by decide : ¬ '/' = '!')]
  rw [if_neg (by decide : ¬ '/' = '=')]
  rw [if_neg (by decide : ¬ '/' = '>')]
  rw [if_neg (by decide : ¬ '/' = '<')]
  rw [if_pos rfl]

theorem advanceWhile_to (cond : scanner → Bool) (m : Nat) :
    ∀ (n : Nat) (s : scanner), m < n → s.current + m ≤ s.source.length →
      (∀ k, k < m → cond { s with current := s.current + k } = true) →
      cond { s with current := s.current + m } = false →
      scanner.advanceWhile cond n s = (Res.ok (), { s with current := s.current + m }) := by
  induction m with
  | zero =>
    intro n s hn _ _ hstop
    cases n with
    | zero => exact absurd hn (by omega)
    | succ n =>
      rw [scanner.advanceWhile]
      have hs : cond s = false := hstop
      simp only [hs, Bool.false_eq_true, if_false]
      rfl
  | succ m ih =>
    intro n s hn hin hall hstop
    cases n with
    | zero => exact absurd hn (by omega)
    | succ n =>
      rw [scanner.advanceWhile]
      have hs : cond s = true := hall 0 (by omega)
      have hlt : s.current < s.source.length := by omega
      obtain ⟨c, hget⟩ : ∃ c, s.source[s.current]? = some c :=
        ⟨s.source[s.current], List.getElem?_eq_getElem hlt⟩
      simp only [hs, if_true, bind, Exec.bind, scanner.advance, hget]
      have e := ih n { s with current := s.current + 1 } (by omega) (by simp only; omega)
        (fun k hk => by
          have := hall (k + 1) (by omega)
          simp only
          rw [show s.current + 1 + k = s.current + (k + 1) by omega]
          exact this)
        (by
          simp only
          rw [show s.current + 1 + m = s.current + (m + 1) by omega]
          exact hstop)
      rw [e]
      simp only [Prod.mk.injEq, true_and]
      rw [show s.current + 1 + m = s.current + (m + 1) by omega]

theorem peek_at (s : scanner) (c : Char) (h : s.source[s.current]? = some c) : s.peek = c := by
  have hlt : s.current < s.source.length := by
    rcases Nat.lt_or_ge s.current s.source.length with hl | hl
    · exact hl
    · rw [List.getElem?_eq_none hl] at h
      exact Option.noConfusion h
  have he : s.isAtEnd = false := by
    simp only [scanner.isAtEnd, ge_iff_le, decide_eq_false_iff_not, not_le]
    exact hlt
  simp only [scanner.peek, he, Bool.false_eq_true, if_false, List.getD_eq_getElem?_getD, h,
    Option.getD_some]

theorem atEnd_of_length (s : scanner) (h : s.current = s.source.length) : s.isAtEnd = true := by
  simp only [scanner.isAtEnd, ge_iff_le, decide_eq_true_eq]
  omega

theorem not_atEnd_of_get (s : scanner) (c : Char) (h : s.source[s.current]? = some c) :
    s.isAtEnd = false := by
  simp only [scanner.isAtEnd, ge_iff_le, decide_eq_false_iff_not, not_le]
  rcases Nat.lt_or_ge s.current s.source.length with hl | hl
  · exact hl
  · rw [List.getElem?_eq_none hl] at h
    exact Option.noConfusion h

theorem get_in_middle (pre body post : List Char) (k : Nat) (hk : k < body.length) :
    (pre ++ (body ++ post))[pre.length + k]? = body[k]? := by
  rw [List.getElem?_append_right (by omega)]
  rw [show pre.length + k - pre.length = k by omega]
  rw [List.getElem?_append_left hk]

theorem get_after_middle (pre body : List Char) (c : Char) (post : List Char) :
    (pre ++ (body ++ c :: post))[pre.length + body.length]? = some c := by
  rw [List.getElem?_append_right (by omega)]
  rw [show pre.length + body.length - pre.length = body.length by omega]
  rw [List.getElem?_append_right (by omega)]
  simp

theorem slice_middle (pre mid post : List Char) :
    ((pre ++ (mid ++ post)).take (pre.length + mid.length)).drop pre.length = mid := by
  rw [← List.append_assoc, List.take_append_of_le_length (by simp)]
  rw [List.take_of_length_le (by simp), List.drop_left]

/-- The loop of `parseString` and of the comments: it stops in front of the first byte `c`
after the segment `body`, which holds none. -/
theorem advanceWhile_until (c : Char) (pre body post : List Char) (s : scanner)
    (hsrc : s.source = pre ++ (body ++ post)) (hcur : s.current = pre.length)
    (hbody : c ∉ body) (hpost : post.head? = some c ∨ post = []) :
    scanner.advanceWhile (fun s => s.peek ≠ c && !s.isAtEnd) (s.source.length + 1) s =
      (Res.ok (), { s with current := pre.length + body.length }) := by
  have e := advanceWhile_to (fun s => s.peek ≠ c && !s.isAtEnd) body.length
    (s.source.length + 1) s (by rw [hsrc]; simp; omega)
    (by rw [hsrc, hcur]; simp)
    (fun k hk => by
      have hget : ({ s with current := s.current + k } : scanner).source[
          ({ s with current := s.current + k } : scanner).current]? = some body[k] := by
        simp only [hsrc, hcur]
        rw [get_in_middle pre body post k hk, List.getElem?_eq_getElem hk]
      beta_reduce
      rw [peek_at _ _ hget, not_atEnd_of_get _ _ hget]
      have hne : body[k] ≠ c := fun heq => hbody (heq ▸ List.getElem_mem hk)
      simp [hne])
    (by
      rcases hpost with hp | hp
      · cases post with
        | nil => simp at hp
        | cons x rest =>
          simp only [List.head?_cons, Option.some.injEq] at hp
          subst hp
          have hget : ({ s with current := s.current + body.length } : scanner).source[
              ({ s with current := s.current + body.length } : scanner).current]? = some x := by
            simp only [hsrc, hcur]
            exact get_after_middle pre body x rest
          beta_reduce
          rw [peek_at _ _ hget]
          simp
      · subst hp
        have he : ({ s with current := s.current + body.length } : scanner).isAtEnd = true := by
          apply atEnd_of_length
          simp [hsrc, hcur]
        beta_reduce
        rw [he]
        simp)
  rw [e, hcur]

/-- A string literal that is closed: after the opening quote, `parseString` consumes the
bytes up to and with the next quote and adds one token. -/
theorem parseString_closed (pre body rest : List Char) (s : scanner)
    (hsrc : s.source = pre ++ (Char.ofNat 34 :: (body ++ Char.ofNat 34 :: rest)))
    (hstart : s.start = pre.length) (hcur : s.current = pre.length + 1)
    (hbody : Char.ofNat 34 ∉ body) :
    scanner.parseString s =
      (Res.ok (),
        { s with
          current := pre.length + body.length + 2
          tokens := s.tokens ++
            [{ tt := tokenTypeString,
               lexeme := String.mk (Char.ofNat 34 :: (body ++ [Char.ofNat 34])),
               literal := Literal.str (String.mk body), line := s.line }] }) := by
  have hsrc2 : s.source = (pre ++ [Char.ofNat 34]) ++ (body ++ Char.ofNat 34 :: rest) := by
    rw [hsrc]
    simp
  have hloop := advanceWhile_until (Char.ofNat 34) (pre ++ [Char.ofNat 34]) body
    (Char.ofNat 34 :: rest) s hsrc2 (by rw [hcur]; simp) hbody (Or.inl rfl)
  have hget : s.source[(pre ++ [Char.ofNat 34]).length + body.length]? =
      some (Char.ofNat 34) := by
    rw [hsrc2]
    exact get_after_middle _ body _ rest
  have hlen : s.source.length = pre.length + body.length + 2 + rest.length := by
    rw [hsrc]
    simp
    omega
  have hlex : (s.source.take (pre.length + body.length + 2)).drop pre.length =
      Char.ofNat 34 :: (body ++ [Char.ofNat 34]) := by
    have h3 : s.source = pre ++ ((Char.ofNat 34 :: (body ++ [Char.ofNat 34])) ++ rest) := by
      rw [hsrc]
      simp
    have h4 := slice_middle pre (Char.ofNat 34 :: (body ++ [Char.ofNat 34])) rest
    rw [← h3] at h4
    have el : (Char.ofNat 34 :: (body ++ [Char.ofNat 34])).length = body.length + 2 := by
      simp
    rw [el, ← Nat.add_assoc] at h4
    exact h4
  have hlit : (s.source.take (pre.length + body.length + 1)).drop (pre.length + 1) = body := by
    have h4 := slice_middle (pre ++ [Char.ofNat 34]) body (Char.ofNat 34 :: rest)
    rw [← hsrc2] at h4
    have el : (pre ++ [Char.ofNat 34]).length = pre.length + 1 := by simp
    rw [el] at h4
    rw [show pre.length + body.length + 1 = pre.length + 1 + body.length by omega]
    exact h4
  have hend : ({ s with current := (pre ++ [Char.ofNat 34]).length + body.length } :
      scanner).isAtEnd = false := not_atEnd_of_get _ _ hget
  simp only [List.length_append, List.length_singleton] at hloop hget hend
  simp only [scanner.parseString, bind, Exec.bind, hloop, hend, Bool.false_eq_true, if_false,
    pure, Exec.pure, scanner.advance, hget]
  have hb1 : s.start + 1 ≤ pre.length + 1 + body.length + 1 - 1 ∧
      pre.length + 1 + body.length + 1 - 1 ≤ s.source.length ∧
      1 ≤ pre.length + 1 + body.length + 1 := by omega
  have hb2 : s.start ≤ pre.length + 1 + body.length + 1 ∧
      pre.length + 1 + body.length + 1 ≤ s.source.length := by omega
  simp only [if_pos hb1, scanner.addToken, if_pos hb2]
  have e1 : pre.length + 1 + body.length + 1 = pre.length + body.length + 2 := by omega
  have e2 : pre.length + 1 + body.length + 1 - 1 = pre.length + body.length + 1 := by omega
  rw [e2, e1, hstart, hlex, hlit]

/-- A string literal that is not closed: `parseString` reports it. -/
theorem parseString_open (pre body : List Char) (s : scanner)
    (hsrc : s.source = pre ++ (Char.ofNat 34 :: body)) (hcur : s.current = pre.length + 1)
    (hbody : Char.ofNat 34 ∉ body) :
    scanner.parseString s =
      (Res.panic (Panic.parseError s.line " at ''" "unterminated string"),
        { s with current := s.source.length, hadParserError := true }) := by
  have hsrc2 : s.source = (pre ++ [Char.ofNat 34]) ++ (body ++ []) := by
    rw [hsrc]
    simp
  have hloop := advanceWhile_until (Char.ofNat 34) (pre ++ [Char.ofNat 34]) body [] s hsrc2
    (by rw [hcur]; simp) hbody (Or.inr rfl)
  have hlen : s.source.length = pre.length + 1 + body.length := by
    rw [hsrc]
    simp
    omega
  have hend : ({ s with current := (pre ++ [Char.ofNat 34]).length + body.length } :
      scanner).isAtEnd = true := atEnd_of_length _ (by simp [hlen])
  simp only [List.length_append, List.length_singleton] at hloop hend
  simp only [scanner.parseString, bind, Exec.bind, hloop, hend, if_true,
    scanner.reportParserError]
  simp only [hlen]
  rfl

theorem split_at_first (c : Char) (l : List Char) :
    ∃ b1 post, l = b1 ++ post ∧ c ∉ b1 ∧ (post = [] ∨ ∃ p2, post = c :: p2) := by
  induction l with
  | nil => exact ⟨[], [], rfl, List.not_mem_nil c, Or.inl rfl⟩
  | cons x xs ih =>
    by_cases hx : x = c
    · exact ⟨[], x :: xs, rfl, List.not_mem_nil c, Or.inr ⟨xs, by rw [hx]⟩⟩
    · obtain ⟨b1, post, h1, h2, h3⟩ := ih
      refine ⟨x :: b1, post, by rw [h1]; rfl, ?_, h3⟩
      intro hm
      rcases List.mem_cons.mp hm with e | e
      · exact hx e.symm
      · exact h2 e

theorem matchChar_no (s : scanner) (c x : Char) (h : s.source[s.current]? = some x)
    (hne : x ≠ c) : scanner.matchChar c s = (Res.ok false, s) := by
  simp only [scanner.matchChar, not_atEnd_of_get s x h, Bool.false_eq_true, if_false,
    List.getD_eq_getElem?_getD, h, Option.getD_some, ne_eq, hne, not_false_eq_true, if_true]

theorem matchChar_yes (s : scanner) (c : Char) (h : s.source[s.current]? = some c) :
    scanner.matchChar c s = (Res.ok true, { s with current := s.current + 1 }) := by
  simp only [scanner.matchChar, not_atEnd_of_get s c h, Bool.false_eq_true, if_false,
    List.getD_eq_getElem?_getD, h, Option.getD_some, ne_eq, not_true_eq_false]

/-- A block comment that is not closed: `scanSlash` reports it. -/
theorem scanSlash_open (pre body : List Char) (s : scanner)
    (hsrc : s.source = pre ++ ('/' :: '*' :: body)) (hcur : s.current = pre.length + 1)
    (hbody : ¬ ['*', '/'] <:+: body) :
    ∃ s1, scanner.scanSlash s =
        (Res.panic (Panic.parseError s.line " at ''" "unterminated comment"), s1) ∧
      s1.hadParserError = true := by
  obtain ⟨b1, post, hb, hb1, hpost⟩ := split_at_first '*' body
  have hg1 : s.source[s.current]? = some '*' := by
    rw [hsrc, hcur]
    have := get_after_middle pre ['/'] '*' body
    simpa using this
  have hm1 := matchChar_no s '/' '*' hg1 (by decide)
  have hm2 := matchChar_yes s '*' hg1
  have hsrc2 : ({ s with current := s.current + 1 } : scanner).source =
      (pre ++ ['/', '*']) ++ (b1 ++ post) := by
    simp [hsrc, hb]
  have hloop := advanceWhile_until '*' (pre ++ ['/', '*']) b1 post
    { s with current := s.current + 1 } hsrc2 (by simp [hcur]) hb1
    (by
      rcases hpost with h | ⟨p2, h⟩
      · exact Or.inr h
      · left
        rw [h]
        rfl)
  have hcheck : (({ s with current := (pre ++ ['/', '*']).length + b1.length } :
        scanner).isAtEnd ||
      decide (({ s with current := (pre ++ ['/', '*']).length + b1.length } :
        scanner).peekNext ≠ '/')) = true := by
    rcases hpost with h | ⟨p2, h⟩
    · have he : ({ s with current := (pre ++ ['/', '*']).length + b1.length } :
          scanner).isAtEnd = true := by
        apply atEnd_of_length
        simp [hsrc, hb, h]
        omega
      rw [he]
      rfl
    · cases p2 with
      | nil =>
        have he : ({ s with current := (pre ++ ['/', '*']).length + b1.length + 1 } :
            scanner).isAtEnd = true := by
          apply atEnd_of_length
          simp [hsrc, hb, h]
          omega
        simp only [scanner.peekNext, scanner.peek, he, if_true]
        simp
      | cons x p3 =>
        have hget : ({ s with current := (pre ++ ['/', '*']).length + b1.length + 1 } :
            scanner).source[({ s with current :=
              (pre ++ ['/', '*']).length + b1.length + 1 } : scanner).current]? = some x := by
          simp only [hsrc, hb, h]
          have := get_after_middle (pre ++ ['/', '*']) (b1 ++ ['*']) x p3
          simpa [Nat.add_assoc] using this
        have hx : x ≠ '/' := by
          intro hx
          apply hbody
          rw [hb, h, hx]
          exact ⟨b1, p3, by simp⟩
        simp only [scanner.peekNext, peek_at _ _ hget]
        simp [hx]
  simp only [scanner.scanSlash, bind, Exec.bind, hm1, Bool.false_eq_true, if_false, hm2,
    if_true]
  simp only at hloop
  simp only [hloop, hcheck, if_true, scanner.reportParserError]
  exact ⟨_, rfl, rfl⟩

theorem scanTokens_of_scanToken_panic (s s1 : scanner) (p : Panic)
    (hend : s.isAtEnd = false)
    (h : scanner.scanToken { s with start := s.current } = (Res.panic p, s1)) :
    scanner.scanTokens s = (Res.panic p, s1) := by
  simp only [scanner.scanTokens, bind, Exec.bind, scanner.scanLoop, hend, Bool.not_false,
    if_true, h]

theorem scanToken_quote (s : scanner) (h : s.source[s.current]? = some (Char.ofNat 34)) :
    scanner.scanToken s = scanner.parseString { s with current := s.current + 1 } := by
  simp only [scanner.scanToken, bind, Exec.bind, scanner.advance, h, scanByte_quote]

theorem scanToken_slash (s : scanner) (h : s.source[s.current]? = some '/') :
    scanner.scanToken s = scanner.scanSlash { s with current := s.current + 1 } := by
  simp only [scanner.scanToken, bind, Exec.bind, scanner.advance, h, scanByte_slash]

theorem get_at_length (pre : List Char) (c : Char) (post : List Char) :
    (pre ++ c :: post)[pre.length]? = some c := by
  rw [List.getElem?_append_right (le_refl _)]
  simp

/-! ## The cursor of the parser stays in bounds -/

theorem inBounds_of_tokens (p p1 : parser) (hp : p.InBounds) (ht : p1.tokens = p.tokens)
    (hc : p1.current < p.tokens.length) : p1.InBounds := by
  unfold parser.InBounds
  rw [ht]
  exact ⟨hc, hp.2⟩

theorem inBounds_get (p : parser) (hp : p.InBounds) : ∃ t, p.tokens[p.current]? = some t := by
  have h : p.current < p.tokens.length := hp.1
  exact ⟨p.tokens[p.current], List.getElem?_eq_getElem h⟩

theorem inBounds_next (p : parser) (t : token) (hp : p.InBounds)
    (ht : p.tokens[p.current]? = some t) (hne : t.tt ≠ tokenTypeEOF) :
    p.current + 1 < p.tokens.length := by
  obtain ⟨h1, tl, h2, h3⟩ := hp
  rcases Nat.lt_or_ge (p.current + 1) p.tokens.length with h | h
  · exact h
  · have e : p.current = p.tokens.length - 1 := by omega
    rw [e, h2] at ht
    simp only [Option.some.injEq] at ht
    rw [ht] at h3
    exact absurd h3 hne

theorem fine_ok {α : Type} (a : α) : (Res.ok a : Res α).Fine :=
  True.intro

theorem fine_parseError {α : Type} (l : Int) (pl m : String) :
    (Res.panic (Panic.parseError l pl m) : Res α).Fine :=
  True.intro

theorem fine_runtimeError {α : Type} (l : Int) (m : String) :
    (Res.panic (Panic.runtimeError l m) : Res α).Fine :=
  True.intro

theorem fine_cast {α β : Type} (p : Panic) (h : (Res.panic p : Res α).Fine) :
    (Res.panic p : Res β).Fine := by
  cases p <;> exact h

theorem fine_not_outOfSteps {α : Type} (r : Res α) (h : r.Fine) :
    r ≠ Res.panic Panic.outOfSteps := by
  intro c
  rw [c] at h
  exact h

theorem fine_not_goRuntime {α : Type} (r : Res α) (h : r.Fine) (msg : String) :
    r ≠ Res.panic (Panic.goRuntime msg) := by
  intro c
  rw [c] at h
  exact h

theorem ok_not_runtimeError {α : Type} (a : α) (l : Int) (msg : String)
    (h : (Res.ok a : Res α) = Res.panic (Panic.runtimeError l msg)) (q : Prop) : q :=
  Res.noConfusion h

theorem parseError_not_runtimeError {α : Type} (l : Int) (pl m : String) (l1 : Int)
    (msg : String)
    (h : (Res.panic (Panic.parseError l pl m) : Res α) = Res.panic (Panic.runtimeError l1 msg))
    (q : Prop) : q := by
  simp only [Res.panic.injEq, reduceCtorEq] at h

theorem goes_zero {α : Type} {rt : Bool} (one eats : Bool) (x : Exec parser α) :
    Goes one eats rt 0 x :=
  ⟨fun p _ _ hp hl _ _ => by
    have := hp.1
    unfold parser.left at hl
    omega⟩

theorem goes_relax {α : Type} {one eats rt : Bool} {m : Nat} {x : Exec parser α}
    (one1 eats1 rt1 : Bool) (h : Goes one eats rt m x) (ho : one = true → one1 = true)
    (he : eats1 = true → eats = true) (hr : rt1 = true → rt = true) :
    Goes one1 eats1 rt1 m x :=
  ⟨fun p p1 r hp hl h1 hx => by
    have hone : one = true → 1 ≤ p.current := fun c => h1 (ho c)
    obtain ⟨a, b, c, d, e, f⟩ := h.run p p1 r hp hl hone hx
    exact ⟨a, b, c, d, fun hh => e (he hh), fun hh => f (hr hh)⟩⟩

theorem goes_pure {α : Type} {rt : Bool} (one : Bool) (m : Nat) (a : α) :
    Goes one false rt m (pure a : Exec parser α) :=
  ⟨fun p p1 r hp _ _ hx => by
    simp only [pure, Exec.pure, Prod.mk.injEq] at hx
    rw [← hx.1, ← hx.2]
    exact ⟨rfl, hp, le_refl _, fine_ok a, fun h => Bool.noConfusion h,
      fun _ l msg h => ok_not_runtimeError a l msg h _⟩⟩

theorem goes_report {α : Type} {rt : Bool} (one eats : Bool) (m : Nat) (t : token)
    (message : String) :
    Goes one eats rt m (reportParserError t message : Exec parser α) :=
  ⟨fun p p1 r hp _ _ hx => by
    simp only [reportParserError, Prod.mk.injEq] at hx
    rw [← hx.1, ← hx.2]
    exact ⟨rfl, hp, le_refl _, fine_parseError _ _ _, fun _ a h => Res.noConfusion h,
      fun _ l msg h => parseError_not_runtimeError _ _ _ l msg h _⟩⟩

/-- The report of a runtime error by the parser: it does not move the cursor itself. -/
theorem goes_reportRuntime {α : Type} (one eats : Bool) (m : Nat) (t : token)
    (message : String) :
    Goes one eats false m (parser.reportRuntimeError t message : Exec parser α) :=
  ⟨fun p p1 r hp _ _ hx => by
    simp only [parser.reportRuntimeError, Prod.mk.injEq] at hx
    rw [← hx.1, ← hx.2]
    exact ⟨rfl, hp, le_refl _, fine_runtimeError _ _, fun _ a h => Res.noConfusion h,
      fun h => Bool.noConfusion h⟩⟩

theorem runtimeError_cast {α β : Type} (e : Panic) (l : Int) (msg : String)
    (h : (Res.panic e : Res β) = Res.panic (Panic.runtimeError l msg)) :
    (Res.panic e : Res α) = Res.panic (Panic.runtimeError l msg) := by
  simp only [Res.panic.injEq] at h ⊢
  exact h

/-- Sequencing as in `goes_then`, for a second part that goes well on the values that the
first part can return. -/
theorem goes_then_val {α β : Type} {one eats e1 rt : Bool} {m : Nat} (x : Exec parser α)
    (f : α → Exec parser β) (hx : Goes one e1 rt m x)
    (hf : ∀ a, (∃ p p1, x p = (Res.ok a, p1)) → Goes one eats rt m (f a)) :
    Goes one eats rt m (x >>= f) := by
  constructor
  intro p p1 r hp hl h1 h
  simp only [bind, Exec.bind] at h
  cases hxp : x p with
  | mk rx s =>
    rw [hxp] at h
    obtain ⟨a1, a2, a3, a4, _, a6⟩ := hx.run p s rx hp hl h1 hxp
    cases rx with
    | ok a =>
      have hl2 : s.left ≤ m := by
        unfold parser.left at hl ⊢
        rw [a1]
        omega
      obtain ⟨b1, b2, b3, b4, b5, b6⟩ := (hf a ⟨p, s, hxp⟩).run s p1 r a2 hl2 (fun c => by
        have := h1 c
        omega) h
      exact ⟨b1.trans a1, b2, le_trans a3 b3, b4, fun c v hv => by
        have := b5 c v hv
        omega, fun c l msg hv => by
        have := b6 c l msg hv
        omega⟩
    | panic e =>
      simp only [Prod.mk.injEq] at h
      rw [← h.1, ← h.2]
      exact ⟨a1, a2, a3, fine_cast e a4, fun _ v hv => Res.noConfusion hv,
        fun c l msg hv => a6 c l msg (runtimeError_cast e l msg hv)⟩

/-- Sequencing when the first part need not move the cursor. -/
theorem goes_then {α β : Type} {one eats e1 rt : Bool} {m : Nat} (x : Exec parser α)
    (f : α → Exec parser β) (hx : Goes one e1 rt m x) (hf : ∀ a, Goes one eats rt m (f a)) :
    Goes one eats rt m (x >>= f) :=
  goes_then_val x f hx (fun a _ => hf a)

/-- Sequencing when the first part moves the cursor: what follows has a token behind the
cursor and one token less in front of it, and the cursor has moved however it ends. -/
theorem goes_eaten {α β : Type} {one eats rt : Bool} {m : Nat} (x : Exec parser α)
    (f : α → Exec parser β) (hx : Goes one true rt m x)
    (hf : ∀ a, Goes true false false (m - 1) (f a)) :
    Goes one eats rt m (x >>= f) := by
  constructor
  intro p p1 r hp hl h1 h
  simp only [bind, Exec.bind] at h
  cases hxp : x p with
  | mk rx s =>
    rw [hxp] at h
    obtain ⟨a1, a2, a3, a4, a5, a6⟩ := hx.run p s rx hp hl h1 hxp
    cases rx with
    | ok a =>
      have hlt := a5 rfl a rfl
      have hl2 : s.left ≤ m - 1 := by
        unfold parser.left at hl ⊢
        rw [a1]
        have := a2.1
        rw [a1] at this
        omega
      obtain ⟨b1, b2, b3, b4, _, _⟩ := (hf a).run s p1 r a2 hl2 (fun _ => by omega) h
      exact ⟨b1.trans a1, b2, le_trans a3 b3, b4, fun _ v _ => by omega,
        fun _ _ _ _ => by omega⟩
    | panic e =>
      simp only [Prod.mk.injEq] at h
      rw [← h.1, ← h.2]
      exact ⟨a1, a2, a3, fine_cast e a4, fun _ v hv => Res.noConfusion hv,
        fun c l msg hv => a6 c l msg (runtimeError_cast e l msg hv)⟩

theorem goes_peek {rt : Bool} (one : Bool) (m : Nat) : Goes one false rt m parser.peek :=
  ⟨fun p p1 r hp _ _ hx => by
    obtain ⟨t, ht⟩ := inBounds_get p hp
    rw [peek_eq p t ht] at hx
    simp only [Prod.mk.injEq] at hx
    rw [← hx.1, ← hx.2]
    exact ⟨rfl, hp, le_refl _, fine_ok t, fun h => Bool.noConfusion h,
      fun _ l msg h => ok_not_runtimeError _ l msg h _⟩⟩

theorem goes_isAtEnd {rt : Bool} (one : Bool) (m : Nat) :
    Goes one false rt m parser.isAtEnd :=
  ⟨fun p p1 r hp _ _ hx => by
    obtain ⟨t, ht⟩ := inBounds_get p hp
    rw [isAtEnd_eq p t ht] at hx
    simp only [Prod.mk.injEq] at hx
    rw [← hx.1, ← hx.2]
    exact ⟨rfl, hp, le_refl _, fine_ok _, fun h => Bool.noConfusion h,
      fun _ l msg h => ok_not_runtimeError _ l msg h _⟩⟩

theorem goes_check {rt : Bool} (one : Bool) (m : Nat) (tt : tokenType) :
    Goes one false rt m (parser.check tt) :=
  ⟨fun p p1 r hp _ _ hx => by
    obtain ⟨t, ht⟩ := inBounds_get p hp
    rw [check_eq p t tt ht] at hx
    simp only [Prod.mk.injEq] at hx
    rw [← hx.1, ← hx.2]
    exact ⟨rfl, hp, le_refl _, fine_ok _, fun h => Bool.noConfusion h,
      fun _ l msg h => ok_not_runtimeError _ l msg h _⟩⟩

/-- The method `previous` reads in bounds when there is a token behind the cursor. -/
theorem goes_previous {rt : Bool} (m : Nat) : Goes true false rt m parser.previous :=
  ⟨fun p p1 r hp _ h1 hx => by
    have hc := h1 rfl
    obtain ⟨c, hc2⟩ : ∃ c, p.current = c + 1 := ⟨p.current - 1, by omega⟩
    have hlt : c < p.tokens.length := by
      have := hp.1
      omega
    simp only [parser.previous, hc2, List.getElem?_eq_getElem hlt, Prod.mk.injEq] at hx
    rw [← hx.1, ← hx.2]
    exact ⟨rfl, hp, le_refl _, fine_ok _, fun h => Bool.noConfusion h,
      fun _ l msg h => ok_not_runtimeError _ l msg h _⟩⟩

/-- What `match` does in bounds: nothing, or one step forward. -/
theorem matchTokens_cases (ts : List tokenType) (p : parser) (hp : p.InBounds) :
    parser.matchTokens ts p = (Res.ok false, p) ∨
      (parser.matchTokens ts p = (Res.ok true, { p with current := p.current + 1 }) ∧
        p.current + 1 < p.tokens.length) := by
  obtain ⟨t, ht⟩ := inBounds_get p hp
  induction ts with
  | nil => exact Or.inl rfl
  | cons x rest ih =>
    by_cases he : t.tt = tokenTypeEOF
    · have hc : parser.check x p = (Res.ok false, p) := by
        rw [check_eq p t x ht, if_pos he]
      simp only [parser.matchTokens, bind, Exec.bind, hc, Bool.false_eq_true, if_false]
      exact ih
    · by_cases hx : t.tt = x
      · right
        have hc : parser.check x p = (Res.ok true, p) := by
          rw [check_eq p t x ht, if_neg he, decide_eq_true hx]
        simp only [parser.matchTokens, bind, Exec.bind, hc, if_true, advance_eq p t ht he,
          pure, Exec.pure, true_and]
        exact inBounds_next p t hp ht he
      · have hc : parser.check x p = (Res.ok false, p) := by
          rw [check_eq p t x ht, if_neg he, decide_eq_false hx]
        simp only [parser.matchTokens, bind, Exec.bind, hc, Bool.false_eq_true, if_false]
        exact ih

/-- What `consume` does in bounds: one step forward, or the report of a parse error. -/
theorem consume_cases (tt : tokenType) (msg : String) (p : parser) (hp : p.InBounds) :
    (∃ t, parser.consume tt msg p = (Res.ok t, { p with current := p.current + 1 }) ∧
        p.current + 1 < p.tokens.length) ∨
      ∃ l pl, parser.consume tt msg p =
        (Res.panic (Panic.parseError l pl msg), { p with hadParserError := true }) := by
  obtain ⟨t, ht⟩ := inBounds_get p hp
  have hno : parser.check tt p = (Res.ok false, p) →
      ∃ l pl, parser.consume tt msg p =
        (Res.panic (Panic.parseError l pl msg), { p with hadParserError := true }) := by
    intro hc
    simp only [parser.consume, bind, Exec.bind, hc, Bool.false_eq_true, if_false,
      peek_eq p t ht, reportParserError]
    exact ⟨_, _, rfl⟩
  by_cases he : t.tt = tokenTypeEOF
  · right
    apply hno
    rw [check_eq p t tt ht, if_pos he]
  · by_cases hx : t.tt = tt
    · left
      have hc : parser.check tt p = (Res.ok true, p) := by
        rw [check_eq p t tt ht, if_neg he, decide_eq_true hx]
      simp only [parser.consume, bind, Exec.bind, hc, if_true, advance_eq p t ht he]
      exact ⟨t, rfl, inBounds_next p t hp ht he⟩
    · right
      apply hno
      rw [check_eq p t tt ht, if_neg he, decide_eq_false hx]

theorem goes_consume {rt : Bool} (one eats : Bool) (m : Nat) (tt : tokenType)
    (msg : String) : Goes one eats rt m (parser.consume tt msg) :=
  ⟨fun p p1 r hp _ _ hx => by
    rcases consume_cases tt msg p hp with ⟨t, h, hlt⟩ | ⟨l, pl, h⟩
    · rw [h] at hx
      simp only [Prod.mk.injEq] at hx
      rw [← hx.1, ← hx.2]
      exact ⟨rfl, inBounds_of_tokens p _ hp rfl hlt, Nat.le_succ _, fine_ok t,
        fun _ _ _ => Nat.lt_succ_self _, fun _ _ _ _ => Nat.lt_succ_self _⟩
    · rw [h] at hx
      simp only [Prod.mk.injEq] at hx
      rw [← hx.1, ← hx.2]
      exact ⟨rfl, inBounds_of_tokens p _ hp rfl hp.1, le_refl _, fine_parseError _ _ _,
        fun _ a c => Res.noConfusion c,
        fun _ l1 m1 c => parseError_not_runtimeError _ _ _ l1 m1 c _⟩⟩

/-- Sequencing after `match`: on a match what follows has a token behind the cursor and
one token less in front of it. -/
theorem goes_match {β : Type} {one eats rt : Bool} {m : Nat} (ts : List tokenType)
    (f : Bool → Exec parser β) (ht : Goes true false false (m - 1) (f true))
    (hf : Goes one eats rt m (f false)) :
    Goes one eats rt m (parser.matchTokens ts >>= f) := by
  constructor
  intro p p1 r hp hl h1 h
  simp only [bind, Exec.bind] at h
  rcases matchTokens_cases ts p hp with hm | ⟨hm, hlt⟩
  · rw [hm] at h
    exact hf.run p p1 r hp hl h1 h
  · rw [hm] at h
    have hp2 : ({ p with current := p.current + 1 } : parser).InBounds :=
      inBounds_of_tokens p _ hp rfl hlt
    have hl2 : ({ p with current := p.current + 1 } : parser).left ≤ m - 1 := by
      unfold parser.left at hl ⊢
      simp only
      omega
    obtain ⟨b1, b2, b3, b4, _, _⟩ := ht.run _ p1 r hp2 hl2 (fun _ => by simp only; omega) h
    simp only at b1 b3
    exact ⟨b1, b2, by omega, b4, fun _ v _ => by omega, fun _ _ _ _ => by omega⟩

theorem goes_mono {α : Type} {one eats rt : Bool} {m k : Nat} {x : Exec parser α}
    (h : Goes one eats rt m x) (hk : k ≤ m) : Goes one eats rt k x :=
  ⟨fun p p1 r hp hl h1 hx => h.run p p1 r hp (le_trans hl hk) h1 hx⟩

theorem goes_forget {α : Type} {one eats rt : Bool} {m : Nat} {x : Exec parser α}
    (h : Goes one eats rt m x) : Goes one false rt m x :=
  goes_relax one false rt h (fun c => c) (fun c => Bool.noConfusion c) (fun c => c)

/-- The bound of a callee that is called after a token has been consumed. -/
theorem goes_after {α : Type} {one eats rt : Bool} {x : Exec parser α} {n m hF hG : Nat}
    (h : ∀ k, 16 * k + hG ≤ n → Goes one eats rt k x) (hm : 16 * m + hF ≤ n + 1)
    (hh : hG ≤ 15) : Goes one false false (m - 1) x := by
  cases m with
  | zero => exact goes_zero one false x
  | succ k =>
    exact goes_relax one false false (h k (by omega)) (fun c => c)
      (fun c => Bool.noConfusion c) (fun c => Bool.noConfusion c)

theorem goes_matchTokens {rt : Bool} (one : Bool) (m : Nat) (ts : List tokenType) :
    Goes one false rt m (parser.matchTokens ts) :=
  ⟨fun p p1 r hp _ _ hx => by
    rcases matchTokens_cases ts p hp with hm | ⟨hm, hlt⟩
    · rw [hm] at hx
      simp only [Prod.mk.injEq] at hx
      rw [← hx.1, ← hx.2]
      exact ⟨rfl, hp, le_refl _, fine_ok _, fun h => Bool.noConfusion h,
        fun _ l msg h => ok_not_runtimeError _ l msg h _⟩
    · rw [hm] at hx
      simp only [Prod.mk.injEq] at hx
      rw [← hx.1, ← hx.2]
      exact ⟨rfl, inBounds_of_tokens p _ hp rfl hlt, Nat.le_succ _, fine_ok _,
        fun h => Bool.noConfusion h, fun _ l msg h => ok_not_runtimeError _ l msg h _⟩⟩

theorem goes_match_if {β : Type} {one eats rt : Bool} {m : Nat} (ts : List tokenType)
    (a b : Exec parser β) (ha : Goes true false false (m - 1) a)
    (hb : Goes one eats rt m b) :
    Goes one eats rt m (parser.matchTokens ts >>= fun c => if c = true then a else b) :=
  goes_match ts _ (by simpa only [if_true] using ha)
    (by simpa only [Bool.false_eq_true, if_false] using hb)

theorem goes_ite {α : Type} {one eats rt : Bool} {m : Nat} (c : Prop) [Decidable c]
    (a b : Exec parser α) (ha : Goes one eats rt m a) (hb : Goes one eats rt m b) :
    Goes one eats rt m (if c then a else b) := by
  split
  · exact ha
  · exact hb

theorem blockStatement_block (n : Nat) (p p1 : parser) (s : stmt)
    (h : parser.blockStatement n p = (Res.ok s, p1)) : ∃ ss, s = stmt.block ss := by
  cases n with
  | zero =>
    rw [parser.blockStatement] at h
    simp only [throwPanic, Prod.mk.injEq, reduceCtorEq, false_and] at h
  | succ n =>
    rw [parser.blockStatement] at h
    simp only [bind, Exec.bind, pure, Exec.pure] at h
    split at h
    · split at h
      · simp only [Prod.mk.injEq, Res.ok.injEq] at h
        exact ⟨_, h.1.symm⟩
      · simp only [Prod.mk.injEq, reduceCtorEq, false_and] at h
    · simp only [Prod.mk.injEq, reduceCtorEq, false_and] at h

/-! ## The parser ends and keeps its cursor in bounds -/

theorem parserGoes_zero : ParserGoes 0 where
  paramsLoop := by
    intro one _ m hm
    have h0 : m = 0 := by omega
    subst h0
    exact goes_zero _ _ _
  expression := by
    intro one m hm
    have h0 : m = 0 := by omega
    subst h0
    exact goes_zero _ _ _
  assignment := by
    intro one m hm
    have h0 : m = 0 := by omega
    subst h0
    exact goes_zero _ _ _
  or := by
    intro one m hm
    have h0 : m = 0 := by omega
    subst h0
    exact goes_zero _ _ _
  orLoop := by
    intro one _ m hm
    have h0 : m = 0 := by omega
    subst h0
    exact goes_zero _ _ _
  and := by
    intro one m hm
    have h0 : m = 0 := by omega
    subst h0
    exact goes_zero _ _ _
  andLoop := by
    intro one _ m hm
    have h0 : m = 0 := by omega
    subst h0
    exact goes_zero _ _ _
  declaration := by
    intro one m hm
    have h0 : m = 0 := by omega
    subst h0
    exact goes_zero _ _ _
  classDeclaration := by
    intro one m hm
    have h0 : m = 0 := by omega
    subst h0
    exact goes_zero _ _ _
  methodsLoop := by
    intro one _ m hm
    have h0 : m = 0 := by omega
    subst h0
    exact goes_zero _ _ _
  funDeclaration := by
    intro one _ m hm
    have h0 : m = 0 := by omega
    subst h0
    exact goes_zero _ _ _
  statement := by
    intro one m hm
    have h0 : m = 0 := by omega
    subst h0
    exact goes_zero _ _ _
  returnStatement := by
    intro m hm
    have h0 : m = 0 := by omega
    subst h0
    exact goes_zero _ _ _
  forStatement := by
    intro one m hm
    have h0 : m = 0 := by omega
    subst h0
    exact goes_zero _ _ _
  whileStatement := by
    intro one m hm
    have h0 : m = 0 := by omega
    subst h0
    exact goes_zero _ _ _
  ifStatement := by
    intro one m hm
    have h0 : m = 0 := by omega
    subst h0
    exact goes_zero _ _ _
  blockStatement := by
    intro one m hm
    have h0 : m = 0 := by omega
    subst h0
    exact goes_zero _ _ _
  blockLoop := by
    intro one _ m hm
    have h0 : m = 0 := by omega
    subst h0
    exact goes_zero _ _ _
  printStatement := by
    intro one m hm
    have h0 : m = 0 := by omega
    subst h0
    exact goes_zero _ _ _
  varDeclaration := by
    intro one m hm
    have h0 : m = 0 := by omega
    subst h0
    exact goes_zero _ _ _
  expressionStatement := by
    intro one m hm
    have h0 : m = 0 := by omega
    subst h0
    exact goes_zero _ _ _
  equality := by
    intro one m hm
    have h0 : m = 0 := by omega
    subst h0
    exact goes_zero _ _ _
  equalityLoop := by
    intro one _ m hm
    have h0 : m = 0 := by omega
    subst h0
    exact goes_zero _ _ _
  comparison := by
    intro one m hm
    have h0 : m = 0 := by omega
    subst h0
    exact goes_zero _ _ _
  comparisonLoop := by
    intro one _ m hm
    have h0 : m = 0 := by omega
    subst h0
    exact goes_zero _ _ _
  addition := by
    intro one m hm
    have h0 : m = 0 := by omega
    subst h0
    exact goes_zero _ _ _
  additionLoop := by
    intro one _ m hm
    have h0 : m = 0 := by omega
    subst h0
    exact goes_zero _ _ _
  multiplication := by
    intro one m hm
    have h0 : m = 0 := by omega
    subst h0
    exact goes_zero _ _ _
  multiplicationLoop := by
    intro one _ m hm
    have h0 : m = 0 := by omega
    subst h0
    exact goes_zero _ _ _
  unary := by
    intro one m hm
    have h0 : m = 0 := by omega
    subst h0
    exact goes_zero _ _ _
  call := by
    intro one m hm
    have h0 : m = 0 := by omega
    subst h0
    exact goes_zero _ _ _
  callLoop := by
    intro one _ m hm
    have h0 : m = 0 := by omega
    subst h0
    exact goes_zero _ _ _
  finishCall := by
    intro one _ m hm
    have h0 : m = 0 := by omega
    subst h0
    exact goes_zero _ _ _
  argsLoop := by
    intro one _ m hm
    have h0 : m = 0 := by omega
    subst h0
    exact goes_zero _ _ _
  primary := by
    intro one m hm
    have h0 : m = 0 := by omega
    subst h0
    exact goes_zero _ _ _
  parseLoop := by
    intro one _ m hm
    have h0 : m = 0 := by omega
    subst h0
    exact goes_zero _ _ _

theorem parserGoes_succ (n : Nat) (ih : ParserGoes n) : ParserGoes (n + 1) where
  paramsLoop := by
    intro one _ m hm
    rw [parser.paramsLoop]
    exact goes_then _ _ (goes_check _ _ _) (fun c => goes_ite _ _ _
      (goes_eaten _ _ (goes_consume _ _ _ _ _) (fun t =>
        goes_then _ _ (goes_matchTokens _ _ _) (fun c2 => goes_ite _ _ _
          (goes_pure _ _ _) (goes_after (ih.paramsLoop true _) hm (by omega)))))
      (goes_pure _ _ _))
  expression := by
    intro one m hm
    rw [parser.expression]
    exact ih.assignment one m (by omega)
  assignment := by
    intro one m hm
    rw [parser.assignment]
    exact goes_eaten _ _ (ih.or one m (by omega)) (fun e =>
      goes_then _ _ (goes_matchTokens _ _ _) (fun c => goes_ite _ _ _
        (goes_then _ _ (goes_previous _) (fun equal =>
          goes_then _ _ (goes_after (ih.assignment true) hm (by omega)) (fun v => by
            split
            · exact goes_pure _ _ _
            · exact goes_pure _ _ _
            · exact goes_reportRuntime _ _ _ _ _)))
        (goes_pure _ _ _)))
  or := by
    intro one m hm
    rw [parser.or]
    exact goes_eaten _ _ (ih.and one m (by omega)) (fun e =>
      (goes_after (ih.orLoop true _) hm (by omega)))
  orLoop := by
    intro one _ m hm
    rw [parser.orLoop]
    exact goes_match_if _ _ _
      (goes_then _ _ (goes_previous _) (fun op =>
        goes_then _ _ (goes_after (ih.and true) hm (by omega)) (fun right =>
          (goes_after (ih.orLoop true _) hm (by omega)))))
      (goes_pure _ _ _)
  and := by
    intro one m hm
    rw [parser.and]
    exact goes_eaten _ _ (ih.equality one m (by omega)) (fun e =>
      (goes_after (ih.andLoop true _) hm (by omega)))
  andLoop := by
    intro one _ m hm
    rw [parser.andLoop]
    exact goes_match_if _ _ _
      (goes_then _ _ (goes_previous _) (fun op =>
        goes_then _ _ (goes_after (ih.equality true) hm (by omega)) (fun right =>
          (goes_after (ih.andLoop true _) hm (by omega)))))
      (goes_pure _ _ _)
  declaration := by
    intro one m hm
    rw [parser.declaration]
    exact goes_match_if _ _ _ (goes_after (ih.varDeclaration true) hm (by omega))
      (goes_match_if _ _ _
        (goes_then _ _ (goes_after (ih.funDeclaration true _) hm (by omega))
          (fun d => goes_pure _ _ _))
        (goes_match_if _ _ _ (goes_after (ih.classDeclaration true) hm (by omega))
          (ih.statement one m (by omega))))
  classDeclaration := by
    intro one m hm
    rw [parser.classDeclaration]
    exact goes_eaten _ _ (goes_consume _ _ _ _ _) (fun name =>
      goes_then _ _ (goes_matchTokens _ _ _) (fun l =>
        goes_then _ _ (goes_ite _ _ _
            (goes_then _ _ (goes_consume _ false _ _ _) (fun _ =>
              goes_then _ _ (goes_previous _) (fun sc => goes_pure _ _ _)))
            (goes_pure _ _ _)) (fun super =>
          goes_then _ _ (goes_consume _ false _ _ _) (fun _ =>
            goes_then _ _ (goes_after (ih.methodsLoop true _) hm (by omega)) (fun methods =>
              goes_then _ _ (goes_consume _ false _ _ _) (fun _ => goes_pure _ _ _))))))
  methodsLoop := by
    intro one _ m hm
    rw [parser.methodsLoop]
    exact goes_then _ _ (goes_check _ _ _) (fun c =>
      goes_then _ _ (goes_ite _ _ _ (goes_isAtEnd _ _) (goes_pure _ _ _)) (fun e =>
        goes_ite _ _ _
          (goes_eaten _ _ (ih.funDeclaration one _ m (by omega)) (fun f =>
            (goes_after (ih.methodsLoop true _) hm (by omega))))
          (goes_pure _ _ _)))
  funDeclaration := by
    intro one _ m hm
    rw [parser.funDeclaration]
    exact goes_eaten _ _ (goes_consume _ _ _ _ _) (fun name =>
      goes_then _ _ (goes_consume _ false _ _ _) (fun _ =>
        goes_then _ _ (goes_after (ih.paramsLoop true _) hm (by omega)) (fun ps =>
          goes_then _ _ (goes_consume _ false _ _ _) (fun _ =>
            goes_then _ _ (goes_consume _ false _ _ _) (fun _ =>
              goes_then_val _ _ (goes_after (ih.blockStatement true) hm (by omega))
                (fun body hb => by
                  obtain ⟨p, p1, hp⟩ := hb
                  obtain ⟨ss, rfl⟩ := blockStatement_block _ _ _ _ hp
                  exact goes_pure _ _ _))))))
  statement := by
    intro one m hm
    rw [parser.statement]
    exact goes_match_if _ _ _ (goes_after (ih.printStatement true) hm (by omega))
      (goes_match_if _ _ _ (goes_after (ih.blockStatement true) hm (by omega))
        (goes_match_if _ _ _ (goes_after (ih.ifStatement true) hm (by omega))
          (goes_match_if _ _ _ (goes_after (ih.whileStatement true) hm (by omega))
            (goes_match_if _ _ _ (goes_after (ih.forStatement true) hm (by omega))
              (goes_match_if _ _ _ (goes_after (ih.returnStatement) hm (by omega))
                (ih.expressionStatement one m (by omega)))))))
  returnStatement := by
    intro m hm
    rw [parser.returnStatement]
    exact goes_then _ _ (goes_previous _) (fun k =>
      goes_then _ _ (goes_check _ _ _) (fun c =>
        goes_then _ _ (goes_ite _ _ _
            (goes_then _ _ (ih.expression true m (by omega)) (fun e => goes_pure _ _ _))
            (goes_pure _ _ _)) (fun exp =>
          goes_eaten _ _ (goes_consume _ _ _ _ _) (fun _ => goes_pure _ _ _))))
  forStatement := by
    intro one m hm
    rw [parser.forStatement]
    exact goes_eaten _ _ (goes_consume _ _ _ _ _) (fun _ =>
      goes_then _ _ (goes_matchTokens _ _ _) (fun m1 =>
        goes_then _ _ (goes_ite _ _ _ (goes_pure _ _ _)
            (goes_then _ _ (goes_matchTokens _ _ _) (fun m2 => goes_ite _ _ _
              (goes_then _ _ (goes_after (ih.varDeclaration true) hm (by omega))
                (fun s => goes_pure _ _ _))
              (goes_then _ _ (goes_after (ih.expressionStatement true) hm (by omega))
                (fun s => goes_pure _ _ _)))))
          (fun init =>
          goes_then _ _ (goes_check _ _ _) (fun c1 =>
            goes_then _ _ (goes_ite _ _ _
                (goes_after (ih.expression true) hm (by omega))
                (goes_pure _ _ _)) (fun cond =>
              goes_then _ _ (goes_consume _ false _ _ _) (fun _ =>
                goes_then _ _ (goes_check _ _ _) (fun c2 =>
                  goes_then _ _ (goes_ite _ _ _
                      (goes_then _ _ (goes_after (ih.expression true) hm (by omega))
                        (fun e => goes_pure _ _ _))
                      (goes_pure _ _ _)) (fun incr =>
                    goes_then _ _ (goes_consume _ false _ _ _) (fun _ =>
                      goes_then _ _ (goes_after (ih.statement true) hm (by omega))
                        (fun body => by
                          dsimp only
                          split <;> exact goes_pure _ _ _))))))))))
  whileStatement := by
    intro one m hm
    rw [parser.whileStatement]
    exact goes_eaten _ _ (goes_consume _ _ _ _ _) (fun _ =>
      goes_then _ _ (goes_after (ih.expression true) hm (by omega)) (fun cond =>
        goes_then _ _ (goes_consume _ false _ _ _) (fun _ =>
          goes_then _ _ (goes_after (ih.statement true) hm (by omega)) (fun body =>
            goes_pure _ _ _))))
  ifStatement := by
    intro one m hm
    rw [parser.ifStatement]
    exact goes_eaten _ _ (goes_consume _ _ _ _ _) (fun _ =>
      goes_then _ _ (goes_after (ih.expression true) hm (by omega)) (fun cond =>
        goes_then _ _ (goes_consume _ false _ _ _) (fun _ =>
          goes_then _ _ (goes_after (ih.statement true) hm (by omega)) (fun thenBr =>
            goes_then _ _ (goes_matchTokens _ _ _) (fun m1 =>
              goes_then _ _ (goes_ite _ _ _
                  (goes_then _ _ (goes_after (ih.statement true) hm (by omega))
                    (fun s => goes_pure _ _ _))
                  (goes_pure _ _ _)) (fun elseBr => goes_pure _ _ _))))))
  blockStatement := by
    intro one m hm
    rw [parser.blockStatement]
    exact goes_then _ _ (ih.blockLoop one _ m (by omega)) (fun ss =>
      goes_eaten _ _ (goes_consume _ _ _ _ _) (fun _ => goes_pure _ _ _))
  blockLoop := by
    intro one _ m hm
    rw [parser.blockLoop]
    exact goes_then _ _ (goes_check _ _ _) (fun c =>
      goes_then _ _ (goes_ite _ _ _ (goes_isAtEnd _ _) (goes_pure _ _ _)) (fun e =>
        goes_ite _ _ _
          (goes_eaten _ _ (ih.declaration one m (by omega)) (fun s =>
            (goes_after (ih.blockLoop true _) hm (by omega))))
          (goes_pure _ _ _)))
  printStatement := by
    intro one m hm
    rw [parser.printStatement]
    exact goes_eaten _ _ (ih.expression one m (by omega)) (fun e =>
      goes_then _ _ (goes_consume _ false _ _ _) (fun _ => goes_pure _ _ _))
  varDeclaration := by
    intro one m hm
    rw [parser.varDeclaration]
    exact goes_eaten _ _ (goes_consume _ _ _ _ _) (fun name =>
      goes_then _ _ (goes_matchTokens _ _ _) (fun m1 =>
        goes_then _ _ (goes_ite _ _ _
            (goes_then _ _ (goes_after (ih.expression true) hm (by omega))
              (fun e => goes_pure _ _ _))
            (goes_pure _ _ _)) (fun init =>
          goes_then _ _ (goes_consume _ false _ _ _) (fun _ => goes_pure _ _ _))))
  expressionStatement := by
    intro one m hm
    rw [parser.expressionStatement]
    exact goes_eaten _ _ (ih.expression one m (by omega)) (fun e =>
      goes_then _ _ (goes_consume _ false _ _ _) (fun _ => goes_pure _ _ _))
  equality := by
    intro one m hm
    rw [parser.equality]
    exact goes_eaten _ _ (ih.comparison one m (by omega)) (fun e =>
      (goes_after (ih.equalityLoop true _) hm (by omega)))
  equalityLoop := by
    intro one _ m hm
    rw [parser.equalityLoop]
    exact goes_match_if _ _ _
      (goes_then _ _ (goes_previous _) (fun op =>
        goes_then _ _ (goes_after (ih.comparison true) hm (by omega)) (fun right =>
          (goes_after (ih.equalityLoop true _) hm (by omega)))))
      (goes_pure _ _ _)
  comparison := by
    intro one m hm
    rw [parser.comparison]
    exact goes_eaten _ _ (ih.addition one m (by omega)) (fun e =>
      (goes_after (ih.comparisonLoop true _) hm (by omega)))
  comparisonLoop := by
    intro one _ m hm
    rw [parser.comparisonLoop]
    exact goes_match_if _ _ _
      (goes_then _ _ (goes_previous _) (fun op =>
        goes_then _ _ (goes_after (ih.addition true) hm (by omega)) (fun right =>
          (goes_after (ih.comparisonLoop true _) hm (by omega)))))
      (goes_pure _ _ _)
  addition := by
    intro one m hm
    rw [parser.addition]
    exact goes_eaten _ _ (ih.multiplication one m (by omega)) (fun e =>
      (goes_after (ih.additionLoop true _) hm (by omega)))
  additionLoop := by
    intro one _ m hm
    rw [parser.additionLoop]
    exact goes_match_if _ _ _
      (goes_then _ _ (goes_previous _) (fun op =>
        goes_then _ _ (goes_after (ih.multiplication true) hm (by omega)) (fun right =>
          (goes_after (ih.additionLoop true _) hm (by omega)))))
      (goes_pure _ _ _)
  multiplication := by
    intro one m hm
    rw [parser.multiplication]
    exact goes_eaten _ _ (ih.unary one m (by omega)) (fun e =>
      (goes_after (ih.multiplicationLoop true _) hm (by omega)))
  multiplicationLoop := by
    intro one _ m hm
    rw [parser.multiplicationLoop]
    exact goes_match_if _ _ _
      (goes_then _ _ (goes_previous _) (fun op =>
        goes_then _ _ (goes_after (ih.unary true) hm (by omega)) (fun right =>
          (goes_after (ih.multiplicationLoop true _) hm (by omega)))))
      (goes_pure _ _ _)
  unary := by
    intro one m hm
    rw [parser.unary]
    exact goes_match_if _ _ _
      (goes_then _ _ (goes_previous _) (fun o =>
        goes_then _ _ (goes_after (ih.unary true) hm (by omega)) (fun right => goes_pure _ _ _)))
      (ih.call one m (by omega))
  call := by
    intro one m hm
    rw [parser.call]
    exact goes_eaten _ _ (ih.primary one m (by omega)) (fun pr =>
      (goes_after (ih.callLoop true _) hm (by omega)))
  callLoop := by
    intro one _ m hm
    rw [parser.callLoop]
    exact goes_match_if _ _ _
      (goes_then _ _ (goes_after (ih.finishCall true _) hm (by omega)) (fun c =>
        (goes_after (ih.callLoop true _) hm (by omega))))
      (goes_match_if _ _ _
        (goes_then _ _ (goes_consume _ false _ _ _) (fun name =>
          (goes_after (ih.callLoop true _) hm (by omega))))
        (goes_pure _ _ _))
  finishCall := by
    intro one _ m hm
    rw [parser.finishCall]
    exact goes_then _ _ (goes_check _ _ _) (fun c =>
      goes_then _ _ (goes_ite _ _ _ (goes_forget (ih.argsLoop one _ m (by omega)))
          (goes_pure _ _ _)) (fun args =>
        goes_eaten _ _ (goes_consume _ _ _ _ _) (fun paren => goes_pure _ _ _)))
  argsLoop := by
    intro one _ m hm
    rw [parser.argsLoop]
    exact goes_ite _ _ _
      (goes_then _ _ (goes_peek _ _) (fun tk =>
        goes_then _ _ (goes_report _ false _ _ _) (fun y =>
        (goes_eaten _ _ (ih.expression one m (by omega)) (fun e =>
          goes_then _ _ (goes_matchTokens _ _ _) (fun c => goes_ite _ _ _
            (goes_pure _ _ _)
            (goes_after (ih.argsLoop true _) hm (by omega))))))))
      (goes_then _ _ (goes_pure _ _ _) (fun y =>
        (goes_eaten _ _ (ih.expression one m (by omega)) (fun e =>
          goes_then _ _ (goes_matchTokens _ _ _) (fun c => goes_ite _ _ _
            (goes_pure _ _ _)
            (goes_after (ih.argsLoop true _) hm (by omega)))))))
  primary := by
    intro one m hm
    rw [parser.primary]
    exact goes_match_if _ _ _ (goes_pure _ _ _)
      (goes_match_if _ _ _ (goes_pure _ _ _)
        (goes_match_if _ _ _ (goes_pure _ _ _)
          (goes_match_if _ _ _ (goes_then _ _ (goes_previous _) (fun t => goes_pure _ _ _))
            (goes_match_if _ _ _
              (goes_then _ _ (goes_after (ih.expression true) hm (by omega)) (fun e =>
                goes_then _ _ (goes_consume _ false _ _ _) (fun _ => goes_pure _ _ _)))
              (goes_match_if _ _ _
                (goes_then _ _ (goes_previous _) (fun k =>
                  goes_then _ _ (goes_consume _ false _ _ _) (fun _ =>
                    goes_then _ _ (goes_consume _ false _ _ _) (fun mm =>
                      goes_pure _ _ _))))
                (goes_match_if _ _ _
                  (goes_then _ _ (goes_previous _) (fun t => goes_pure _ _ _))
                  (goes_match_if _ _ _
                    (goes_then _ _ (goes_previous _) (fun t => goes_pure _ _ _))
                    (goes_then _ _ (goes_peek _ _) (fun tk =>
                      goes_report _ _ _ _ _)))))))))
  parseLoop := by
    intro one _ m hm
    rw [parser.parseLoop]
    exact goes_then _ _ (goes_isAtEnd _ _) (fun e => goes_ite _ _ _
      (goes_eaten _ _ (ih.declaration one m (by omega)) (fun s =>
        (goes_after (ih.parseLoop true _) hm (by omega))))
      (goes_pure _ _ _))

theorem parserGoes_all (n : Nat) : ParserGoes n := by
  induction n with
  | zero => exact parserGoes_zero
  | succ n ih => exact parserGoes_succ n ih

/-! ## From the invariant to the runs of the parser -/

theorem inBounds_ends (body : List token) (eof : token) (p : parser)
    (heof : eof.tt = tokenTypeEOF) (ht : p.tokens = body ++ [eof])
    (hc : p.current ≤ body.length) : p.InBounds := by
  unfold parser.InBounds
  rw [ht]
  refine ⟨?_, eof, ?_, heof⟩
  · simp only [List.length_append, List.length_singleton]
    omega
  · simp only [List.length_append, List.length_singleton, Nat.add_sub_cancel]
    exact List.getElem?_concat_length body eof

theorem left_ends (body : List token) (eof : token) (p : parser)
    (ht : p.tokens = body ++ [eof]) : p.left ≤ body.length + 1 := by
  unfold parser.left
  rw [ht]
  simp only [List.length_append, List.length_singleton]
  omega

theorem goes_advances {α : Type} {m : Nat} {x : Exec parser α} (p : parser)
    (h : Goes false true true m x) (hp : p.InBounds) (hl : p.left ≤ m) : Advances x p := by
  intro r p1 hx
  obtain ⟨a1, a2, _, a4, a5, a6⟩ := h.run p p1 r hp hl (fun c => Bool.noConfusion c) hx
  refine ⟨a4, a1, ?_, ?_⟩
  · rw [← a1]
    exact a2.1
  · cases r with
    | ok a => exact Or.inl (a5 rfl a rfl)
    | panic e =>
      cases e with
      | parseError l pl msg => exact Or.inr ⟨l, pl, msg, rfl⟩
      | runtimeError l msg => exact Or.inl (a6 rfl l msg rfl)
      | returnValue v => exact absurd a4 (fun c => c)
      | resolutionError l msg => exact absurd a4 (fun c => c)
      | goRuntime msg => exact absurd a4 (fun c => c)
      | outOfSteps => exact absurd a4 (fun c => c)

/-- With 16 steps for each token and 16 more, `parse` ends in a return or a report, and
its cursor is in bounds at the end. -/
theorem parse_goes (body : List token) (eof : token) (steps : Nat)
    (heof : eof.tt = tokenTypeEOF) (hsteps : 16 * (body.length + 2) ≤ steps) :
    ∃ e ss p1, parser.parse steps (newParser (body ++ [eof])) = (e, ss, p1) ∧
      (e = none ∨ (∃ l pl msg, e = some (Panic.parseError l pl msg)) ∨
        ∃ l msg, e = some (Panic.runtimeError l msg)) ∧
      p1.tokens = body ++ [eof] ∧ p1.current ≤ body.length := by
  have hp : (newParser (body ++ [eof])).InBounds :=
    inBounds_ends body eof _ heof rfl (Nat.zero_le _)
  have hl : (newParser (body ++ [eof])).left ≤ body.length + 1 := left_ends body eof _ rfl
  have hg := (parserGoes_all steps).parseLoop false [] (body.length + 1) (by omega)
  cases hrun : parser.parseLoop steps [] (newParser (body ++ [eof])) with
  | mk r p1 =>
    obtain ⟨a1, a2, _, a4, _, _⟩ := hg.run _ p1 r hp hl (fun c => Bool.noConfusion c) hrun
    have hcur : p1.current ≤ body.length := by
      have := a2.1
      rw [a1] at this
      simp only [newParser, List.length_append, List.length_singleton] at this
      omega
    cases r with
    | ok ss =>
      exact ⟨none, ss, p1, by simp only [parser.parse, hrun], Or.inl rfl, a1, hcur⟩
    | panic e =>
      refine ⟨some e, [], p1, by simp only [parser.parse, hrun], ?_, a1, hcur⟩
      cases e with
      | parseError l pl msg => exact Or.inr (Or.inl ⟨l, pl, msg, rfl⟩)
      | runtimeError l msg => exact Or.inr (Or.inr ⟨l, msg, rfl⟩)
      | returnValue v => exact absurd a4 (fun c => c)
      | resolutionError l msg => exact absurd a4 (fun c => c)
      | goRuntime msg => exact absurd a4 (fun c => c)
      | outOfSteps => exact absurd a4 (fun c => c)

/-- A match moves the cursor one token on, and not past the last token. -/
theorem matchTokens_moves (tts : List tokenType) (p p1 : parser) (hp : p.InBounds)
    (h : parser.matchTokens tts p = (Res.ok true, p1)) :
    p1.tokens = p.tokens ∧ p.current < p1.current ∧ p1.current < p.tokens.length := by
  rcases matchTokens_cases tts p hp with hm | ⟨hm, hlt⟩
  · rw [hm] at h
    simp only [Prod.mk.injEq, Res.ok.injEq, Bool.false_eq_true, false_and] at h
  · rw [hm] at h
    simp only [Prod.mk.injEq, true_and] at h
    rw [← h]
    exact ⟨rfl, Nat.lt_succ_self _, hlt⟩

/-- The tokens that `scanTokens` returns end with the token of the end of the input. -/
theorem scanTokens_ends (s s1 : scanner) (ts : List token)
    (h : scanner.scanTokens s = (Res.ok ts, s1)) :
    ∃ b t, ts = b ++ [t] ∧ t.tt = tokenTypeEOF := by
  unfold scanner.scanTokens at h
  simp only [bind, Exec.bind, pure, Exec.pure] at h
  cases hl : scanner.scanLoop (s.source.length + 1) s with
  | mk rl s2 =>
    rw [hl] at h
    cases rl with
    | ok u =>
      simp only [Prod.mk.injEq, Res.ok.injEq] at h
      exact ⟨s2.tokens, _, h.1.symm, rfl⟩
    | panic e =>
      simp only [Prod.mk.injEq, reduceCtorEq, false_and] at h

/-! ## The walk outward of `get` and `assign` -/

theorem outward_succ (envs : List environment) (name : String) (a k q : Nat)
    (h : environment.outward envs name a (k + 1) = some q) :
    ∃ en p, envs[a]? = some en ∧ mapGet en.values name = none ∧ en.enclosing = some p ∧
      environment.outward envs name p k = some q := by
  rw [environment.outward] at h
  cases hen : envs[a]? with
  | none => simp only [hen, reduceCtorEq] at h
  | some en =>
    simp only [hen] at h
    cases hm : mapGet en.values name with
    | some x => simp only [hm, reduceCtorEq] at h
    | none =>
      cases hp : en.enclosing with
      | none => simp only [hm, hp, reduceCtorEq] at h
      | some p =>
        simp only [hm, hp] at h
        exact ⟨en, p, rfl, hm, hp, h⟩

theorem outward_add (envs : List environment) (name : String) (j k : Nat) :
    ∀ a, environment.outward envs name a (j + k) =
      (environment.outward envs name a j).bind (fun p => environment.outward envs name p k) := by
  induction j with
  | zero =>
    intro a
    simp only [Nat.zero_add, environment.outward, Option.some_bind]
  | succ j ih =>
    intro a
    have e : j + 1 + k = (j + k) + 1 := by omega
    rw [e, environment.outward, environment.outward]
    cases hen : envs[a]? with
    | none => simp only [Option.none_bind]
    | some en =>
      simp only
      cases hm : mapGet en.values name with
      | some x => simp only [Option.none_bind]
      | none =>
        cases hp : en.enclosing with
        | none => simp only [Option.none_bind]
        | some p =>
          simp only
          exact ih p

/-- An environment that binds the name or is the last of its chain is reached by at most
one number of hops, and that number is less than the number of environments: the walk of
`get` and `assign`, which is given one step for each environment and one more, reaches
it. -/
theorem outward_lt_length (envs : List environment) (name : String) (a k q : Nat)
    (eq : environment) (h : environment.outward envs name a k = some q)
    (hq : envs[q]? = some eq)
    (hterm : mapGet eq.values name ≠ none ∨ eq.enclosing = none) : k < envs.length := by
  have hstop : ∀ m r, environment.outward envs name q (m + 1) ≠ some r := by
    intro m r hr
    obtain ⟨en, p, h1, h2, h3, _⟩ := outward_succ envs name q m r hr
    rw [hq] at h1
    simp only [Option.some.injEq] at h1
    rw [h1] at hterm
    rcases hterm with ht | ht
    · exact ht h2
    · rw [h3] at ht
      exact Option.noConfusion ht
  have hnode : ∀ j, j ≤ k → ∃ p, environment.outward envs name a j = some p ∧
      environment.outward envs name p (k - j) = some q := by
    intro j hj
    have e : k = j + (k - j) := by omega
    rw [e, outward_add] at h
    cases hp : environment.outward envs name a j with
    | none => simp only [hp, Option.none_bind, reduceCtorEq] at h
    | some p =>
      simp only [hp, Option.some_bind] at h
      exact ⟨p, rfl, h⟩
  have hvalid : ∀ j, j ≤ k → ∀ p, environment.outward envs name a j = some p →
      p < envs.length := by
    intro j hj p hp
    obtain ⟨p1, h1, h2⟩ := hnode j hj
    rw [hp] at h1
    simp only [Option.some.injEq] at h1
    rw [← h1] at h2
    rcases Nat.eq_zero_or_pos (k - j) with h0 | hpos
    · rw [h0, environment.outward] at h2
      simp only [Option.some.injEq] at h2
      rw [h2]
      exact lt_length_of_get envs q eq hq
    · obtain ⟨m, hm⟩ : ∃ m, k - j = m + 1 := ⟨k - j - 1, by omega⟩
      rw [hm] at h2
      obtain ⟨en, _, h3, _⟩ := outward_succ envs name p m q h2
      exact lt_length_of_get envs p en h3
  have hinj : Set.InjOn (fun j => (environment.outward envs name a j).getD 0)
      (Finset.range (k + 1) : Set Nat) := by
    intro j hj l hl hjl
    simp only [Finset.coe_range, Set.mem_Iio] at hj hl
    by_contra hne
    have key : ∀ j l, j < l → l ≤ k →
        (environment.outward envs name a j).getD 0 =
          (environment.outward envs name a l).getD 0 → False := by
      intro j l hjl hl heq
      obtain ⟨pj, hj1, hj2⟩ := hnode j (by omega)
      obtain ⟨pl, hl1, hl2⟩ := hnode l hl
      rw [hj1, hl1] at heq
      simp only [Option.getD_some] at heq
      rw [heq] at hj2
      have e : k - j = (k - l) + (l - j) := by omega
      rw [e, outward_add, hl2] at hj2
      simp only [Option.some_bind] at hj2
      obtain ⟨m, hm⟩ : ∃ m, l - j = m + 1 := ⟨l - j - 1, by omega⟩
      rw [hm] at hj2
      exact hstop m q hj2
    rcases Nat.lt_or_gt_of_ne hne with hlt | hgt
    · exact key j l hlt (by omega) hjl
    · exact key l j hgt (by omega) hjl.symm
  have hmaps : ∀ j ∈ Finset.range (k + 1),
      (fun j => (environment.outward envs name a j).getD 0) j ∈ Finset.range envs.length := by
    intro j hj
    simp only [Finset.mem_range] at hj ⊢
    obtain ⟨p, hp, _⟩ := hnode j (by omega)
    rw [hp]
    exact hvalid j (by omega) p hp
  have hcard := Finset.card_le_card_of_injOn _ hmaps hinj
  simp only [Finset.card_range] at hcard
  omega

theorem getFrom_found (name : token) (i : interpreter) (q : Nat) (eq : environment)
    (y : Value) (hq : i.envs[q]? = some eq) (hy : mapGet eq.values name.lexeme = some y) :
    ∀ (k a fuel : Nat), environment.outward i.envs name.lexeme a k = some q → k < fuel →
      environment.getFrom name fuel (some a) i = (Res.ok y, i) := by
  intro k
  induction k with
  | zero =>
    intro a fuel h hf
    rw [environment.outward] at h
    simp only [Option.some.injEq] at h
    obtain ⟨f, rfl⟩ : ∃ f, fuel = f + 1 := ⟨fuel - 1, by omega⟩
    rw [h]
    simp only [environment.getFrom, hq, hy]
  | succ k ih =>
    intro a fuel h hf
    obtain ⟨en, p, h1, h2, h3, h4⟩ := outward_succ i.envs name.lexeme a k q h
    obtain ⟨f, rfl⟩ : ∃ f, fuel = f + 1 := ⟨fuel - 1, by omega⟩
    simp only [environment.getFrom, h1, h2, h3]
    exact ih p f h4 (by omega)

theorem getFrom_undefined (name : token) (i : interpreter) (q : Nat) (eq : environment)
    (hq : i.envs[q]? = some eq) (hy : mapGet eq.values name.lexeme = none)
    (hend : eq.enclosing = none) :
    ∀ (k a fuel : Nat), environment.outward i.envs name.lexeme a k = some q → k < fuel →
      environment.getFrom name fuel (some a) i =
        (Res.panic (Panic.runtimeError name.line
            ("Undefined variable: '" ++ name.lexeme ++ "'")),
          { i with hadRuntimeError := true }) := by
  intro k
  induction k with
  | zero =>
    intro a fuel h hf
    rw [environment.outward] at h
    simp only [Option.some.injEq] at h
    obtain ⟨f, rfl⟩ : ∃ f, fuel = f + 1 := ⟨fuel - 1, by omega⟩
    rw [h]
    simp only [environment.getFrom, hq, hy, hend, reportRuntimeError]
  | succ k ih =>
    intro a fuel h hf
    obtain ⟨en, p, h1, h2, h3, h4⟩ := outward_succ i.envs name.lexeme a k q h
    obtain ⟨f, rfl⟩ : ∃ f, fuel = f + 1 := ⟨fuel - 1, by omega⟩
    simp only [environment.getFrom, h1, h2, h3]
    exact ih p f h4 (by omega)

theorem assignFrom_found (name : token) (v : Value) (i : interpreter) (q : Nat)
    (eq : environment) (y : Value) (hq : i.envs[q]? = some eq)
    (hy : mapGet eq.values name.lexeme = some y) :
    ∀ (k a fuel : Nat), environment.outward i.envs name.lexeme a k = some q → k < fuel →
      environment.assignFrom name v fuel (some a) i =
        (Res.ok (),
          { i with
            envs := heapSet i.envs q { eq with values := mapSet eq.values name.lexeme v } }) := by
  intro k
  induction k with
  | zero =>
    intro a fuel h hf
    rw [environment.outward] at h
    simp only [Option.some.injEq] at h
    obtain ⟨f, rfl⟩ : ∃ f, fuel = f + 1 := ⟨fuel - 1, by omega⟩
    rw [h]
    simp only [environment.assignFrom, hq, hy]
  | succ k ih =>
    intro a fuel h hf
    obtain ⟨en, p, h1, h2, h3, h4⟩ := outward_succ i.envs name.lexeme a k q h
    obtain ⟨f, rfl⟩ : ∃ f, fuel = f + 1 := ⟨fuel - 1, by omega⟩
    simp only [environment.assignFrom, h1, h2, h3]
    exact ih p f h4 (by omega)

theorem assignFrom_undefined (name : token) (v : Value) (i : interpreter) (q : Nat)
    (eq : environment) (hq : i.envs[q]? = some eq)
    (hy : mapGet eq.values name.lexeme = none) (hend : eq.enclosing = none) :
    ∀ (k a fuel : Nat), environment.outward i.envs name.lexeme a k = some q → k < fuel →
      environment.assignFrom name v fuel (some a) i =
        (Res.panic (Panic.runtimeError name.line
            ("Undefined variable: '" ++ name.lexeme ++ "'")),
          { i with hadRuntimeError := true }) := by
  intro k
  induction k with
  | zero =>
    intro a fuel h hf
    rw [environment.outward] at h
    simp only [Option.some.injEq] at h
    obtain ⟨f, rfl⟩ : ∃ f, fuel = f + 1 := ⟨fuel - 1, by omega⟩
    rw [h]
    simp only [environment.assignFrom, hq, hy, hend, reportRuntimeError]
  | succ k ih =>
    intro a fuel h hf
    obtain ⟨en, p, h1, h2, h3, h4⟩ := outward_succ i.envs name.lexeme a k q h
    obtain ⟨f, rfl⟩ : ∃ f, fuel = f + 1 := ⟨fuel - 1, by omega⟩
    simp only [environment.assignFrom, h1, h2, h3]
    exact ih p f h4 (by omega)

/-! ## The line goes up at the newlines between tokens, and nowhere else -/

/-- A call of `scanToken` in front of a newline consumes that byte and raises the line by
one. -/
theorem scanToken_newline (s : scanner) (h : s.source[s.current]? = some '\n') :
    scanner.scanToken s =
      (Res.ok (), { s with current := s.current + 1, line := s.line + 1 }) := by
  simp only [scanner.scanToken, bind, Exec.bind, scanner.advance, h, scanByte_newline]

/-- A call of `scanToken` in front of another byte stays on the line, whatever it
consumes, and every token that it adds bears that line. -/
theorem scanToken_other (s s1 : scanner) (h : scanner.scanToken s = (Res.ok (), s1))
    (hc : s.source[s.current]? ≠ some '\n') :
    s1.line = s.line ∧ ∀ t ∈ s1.tokens, t ∈ s.tokens ∨ t.line = s.line := by
  rcases (scanToken_step s s1 h).2.2.2.2 with h1 | h1
  · exact h1
  · exact absurd h1.2.2.2 hc

/-- A block comment that is closed and holds no star: after the slash, `scanSlash` consumes
the bytes up to and with the closing `*/`, newlines among them, and changes nothing
else. -/
theorem scanSlash_closed (pre body rest : List Char) (s : scanner)
    (hsrc : s.source = pre ++ ('/' :: '*' :: (body ++ '*' :: '/' :: rest)))
    (hcur : s.current = pre.length + 1) (hbody : '*' ∉ body) :
    scanner.scanSlash s = (Res.ok (), { s with current := pre.length + body.length + 4 }) := by
  have hg1 : s.source[s.current]? = some '*' := by
    rw [hsrc, hcur]
    have := get_after_middle pre ['/'] '*' (body ++ '*' :: '/' :: rest)
    simpa using this
  have hm1 := matchChar_no s '/' '*' hg1 (by decide)
  have hm2 := matchChar_yes s '*' hg1
  have hsrc2 : ({ s with current := s.current + 1 } : scanner).source =
      (pre ++ ['/', '*']) ++ (body ++ '*' :: '/' :: rest) := by
    simp [hsrc]
  have hloop := advanceWhile_until '*' (pre ++ ['/', '*']) body ('*' :: '/' :: rest)
    { s with current := s.current + 1 } hsrc2 (by simp [hcur]) hbody (Or.inl rfl)
  have hget1 : ({ s with current := (pre ++ ['/', '*']).length + body.length } :
      scanner).source[({ s with current := (pre ++ ['/', '*']).length + body.length } :
        scanner).current]? = some '*' := by
    simp only [hsrc]
    have := get_after_middle (pre ++ ['/', '*']) body '*' ('/' :: rest)
    simpa using this
  have hget2 : ({ s with current := (pre ++ ['/', '*']).length + body.length + 1 } :
      scanner).source[({ s with current := (pre ++ ['/', '*']).length + body.length + 1 } :
        scanner).current]? = some '/' := by
    simp only [hsrc]
    have := get_after_middle (pre ++ ['/', '*']) (body ++ ['*']) '/' rest
    simpa [Nat.add_assoc] using this
  have hend : ({ s with current := (pre ++ ['/', '*']).length + body.length } :
      scanner).isAtEnd = false := not_atEnd_of_get _ _ hget1
  have hnext : ({ s with current := (pre ++ ['/', '*']).length + body.length } :
      scanner).peekNext = '/' := by
    simp only [scanner.peekNext]
    exact peek_at _ _ hget2
  have e : (pre ++ ['/', '*']).length + body.length = pre.length + body.length + 2 := by
    simp only [List.length_append, List.length_cons, List.length_nil]
    omega
  rw [e] at hloop hget1 hget2 hend hnext
  simp only at hloop hget1 hget2
  simp only [scanner.scanSlash, bind, Exec.bind, hm1, Bool.false_eq_true, if_false, hm2,
    if_true, hloop, hend, hnext, ne_eq, not_true_eq_false, decide_False, Bool.or_self]
  simp only [pure, Exec.pure, Exec.bind, scanner.advance, hget1, hget2]

/-- A string literal that is closed, scanned from its opening quote: the bytes up to and
with the closing quote are consumed, newlines among them, and the line stays. -/
theorem scanToken_string (pre body rest : List Char) (s : scanner)
    (hsrc : s.source = pre ++ (Char.ofNat 34 :: (body ++ Char.ofNat 34 :: rest)))
    (hstart : s.start = pre.length) (hcur : s.current = pre.length)
    (hbody : Char.ofNat 34 ∉ body) :
    ∃ s1, scanner.scanToken s = (Res.ok (), s1) ∧ s1.line = s.line ∧
      s1.current = pre.length + body.length + 2 := by
  have hget : s.source[s.current]? = some (Char.ofNat 34) := by
    rw [hsrc, hcur]
    exact get_at_length pre _ _
  rw [scanToken_quote s hget,
    parseString_closed pre body rest { s with current := s.current + 1 } hsrc hstart
      (by simp only; rw [hcur]) hbody]
  exact ⟨_, rfl, rfl, rfl⟩

/-- A block comment that is closed and holds no star, scanned from its slash: the bytes up
to and with the closing `*/` are consumed, newlines among them, and the line stays. -/
theorem scanToken_comment (pre body rest : List Char) (s : scanner)
    (hsrc : s.source = pre ++ ('/' :: '*' :: (body ++ '*' :: '/' :: rest)))
    (hcur : s.current = pre.length) (hbody : '*' ∉ body) :
    ∃ s1, scanner.scanToken s = (Res.ok (), s1) ∧ s1.line = s.line ∧
      s1.tokens = s.tokens ∧ s1.current = pre.length + body.length + 4 := by
  have hget : s.source[s.current]? = some '/' := by
    rw [hsrc, hcur]
    exact get_at_length pre _ _
  rw [scanToken_slash s hget,
    scanSlash_closed pre body rest { s with current := s.current + 1 } hsrc
      (by simp only; rw [hcur]) hbody]
  exact ⟨_, rfl, rfl, rfl, rfl⟩

theorem leading_step (k : Nat) (rest : List Char) (s s1 : scanner)
    (hsrc : s.source = List.replicate k '\n' ++ rest) (hrest : '\n' ∉ rest)
    (hs : s.Leading k) (hend : s.isAtEnd = false)
    (h : scanner.scanToken { s with start := s.current } = (Res.ok (), s1)) :
    s1.Leading k ∧ s1.source = s.source := by
  have hsrc1 := (scanToken_step _ s1 h).1
  have hadv := (scanToken_step _ s1 h).2.2.2.1
  simp only at hsrc1 hadv
  refine ⟨?_, hsrc1⟩
  rcases Nat.lt_or_ge s.current k with hlt | hge
  · have hget : ({ s with start := s.current } : scanner).source[
        ({ s with start := s.current } : scanner).current]? = some '\n' := by
      simp only [hsrc]
      rw [List.getElem?_append_left (by simp only [List.length_replicate]; exact hlt)]
      rw [List.getElem?_replicate]
      simp only [hlt, if_true]
    rw [scanToken_newline _ hget] at h
    simp only [Prod.mk.injEq, true_and] at h
    obtain ⟨h1, h2⟩ := hs.1 (le_of_lt hlt)
    rw [← h]
    refine ⟨fun _ => ⟨?_, h2⟩, fun hk => ⟨?_, ?_⟩⟩
    · simp only [h1]
      push_cast
      rfl
    · simp only [h1] at hk ⊢
      have e : s.current + 1 = k := by omega
      rw [← e]
      push_cast
      rfl
    · intro t ht
      simp only [h2, List.not_mem_nil] at ht
  · have hlen : s.current < s.source.length := by
      simp only [scanner.isAtEnd, ge_iff_le, decide_eq_false_iff_not, not_le] at hend
      exact hend
    have hne : ({ s with start := s.current } : scanner).source[
        ({ s with start := s.current } : scanner).current]? ≠ some '\n' := by
      simp only [hsrc]
      rw [List.getElem?_append_right (by simp only [List.length_replicate]; exact hge)]
      intro hc
      exact hrest (List.getElem?_mem hc)
    obtain ⟨e1, e2⟩ := scanToken_other _ s1 h hne
    simp only at e1 e2
    obtain ⟨h1, h2⟩ := hs.2 hge
    refine ⟨fun hk => absurd hk (by omega), fun _ => ⟨by rw [e1]; exact h1, fun t ht => ?_⟩⟩
    rcases e2 t ht with hm | hm
    · exact h2 t hm
    · rw [hm]
      exact h1

theorem scanLoop_leading (k : Nat) (rest : List Char) (hrest : '\n' ∉ rest) (n : Nat) :
    ∀ s s1 : scanner, s.source = List.replicate k '\n' ++ rest → s.Leading k →
      scanner.scanLoop n s = (Res.ok (), s1) →
      s1.Leading k ∧ s1.isAtEnd = true ∧ s1.source = s.source := by
  induction n with
  | zero =>
    intro s s1 _ _ h
    simp only [scanner.scanLoop, throwPanic, Prod.mk.injEq, reduceCtorEq, false_and] at h
  | succ n ih =>
    intro s s1 hsrc hs h
    rw [scanner.scanLoop] at h
    cases he : s.isAtEnd with
    | true =>
      simp only [he, Bool.not_true, Bool.false_eq_true, if_false, Prod.mk.injEq,
        true_and] at h
      rw [← h]
      exact ⟨hs, he, rfl⟩
    | false =>
      simp only [he, Bool.not_false, if_true, bind, Exec.bind] at h
      cases ht : scanner.scanToken { s with start := s.current } with
      | mk rt s2 =>
        rw [ht] at h
        cases rt with
        | panic p => simp only [Prod.mk.injEq, reduceCtorEq, false_and] at h
        | ok u =>
          obtain ⟨hl2, hsrc2⟩ := leading_step k rest s s2 hsrc hrest hs he ht
          obtain ⟨a, b, c⟩ := ih s2 s1 (hsrc2.trans hsrc) hl2 h
          exact ⟨a, b, c.trans hsrc2⟩

/-- The tokens of a source that starts with `k` newlines and holds no other have line
`k`. -/
theorem scanTokens_leading (k : Nat) (rest : List Char) (flag : Bool) (ts : List token)
    (s1 : scanner) (hrest : '\n' ∉ rest)
    (h : scanner.scanTokens (newScanner (List.replicate k '\n' ++ rest) flag) =
      (Res.ok ts, s1)) :
    ∀ t ∈ ts, t.line = (k : Int) := by
  unfold scanner.scanTokens at h
  simp only [bind, Exec.bind] at h
  cases hl : scanner.scanLoop
      ((newScanner (List.replicate k '\n' ++ rest) flag).source.length + 1)
      (newScanner (List.replicate k '\n' ++ rest) flag) with
  | mk rl s2 =>
    rw [hl] at h
    cases rl with
    | panic p => simp only [Prod.mk.injEq, reduceCtorEq, false_and] at h
    | ok u =>
      simp only [pure, Exec.pure, Prod.mk.injEq, Res.ok.injEq] at h
      have h0 : (newScanner (List.replicate k '\n' ++ rest) flag).Leading k := by
        refine ⟨fun _ => ⟨rfl, rfl⟩, fun hk => ?_⟩
        simp only [newScanner] at hk
        have e : k = 0 := by omega
        subst e
        exact ⟨rfl, fun t ht => by simp only [newScanner, List.not_mem_nil] at ht⟩
      obtain ⟨hlead, hend, hsrc⟩ := scanLoop_leading k rest hrest _ _ s2 rfl h0 hl
      have hge : k ≤ s2.current := by
        simp only [scanner.isAtEnd, ge_iff_le, decide_eq_true_eq] at hend
        rw [hsrc] at hend
        simp only [newScanner, List.length_append, List.length_replicate] at hend
        omega
      obtain ⟨c1, c2⟩ := hlead.2 hge
      intro t ht
      rw [← h.1] at ht
      simp only [List.mem_append, List.mem_singleton] at ht
      rcases ht with ht | ht
      · exact c2 t ht
      · rw [ht]
        exact c1

/-! ## Claims -/

/-- C1: resolver soundness with node identity.  The claim says that both prints of
`var a = 1; { var a = 2; print a; { print a; } }` yield 2.  On the code the two occurrences
of `a` are one key of `locals`: the resolver records distance 0 for the first and then
overwrites it with distance 1 for the second, the run finishes without any error, and the
first print reads the global: the output is 1, then 2.  With the second print on another
line the keys differ and the output is 2, 2. -/
theorem C1_same_line_occurrences_share_one_key :
    (runStatements 100 (newInterpreter 0) (shadowProgram 0 0)).1 = none ∧
    (runStatements 100 (newInterpreter 0) (shadowProgram 0 0)).2.hadResolutionError = false ∧
    (runStatements 100 (newInterpreter 0) (shadowProgram 0 0)).2.hadRuntimeError = false ∧
    (runStatements 100 (newInterpreter 0) (shadowProgram 0 0)).2.locals
      = [(expr.variable (identifier "a" 0), 1)] ∧
    (runStatements 100 (newInterpreter 0) (shadowProgram 0 0)).2.stdout
      = [Value.number 1, Value.number 2] ∧
    (runStatements 100 (newInterpreter 0) (shadowProgram 0 1)).2.stdout
      = [Value.number 2, Value.number 2] := by
  decide!

/-- C2: closure capture.  Executing a Function statement while the current environment is
`i.env` returns normally and binds the name, in that environment, to the function value `l`
whose closure is `i.env`.  Every call of `l` with as many arguments as parameters, in any
state `j`, runs the body from `bodyStart l args j`: the current environment is a new one
(its address is the first unused one), it encloses `i.env` and holds exactly the parameters
bound to the arguments; when the body is done the deferred function produces the result
and the caller's environment is current again.  The environment that was current at the
call plays no part: with any other current environment `e` the call gives the same outcome
and the same state, up to that environment being restored. -/
theorem C2_closure_is_definition_environment (n m : Nat) (f : stmtFunction)
    (i j : interpreter) (en : environment) (args : List Value)
    (hen : i.envs[i.env]? = some en) (hargs : args.length = f.params.length) :
    let l : loxFunction := { declaration := f, closure := i.env, isInitializer := false }
    (interpreter.execute (n + 1) (stmt.function f) i).1 = Res.ok () ∧
    (interpreter.execute (n + 1) (stmt.function f) i).2.env = i.env ∧
    (interpreter.execute (n + 1) (stmt.function f) i).2.envs[i.env]?.bind
        (fun e => mapGet e.values f.name.lexeme) = some (Value.function l) ∧
    loxFunction.call (m + 2) l args j =
      loxFunction.callDeferred l (interpreter.executeStatements m f.body (bodyStart l args j)).1
        { (interpreter.executeStatements m f.body (bodyStart l args j)).2 with env := j.env } ∧
    (bodyStart l args j).env = j.envs.length ∧
    (bodyStart l args j).envs[j.envs.length]? =
      some { enclosing := some i.env, values := boundParams f.params args [] } ∧
    (∀ a, a < j.envs.length → (bodyStart l args j).envs[a]? = j.envs[a]?) ∧
    ∀ e : Nat, loxFunction.call (m + 2) l args { j with env := e } =
      ((loxFunction.call (m + 2) l args j).1,
        { (loxFunction.call (m + 2) l args j).2 with env := e }) := by
  intro l
  have hlt := lt_length_of_get _ _ _ hen
  have hle : args.length ≤ l.declaration.params.length := Nat.le_of_eq hargs
  refine ⟨?_, ?_, ?_, ?_, ?_, ?_, ?_, ?_⟩
  · rw [functionStmt_eq n f i en hen]
  · rw [functionStmt_eq n f i en hen]
  · rw [functionStmt_eq n f i en hen]
    simp only [heapSet_get_self _ _ _ hlt, Option.bind, mapGet_mapSet_self]
  · exact loxFunction_call_eq m l args j hle
  · rfl
  · simp only [bodyStart, append_get_last]
  · intro a ha
    simp only [bodyStart]
    exact List.getElem?_append_left ha
  · intro e
    rw [loxFunction_call_eq m l args j hle, loxFunction_call_eq m l args _ hle]
    rw [callDeferred_plain l _ _ rfl, callDeferred_plain l _ _ rfl]
    rfl

theorem C2_witness :
    (newInterpreter 0).envs[(newInterpreter 0).env]?
      = some { enclosing := none, values := [("clock", Value.clock)] } ∧
    [Value.number 7].length = identityFunction.params.length ∧
    (interpreter.execute 1 (stmt.function identityFunction) (newInterpreter 0)).2.envs[0]?.bind
        (fun e => mapGet e.values "id")
      = some (Value.function
          { declaration := identityFunction, closure := 0, isInitializer := false }) :=
  ⟨by decide!, by decide!,
    (C2_closure_is_definition_environment 0 0 identityFunction (newInterpreter 0)
      (newInterpreter 0) { enclosing := none, values := [("clock", Value.clock)] }
      [Value.number 7] (by decide!) (by decide!)).2.2.1⟩

/-- C3, as amended: non-local return out of a function that is not an initializer.  When
the body of `l`, started by a call with as many arguments as parameters, ends in the panic
of a return statement carrying `v`, the call returns `v` normally, within every step budget
from `n + 2` on, and the environment that was current before the call is current again.  The panic comes from a return statement
(carrying nil when the statement has no value), skips the statements that follow it in a
list, leaves every block through the deferred function that restores the environment,
leaves an if and a while at once, and is never the outcome of an expression or of a call,
so it cannot pass the nearest call. -/
theorem C3_return_unwinds_to_the_nearest_call (n : Nat) (l : loxFunction) (args : List Value)
    (j j1 : interpreter) (v : Value)
    (hinit : l.isInitializer = false) (hargs : args.length = l.arity)
    (hbody : interpreter.executeStatements n l.declaration.body (bodyStart l args j)
      = (Res.panic (Panic.returnValue v), j1)) :
    (∀ k, loxFunction.call (n + 2 + k) l args j = (Res.ok v, { j1 with env := j.env })) ∧
    (∀ m e i w, (interpreter.evaluate m e i).1 ≠ Res.panic (Panic.returnValue w)) ∧
    (∀ m c as i w, (callable.call m c as i).1 ≠ Res.panic (Panic.returnValue w)) ∧
    (∀ m k i, interpreter.execute (m + 1) (stmt.returnStmt k none) i
      = (Res.panic (Panic.returnValue Value.nil), i)) ∧
    (∀ m k e i w i1, interpreter.evaluate m e i = (Res.ok w, i1) →
      interpreter.execute (m + 1) (stmt.returnStmt k (some e)) i
        = (Res.panic (Panic.returnValue w), i1)) ∧
    (∀ m s rest i p i1, interpreter.execute m s i = (Res.panic p, i1) →
      interpreter.executeStatements (m + 1) (s :: rest) i = (Res.panic p, i1)) ∧
    (∀ m ss i res i1,
      interpreter.executeStatements m ss
          { i with envs := i.envs ++ [{ enclosing := some i.env, values := [] }],
                   env := i.envs.length } = (res, i1) →
      interpreter.execute (m + 2) (stmt.block ss) i = (res, { i1 with env := i.env })) ∧
    (∀ m c t e i cv i1 p i2, interpreter.evaluate m c i = (Res.ok cv, i1) →
      interpreter.isTruthy cv = true → interpreter.execute m t i1 = (Res.panic p, i2) →
      interpreter.execute (m + 1) (stmt.ifStmt c t e) i = (Res.panic p, i2)) ∧
    (∀ m c t s i cv i1 p i2, interpreter.evaluate m c i = (Res.ok cv, i1) →
      interpreter.isTruthy cv = false → interpreter.execute m s i1 = (Res.panic p, i2) →
      interpreter.execute (m + 1) (stmt.ifStmt c t (some s)) i = (Res.panic p, i2)) ∧
    (∀ m c b i cv i1 p i2, interpreter.evaluate m c i = (Res.ok cv, i1) →
      interpreter.isTruthy cv = true → interpreter.execute m b i1 = (Res.panic p, i2) →
      interpreter.execute (m + 2) (stmt.whileStmt c b) i = (Res.panic p, i2)) := by
  refine ⟨?_, ?_, ?_, ?_, ?_, ?_, ?_, ?_, ?_, ?_⟩
  · intro k
    refine functionCall_steps_mono (n + 2) k l args j _ _ ?_ (by simp)
    rw [loxFunction_call_eq n l args j (Nat.le_of_eq hargs), hbody,
      callDeferred_plain l _ _ hinit]
  · intro m e i w
    exact ((noReturn_all m).1 e).outcome i w
  · intro m c as i w
    exact ((noReturn_all m).2.2.1 c as).outcome i w
  · intro m k i
    simp only [interpreter.execute, bind, Exec.bind, pure, Exec.pure, throwPanic]
  · intro m k e i w i1 he
    simp only [interpreter.execute, bind, Exec.bind, he, throwPanic]
  · intro m s rest i p i1 hs
    simp only [interpreter.executeStatements, bind, Exec.bind, hs]
  · intro m ss i res i1 hss
    simp only [interpreter.execute, bind, Exec.bind, interpreter.read, newEnvironmentWithParent,
      executeBlock_eq, hss]
  · intro m c t e i cv i1 p i2 hc ht hp
    simp only [interpreter.execute, bind, Exec.bind, hc, ht, if_true, hp]
  · intro m c t s i cv i1 p i2 hc ht hp
    simp only [interpreter.execute, bind, Exec.bind, hc, ht, Bool.false_eq_true, if_false, hp]
  · intro m c b i cv i1 p i2 hc ht hp
    simp only [interpreter.execute, interpreter.whileLoop, bind, Exec.bind, hc, ht, if_true, hp]

theorem C3_witness :
    (Glox.loxFunction.mk identityFunction 0 false).isInitializer = false ∧
    [Value.number 7].length = (Glox.loxFunction.mk identityFunction 0 false).arity ∧
    interpreter.executeStatements 5 identityFunction.body
        (bodyStart (Glox.loxFunction.mk identityFunction 0 false) [Value.number 7]
          identityResolved)
      = (Res.panic (Panic.returnValue (Value.number 7)),
          bodyStart (Glox.loxFunction.mk identityFunction 0 false) [Value.number 7]
            identityResolved) ∧
    loxFunction.call (5 + 2 + 1) (Glox.loxFunction.mk identityFunction 0 false)
        [Value.number 7] identityResolved
      = (Res.ok (Value.number 7),
          { bodyStart (Glox.loxFunction.mk identityFunction 0 false) [Value.number 7]
              identityResolved with env := 0 }) :=
  ⟨by decide!, by decide!, by decide!,
    (C3_return_unwinds_to_the_nearest_call 5 (Glox.loxFunction.mk identityFunction 0 false)
      [Value.number 7] identityResolved _ (Value.number 7) (by decide!) (by decide!)
      (by decide!)).1 1⟩

/-- C3, as the claim states it, fails for an initializer: in
`class C { init() { return; } } var x = C(); print x.init();` the call `x.init()` runs a
body that executes a bare return, and it yields the instance, not nil. -/
theorem C3_initializer_with_bare_return_yields_instance :
    (runStatements 100 (newInterpreter 0) initReturnProgram).1 = none ∧
    (runStatements 100 (newInterpreter 0) initReturnProgram).2.stdout
      = [Value.inst { klass := builtClass (identifier "C" 0) [bareReturnInit] 0 loxClass.zero,
                      fields := 0 }] ∧
    (runStatements 100 (newInterpreter 0) initReturnProgram).2.stdout ≠ [Value.nil] := by
  decide!

/-- C4: assignment.  The claim says that an assignment whose value is a call, such as
`a = f(1);`, stores the value and yields it.  On the code the read `i.locals[e]` hashes the
assignment node, whose value holds an `exprCall`, and the Go run time panics after the call
has been evaluated: in `var a = 0; fun f(x) { return x; } a = f(1); print a;` the resolver
reports nothing and records the one local `x`, the run stops at the assignment with that
panic, nothing is stored (the global `a` still holds 0), nothing is printed, and the panic
is not a reported runtime error. -/
theorem C4_assign_of_call_panics :
    (runStatements 100 (newInterpreter 0) assignCallProgram).1
      = some (Panic.goRuntime "hash of unhashable type main.exprCall") ∧
    (runStatements 100 (newInterpreter 0) assignCallProgram).2.locals
      = [(expr.variable (identifier "x" 0), 0)] ∧
    (runStatements 100 (newInterpreter 0) assignCallProgram).2.stdout = [] ∧
    (runStatements 100 (newInterpreter 0) assignCallProgram).2.hadResolutionError = false ∧
    (runStatements 100 (newInterpreter 0) assignCallProgram).2.hadRuntimeError = false ∧
    (runStatements 100 (newInterpreter 0) assignCallProgram).2.envs[0]?.bind
      (fun en => mapGet en.values "a") = some (Value.number 0) := by
  decide!

/-- C5: inheritance.  `findMethod` returns the first hit along the chain class, superclass,
superclass of the superclass, ..., and nothing when no class of the chain has the name; it
is a total function, so the lookup ends.  A class statement without a superclass clause
binds its name to a class whose superclass pointer is the zero class, which has no methods
and no superclass, so that `findMethod` on it is the lookup in the class's own table; a
class statement with a superclass clause binds its name to a class whose superclass is the
value of the superclass variable.  Every entry of the table is the declared method of that
name over the environment of the class statement. -/
theorem C5_findMethod_returns_nearest_in_chain (c : loxClass) (name : String) :
    c.findMethod name = c.chain.findSome? (fun k => mapGet k.methods name) ∧
    (∀ (nm : token) (methods : List stmtFunction) (closure : Nat),
      (builtClass nm methods closure loxClass.zero).findMethod name
        = mapGet (builtClass nm methods closure loxClass.zero).methods name) ∧
    (∀ (nm : token) (methods : List stmtFunction) (closure : Nat) (sup : loxClass),
      (builtClass nm methods closure sup).chain
        = builtClass nm methods closure sup :: sup.chain) ∧
    (∀ (nm : token) (methods : List stmtFunction) (closure : Nat) (sup : loxClass)
        (f : loxFunction),
      mapGet (builtClass nm methods closure sup).methods name = some f →
        f.closure = closure ∧ f.declaration.name.lexeme = name) ∧
    (∀ (n : Nat) (methods : List stmtFunction) (nm : token) (i : interpreter)
        (en : environment), i.envs[i.env]? = some en →
      (interpreter.execute (n + 1) (stmt.classStmt methods nm none) i).1 = Res.ok () ∧
      (interpreter.execute (n + 1) (stmt.classStmt methods nm none) i).2.envs[i.env]?.bind
          (fun e => mapGet e.values nm.lexeme)
        = some (Value.klass (builtClass nm methods i.env loxClass.zero))) ∧
    (∀ (n : Nat) (methods : List stmtFunction) (nm sc : token) (i i0 : interpreter)
        (k : loxClass) (en : environment),
      interpreter.evaluate n (expr.variable sc) i = (Res.ok (Value.klass k), i0) →
      i0.envs[i0.env]? = some en →
      (interpreter.execute (n + 1) (stmt.classStmt methods nm (some sc)) i).1 = Res.ok () ∧
      (interpreter.execute (n + 1) (stmt.classStmt methods nm (some sc)) i).2.envs[i0.env]?.bind
          (fun e => mapGet e.values nm.lexeme)
        = some (Value.klass (builtClass nm methods i0.envs.length k))) := by
  refine ⟨findMethod_eq_chain c name, ?_, ?_, ?_, ?_, ?_⟩
  · intro nm methods closure
    simp only [builtClass, loxClass.zero, loxClass.findMethod, loxClass.methods, mapGet]
    cases mapGet (interpreter.buildMethods closure methods []) name <;> rfl
  · intro nm methods closure sup
    simp only [builtClass, loxClass.chain]
  · intro nm methods closure sup f h
    have := buildMethods_spec closure methods [] (fun _ _ h0 => by simp [mapGet] at h0) name f h
    exact ⟨this.1, this.2.2⟩
  · intro n methods nm i en hen
    have hlt := lt_length_of_get _ _ _ hen
    rw [classStmt_no_super n methods nm i en hen]
    simp only [heapSet_get_self _ _ _ hlt, Option.bind, mapGet_mapSet_self, and_self]
  · intro n methods nm sc i i0 k en hsup hen
    have hlt := lt_length_of_get _ _ _ hen
    have hlt1 : i0.env < (heapSet i0.envs i0.env
        { enclosing := en.enclosing,
          values := mapSet (mapSet en.values nm.lexeme Value.nil) nm.lexeme
            (Value.klass (builtClass nm methods i0.envs.length k)) }).length := by
      rw [heapSet_length]; exact hlt
    rw [classStmt_with_super n methods nm sc i i0 k en hsup hen]
    simp only [List.getElem?_append_left hlt1, heapSet_get_self _ _ _ hlt, Option.bind,
      mapGet_mapSet_self, and_self]

theorem C5_witness :
    (newInterpreter 0).envs[(newInterpreter 0).env]?
      = some { enclosing := none, values := [("clock", Value.clock)] } ∧
    (interpreter.execute 1 (stmt.classStmt [bareReturnInit] (identifier "C" 0) none)
        (newInterpreter 0)).2.envs[0]?.bind (fun e => mapGet e.values "C")
      = some (Value.klass (builtClass (identifier "C" 0) [bareReturnInit] 0 loxClass.zero)) :=
  ⟨by decide!,
    ((C5_findMethod_returns_nearest_in_chain loxClass.zero "init").2.2.2.2.1 0 [bareReturnInit]
      (identifier "C" 0) (newInterpreter 0)
      { enclosing := none, values := [("clock", Value.clock)] } (by decide!)).2⟩

/-- C6: property read.  With the object expression evaluated to `o`: when `o` is an instance
that has the field, the result is the field's value, whatever methods the class has; when
it has no such field and the class chain has the method `m`, the result is the function
that `bind` makes, over a new environment that encloses the closure of `m` and binds `this`
to the instance; when there is neither, the runtime error "Undefined property" is reported;
when `o` is not an instance, a runtime error is reported.  A bound function keeps `this`:
in every later state in which its closure still holds the binding, a call runs the body in
a new environment that encloses that closure, and from there `this`, one environment out,
is the instance.  Each outcome of the read is the same within every larger step budget. -/
theorem C6_get_reads_field_then_bound_method (n : Nat) (name : token) (obj : expr)
    (i i1 : interpreter) (o : Value)
    (hobj : interpreter.evaluate n obj i = (Res.ok o, i1)) :
    (∀ (x : loxInstance) (fm : List (String × Value)) (v : Value),
      o = Value.inst x → i1.fieldMaps[x.fields]? = some fm → mapGet fm name.lexeme = some v →
      ∀ k, interpreter.evaluate (n + 1 + k) (expr.get name obj) i = (Res.ok v, i1)) ∧
    (∀ (x : loxInstance) (fm : List (String × Value)) (m : loxFunction),
      o = Value.inst x → i1.fieldMaps[x.fields]? = some fm → mapGet fm name.lexeme = none →
      x.klass.findMethod name.lexeme = some m →
      ∀ k, interpreter.evaluate (n + 1 + k) (expr.get name obj) i
        = (Res.ok (Value.function { declaration := m.declaration, closure := i1.envs.length,
                                    isInitializer := m.isInitializer }),
            afterBind m x i1)) ∧
    (∀ (x : loxInstance) (fm : List (String × Value)),
      o = Value.inst x → i1.fieldMaps[x.fields]? = some fm → mapGet fm name.lexeme = none →
      x.klass.findMethod name.lexeme = none →
      ∀ k, interpreter.evaluate (n + 1 + k) (expr.get name obj) i
        = (Res.panic (Panic.runtimeError name.line ("Undefined property '" ++ name.lexeme ++ "'.")),
            { i1 with hadRuntimeError := true })) ∧
    ((∀ x : loxInstance, o ≠ Value.inst x) →
      ∀ k, interpreter.evaluate (n + 1 + k) (expr.get name obj) i
        = (Res.panic (Panic.runtimeError name.line "only instances have properties."),
            { i1 with hadRuntimeError := true })) ∧
    (∀ (m : loxFunction) (x : loxInstance) (j : interpreter),
      (afterBind m x j).envs[j.envs.length]?
        = some { enclosing := some m.closure, values := [("this", Value.inst x)] }) ∧
    (∀ (f : loxFunction) (x : loxInstance) (parent : Option Nat) (j : interpreter) (k : Nat)
        (args : List Value),
      j.envs[f.closure]? = some { enclosing := parent, values := [("this", Value.inst x)] } →
      args.length = f.arity →
      loxFunction.call (k + 2) f args j
        = loxFunction.callDeferred f
            (interpreter.executeStatements k f.declaration.body (bodyStart f args j)).1
            { (interpreter.executeStatements k f.declaration.body (bodyStart f args j)).2 with
              env := j.env } ∧
      environment.getAt (bodyStart f args j).env 1 (tokenOfLexeme "this") (bodyStart f args j)
        = (Res.ok (Value.inst x), bodyStart f args j)) := by
  refine ⟨?_, ?_, ?_, ?_, ?_, ?_⟩
  · intro x fm v ho hfm hv k
    subst ho
    refine evaluate_steps_mono (n + 1) k _ _ _ _ ?_ (by simp)
    simp only [interpreter.evaluate, bind, Exec.bind, hobj, loxInstance.get, hfm, Option.getD,
      hv]
  · intro x fm m ho hfm hv hm k
    subst ho
    refine evaluate_steps_mono (n + 1) k _ _ _ _ ?_ (by simp)
    simp only [interpreter.evaluate, bind, Exec.bind, hobj, loxInstance.get, hfm, Option.getD,
      hv, hm, bind_eq, pure, Exec.pure]
  · intro x fm ho hfm hv hm k
    subst ho
    refine evaluate_steps_mono (n + 1) k _ _ _ _ ?_ (by simp)
    simp only [interpreter.evaluate, bind, Exec.bind, hobj, loxInstance.get, hfm, Option.getD,
      hv, hm, reportRuntimeError]
  · intro ho k
    refine evaluate_steps_mono (n + 1) k _ _ _ _ ?_ (by simp)
    cases o <;>
      first
      | exact absurd rfl (ho _)
      | simp only [interpreter.evaluate, bind, Exec.bind, hobj, reportRuntimeError]
  · intro m x j
    simp only [afterBind, append_get_last]
  · intro f x parent j k args hen hargs
    exact ⟨loxFunction_call_eq k f args j (Nat.le_of_eq hargs),
      getAt_this_from_body f args j _ (Value.inst x) hen (by simp [mapGet])⟩

theorem C6_witness :
    interpreter.evaluate 2 (expr.variable (identifier "x" 0)) instanceState
      = (Res.ok (Value.inst { klass := classC, fields := 0 }), instanceState) ∧
    instanceState.fieldMaps[0]? = some [] ∧
    mapGet ([] : List (String × Value)) "init" = none ∧
    classC.findMethod "init"
      = some { declaration := bareReturnInit, closure := 0, isInitializer := true } ∧
    interpreter.evaluate (2 + 1 + 4)
        (expr.get (identifier "init" 0) (expr.variable (identifier "x" 0))) instanceState
      = (Res.ok (Value.function { declaration := bareReturnInit,
                                  closure := instanceState.envs.length,
                                  isInitializer := true }),
          afterBind { declaration := bareReturnInit, closure := 0, isInitializer := true }
            { klass := classC, fields := 0 } instanceState) := by
  have h1 : interpreter.evaluate 2 (expr.variable (identifier "x" 0)) instanceState
      = (Res.ok (Value.inst { klass := classC, fields := 0 }), instanceState) := by decide!
  have h2 : instanceState.fieldMaps[0]? = some [] := by decide!
  have h3 : mapGet ([] : List (String × Value)) "init" = none := by decide!
  have h4 : classC.findMethod "init"
      = some { declaration := bareReturnInit, closure := 0, isInitializer := true } := by
    decide!
  exact ⟨h1, h2, h3, h4,
    (C6_get_reads_field_then_bound_method 2 (identifier "init" 0)
      (expr.variable (identifier "x" 0)) instanceState instanceState
      (Value.inst { klass := classC, fields := 0 }) h1).2.1
      { klass := classC, fields := 0 } []
      { declaration := bareReturnInit, closure := 0, isInitializer := true } rfl h2 h3 h4 4⟩

/-- C7: super dispatch.  The claim says that `super.m` yields the method of the superclass
however deep the expression is nested.  On the code the two `super.m` of
`class B < A { m() { super.m(); { super.m(); } } }`, written on one line, are one key of
`locals`; the distance of the nested one (3) overwrites the distance of the first (2), and
the first `super.m` looks `super` up in the globals: a runtime error, nothing printed.  With
the nested occurrence on another line both calls reach `A.m`. -/
theorem C7_same_line_super_reads_wrong_environment :
    (runStatements 100 (newInterpreter 0) (superProgram 0 0)).1
      = some (Panic.runtimeError 0 "Undefined variable: 'super'") ∧
    (runStatements 100 (newInterpreter 0) (superProgram 0 0)).2.stdout = [] ∧
    (runStatements 100 (newInterpreter 0) (superProgram 0 1)).1 = none ∧
    (runStatements 100 (newInterpreter 0) (superProgram 0 1)).2.stdout
      = [Value.str "A", Value.str "A"] := by
  decide!

/-- C8: initializer result.  The arity of a class is the parameter count of the `init` that
`findMethod` finds on the class or an ancestor, and 0 when there is none.  Calling the class
allocates a new, empty field map, which makes the instance; without an `init` the instance
is returned at once; with an `init`, the method is bound to the instance and called with
the arguments, and when that call returns, whatever it returns, the instance is returned.
A call of a function whose initializer flag is set, with as many arguments as parameters,
whose body runs to its end or executes a return, returns the `this` of its closure; and the
method table of a class statement sets the flag exactly for the method named `init`.  The
results hold within every larger step budget. -/
theorem C8_class_call_and_initializer_yield_the_instance (n : Nat) (c : loxClass)
    (args : List Value) (i : interpreter) :
    c.arity = (match c.findMethod "init" with
      | some init => init.declaration.params.length
      | none => 0) ∧
    ({ i with fieldMaps := i.fieldMaps ++ [[]] }.fieldMaps[i.fieldMaps.length]? = some [] ∧
      i.fieldMaps[i.fieldMaps.length]? = none) ∧
    (c.findMethod "init" = none →
      ∀ k, loxClass.call (n + 1 + k) c args i
        = (Res.ok (Value.inst { klass := c, fields := i.fieldMaps.length }),
            { i with fieldMaps := i.fieldMaps ++ [[]] })) ∧
    (∀ (init : loxFunction) (w : Value) (i1 : interpreter),
      c.findMethod "init" = some init →
      loxFunction.call n
          { declaration := init.declaration, closure := i.envs.length,
            isInitializer := init.isInitializer } args
          (afterBind init { klass := c, fields := i.fieldMaps.length }
            { i with fieldMaps := i.fieldMaps ++ [[]] }) = (Res.ok w, i1) →
      ∀ k, loxClass.call (n + 1 + k) c args i
        = (Res.ok (Value.inst { klass := c, fields := i.fieldMaps.length }), i1)) ∧
    (∀ (m : Nat) (l : loxFunction) (as : List Value) (j j1 : interpreter) (res : Res Unit)
        (en : environment) (x : Value),
      l.isInitializer = true → as.length = l.arity →
      interpreter.executeStatements m l.declaration.body (bodyStart l as j) = (res, j1) →
      (res = Res.ok () ∨ ∃ v, res = Res.panic (Panic.returnValue v)) →
      j1.envs[l.closure]? = some en → mapGet en.values "this" = some x →
      ∀ k, loxFunction.call (m + 2 + k) l as j = (Res.ok x, { j1 with env := j.env })) ∧
    (∀ (nm : token) (methods : List stmtFunction) (closure : Nat) (sup : loxClass)
        (name : String) (f : loxFunction),
      mapGet (builtClass nm methods closure sup).methods name = some f →
      f.isInitializer = decide (name = "init")) := by
  refine ⟨?_, ⟨?_, ?_⟩, ?_, ?_, ?_, ?_⟩
  · cases h : c.findMethod "init" <;> simp only [loxClass.arity, h, loxFunction.arity]
  · simp
  · simp
  · intro hnone k
    refine classCall_steps_mono (n + 1) k _ _ _ _ _ ?_ (by simp)
    simp only [loxClass.call, bind, Exec.bind, interpreter.newFieldMap, hnone, pure, Exec.pure]
  · intro init w i1 hinit hcall k
    refine classCall_steps_mono (n + 1) k _ _ _ _ _ ?_ (by simp)
    simp only [loxClass.call, bind, Exec.bind, interpreter.newFieldMap, hinit, bind_eq, hcall,
      pure, Exec.pure]
  · intro m l as j j1 res en x hflag hargs hbody hres hen hthis k
    refine functionCall_steps_mono (m + 2) k _ _ _ _ _ ?_ (by simp)
    rw [loxFunction_call_eq m l as j (Nat.le_of_eq hargs), hbody]
    have hget : environment.getAt l.closure 0 (tokenOfLexeme "this") { j1 with env := j.env }
        = (Res.ok x, { j1 with env := j.env }) :=
      getAt_this_of_closure l.closure { j1 with env := j.env } en x hen hthis
    rcases hres with hok | ⟨v, hv⟩
    · subst hok
      simp only [loxFunction.callDeferred, hflag, if_true, hget]
    · subst hv
      simp only [loxFunction.callDeferred, hflag, if_true, hget]
  · intro nm methods closure sup name f h
    exact (buildMethods_spec closure methods [] (fun _ _ h0 => by simp [mapGet] at h0)
      name f h).2.1

theorem C8_witness :
    classC.findMethod "init"
      = some { declaration := bareReturnInit, closure := 0, isInitializer := true } ∧
    loxFunction.call 5
        { declaration := bareReturnInit, closure := (newInterpreter 0).envs.length,
          isInitializer := true } []
        (afterBind { declaration := bareReturnInit, closure := 0, isInitializer := true }
          { klass := classC, fields := (newInterpreter 0).fieldMaps.length }
          { newInterpreter 0 with fieldMaps := (newInterpreter 0).fieldMaps ++ [[]] })
      = (Res.ok (Value.inst { klass := classC, fields := 0 }), afterInitState) ∧
    loxClass.call (5 + 1 + 4) classC [] (newInterpreter 0)
      = (Res.ok (Value.inst { klass := classC, fields := (newInterpreter 0).fieldMaps.length }),
          afterInitState) := by
  have h1 : classC.findMethod "init"
      = some { declaration := bareReturnInit, closure := 0, isInitializer := true } := by
    decide!
  have h2 : loxFunction.call 5
        { declaration := bareReturnInit, closure := (newInterpreter 0).envs.length,
          isInitializer := true } []
        (afterBind { declaration := bareReturnInit, closure := 0, isInitializer := true }
          { klass := classC, fields := (newInterpreter 0).fieldMaps.length }
          { newInterpreter 0 with fieldMaps := (newInterpreter 0).fieldMaps ++ [[]] })
      = (Res.ok (Value.inst { klass := classC, fields := 0 }), afterInitState) := by
    decide!
  exact ⟨h1, h2,
    (C8_class_call_and_initializer_yield_the_instance 5 classC [] (newInterpreter 0)).2.2.2.1
      { declaration := bareReturnInit, closure := 0, isInitializer := true }
      (Value.inst { klass := classC, fields := 0 }) afterInitState h1 h2 4⟩

/-- C9: field write.  With the target expression evaluated to an instance `x` and then the
value expression to `v`, the Set expression yields `v` and writes the field into the field
map of `x`: after it, a read of the field through any instance value that shares the map
yields `v`, whether the field existed or not, every other field of the map is as before,
and every other field map is untouched.  When the target is not an instance, the runtime
error is reported before the value expression is evaluated: the state is the one after the
target, with only the error flag latched.  Both outcomes are the same within every larger
step budget. -/
theorem C9_set_writes_the_field (n : Nat) (name : token) (obj value : expr)
    (i i1 : interpreter) (o : Value)
    (hobj : interpreter.evaluate n obj i = (Res.ok o, i1)) :
    (∀ (x : loxInstance) (v : Value) (i2 : interpreter) (fm : List (String × Value)),
      o = Value.inst x → interpreter.evaluate n value i1 = (Res.ok v, i2) →
      i2.fieldMaps[x.fields]? = some fm →
      (∀ k, interpreter.evaluate (n + 1 + k) (expr.set name obj value) i
        = (Res.ok v,
            { i2 with
              fieldMaps := heapSet i2.fieldMaps x.fields (mapSet fm name.lexeme v) })) ∧
      (∀ y : loxInstance, y.fields = x.fields →
        y.get name
            { i2 with fieldMaps := heapSet i2.fieldMaps x.fields (mapSet fm name.lexeme v) }
          = (Res.ok v,
              { i2 with
                fieldMaps := heapSet i2.fieldMaps x.fields (mapSet fm name.lexeme v) })) ∧
      (∀ k : String, k ≠ name.lexeme →
        (heapSet i2.fieldMaps x.fields (mapSet fm name.lexeme v))[x.fields]?.bind
            (fun m => mapGet m k) = mapGet fm k) ∧
      (∀ a : Nat, a ≠ x.fields →
        (heapSet i2.fieldMaps x.fields (mapSet fm name.lexeme v))[a]? = i2.fieldMaps[a]?)) ∧
    ((∀ x : loxInstance, o ≠ Value.inst x) →
      ∀ k, interpreter.evaluate (n + 1 + k) (expr.set name obj value) i
        = (Res.panic (Panic.runtimeError name.line "Only instances have fields."),
            { i1 with hadRuntimeError := true })) := by
  refine ⟨?_, ?_⟩
  · intro x v i2 fm ho hv hfm
    subst ho
    have hlt := lt_length_of_get _ _ _ hfm
    refine ⟨?_, ?_, ?_, ?_⟩
    · intro k
      refine evaluate_steps_mono (n + 1) k _ _ _ _ ?_ (by simp)
      simp only [interpreter.evaluate, bind, Exec.bind, hobj, hv, loxInstance.set, hfm, pure,
        Exec.pure]
    · intro y hy
      simp only [loxInstance.get, hy, heapSet_get_self _ _ _ hlt, Option.getD,
        mapGet_mapSet_self]
    · intro k hk
      simp only [heapSet_get_self _ _ _ hlt, Option.bind, mapGet_mapSet_other _ _ _ _ hk]
    · intro a ha
      exact heapSet_get_other _ _ _ _ ha
  · intro ho k
    refine evaluate_steps_mono (n + 1) k _ _ _ _ ?_ (by simp)
    cases o <;>
      first
      | exact absurd rfl (ho _)
      | simp only [interpreter.evaluate, bind, Exec.bind, hobj, reportRuntimeError]

theorem C9_witness :
    interpreter.evaluate 2 (expr.variable (identifier "x" 0)) instanceState
      = (Res.ok (Value.inst { klass := classC, fields := 0 }), instanceState) ∧
    interpreter.evaluate 2 (expr.literal (Literal.number 9)) instanceState
      = (Res.ok (Value.number 9), instanceState) ∧
    instanceState.fieldMaps[0]? = some [] ∧
    interpreter.evaluate (2 + 1 + 4)
        (expr.set (identifier "v" 0) (expr.variable (identifier "x" 0))
          (expr.literal (Literal.number 9))) instanceState
      = (Res.ok (Value.number 9),
          { instanceState with
            fieldMaps := heapSet instanceState.fieldMaps 0 (mapSet [] "v" (Value.number 9)) }) := by
  have h1 : interpreter.evaluate 2 (expr.variable (identifier "x" 0)) instanceState
      = (Res.ok (Value.inst { klass := classC, fields := 0 }), instanceState) := by decide!
  have h2 : interpreter.evaluate 2 (expr.literal (Literal.number 9)) instanceState
      = (Res.ok (Value.number 9), instanceState) := by decide!
  have h3 : instanceState.fieldMaps[0]? = some [] := by decide!
  exact ⟨h1, h2, h3,
    ((C9_set_writes_the_field 2 (identifier "v" 0) (expr.variable (identifier "x" 0))
      (expr.literal (Literal.number 9)) instanceState instanceState
      (Value.inst { klass := classC, fields := 0 }) h1).1
      { klass := classC, fields := 0 } (Value.number 9) instanceState [] rfl h2 h3).1 4⟩

/-- C10: call protocol.  The callee is evaluated first, then the arguments from left to right,
each in the state the previous one left; a panic of the callee or of an argument ends the
call expression there.  With the callee evaluated to `c` and the arguments to `as`: when
`c` is not the clock, a function or a class, the runtime error "Can only call functions and
classes." is reported; when it is one of them and the number of arguments differs from its
arity, the runtime error "Expected .. arguments but got .." is reported; in both cases the
state is the one after the arguments with only the error flag latched, so nothing of the
callee has run, and the outcome is the same within every larger step budget.  Otherwise
the callee is invoked. -/
theorem C10_call_checks_callee_and_arity (n : Nat) (paren : token) (args : List expr)
    (callee : expr) (i i1 i2 : interpreter) (c : Value) (as : List Value)
    (hc : interpreter.evaluate n callee i = (Res.ok c, i1))
    (ha : interpreter.evaluateArgs n args i1 = (Res.ok as, i2)) :
    (c.asCallable = none →
      ∀ k, interpreter.evaluate (n + 1 + k) (expr.call paren args callee) i
        = (Res.panic (Panic.runtimeError paren.line "Can only call functions and classes."),
            { i2 with hadRuntimeError := true })) ∧
    (∀ f : callable, c.asCallable = some f → as.length ≠ f.arity →
      ∀ k, interpreter.evaluate (n + 1 + k) (expr.call paren args callee) i
        = (Res.panic (Panic.runtimeError paren.line
              ("Expected " ++ toString f.arity ++ " arguments but got "
                ++ toString as.length ++ ".")),
            { i2 with hadRuntimeError := true })) ∧
    (∀ f : callable, c.asCallable = some f → as.length = f.arity →
      interpreter.evaluate (n + 1) (expr.call paren args callee) i = callable.call n f as i2) ∧
    (∀ v : Value, v.asCallable = none ↔
      (v ≠ Value.clock ∧ (∀ f, v ≠ Value.function f) ∧ (∀ k, v ≠ Value.klass k))) ∧
    (∀ (j j1 : interpreter) (p : Panic), interpreter.evaluate n callee j = (Res.panic p, j1) →
      interpreter.evaluate (n + 1) (expr.call paren args callee) j = (Res.panic p, j1)) ∧
    (∀ (j j1 j2 : interpreter) (w : Value) (p : Panic),
      interpreter.evaluate n callee j = (Res.ok w, j1) →
      interpreter.evaluateArgs n args j1 = (Res.panic p, j2) →
      interpreter.evaluate (n + 1) (expr.call paren args callee) j = (Res.panic p, j2)) ∧
    (∀ (a : expr) (rest : List expr) (j j1 j2 : interpreter) (v : Value) (vs : List Value),
      interpreter.evaluate n a j = (Res.ok v, j1) →
      interpreter.evaluateArgs n rest j1 = (Res.ok vs, j2) →
      interpreter.evaluateArgs (n + 1) (a :: rest) j = (Res.ok (v :: vs), j2)) ∧
    (∀ (a : expr) (rest : List expr) (j j1 : interpreter) (p : Panic),
      interpreter.evaluate n a j = (Res.panic p, j1) →
      interpreter.evaluateArgs (n + 1) (a :: rest) j = (Res.panic p, j1)) := by
  refine ⟨?_, ?_, ?_, ?_, ?_, ?_, ?_, ?_⟩
  · intro hcall k
    refine evaluate_steps_mono (n + 1) k _ _ _ _ ?_ (by simp)
    simp only [interpreter.evaluate, bind, Exec.bind, hc, ha, hcall, reportRuntimeError]
  · intro f hcall hlen k
    refine evaluate_steps_mono (n + 1) k _ _ _ _ ?_ (by simp)
    simp only [interpreter.evaluate, bind, Exec.bind, hc, ha, hcall, reportRuntimeError, ne_eq,
      hlen, not_false_eq_true, if_true]
  · intro f hcall hlen
    simp only [interpreter.evaluate, bind, Exec.bind, hc, ha, hcall, ne_eq, hlen,
      not_true_eq_false, if_false]
  · intro v
    cases v <;> simp [Value.asCallable]
  · intro j j1 p hp
    simp only [interpreter.evaluate, bind, Exec.bind, hp]
  · intro j j1 j2 w p hw hp
    simp only [interpreter.evaluate, bind, Exec.bind, hw, hp]
  · intro a rest j j1 j2 v vs hv hvs
    simp only [interpreter.evaluateArgs, bind, Exec.bind, hv, hvs, pure, Exec.pure]
  · intro a rest j j1 p hp
    simp only [interpreter.evaluateArgs, bind, Exec.bind, hp]

theorem C10_witness :
    interpreter.evaluate 2 (expr.variable (identifier "clock" 0)) (newInterpreter 0)
      = (Res.ok Value.clock, newInterpreter 0) ∧
    interpreter.evaluateArgs 2 [expr.literal (Literal.number 1)] (newInterpreter 0)
      = (Res.ok [Value.number 1], newInterpreter 0) ∧
    Value.clock.asCallable = some callable.clock ∧
    [Value.number 1].length ≠ callable.clock.arity ∧
    interpreter.evaluate (2 + 1 + 4)
        (expr.call (plainToken tokenTypeRightParen ")" 0) [expr.literal (Literal.number 1)]
          (expr.variable (identifier "clock" 0))) (newInterpreter 0)
      = (Res.panic (Panic.runtimeError (plainToken tokenTypeRightParen ")" 0).line
            ("Expected " ++ toString callable.clock.arity ++ " arguments but got "
              ++ toString [Value.number 1].length ++ ".")),
          { newInterpreter 0 with hadRuntimeError := true }) := by
  have h1 : interpreter.evaluate 2 (expr.variable (identifier "clock" 0)) (newInterpreter 0)
      = (Res.ok Value.clock, newInterpreter 0) := by decide!
  have h2 : interpreter.evaluateArgs 2 [expr.literal (Literal.number 1)] (newInterpreter 0)
      = (Res.ok [Value.number 1], newInterpreter 0) := by decide!
  have h3 : Value.clock.asCallable = some callable.clock := rfl
  have h4 : [Value.number 1].length ≠ callable.clock.arity := by decide
  exact ⟨h1, h2, h3, h4,
    (C10_call_checks_callee_and_arity 2 (plainToken tokenTypeRightParen ")" 0)
      [expr.literal (Literal.number 1)] (expr.variable (identifier "clock" 0))
      (newInterpreter 0) (newInterpreter 0) (newInterpreter 0) Value.clock [Value.number 1]
      h1 h2).2.1 callable.clock h3 h4 4⟩

/-- C11, where the code departs from the claim: `==` and `!=` on two functions, on two
classes or on two instances do not complete with a boolean.  The Go comparison of the two
interface values panics, because the structs hold a slice or a map.  The program
`fun f() {} print f == f;` prints nothing: `interpret` recovers the Go panic, and none of
the error flags is set. -/
theorem C11_equality_of_two_functions_panics :
    (∀ (line : Int) (f g : loxFunction) (i : interpreter),
      interpreter.binaryOp (plainToken tokenTypeEqualEqual "==" line)
          (Value.function f) (Value.function g) i =
        (Res.panic (Panic.goRuntime "comparing uncomparable type main.loxFunction"), i) ∧
      interpreter.binaryOp (plainToken tokenTypeBangEqual "!=" line)
          (Value.function f) (Value.function g) i =
        (Res.panic (Panic.goRuntime "comparing uncomparable type main.loxFunction"), i)) ∧
    (∀ (line : Int) (c d : loxClass) (i : interpreter),
      interpreter.binaryOp (plainToken tokenTypeEqualEqual "==" line)
          (Value.klass c) (Value.klass d) i =
        (Res.panic (Panic.goRuntime "comparing uncomparable type main.loxClass"), i)) ∧
    (∀ (line : Int) (x y : loxInstance) (i : interpreter),
      interpreter.binaryOp (plainToken tokenTypeEqualEqual "==" line)
          (Value.inst x) (Value.inst y) i =
        (Res.panic (Panic.goRuntime "comparing uncomparable type main.loxInstance"), i)) ∧
    (runTokens 20 (newInterpreter 0) functionEqualityTokens).1 = none ∧
    (runTokens 20 (newInterpreter 0) functionEqualityTokens).2.1 =
      some (Panic.goRuntime "comparing uncomparable type main.loxFunction") ∧
    (runTokens 20 (newInterpreter 0) functionEqualityTokens).2.2.stdout = [] ∧
    (runTokens 20 (newInterpreter 0) functionEqualityTokens).2.2.hadParserError = false ∧
    (runTokens 20 (newInterpreter 0) functionEqualityTokens).2.2.hadResolutionError = false ∧
    (runTokens 20 (newInterpreter 0) functionEqualityTokens).2.2.hadRuntimeError = false := by
  refine ⟨fun line f g i => ⟨rfl, rfl⟩, fun line c d i => rfl, fun line x y i => rfl, ?_⟩
  decide!

/-- C12: arithmetic operand checks.  For a binary expression whose operator is one of `-`,
`*`, `/`, `>`, `>=`, `<`, `<=` and whose operands evaluate to `l` and then `r`, within every
larger step budget: the evaluation ends in a runtime error exactly when `l` or `r` is not a
number or the operator is `/` and `r` is a zero, that is a number of which Go's `== 0`
holds: the positive or the negative zero of `float64`, and no other double.  An operand
that is not a number gives "Operands must be numbers.", a zero divisor gives "Division by
zero" and no value at all, so no infinity and no NaN; both latch the runtime-error flag
and change nothing else in the state after the operands.  In every other case the
expression yields a value and leaves that state as it is. -/
theorem C12_arithmetic_operand_checks (n : Nat) (left right : expr) (operator : token)
    (i i1 i2 : interpreter) (l r : Value)
    (hop : isArithmeticOperator operator.tt = true)
    (hl : interpreter.evaluate n left i = (Res.ok l, i1))
    (hr : interpreter.evaluate n right i1 = (Res.ok r, i2)) :
    ∀ k,
      ((∃ line message,
          (interpreter.evaluate (n + 1 + k) (expr.binary left right operator) i).1 =
            Res.panic (Panic.runtimeError line message)) ↔
        (l.isNumber = false ∨ r.isNumber = false ∨
          (operator.tt = tokenTypeSlash ∧ r.isZero = true))) ∧
      (l.isNumber = false ∨ r.isNumber = false →
        interpreter.evaluate (n + 1 + k) (expr.binary left right operator) i =
          (Res.panic (Panic.runtimeError operator.line "Operands must be numbers."),
            { i2 with hadRuntimeError := true })) ∧
      (l.isNumber = true → operator.tt = tokenTypeSlash → r.isZero = true →
        interpreter.evaluate (n + 1 + k) (expr.binary left right operator) i =
          (Res.panic (Panic.runtimeError operator.line "Division by zero"),
            { i2 with hadRuntimeError := true })) ∧
      (¬ (l.isNumber = false ∨ r.isNumber = false ∨
          (operator.tt = tokenTypeSlash ∧ r.isZero = true)) →
        ∃ v, interpreter.evaluate (n + 1 + k) (expr.binary left right operator) i =
          (Res.ok v, i2)) ∧
      (r.isZero = true ↔ ∃ neg e, r = Value.number (float64.finite neg 0 e)) := by
  intro k
  have hbase := evaluate_binary_eq n left right operator i i1 i2 l r hl hr
  have hbad : l.isNumber = false ∨ r.isNumber = false →
      interpreter.evaluate (n + 1 + k) (expr.binary left right operator) i =
        (Res.panic (Panic.runtimeError operator.line "Operands must be numbers."),
          { i2 with hadRuntimeError := true }) := by
    intro h
    refine evaluate_steps_mono (n + 1) k _ _ _ _ ?_ (by simp)
    rw [hbase]
    exact binaryOp_not_numbers operator l r i2 hop h
  have hzero : l.isNumber = true → operator.tt = tokenTypeSlash → r.isZero = true →
      interpreter.evaluate (n + 1 + k) (expr.binary left right operator) i =
        (Res.panic (Panic.runtimeError operator.line "Division by zero"),
          { i2 with hadRuntimeError := true }) := by
    intro hnum hs hr0
    refine evaluate_steps_mono (n + 1) k _ _ _ _ ?_ (by simp)
    rw [hbase]
    cases l <;> simp only [Value.isNumber, Bool.false_eq_true] at hnum
    cases r <;> simp only [Value.isZero, Bool.false_eq_true] at hr0
    exact binaryOp_division_by_zero operator _ _ i2 hs hr0
  have hgood : ¬ (l.isNumber = false ∨ r.isNumber = false ∨
        (operator.tt = tokenTypeSlash ∧ r.isZero = true)) →
      ∃ v, interpreter.evaluate (n + 1 + k) (expr.binary left right operator) i =
        (Res.ok v, i2) := by
    intro h
    simp only [not_or, Bool.not_eq_false] at h
    obtain ⟨h1, h2, h3⟩ := h
    cases l <;> simp only [Value.isNumber, Bool.false_eq_true] at h1
    cases r <;> simp only [Value.isNumber, Bool.false_eq_true] at h2
    rename_i x y
    have h4 : ¬ (operator.tt = tokenTypeSlash ∧ y.eq 0 = true) := by
      intro e
      exact h3 ⟨e.1, e.2⟩
    obtain ⟨v, hv⟩ := binaryOp_numbers operator x y i2 hop h4
    refine ⟨v, evaluate_steps_mono (n + 1) k _ _ _ _ ?_ (by simp)⟩
    rw [hbase]
    exact hv
  refine ⟨⟨?_, ?_⟩, hbad, hzero, hgood, isZero_iff r⟩
  · intro hex
    by_contra hnot
    obtain ⟨v, hv⟩ := hgood hnot
    obtain ⟨line, message, hm⟩ := hex
    rw [hv] at hm
    exact Res.noConfusion hm
  · intro h
    rcases h with h | h | ⟨hs, hr0⟩
    · exact ⟨_, _, by rw [hbad (Or.inl h)]⟩
    · exact ⟨_, _, by rw [hbad (Or.inr h)]⟩
    · cases hnum : l.isNumber
      · exact ⟨_, _, by rw [hbad (Or.inl hnum)]⟩
      · exact ⟨_, _, by rw [hzero hnum hs hr0]⟩

theorem C12_witness :
    isArithmeticOperator (plainToken tokenTypeSlash "/" 0).tt = true ∧
    interpreter.evaluate 2 (expr.literal (Literal.number 1)) (newInterpreter 0) =
      (Res.ok (Value.number 1), newInterpreter 0) ∧
    interpreter.evaluate 2 negativeZero (newInterpreter 0) =
      (Res.ok (Value.number (float64.finite true 0 0)), newInterpreter 0) ∧
    interpreter.evaluate (2 + 1 + 3)
        (expr.binary (expr.literal (Literal.number 1)) negativeZero
          (plainToken tokenTypeSlash "/" 0)) (newInterpreter 0) =
      (Res.panic (Panic.runtimeError (plainToken tokenTypeSlash "/" 0).line "Division by zero"),
        { newInterpreter 0 with hadRuntimeError := true }) ∧
    (parseFloat "0.1".toList).toOption = some tenth ∧
    (parseFloat "0.2".toList).toOption = some twoTenths ∧
    (parseFloat "0.3".toList).toOption = some threeTenths ∧
    interpreter.evaluate 6 oneByRoundingError (newInterpreter 0) =
      (Res.ok (Value.number (float64.finite false (2 ^ 52) 1076)), newInterpreter 0) := by
  have h0 : isArithmeticOperator (plainToken tokenTypeSlash "/" 0).tt = true := rfl
  have h1 : interpreter.evaluate 2 (expr.literal (Literal.number 1)) (newInterpreter 0) =
      (Res.ok (Value.number 1), newInterpreter 0) := by decide!
  have h2 : interpreter.evaluate 2 negativeZero (newInterpreter 0) =
      (Res.ok (Value.number (float64.finite true 0 0)), newInterpreter 0) := by decide!
  refine ⟨h0, h1, h2,
    (C12_arithmetic_operand_checks 2 (expr.literal (Literal.number 1))
      negativeZero (plainToken tokenTypeSlash "/" 0)
      (newInterpreter 0) (newInterpreter 0) (newInterpreter 0) (Value.number 1)
      (Value.number (float64.finite true 0 0)) h0 h1 h2 3).2.2.1 rfl rfl (by decide!),
    ?_, ?_, ?_, ?_⟩ <;> decide!

/-- C13: short circuit.  With the left operand of a logical expression evaluated to `l`:
when the operator is `or` and `l` is truthy, or the operator is `and` and `l` is not
truthy, the expression yields `l` itself and the state is the one the left operand left, so
nothing of the right operand has run, whatever that operand is; this holds within every
larger step budget.  Otherwise the expression ends as the right operand ends, evaluated in
the state the left operand left.  A value is not truthy exactly when it is `false` or
`nil`; the number 0 and the empty string are truthy. -/
theorem C13_logical_short_circuits (n : Nat) (left right : expr) (operator : token)
    (i i1 : interpreter) (l : Value)
    (hl : interpreter.evaluate n left i = (Res.ok l, i1)) :
    ((operator.tt = tokenTypeOr ∧ interpreter.isTruthy l = true) ∨
        (operator.tt = tokenTypeAnd ∧ interpreter.isTruthy l = false) →
      ∀ k, interpreter.evaluate (n + 1 + k) (expr.logical left right operator) i =
        (Res.ok l, i1)) ∧
    (¬ ((operator.tt = tokenTypeOr ∧ interpreter.isTruthy l = true) ∨
        (operator.tt = tokenTypeAnd ∧ interpreter.isTruthy l = false)) →
      ∀ (res : Res Value) (i2 : interpreter), interpreter.evaluate n right i1 = (res, i2) →
        res ≠ Res.panic Panic.outOfSteps →
        ∀ k, interpreter.evaluate (n + 1 + k) (expr.logical left right operator) i =
          (res, i2)) ∧
    (∀ v : Value, interpreter.isTruthy v = false ↔ (v = Value.bool false ∨ v = Value.nil)) ∧
    interpreter.isTruthy (Value.number 0) = true ∧
    interpreter.isTruthy (Value.str "") = true := by
  refine ⟨?_, ?_, ?_, rfl, rfl⟩
  · intro h k
    refine evaluate_steps_mono (n + 1) k _ _ _ _ ?_ (by simp)
    rcases h with ⟨hop, ht⟩ | ⟨hop, ht⟩
    · simp only [interpreter.evaluate, bind, Exec.bind, hl, hop, ht, if_true, pure, Exec.pure]
    · simp only [interpreter.evaluate, bind, Exec.bind, hl, hop, ht, Bool.not_false, if_true,
        pure, Exec.pure]
  · intro h res i2 hr hres k
    refine evaluate_steps_mono (n + 1) k _ _ _ _ ?_ hres
    simp only [not_or, not_and] at h
    simp only [interpreter.evaluate, bind, Exec.bind, hl]
    cases ht : interpreter.isTruthy l <;> cases hop : operator.tt <;>
      simp only [hop, ht, reduceCtorEq, false_imp_iff, true_imp_iff, not_true_eq_false,
        and_false, false_and, and_true, true_and, not_false_eq_true, Bool.false_eq_true,
        Bool.not_false, Bool.not_true, if_true, if_false] at h ⊢ <;>
      exact hr
  · intro v
    cases v <;> simp [interpreter.isTruthy]

theorem C13_witness :
    interpreter.evaluate 1 (expr.literal (Literal.number 0)) (newInterpreter 0) =
      (Res.ok (Value.number 0), newInterpreter 0) ∧
    ((plainToken tokenTypeOr "or" 0).tt = tokenTypeOr ∧
      interpreter.isTruthy (Value.number 0) = true) ∧
    (interpreter.evaluate 2
        (expr.assign (identifier "clock" 0) (expr.literal (Literal.number 1)))
        (newInterpreter 0)).2 ≠ newInterpreter 0 ∧
    interpreter.evaluate (1 + 1 + 2)
        (expr.logical (expr.literal (Literal.number 0))
          (expr.assign (identifier "clock" 0) (expr.literal (Literal.number 1)))
          (plainToken tokenTypeOr "or" 0)) (newInterpreter 0) =
      (Res.ok (Value.number 0), newInterpreter 0) := by
  have h1 : interpreter.evaluate 1 (expr.literal (Literal.number 0)) (newInterpreter 0) =
      (Res.ok (Value.number 0), newInterpreter 0) := by decide!
  have h2 : (plainToken tokenTypeOr "or" 0).tt = tokenTypeOr ∧
      interpreter.isTruthy (Value.number 0) = true := ⟨rfl, rfl⟩
  have h3 : (interpreter.evaluate 2
        (expr.assign (identifier "clock" 0) (expr.literal (Literal.number 1)))
        (newInterpreter 0)).2 ≠ newInterpreter 0 := by decide!
  exact ⟨h1, h2, h3,
    (C13_logical_short_circuits 1 (expr.literal (Literal.number 0))
      (expr.assign (identifier "clock" 0) (expr.literal (Literal.number 1)))
      (plainToken tokenTypeOr "or" 0) (newInterpreter 0) (newInterpreter 0) (Value.number 0)
      h1).1 (Or.inl h2) 2⟩

/-- C14, where the code departs from the claim: `clock.call` returns `time.Now().Unix()`, an
`int64`, not a `float64`, so the value fails the number-operand check.  Whatever the clock
reads, `-` on two such values is the runtime error "Operands must be numbers.", and the
programs `print clock() - clock();` and `print clock() + 1;` print nothing and latch the
runtime-error flag. -/
theorem C14_clock_value_fails_the_number_check :
    (∀ (i : interpreter), clock.call i = (Res.ok (Value.int64 i.now), i)) ∧
    (∀ (line a b : Int) (i : interpreter),
      interpreter.binaryOp (plainToken tokenTypeMinus "-" line) (Value.int64 a) (Value.int64 b) i =
        (Res.panic (Panic.runtimeError line "Operands must be numbers."),
          { i with hadRuntimeError := true })) ∧
    (∀ (line a : Int) (x : float64) (i : interpreter),
      interpreter.binaryOp (plainToken tokenTypePlus "+" line) (Value.int64 a) (Value.number x) i =
        (Res.panic (Panic.runtimeError line "Operands must be two numbers or two strings."),
          { i with hadRuntimeError := true })) ∧
    (runTokens 20 (newInterpreter 1700000000) clockDifferenceTokens).2.1 =
      some (Panic.runtimeError 0 "Operands must be numbers.") ∧
    (runTokens 20 (newInterpreter 1700000000) clockDifferenceTokens).2.2.stdout = [] ∧
    (runTokens 20 (newInterpreter 1700000000) clockDifferenceTokens).2.2.hadRuntimeError = true ∧
    (runTokens 20 (newInterpreter 1700000000) clockPlusOneTokens).2.1 =
      some (Panic.runtimeError 0 "Operands must be two numbers or two strings.") ∧
    (runTokens 20 (newInterpreter 1700000000) clockPlusOneTokens).2.2.stdout = [] ∧
    (runTokens 20 (newInterpreter 1700000000) clockPlusOneTokens).2.2.hadRuntimeError = true := by
  refine ⟨fun i => rfl, fun line a b i => rfl, fun line a x i => rfl, ?_⟩
  decide!

/-- C15: for-loop desugaring.  After the keyword `for`, when the parenthesis, the three
slots and the body are read (the first slot absent, a variable declaration or an
expression statement; the second and the third slot absent or an expression), the parser
returns the desugaring that the specification words: `Block[init, While(cond, Block[body,
Expression(incr)])]`, without the outer block when `init` is absent, with the literal
`true` when `cond` is absent and with `body` as the body of the loop when `incr` is absent;
this holds within every larger step budget.  Hence the parser builds the same tree for
`for (var i = 0; i < 3; i = i + 1) print i;` and for
`{ var i = 0; while (i < 3) { print i; i = i + 1; } }`, and the same tree for
`for (;;) print 1;` and for `while (true) print 1;`, and the first two programs run alike:
both print 0, 1 and 2. -/
theorem C15_for_statement_desugars (n : Nat) (p p1 p2 p3 p4 p5 p6 p7 : parser)
    (t1 t2 t3 : token) (init : Option stmt) (cond incr : Option expr) (body : stmt)
    (h1 : parser.consume tokenTypeLeftParen "Expect '(' after 'while'." p = (Res.ok t1, p1))
    (hinit : ForInit n p1 init p2)
    (hcond : ForSlot n tokenTypeSemicolon p2 cond p3)
    (h2 : parser.consume tokenTypeSemicolon "Expect ';' after loop condition." p3 =
      (Res.ok t2, p4))
    (hincr : ForSlot n tokenTypeRightParen p4 incr p5)
    (h3 : parser.consume tokenTypeRightParen "Expect ')' after condition" p5 = (Res.ok t3, p6))
    (hbody : parser.statement n p6 = (Res.ok body, p7)) :
    (∀ k, parser.forStatement (n + 1 + k) p =
      (Res.ok (desugarFor init cond incr body), p7)) ∧
    (∀ (a : stmt) (b c : expr) (d : stmt),
      desugarFor (some a) (some b) (some c) d =
        stmt.block [a, stmt.whileStmt b (stmt.block [d, stmt.expression c])]) ∧
    (parser.parse 40 (newParser forTokens)).1 = none ∧
    (parser.parse 40 (newParser forTokens)).2.1 =
      [stmt.block [varIZero,
        stmt.whileStmt lessThanThree (stmt.block [printI, stmt.expression increment])]] ∧
    (parser.parse 40 (newParser forAsBlockTokens)).2.1 =
      (parser.parse 40 (newParser forTokens)).2.1 ∧
    (parser.parse 40 (newParser forEverTokens)).2.1 =
      [stmt.whileStmt (expr.literal (Literal.bool true))
        (stmt.print (expr.literal (Literal.number 1)))] ∧
    (parser.parse 40 (newParser whileTrueTokens)).2.1 =
      (parser.parse 40 (newParser forEverTokens)).2.1 ∧
    (runTokens 60 (newInterpreter 0) forTokens).2.2.stdout =
      [Value.number 0, Value.number 1, Value.number 2] ∧
    runTokens 60 (newInterpreter 0) forAsBlockTokens =
      runTokens 60 (newInterpreter 0) forTokens := by
  refine ⟨?_, fun a b c d => rfl, ?_⟩
  · intro k
    exact prolongs_steps parser.forStatement (fun m => (parserMono_all m).forStatement)
      (n + 1) k p p7 _
      (forStatement_run n p p1 p2 p3 p4 p5 p6 p7 t1 t2 t3 init cond incr body h1 hinit hcond
        h2 hincr h3 hbody) (by simp)
  · decide!

theorem C15_witness :
    parser.forStatement (20 + 1 + 5) (forParser 1) =
      (Res.ok (desugarFor (some varIZero) (some lessThanThree) (some increment) printI),
        forParser 20) := by
  have h1 : parser.consume tokenTypeLeftParen "Expect '(' after 'while'." (forParser 1) =
      (Res.ok (plainToken tokenTypeLeftParen "(" 0), forParser 2) := by decide!
  have ha : parser.matchTokens [tokenTypeSemicolon] (forParser 2) =
      (Res.ok false, forParser 2) := by decide!
  have hb : parser.matchTokens [tokenTypeVar] (forParser 2) =
      (Res.ok true, forParser 3) := by decide!
  have hc : parser.varDeclaration 20 (forParser 3) = (Res.ok varIZero, forParser 7) := by
    decide!
  have hd : parser.check tokenTypeSemicolon (forParser 7) = (Res.ok false, forParser 7) := by
    decide!
  have he : parser.expression 20 (forParser 7) = (Res.ok lessThanThree, forParser 10) := by
    decide!
  have h2 : parser.consume tokenTypeSemicolon "Expect ';' after loop condition."
      (forParser 10) = (Res.ok (plainToken tokenTypeSemicolon ";" 0), forParser 11) := by
    decide!
  have hf : parser.check tokenTypeRightParen (forParser 11) =
      (Res.ok false, forParser 11) := by decide!
  have hg : parser.expression 20 (forParser 11) = (Res.ok increment, forParser 16) := by
    decide!
  have h3 : parser.consume tokenTypeRightParen "Expect ')' after condition" (forParser 16) =
      (Res.ok (plainToken tokenTypeRightParen ")" 0), forParser 17) := by decide!
  have hbody : parser.statement 20 (forParser 17) = (Res.ok printI, forParser 20) := by
    decide!
  exact (C15_for_statement_desugars 20 (forParser 1) (forParser 2) (forParser 7)
    (forParser 10) (forParser 11) (forParser 16) (forParser 17) (forParser 20) _ _ _
    (some varIZero) (some lessThanThree) (some increment) printI h1
    (Or.inr (Or.inl ⟨forParser 3, varIZero, ha, hb, hc, rfl⟩))
    (Or.inr ⟨lessThanThree, hd, he, rfl⟩) h2
    (Or.inr ⟨increment, hf, hg, rfl⟩) h3 hbody).1 5

/-- C16: operator precedence and associativity.  The six levels `or`, `and`, `equality`,
`comparison`, `addition` and `multiplication` have one shape, and the operands of each are
read by the next: those of `or` by `and`, then `equality`, `comparison`, `addition`,
`multiplication`, and those of `multiplication` by `unary`.  For every level and all
operands `a`, `b`, `c` that its operand method reads, `a op1 b op2 c` parses to
`(a op1 b) op2 c`.  For every level and the level that reads its operands, `a op1 b op2 c`
with `op1` of the lower and `op2` of the higher level parses to `a op1 (b op2 c)`.  A unary
operator is applied to its operand before a following `*` or `/` is read, so `-a * b` is
`(-a) * b`, and `x = y = v` parses to the assignment of `y = v` to `x`.  All of this holds
within every larger step budget.  The parser builds these trees for `a - b - c`,
`a + b * c`, `a or b and c == d < e + f * -g` and `a = b = c`, and `print 1 + 2 * 3;`
prints 7. -/
theorem C16_precedence_and_associativity :
    (IsLevel parser.or parser.and parser.orLoop [tokenTypeOr] expr.logical ∧
      IsLevel parser.and parser.equality parser.andLoop [tokenTypeAnd] expr.logical ∧
      IsLevel parser.equality parser.comparison parser.equalityLoop
        [tokenTypeBangEqual, tokenTypeEqualEqual] expr.binary ∧
      IsLevel parser.comparison parser.addition parser.comparisonLoop
        [tokenTypeGreater, tokenTypeGreaterEqual, tokenTypeLess, tokenTypeLessEqual]
        expr.binary ∧
      IsLevel parser.addition parser.multiplication parser.additionLoop
        [tokenTypeMinus, tokenTypePlus] expr.binary ∧
      IsLevel parser.multiplication parser.unary parser.multiplicationLoop
        [tokenTypeSlash, tokenTypeStar] expr.binary) ∧
    (∀ (whole operand : Nat → Exec parser expr) (loop : Nat → expr → Exec parser expr)
        (ops : List tokenType) (mk : expr → expr → token → expr),
      IsLevel whole operand loop ops mk →
      ∀ (n : Nat) (p0 p1 p2 p3 p4 p5 : parser) (a b c : expr) (o1 o2 : token),
        operand n p0 = (Res.ok a, p1) →
        parser.matchTokens ops p1 = (Res.ok true, p2) →
        parser.previous p2 = (Res.ok o1, p2) →
        operand n p2 = (Res.ok b, p3) →
        parser.matchTokens ops p3 = (Res.ok true, p4) →
        parser.previous p4 = (Res.ok o2, p4) →
        operand n p4 = (Res.ok c, p5) →
        parser.matchTokens ops p5 = (Res.ok false, p5) →
        ∀ k, whole (n + 4 + k) p0 = (Res.ok (mk (mk a b o1) c o2), p5)) ∧
    (∀ (whole1 whole2 operand2 : Nat → Exec parser expr)
        (loop1 loop2 : Nat → expr → Exec parser expr) (ops1 ops2 : List tokenType)
        (mk1 mk2 : expr → expr → token → expr),
      IsLevel whole1 whole2 loop1 ops1 mk1 → IsLevel whole2 operand2 loop2 ops2 mk2 →
      ∀ (n : Nat) (p0 p1 p2 p3 p4 p5 : parser) (a b c : expr) (o1 o2 : token),
        operand2 n p0 = (Res.ok a, p1) →
        parser.matchTokens ops2 p1 = (Res.ok false, p1) →
        parser.matchTokens ops1 p1 = (Res.ok true, p2) →
        parser.previous p2 = (Res.ok o1, p2) →
        operand2 n p2 = (Res.ok b, p3) →
        parser.matchTokens ops2 p3 = (Res.ok true, p4) →
        parser.previous p4 = (Res.ok o2, p4) →
        operand2 n p4 = (Res.ok c, p5) →
        parser.matchTokens ops2 p5 = (Res.ok false, p5) →
        parser.matchTokens ops1 p5 = (Res.ok false, p5) →
        ∀ k, whole1 (n + 5 + k) p0 = (Res.ok (mk1 a (mk2 b c o2) o1), p5)) ∧
    (∀ (n : Nat) (p0 p1 p2 p3 p4 : parser) (o o2 : token) (a b : expr),
      parser.matchTokens [tokenTypeBang, tokenTypeMinus] p0 = (Res.ok true, p1) →
      parser.previous p1 = (Res.ok o, p1) →
      parser.unary n p1 = (Res.ok a, p2) →
      parser.matchTokens [tokenTypeSlash, tokenTypeStar] p2 = (Res.ok true, p3) →
      parser.previous p3 = (Res.ok o2, p3) →
      parser.unary n p3 = (Res.ok b, p4) →
      parser.matchTokens [tokenTypeSlash, tokenTypeStar] p4 = (Res.ok false, p4) →
      ∀ k, parser.multiplication (n + 4 + k) p0 =
        (Res.ok (expr.binary (expr.unary o a) b o2), p4)) ∧
    (∀ (n : Nat) (p0 p1 p2 p3 p4 p5 : parser) (x y o1 o2 : token) (v : expr),
      parser.or n p0 = (Res.ok (expr.variable x), p1) →
      parser.matchTokens [tokenTypeEqual] p1 = (Res.ok true, p2) →
      parser.previous p2 = (Res.ok o1, p2) →
      parser.or n p2 = (Res.ok (expr.variable y), p3) →
      parser.matchTokens [tokenTypeEqual] p3 = (Res.ok true, p4) →
      parser.previous p4 = (Res.ok o2, p4) →
      parser.assignment n p4 = (Res.ok v, p5) →
      ∀ k, parser.assignment (n + 2 + k) p0 =
        (Res.ok (expr.assign x (expr.assign y v)), p5)) ∧
    (parser.parse 40 (newParser subtractionTokens)).2.1 =
      [stmt.expression (expr.binary
        (expr.binary (variableNamed "a") (variableNamed "b") (plainToken tokenTypeMinus "-" 0))
        (variableNamed "c") (plainToken tokenTypeMinus "-" 0))] ∧
    (parser.parse 40 (newParser sumProductTokens)).2.1 =
      [stmt.expression (expr.binary (variableNamed "a")
        (expr.binary (variableNamed "b") (variableNamed "c") (plainToken tokenTypeStar "*" 0))
        (plainToken tokenTypePlus "+" 0))] ∧
    (parser.parse 40 (newParser allLevelsTokens)).2.1 =
      [stmt.expression (expr.logical (variableNamed "a")
        (expr.logical (variableNamed "b")
          (expr.binary (variableNamed "c")
            (expr.binary (variableNamed "d")
              (expr.binary (variableNamed "e")
                (expr.binary (variableNamed "f")
                  (expr.unary (plainToken tokenTypeMinus "-" 0) (variableNamed "g"))
                  (plainToken tokenTypeStar "*" 0))
                (plainToken tokenTypePlus "+" 0))
              (plainToken tokenTypeLess "<" 0))
            (plainToken tokenTypeEqualEqual "==" 0))
          (plainToken tokenTypeAnd "and" 0))
        (plainToken tokenTypeOr "or" 0))] ∧
    (parser.parse 40 (newParser assignmentChainTokens)).2.1 =
      [stmt.expression (expr.assign (identifier "a" 0)
        (expr.assign (identifier "b" 0) (variableNamed "c")))] ∧
    (runTokens 40 (newInterpreter 0) precedenceTokens).2.2.stdout = [Value.number 7] := by
  refine ⟨⟨isLevel_or, isLevel_and, isLevel_equality, isLevel_comparison, isLevel_addition,
    isLevel_multiplication⟩, ?_, ?_, ?_, ?_, ?_⟩
  · intro whole operand loop ops mk hl n p0 p1 p2 p3 p4 p5 a b c o1 o2 ha h1 ho1 hb h2 ho2 hc
      h3 k
    exact level_left_assoc hl n p0 p1 p2 p3 p4 p5 a b c o1 o2 ha h1 ho1 hb h2 ho2 hc h3 k
  · intro whole1 whole2 operand2 loop1 loop2 ops1 ops2 mk1 mk2 hl1 hl2 n p0 p1 p2 p3 p4 p5
      a b c o1 o2 ha h0 h1 ho1 hb h2 ho2 hc h3 h4 k
    exact level_tighter hl1 hl2 n p0 p1 p2 p3 p4 p5 a b c o1 o2 ha h0 h1 ho1 hb h2 ho2 hc
      h3 h4 k
  · intro n p0 p1 p2 p3 p4 o o2 a b hm ho ha h1 ho2 hb h2 k
    exact unary_tighter n p0 p1 p2 p3 p4 o o2 a b hm ho ha h1 ho2 hb h2 k
  · intro n p0 p1 p2 p3 p4 p5 x y o1 o2 v hx h1 ho1 hy h2 ho2 hv k
    exact assignment_right_assoc n p0 p1 p2 p3 p4 p5 x y o1 o2 v hx h1 ho1 hy h2 ho2 hv k
  · decide!

theorem C16_witness :
    parser.addition (10 + 5 + 3) (sumProductParser 0) =
      (Res.ok (expr.binary (variableNamed "a")
        (expr.binary (variableNamed "b") (variableNamed "c") (plainToken tokenTypeStar "*" 0))
        (plainToken tokenTypePlus "+" 0)), sumProductParser 5) := by
  have ha : parser.unary 10 (sumProductParser 0) =
      (Res.ok (variableNamed "a"), sumProductParser 1) := by decide!
  have h0 : parser.matchTokens [tokenTypeSlash, tokenTypeStar] (sumProductParser 1) =
      (Res.ok false, sumProductParser 1) := by decide!
  have h1 : parser.matchTokens [tokenTypeMinus, tokenTypePlus] (sumProductParser 1) =
      (Res.ok true, sumProductParser 2) := by decide!
  have ho1 : parser.previous (sumProductParser 2) =
      (Res.ok (plainToken tokenTypePlus "+" 0), sumProductParser 2) := by decide!
  have hb : parser.unary 10 (sumProductParser 2) =
      (Res.ok (variableNamed "b"), sumProductParser 3) := by decide!
  have h2 : parser.matchTokens [tokenTypeSlash, tokenTypeStar] (sumProductParser 3) =
      (Res.ok true, sumProductParser 4) := by decide!
  have ho2 : parser.previous (sumProductParser 4) =
      (Res.ok (plainToken tokenTypeStar "*" 0), sumProductParser 4) := by decide!
  have hc : parser.unary 10 (sumProductParser 4) =
      (Res.ok (variableNamed "c"), sumProductParser 5) := by decide!
  have h3 : parser.matchTokens [tokenTypeSlash, tokenTypeStar] (sumProductParser 5) =
      (Res.ok false, sumProductParser 5) := by decide!
  have h4 : parser.matchTokens [tokenTypeMinus, tokenTypePlus] (sumProductParser 5) =
      (Res.ok false, sumProductParser 5) := by decide!
  exact C16_precedence_and_associativity.2.2.1 _ _ _ _ _ _ _ _ _
    C16_precedence_and_associativity.1.2.2.2.2.1 C16_precedence_and_associativity.1.2.2.2.2.2
    10 _ _ _ _ _ _ _ _ _ _ _ ha h0 h1 ho1 hb h2 ho2 hc h3 h4 3

/-- C17, where the code departs from the claim: for an assignment whose left side is neither
a variable nor a property access, `parser.assignment` calls `reportRuntimeError`, not
`reportParserError`.  For `1 = 2;` and for `(a) = 1;` the parse ends with the message
"Invalid assignment target" as a runtime error: the runtime-error flag is latched, the
parse-error flag is not, so `run` does not stop after parsing and goes on to resolve and
interpret the empty list of statements.  A variable on the left yields an assignment and a
property access yields a set expression with the same object and name. -/
theorem C17_invalid_target_sets_the_runtime_flag :
    parser.parse 20 (newParser literalTargetTokens) =
      (some (Panic.runtimeError 0 "Invalid assignment target"), [],
        { tokens := literalTargetTokens, current := 3, hadParserError := false,
          hadRuntimeError := true }) ∧
    parser.parse 40 (newParser groupingTargetTokens) =
      (some (Panic.runtimeError 0 "Invalid assignment target"), [],
        { tokens := groupingTargetTokens, current := 5, hadParserError := false,
          hadRuntimeError := true }) ∧
    runTokens 20 (newInterpreter 0) literalTargetTokens =
      (some (Panic.runtimeError 0 "Invalid assignment target"), none,
        { newInterpreter 0 with hadRuntimeError := true }) ∧
    (parser.parse 20 (newParser variableTargetTokens)).2.1 =
      [stmt.expression (expr.assign (identifier "a" 0) (expr.literal (Literal.number 1)))] ∧
    (parser.parse 20 (newParser propertyTargetTokens)).2.1 =
      [stmt.expression (expr.set (identifier "b" 0) (expr.variable (identifier "a" 0))
        (expr.literal (Literal.number 1)))] := by
  decide!

/-- C18, as the code has it: `reportParserError` panics, so the report of the argument
limit ends the parse.  After the opening parenthesis, with a first argument present: when
255 arguments, each followed by a comma, have been read, the next turn of the loop reports
"Cannot have more than 255 arguments" at the token that follows, latches the parse-error
flag and unwinds; that token and what follows are not consumed and no call expression is
produced.  When fewer than 255 arguments were read before the last one, nothing is
reported and the call expression holds all the arguments.  Both hold within every larger
step budget.  So every call expression that `finishCall` returns has at most 255
arguments, and a parse that ends in a panic returns no statements. -/
theorem C18_argument_limit_report_unwinds (n : Nat) (callee : expr) (p q : parser)
    (es : List expr) (hcheck : parser.check tokenTypeRightParen p = (Res.ok false, p))
    (hrun : ArgsThen n p es q) :
    (es.length = 255 → ∀ tk : token, parser.peek q = (Res.ok tk, q) →
      ∀ k, parser.finishCall (n + 257 + k) callee p =
        (Res.panic (Panic.parseError tk.line (errorPlace tk)
            "Cannot have more than 255 arguments"),
          { q with hadParserError := true })) ∧
    (es.length < 255 → ∀ (e : expr) (q1 q2 : parser) (paren : token),
      parser.expression n q = (Res.ok e, q1) →
      parser.matchTokens [tokenTypeComma] q1 = (Res.ok false, q1) →
      parser.consume tokenTypeRightParen "Expect ')' after arguments." q1 = (Res.ok paren, q2) →
      ∀ k, parser.finishCall (n + es.length + 2 + k) callee p =
        (Res.ok (expr.call paren (es ++ [e]) callee), q2)) ∧
    (∀ (m : Nat) (e : expr) (p0 q0 : parser),
      parser.finishCall m callee p0 = (Res.ok e, q0) →
      ∃ paren args, e = expr.call paren args callee ∧ args.length ≤ 255) ∧
    (∀ (steps : Nat) (p0 p1 : parser) (x : Panic),
      parser.parseLoop steps [] p0 = (Res.panic x, p1) →
      parser.parse steps p0 = (some x, [], p1)) := by
  refine ⟨?_, ?_, ?_, ?_⟩
  · intro hlen tk hpeek k
    exact finishCall_report n callee p q es tk hcheck hrun hlen hpeek k
  · intro hlen e q1 q2 paren he hm hparen k
    exact finishCall_read n callee e p q q1 q2 es paren hcheck hrun hlen he hm hparen k
  · intro m e p0 q0 h
    exact finishCall_length m callee e p0 q0 h
  · intro steps p0 p1 x h
    simp only [parser.parse, h]

theorem C18_witness :
    parser.check tokenTypeRightParen
        { tokens := manyArgumentsTokens 1, current := 2, hadParserError := false,
          hadRuntimeError := false } =
      (Res.ok false, { tokens := manyArgumentsTokens 1, current := 2, hadParserError := false,
                       hadRuntimeError := false }) ∧
    parser.finishCall (12 + [expr.variable (identifier "a" 0)].length + 2 + 3)
        (expr.variable (identifier "f" 0))
        { tokens := manyArgumentsTokens 1, current := 2, hadParserError := false,
          hadRuntimeError := false } =
      (Res.ok (expr.call (plainToken tokenTypeRightParen ")" 0)
          ([expr.variable (identifier "a" 0)] ++ [expr.variable (identifier "a" 0)])
          (expr.variable (identifier "f" 0))),
        { tokens := manyArgumentsTokens 1, current := 6, hadParserError := false,
          hadRuntimeError := false }) := by
  have h0 : parser.check tokenTypeRightParen
      { tokens := manyArgumentsTokens 1, current := 2, hadParserError := false,
        hadRuntimeError := false } =
      (Res.ok false, { tokens := manyArgumentsTokens 1, current := 2, hadParserError := false,
                       hadRuntimeError := false }) := by decide!
  have h1 : parser.expression 12
      { tokens := manyArgumentsTokens 1, current := 2, hadParserError := false,
        hadRuntimeError := false } =
      (Res.ok (expr.variable (identifier "a" 0)),
        { tokens := manyArgumentsTokens 1, current := 3, hadParserError := false,
          hadRuntimeError := false }) := by decide!
  have h2 : parser.matchTokens [tokenTypeComma]
      { tokens := manyArgumentsTokens 1, current := 3, hadParserError := false,
        hadRuntimeError := false } =
      (Res.ok true, { tokens := manyArgumentsTokens 1, current := 4, hadParserError := false,
                      hadRuntimeError := false }) := by decide!
  have h3 : parser.expression 12
      { tokens := manyArgumentsTokens 1, current := 4, hadParserError := false,
        hadRuntimeError := false } =
      (Res.ok (expr.variable (identifier "a" 0)),
        { tokens := manyArgumentsTokens 1, current := 5, hadParserError := false,
          hadRuntimeError := false }) := by decide!
  have h4 : parser.matchTokens [tokenTypeComma]
      { tokens := manyArgumentsTokens 1, current := 5, hadParserError := false,
        hadRuntimeError := false } =
      (Res.ok false, { tokens := manyArgumentsTokens 1, current := 5, hadParserError := false,
                       hadRuntimeError := false }) := by decide!
  have h5 : parser.consume tokenTypeRightParen "Expect ')' after arguments."
      { tokens := manyArgumentsTokens 1, current := 5, hadParserError := false,
        hadRuntimeError := false } =
      (Res.ok (plainToken tokenTypeRightParen ")" 0),
        { tokens := manyArgumentsTokens 1, current := 6, hadParserError := false,
          hadRuntimeError := false }) := by decide!
  exact ⟨h0, (C18_argument_limit_report_unwinds 12 (expr.variable (identifier "f" 0)) _ _
    [expr.variable (identifier "a" 0)] h0
    (ArgsThen.cons _ _ _ _ _ _ h1 h2 (ArgsThen.nil _))).2.1 (by decide) _ _ _ _ h3 h4 h5 3⟩

/-- C18, the claim as stated fails: for a call with 256 arguments, `f(a, ..., a);`, the parse
does not continue after the report.  It ends with the panic of the report, in front of the
256th argument (token 512): that argument and the closing parenthesis are not consumed, and
`parse` returns no statements, so no call expression is produced. -/
theorem C18_parse_stops_at_the_256th_argument :
    parser.parse 300 (newParser (manyArgumentsTokens 255)) =
      (some (Panic.parseError 0 " at 'a'" "Cannot have more than 255 arguments"), [],
        { tokens := manyArgumentsTokens 255, current := 512, hadParserError := true,
          hadRuntimeError := false }) :=
  manyArguments_parse 0

/-- A read in the own initializer, where the resolver gets to it.  Resolving a variable
expression reports "Cannot read local variable in its own initializer." exactly when the scope stack is not empty and its
innermost scope maps the name to `false`; the report latches the resolution flag and leaves
the rest of the state as it is, and in every other case the expression resolves without an
error.  Hence `var a = a;` is a resolution error wherever the scope stack is not empty: with
this message when the innermost scope does not hold `a` yet, and as a second declaration
when it does.  That is the case anywhere in a block and anywhere in a function body whose
preceding statements resolve; with an empty stack, at global scope, the statement resolves
without an error and changes nothing. -/
theorem own_initializer_read_where_reached (name : token) (r : resolver) :
    ((resolver.resolveExpression (expr.variable name) r).1 =
        Res.panic (Panic.resolutionError name.line
          "Cannot read local variable in its own initializer.") ↔
      ∃ scope, r.scopes.getLast? = some scope ∧ mapGet scope name.lexeme = some false) ∧
    ((∃ scope, r.scopes.getLast? = some scope ∧ mapGet scope name.lexeme = some false) →
      (resolver.resolveExpression (expr.variable name) r).2 =
        { r with inter := { r.inter with hadResolutionError := true } }) ∧
    ((¬ ∃ scope, r.scopes.getLast? = some scope ∧ mapGet scope name.lexeme = some false) →
      ∃ r1, resolver.resolveExpression (expr.variable name) r = (Res.ok (), r1) ∧
        r1.inter.hadResolutionError = r.inter.hadResolutionError) ∧
    (∀ scope, r.scopes.getLast? = some scope →
      (resolver.resolveStatement (stmt.var name (some (expr.variable name))) r).1 =
          Res.panic (Panic.resolutionError name.line
            (if mapGet scope name.lexeme = none
              then "Cannot read local variable in its own initializer."
              else "Variable with this name already declared in this scope.")) ∧
        (resolver.resolveStatement
          (stmt.var name (some (expr.variable name))) r).2.inter.hadResolutionError = true) ∧
    (∀ (pre post : List stmt) (r1 : resolver),
      resolver.resolveStatement (stmt.block pre) r = (Res.ok (), r1) →
      ∃ message r2,
        resolver.resolveStatement
            (stmt.block (pre ++ stmt.var name (some (expr.variable name)) :: post)) r =
          (Res.panic (Panic.resolutionError name.line message), r2) ∧
        r2.inter.hadResolutionError = true ∧
        (message = "Cannot read local variable in its own initializer." ∨
          message = "Variable with this name already declared in this scope.")) ∧
    (∀ (f : token) (params : List token) (pre post : List stmt) (r1 : resolver),
      resolver.resolveStatement (stmt.function (stmtFunction.mk params pre f)) r =
        (Res.ok (), r1) →
      ∃ message r2,
        resolver.resolveStatement (stmt.function (stmtFunction.mk params
            (pre ++ stmt.var name (some (expr.variable name)) :: post) f)) r =
          (Res.panic (Panic.resolutionError name.line message), r2) ∧
        r2.inter.hadResolutionError = true ∧
        (message = "Cannot read local variable in its own initializer." ∨
          message = "Variable with this name already declared in this scope.")) ∧
    (r.scopes = [] →
      resolver.resolveStatement (stmt.var name (some (expr.variable name))) r =
        (Res.ok (), r)) := by
  have hyes : ∀ scope, r.scopes.getLast? = some scope → mapGet scope name.lexeme = some false →
      resolver.resolveExpression (expr.variable name) r =
        (Res.panic (Panic.resolutionError name.line
            "Cannot read local variable in its own initializer."),
          { r with inter := { r.inter with hadResolutionError := true } }) := by
    intro scope hs hb
    simp only [resolver.resolveExpression, bind, Exec.bind,
      checkOwnInitializer_declared name r scope hs hb]
  have hno : (¬ ∃ scope, r.scopes.getLast? = some scope ∧
        mapGet scope name.lexeme = some false) →
      ∃ r1, resolver.resolveExpression (expr.variable name) r = (Res.ok (), r1) ∧
        r1.inter.hadResolutionError = r.inter.hadResolutionError := by
    intro hnot
    have hc : resolver.checkOwnInitializer name r = (Res.ok (), r) := by
      cases hs : r.scopes.getLast? with
      | none =>
        rw [List.getLast?_eq_none_iff] at hs
        exact checkOwnInitializer_global name r hs
      | some scope =>
        exact checkOwnInitializer_other name r scope hs (fun hb => hnot ⟨scope, hs, hb⟩)
    obtain ⟨r1, h1, _, h3⟩ := resolveLocal_variable_ok name r
    exact ⟨r1, by simp only [resolver.resolveExpression, bind, Exec.bind, hc, h1], h3⟩
  refine ⟨⟨?_, ?_⟩, ?_, hno, ?_, ?_, ?_, ?_⟩
  · intro h
    by_contra hnot
    obtain ⟨r1, h1, _⟩ := hno hnot
    rw [h1] at h
    exact Res.noConfusion h
  · rintro ⟨scope, hs, hb⟩
    rw [hyes scope hs hb]
  · rintro ⟨scope, hs, hb⟩
    rw [hyes scope hs hb]
  · intro scope hs
    exact resolve_var_self_local name r scope hs
  · intro pre post r1 hpre
    exact block_var_self name pre post r r1 hpre
  · intro f params pre post r1 hpre
    exact function_var_self name f params pre post r r1 hpre
  · intro hs
    exact resolve_var_self_global name r hs

theorem own_initializer_read_example :
    resolver.resolveStatement (stmt.block [stmt.print (expr.literal (Literal.number 1))])
        { inter := newInterpreter 0, scopes := [], currentFunctionType := functionTypeNone,
          currentClass := classTypeNone } =
      (Res.ok (), { inter := newInterpreter 0, scopes := [],
                    currentFunctionType := functionTypeNone, currentClass := classTypeNone }) ∧
    ∃ message r2,
      resolver.resolveStatement
          (stmt.block ([stmt.print (expr.literal (Literal.number 1))] ++
            stmt.var (identifier "a" 0) (some (expr.variable (identifier "a" 0))) :: []))
          { inter := newInterpreter 0, scopes := [], currentFunctionType := functionTypeNone,
            currentClass := classTypeNone } =
        (Res.panic (Panic.resolutionError (identifier "a" 0).line message), r2) ∧
      r2.inter.hadResolutionError = true ∧
      (message = "Cannot read local variable in its own initializer." ∨
        message = "Variable with this name already declared in this scope.") := by
  have h1 : resolver.resolveStatement
      (stmt.block [stmt.print (expr.literal (Literal.number 1))])
        { inter := newInterpreter 0, scopes := [], currentFunctionType := functionTypeNone,
          currentClass := classTypeNone } =
      (Res.ok (), { inter := newInterpreter 0, scopes := [],
                    currentFunctionType := functionTypeNone, currentClass := classTypeNone }) := by
    decide!
  exact ⟨h1, (own_initializer_read_where_reached (identifier "a" 0)
    { inter := newInterpreter 0, scopes := [], currentFunctionType := functionTypeNone,
      currentClass := classTypeNone }).2.2.2.2.1
    [stmt.print (expr.literal (Literal.number 1))] [] _ h1⟩

/-- C19, where the code departs from the claim: in the block of the program
`var a = 5; fun f() {} { var x; if (false) x = f(); var a = a; print a; }` the statement
`var a = a;` reads `a` in its own initializer, and nothing is reported.  The resolver ends
before it gets there: to record the assignment `x = f()` to a local it hashes a key that
holds a call, and Go panics; `resolve` recovers without a flag, so the program runs, and it
prints 5.  Without the statement `if (false) x = f();` the resolver reports the read and
nothing runs. -/
theorem C19_own_initializer_read_is_missed :
    (resolver.resolveStatements (programOf ownInitializerAfterCallSource)
      (newResolver (newInterpreter 0))).1 =
      Res.panic (Panic.goRuntime "hash of unhashable type main.exprCall") ∧
    (resolver.resolveStatements (programOf ownInitializerAfterCallSource)
      (newResolver (newInterpreter 0))).2.inter.hadResolutionError = false ∧
    (runFile 400 0 ownInitializerAfterCallSource).1 = Res.ok (none, none) ∧
    (runFile 400 0 ownInitializerAfterCallSource).2.stdout = [Value.number 5] ∧
    (runFile 400 0 ownInitializerAfterCallSource).2.hadResolutionError = false ∧
    (resolver.resolveStatements (programOf ownInitializerSource)
      (newResolver (newInterpreter 0))).1 =
      Res.panic (Panic.resolutionError 0 "Cannot read local variable in its own initializer.") ∧
    (runFile 400 0 ownInitializerSource).2.stdout = [] ∧
    (runFile 400 0 ownInitializerSource).2.hadResolutionError = true := by
  refine ⟨?_, ?_, ?_, ?_, ?_, ?_, ?_, ?_⟩ <;> decide!

/-- A second declaration in a local scope, where the resolver gets to it.  `declare`
reports "Variable with this name already declared in this scope." exactly when the scope stack is not empty and its
innermost scope already holds the name; the report latches the resolution flag.  In a local
scope that does not hold the name, `declare` enters it, and at global scope, with an empty
stack, `declare` does nothing, so two declarations of one name are accepted there.  Variable,
function and class statements all declare their name this way.  Hence, in a block or in a
function body whose statements resolve up to a declaration of a name that an earlier
statement of the same scope declared, that declaration is reported.  The parameters of a
function are declared in the scope in which the statements of its body are resolved: a
body statement that declares the name of a parameter is reported, and so are two parameters
of one name. -/
theorem second_declaration_where_reached (name : token) (r : resolver) :
    ((resolver.declare name r).1 =
        Res.panic (Panic.resolutionError name.line
          "Variable with this name already declared in this scope.") ↔
      ∃ scope, r.scopes.getLast? = some scope ∧ mapGet scope name.lexeme ≠ none) ∧
    ((∃ scope, r.scopes.getLast? = some scope ∧ mapGet scope name.lexeme ≠ none) →
      (resolver.declare name r).2 =
        { r with inter := { r.inter with hadResolutionError := true } }) ∧
    (∀ scope, r.scopes.getLast? = some scope → mapGet scope name.lexeme = none →
      resolver.declare name r =
        (Res.ok (),
          { r with
            scopes :=
              heapSet r.scopes (r.scopes.length - 1) (mapSet scope name.lexeme false) })) ∧
    (r.scopes = [] → resolver.declare name r = (Res.ok (), r)) ∧
    (r.scopes = [] →
      resolver.resolveStatements [stmt.var name none, stmt.var name none] r = (Res.ok (), r)) ∧
    (∀ s : stmt, s.declares = some name →
      (∃ scope, r.scopes.getLast? = some scope ∧ mapGet scope name.lexeme ≠ none) →
      ∃ r2, resolver.resolveStatement s r =
          (Res.panic (Panic.resolutionError name.line
            "Variable with this name already declared in this scope."), r2) ∧
        r2.inter.hadResolutionError = true) ∧
    (∀ (pre mid post : List stmt) (s1 s2 : stmt) (a1 : token) (r1 : resolver),
      s1.declares = some a1 → s2.declares = some name → a1.lexeme = name.lexeme →
      resolver.resolveStatement (stmt.block (pre ++ s1 :: mid)) r = (Res.ok (), r1) →
      ∃ r2, resolver.resolveStatement (stmt.block (pre ++ s1 :: (mid ++ s2 :: post))) r =
          (Res.panic (Panic.resolutionError name.line
            "Variable with this name already declared in this scope."), r2) ∧
        r2.inter.hadResolutionError = true) ∧
    (∀ (params : List token) (f : token) (pre mid post : List stmt) (s1 s2 : stmt)
        (a1 : token) (r1 : resolver),
      s1.declares = some a1 → s2.declares = some name → a1.lexeme = name.lexeme →
      resolver.resolveStatement
          (stmt.function (stmtFunction.mk params (pre ++ s1 :: mid) f)) r = (Res.ok (), r1) →
      ∃ r2, resolver.resolveStatement (stmt.function
            (stmtFunction.mk params (pre ++ s1 :: (mid ++ s2 :: post)) f)) r =
          (Res.panic (Panic.resolutionError name.line
            "Variable with this name already declared in this scope."), r2) ∧
        r2.inter.hadResolutionError = true) ∧
    (∀ (params : List token) (f : token) (pre post : List stmt) (s2 : stmt) (r1 : resolver),
      s2.declares = some name → name.lexeme ∈ params.map (fun p => p.lexeme) →
      resolver.resolveStatement (stmt.function (stmtFunction.mk params pre f)) r =
        (Res.ok (), r1) →
      ∃ r2, resolver.resolveStatement (stmt.function
            (stmtFunction.mk params (pre ++ s2 :: post) f)) r =
          (Res.panic (Panic.resolutionError name.line
            "Variable with this name already declared in this scope."), r2) ∧
        r2.inter.hadResolutionError = true) ∧
    (∀ (params : List token) (f : token) (body : List stmt),
      ¬ (params.map (fun p => p.lexeme)).Nodup →
      ∃ line r2, resolver.resolveStatement
            (stmt.function (stmtFunction.mk params body f)) r =
          (Res.panic (Panic.resolutionError line
            "Variable with this name already declared in this scope."), r2) ∧
        r2.inter.hadResolutionError = true) := by
  have hyes : (∃ scope, r.scopes.getLast? = some scope ∧ mapGet scope name.lexeme ≠ none) →
      resolver.declare name r =
        (Res.panic (Panic.resolutionError name.line
            "Variable with this name already declared in this scope."),
          { r with inter := { r.inter with hadResolutionError := true } }) := by
    intro h
    exact declare_held name r ((holds_top_iff r name.lexeme).mpr h)
  refine ⟨⟨?_, ?_⟩, ?_, ?_, ?_, ?_, ?_, ?_, ?_, ?_, ?_⟩
  · intro h
    by_contra hnot
    cases hs : r.scopes.getLast? with
    | none =>
      rw [List.getLast?_eq_none_iff] at hs
      rw [declare_global name r hs] at h
      exact Res.noConfusion h
    | some scope =>
      cases hb : mapGet scope name.lexeme with
      | none =>
        rw [declare_fresh name r scope hs hb] at h
        exact Res.noConfusion h
      | some b => exact hnot ⟨scope, hs, by rw [hb]; simp⟩
  · intro h
    rw [hyes h]
  · intro h
    rw [hyes h]
  · intro scope hs hb
    exact declare_fresh name r scope hs hb
  · intro hs
    exact declare_global name r hs
  · intro hs
    exact global_var_twice name r hs
  · intro s hs h
    exact declaring_held s name r hs ((holds_top_iff r name.lexeme).mpr h)
  · intro pre mid post s1 s2 a1 r1 h1 h2 ha hrun
    exact block_twice pre mid post s1 s2 a1 name r r1 h1 h2 ha hrun
  · intro params f pre mid post s1 s2 a1 r1 h1 h2 ha hrun
    exact function_twice params f pre mid post s1 s2 a1 name r r1 h1 h2 ha hrun
  · intro params f pre post s2 r1 h2 ha hrun
    exact function_param_again params f pre post s2 name r r1 h2 ha hrun
  · intro params f body hdup
    exact function_params_dup params f body r hdup

theorem second_declaration_example :
    (stmt.var (identifier "a" 0) none).declares = some (identifier "a" 0) ∧
    (identifier "a" 0).lexeme ∈ [identifier "a" 0].map (fun p => p.lexeme) ∧
    resolver.resolveStatement
        (stmt.function (stmtFunction.mk [identifier "a" 0] [] (identifier "f" 0)))
        { inter := newInterpreter 0, scopes := [], currentFunctionType := functionTypeNone,
          currentClass := classTypeNone } =
      (Res.ok (), { inter := newInterpreter 0, scopes := [],
                    currentFunctionType := functionTypeNone, currentClass := classTypeNone }) ∧
    (∃ r2, resolver.resolveStatement
          (stmt.function (stmtFunction.mk [identifier "a" 0]
            ([] ++ stmt.var (identifier "a" 0) none :: []) (identifier "f" 0)))
          { inter := newInterpreter 0, scopes := [], currentFunctionType := functionTypeNone,
            currentClass := classTypeNone } =
        (Res.panic (Panic.resolutionError (identifier "a" 0).line
          "Variable with this name already declared in this scope."), r2) ∧
      r2.inter.hadResolutionError = true) ∧
    ¬ ([identifier "a" 0, identifier "a" 0].map (fun p => p.lexeme)).Nodup ∧
    ∃ line r2, resolver.resolveStatement
          (stmt.function (stmtFunction.mk [identifier "a" 0, identifier "a" 0] []
            (identifier "f" 0)))
          { inter := newInterpreter 0, scopes := [], currentFunctionType := functionTypeNone,
            currentClass := classTypeNone } =
        (Res.panic (Panic.resolutionError line
          "Variable with this name already declared in this scope."), r2) ∧
      r2.inter.hadResolutionError = true := by
  have h1 : (stmt.var (identifier "a" 0) none).declares = some (identifier "a" 0) := rfl
  have h2 : (identifier "a" 0).lexeme ∈ [identifier "a" 0].map (fun p => p.lexeme) := by
    decide
  have h3 : resolver.resolveStatement
      (stmt.function (stmtFunction.mk [identifier "a" 0] [] (identifier "f" 0)))
      { inter := newInterpreter 0, scopes := [], currentFunctionType := functionTypeNone,
        currentClass := classTypeNone } =
      (Res.ok (), { inter := newInterpreter 0, scopes := [],
                    currentFunctionType := functionTypeNone, currentClass := classTypeNone }) := by
    decide!
  have h4 : ¬ ([identifier "a" 0, identifier "a" 0].map (fun p => p.lexeme)).Nodup := by
    decide
  have hall := second_declaration_where_reached (identifier "a" 0)
    { inter := newInterpreter 0, scopes := [], currentFunctionType := functionTypeNone,
      currentClass := classTypeNone }
  exact ⟨h1, h2, h3,
    hall.2.2.2.2.2.2.2.2.1 [identifier "a" 0] (identifier "f" 0) [] []
      (stmt.var (identifier "a" 0) none) _ h1 h2 h3,
    h4, hall.2.2.2.2.2.2.2.2.2 [identifier "a" 0, identifier "a" 0] (identifier "f" 0) [] h4⟩

/-- C20, where the code departs from the claim: the block of the program
`fun f() {} { var a; if (false) a = f(); var a; print 7; }` declares `a` twice, and nothing
is reported.  The resolver ends before it gets to the second declaration: to record the
assignment `a = f()` to a local it hashes a key that holds a call, and Go panics; `resolve`
recovers without a flag, so the program runs, and it prints 7.  Without the statement
`if (false) a = f();` the resolver reports the second declaration and nothing runs. -/
theorem C20_second_declaration_is_missed :
    (resolver.resolveStatements (programOf twiceAfterCallSource)
      (newResolver (newInterpreter 0))).1 =
      Res.panic (Panic.goRuntime "hash of unhashable type main.exprCall") ∧
    (resolver.resolveStatements (programOf twiceAfterCallSource)
      (newResolver (newInterpreter 0))).2.inter.hadResolutionError = false ∧
    (runFile 400 0 twiceAfterCallSource).1 = Res.ok (none, none) ∧
    (runFile 400 0 twiceAfterCallSource).2.stdout = [Value.number 7] ∧
    (runFile 400 0 twiceAfterCallSource).2.hadResolutionError = false ∧
    (resolver.resolveStatements (programOf twiceSource)
      (newResolver (newInterpreter 0))).1 =
      Res.panic (Panic.resolutionError 0 "Variable with this name already declared in this scope.") ∧
    (runFile 400 0 twiceSource).2.stdout = [] ∧
    (runFile 400 0 twiceSource).2.hadResolutionError = true := by
  refine ⟨?_, ?_, ?_, ?_, ?_, ?_, ?_, ?_⟩ <;> decide!

/-- The place of a return statement, where the resolver gets to it.  At the statement, the
resolver goes by the kind of the function that is being resolved: with no function it reports "Cannot return from
top-level code.", in an initializer it reports a return with a value as "Cannot return from
an initializer.", each time latching the resolution flag, and in every other case it
reports nothing about the return and goes on to the value, if there is one.  That kind is
the kind of the innermost function or method whose body holds the statement: a function
body is resolved under the kind of its function, a method is an initializer exactly when it
is named `init`, every statement that resolves leaves the kind as it was, and so does a
function once its body has been resolved.  Hence statements that resolve hold no misplaced
return, and a report about a return means that the statements hold a misplaced one. -/
theorem return_placement_where_reached (keyword : token) (value : Option expr) (r : resolver) :
    (r.currentFunctionType = functionTypeNone →
      resolver.resolveStatement (stmt.returnStmt keyword value) r =
        (Res.panic (Panic.resolutionError keyword.line "Cannot return from top-level code."),
          { r with inter := { r.inter with hadResolutionError := true } })) ∧
    (r.currentFunctionType = functionTypeInitializer → ∀ v : expr,
      resolver.resolveStatement (stmt.returnStmt keyword (some v)) r =
        (Res.panic (Panic.resolutionError keyword.line "Cannot return from an initializer."),
          { r with inter := { r.inter with hadResolutionError := true } })) ∧
    (r.currentFunctionType ≠ functionTypeNone →
      resolver.resolveStatement (stmt.returnStmt keyword none) r = (Res.ok (), r)) ∧
    (r.currentFunctionType ≠ functionTypeNone →
      r.currentFunctionType ≠ functionTypeInitializer → ∀ v : expr,
      resolver.resolveStatement (stmt.returnStmt keyword (some v)) r =
        resolver.resolveExpression v r) ∧
    (∀ (ss : List stmt) (r1 : resolver), resolver.resolveStatements ss r = (Res.ok (), r1) →
      stmt.misplacedList Placement.ofReturn r.currentFunctionType r.currentClass ss = false ∧
        r1.currentFunctionType = r.currentFunctionType) ∧
    (∀ (ss : List stmt) (r1 : resolver) (p : Panic),
      resolver.resolveStatements ss r = (Res.panic p, r1) →
      p.reports Placement.ofReturn = true →
      stmt.misplacedList Placement.ofReturn r.currentFunctionType r.currentClass ss = true) ∧
    (∀ (fn : stmtFunction) (t : functionType) (r1 : resolver),
      resolver.resolveFunctionStmt fn t r = (Res.ok (), r1) →
      stmt.misplacedList Placement.ofReturn t r.currentClass fn.body = false ∧
        r1.currentFunctionType = r.currentFunctionType) ∧
    (∀ (fn : stmtFunction) (t : functionType) (r1 : resolver) (p : Panic),
      resolver.resolveFunctionStmt fn t r = (Res.panic p, r1) →
      p.reports Placement.ofReturn = true →
      stmt.misplacedList Placement.ofReturn t r.currentClass fn.body = true) := by
  refine ⟨?_, ?_, ?_, ?_, ?_, ?_, ?_, ?_⟩
  · intro h
    cases value <;>
      simp only [resolver.resolveStatement, resolver.read, bind, Exec.bind, h, if_true,
        reportResolutionError]
  · intro h v
    simp only [resolver.resolveStatement, resolver.read, bind, Exec.bind, h, reduceCtorEq,
      if_false, if_true, pure, Exec.pure, reportResolutionError]
  · intro h
    simp only [resolver.resolveStatement, resolver.read, bind, Exec.bind, h, if_false, pure,
      Exec.pure]
  · intro h1 h2 v
    simp only [resolver.resolveStatement, resolver.read, bind, Exec.bind, h1, h2, if_false,
      pure, Exec.pure]
  · intro ss r1 h
    have hp := placedAt_resolveStatements Placement.ofReturn ss r.currentFunctionType
      r.currentClass
    exact ⟨hp.accepted r r1 () rfl rfl h, (hp.kinds r r1 () rfl rfl h).1⟩
  · intro ss r1 p h hrep
    exact (placedAt_resolveStatements Placement.ofReturn ss r.currentFunctionType
      r.currentClass).reported r r1 p rfl rfl h hrep
  · intro fn t r1 h
    have hp := placedAt_resolveFunctionStmt Placement.ofReturn fn t r.currentFunctionType
      r.currentClass
    cases fn with
    | mk params body name =>
      exact ⟨hp.accepted r r1 () rfl rfl h, (hp.kinds r r1 () rfl rfl h).1⟩
  · intro fn t r1 p h hrep
    cases fn with
    | mk params body name =>
      exact (placedAt_resolveFunctionStmt Placement.ofReturn (stmtFunction.mk params body name)
        t r.currentFunctionType r.currentClass).reported r r1 p rfl rfl h hrep

theorem return_placement_example :
    resolver.resolveStatements nestedReturnProgram (newResolver (newInterpreter 0)) =
      (Res.ok (), newResolver (newInterpreter 0)) ∧
    stmt.misplacedList Placement.ofReturn functionTypeNone classTypeNone
      nestedReturnProgram = false ∧
    (resolver.resolveStatements initReturnsValueProgram (newResolver (newInterpreter 0))).1 =
      Res.panic (Panic.resolutionError 0 "Cannot return from an initializer.") ∧
    stmt.misplacedList Placement.ofReturn functionTypeNone classTypeNone
      initReturnsValueProgram = true := by
  have h1 : resolver.resolveStatements nestedReturnProgram (newResolver (newInterpreter 0)) =
      (Res.ok (), newResolver (newInterpreter 0)) := by decide!
  have h2 : resolver.resolveStatements initReturnsValueProgram
        (newResolver (newInterpreter 0)) =
      (Res.panic (Panic.resolutionError 0 "Cannot return from an initializer."),
        (resolver.resolveStatements initReturnsValueProgram
          (newResolver (newInterpreter 0))).2) := by decide!
  have h := return_placement_where_reached (identifier "x" 0) none (newResolver (newInterpreter 0))
  exact ⟨h1, (h.2.2.2.2.1 nestedReturnProgram _ h1).1, by rw [h2],
    h.2.2.2.2.2.1 initReturnsValueProgram _ _ h2 (by decide)⟩

/-- C21, where the code departs from the claim: the program
`fun f() {} fun g() { var a; a = f(); } print 1; return;` has a return at top level, and
nothing is reported.  The resolver ends before it gets there: to record the assignment
`a = f()` to a local in `g` it hashes a key that holds a call, and Go panics; `resolve`
recovers without a flag, so the program runs: it prints 1 and executes the return, whose
panic `interpret` recovers.  Without the assignment the resolver reports the return and
nothing runs. -/
theorem C21_top_level_return_is_missed :
    (resolver.resolveStatements (programOf returnAfterCallSource)
      (newResolver (newInterpreter 0))).1 =
      Res.panic (Panic.goRuntime "hash of unhashable type main.exprCall") ∧
    (resolver.resolveStatements (programOf returnAfterCallSource)
      (newResolver (newInterpreter 0))).2.inter.hadResolutionError = false ∧
    (runFile 400 0 returnAfterCallSource).1 = Res.ok (none, some (Panic.returnValue Value.nil)) ∧
    (runFile 400 0 returnAfterCallSource).2.stdout = [Value.number 1] ∧
    (runFile 400 0 returnAfterCallSource).2.hadResolutionError = false ∧
    (resolver.resolveStatements (programOf returnSource)
      (newResolver (newInterpreter 0))).1 =
      Res.panic (Panic.resolutionError 0 "Cannot return from top-level code.") ∧
    (runFile 400 0 returnSource).2.stdout = [] ∧
    (runFile 400 0 returnSource).2.hadResolutionError = true := by
  refine ⟨?_, ?_, ?_, ?_, ?_, ?_, ?_, ?_⟩ <;> decide!

/-- The place of `this` and `super`, where the resolver gets to them.  At the expression,
the resolver goes by the kind of the class that is being resolved: with no class it reports `this` as "Cannot use 'this'
outside of a class." and `super` as "Cannot use 'super' outside of a class.", in a class
without a superclass it reports `super` as "Cannot use 'super' in a class with no
superclass.", each time latching the resolution flag, and in every other case it reports
nothing and resolves the keyword as a variable.  That kind is the kind of the innermost
class declaration whose text holds the expression: the methods of a class are resolved
under the kind of that class, which is `classTypeSubclass` exactly when the declaration has
a superclass clause, every statement that resolves leaves the kind as it was, and so does a
class declaration, nested or not, once it has been resolved.  Hence statements that resolve
hold no misplaced `this` or `super`, and a report about one of them means that the
statements hold a misplaced one. -/
theorem this_super_placement_where_reached (name keyword method : token) (r : resolver) :
    (r.currentClass = classTypeNone →
      resolver.resolveExpression (expr.this name) r =
        (Res.panic (Panic.resolutionError name.line "Cannot use 'this' outside of a class."),
          { r with inter := { r.inter with hadResolutionError := true } })) ∧
    (r.currentClass ≠ classTypeNone →
      resolver.resolveExpression (expr.this name) r =
        resolver.resolveLocal (expr.this name) name r) ∧
    (r.currentClass = classTypeNone →
      resolver.resolveExpression (expr.super keyword method) r =
        (Res.panic
            (Panic.resolutionError keyword.line "Cannot use 'super' outside of a class."),
          { r with inter := { r.inter with hadResolutionError := true } })) ∧
    (r.currentClass = classTypeClass →
      resolver.resolveExpression (expr.super keyword method) r =
        (Res.panic (Panic.resolutionError keyword.line
            "Cannot use 'super' in a class with no superclass."),
          { r with inter := { r.inter with hadResolutionError := true } })) ∧
    (r.currentClass = classTypeSubclass →
      resolver.resolveExpression (expr.super keyword method) r =
        resolver.resolveLocal (expr.super keyword method) keyword r) ∧
    (∀ (ss : List stmt) (r1 : resolver), resolver.resolveStatements ss r = (Res.ok (), r1) →
      stmt.misplacedList Placement.ofThis r.currentFunctionType r.currentClass ss = false ∧
        stmt.misplacedList Placement.ofSuper r.currentFunctionType r.currentClass ss =
          false ∧
        r1.currentClass = r.currentClass) ∧
    (∀ (ss : List stmt) (r1 : resolver) (p : Panic) (k : Placement),
      k = Placement.ofThis ∨ k = Placement.ofSuper →
      resolver.resolveStatements ss r = (Res.panic p, r1) → p.reports k = true →
      stmt.misplacedList k r.currentFunctionType r.currentClass ss = true) ∧
    (∀ (methods : List stmtFunction) (cname : token) (superClass : Option token)
        (r1 : resolver),
      resolver.resolveStatement (stmt.classStmt methods cname superClass) r = (Res.ok (), r1) →
      stmtFunction.misplacedMethods Placement.ofThis (classKind superClass) methods = false ∧
        stmtFunction.misplacedMethods Placement.ofSuper (classKind superClass) methods =
          false ∧
        r1.currentClass = r.currentClass) := by
  refine ⟨?_, ?_, ?_, ?_, ?_, ?_, ?_, ?_⟩
  · intro h
    simp only [resolver.resolveExpression, bind, Exec.bind, h, if_true, reportResolutionError]
  · intro h
    simp only [resolver.resolveExpression, bind, Exec.bind, h, if_false, pure, Exec.pure]
  · intro h
    simp only [resolver.resolveExpression, bind, Exec.bind, h, reportResolutionError]
  · intro h
    simp only [resolver.resolveExpression, bind, Exec.bind, h, reportResolutionError]
  · intro h
    simp only [resolver.resolveExpression, bind, Exec.bind, h, pure, Exec.pure]
  · intro ss r1 h
    have h1 := placedAt_resolveStatements Placement.ofThis ss r.currentFunctionType
      r.currentClass
    have h2 := placedAt_resolveStatements Placement.ofSuper ss r.currentFunctionType
      r.currentClass
    exact ⟨h1.accepted r r1 () rfl rfl h, h2.accepted r r1 () rfl rfl h,
      (h1.kinds r r1 () rfl rfl h).2⟩
  · intro ss r1 p k _ h hrep
    exact (placedAt_resolveStatements k ss r.currentFunctionType
      r.currentClass).reported r r1 p rfl rfl h hrep
  · intro methods cname superClass r1 h
    have h1 := placedAt_resolveStatement Placement.ofThis
      (stmt.classStmt methods cname superClass) r.currentFunctionType r.currentClass
    have h2 := placedAt_resolveStatement Placement.ofSuper
      (stmt.classStmt methods cname superClass) r.currentFunctionType r.currentClass
    have e1 := h1.accepted r r1 () rfl rfl h
    have e2 := h2.accepted r r1 () rfl rfl h
    rw [stmt.misplaced] at e1 e2
    exact ⟨e1, e2, (h1.kinds r r1 () rfl rfl h).2⟩

theorem this_super_placement_example :
    (∃ r1, resolver.resolveStatements nestedClassProgram (newResolver (newInterpreter 0)) =
      (Res.ok (), r1)) ∧
    stmt.misplacedList Placement.ofThis functionTypeNone classTypeNone
      nestedClassProgram = false ∧
    stmt.misplacedList Placement.ofSuper functionTypeNone classTypeNone
      nestedClassProgram = false ∧
    (resolver.resolveStatements superAfterNestedProgram (newResolver (newInterpreter 0))).1 =
      Res.panic (Panic.resolutionError 0
        "Cannot use 'super' in a class with no superclass.") ∧
    stmt.misplacedList Placement.ofSuper functionTypeNone classTypeNone
      superAfterNestedProgram = true := by
  have h1 : resolver.resolveStatements nestedClassProgram (newResolver (newInterpreter 0)) =
      (Res.ok (),
        (resolver.resolveStatements nestedClassProgram (newResolver (newInterpreter 0))).2) := by
    decide!
  have h2 : resolver.resolveStatements superAfterNestedProgram
        (newResolver (newInterpreter 0)) =
      (Res.panic (Panic.resolutionError 0
          "Cannot use 'super' in a class with no superclass."),
        (resolver.resolveStatements superAfterNestedProgram
          (newResolver (newInterpreter 0))).2) := by decide!
  have h := this_super_placement_where_reached (identifier "x" 0) (identifier "x" 0)
    (identifier "x" 0) (newResolver (newInterpreter 0))
  have ha := h.2.2.2.2.2.1 nestedClassProgram _ h1
  exact ⟨⟨_, h1⟩, ha.1, ha.2.1, by rw [h2],
    h.2.2.2.2.2.2.1 superAfterNestedProgram _ _ Placement.ofSuper (Or.inr rfl) h2
      (by decide)⟩

/-- C22, where the code departs from the claim: the program
`fun f() {} fun g() { var a; a = f(); } print 1; print this;` reads `this` outside of any
class, and nothing is reported.  The resolver ends before it gets there: to record the
assignment `a = f()` to a local in `g` it hashes a key that holds a call, and Go panics;
`resolve` recovers without a flag, so the program runs: it prints 1, and the read of `this`
ends in the runtime error "Undefined variable".  The same holds with `super.x` for `this`.
Without the assignment the resolver reports the `this` and nothing runs. -/
theorem C22_top_level_this_is_missed :
    (resolver.resolveStatements (programOf thisAfterCallSource)
      (newResolver (newInterpreter 0))).1 =
      Res.panic (Panic.goRuntime "hash of unhashable type main.exprCall") ∧
    (resolver.resolveStatements (programOf thisAfterCallSource)
      (newResolver (newInterpreter 0))).2.inter.hadResolutionError = false ∧
    (runFile 400 0 thisAfterCallSource).1 =
      Res.ok (none, some (Panic.runtimeError 0 "Undefined variable: 'this'")) ∧
    (runFile 400 0 thisAfterCallSource).2.stdout = [Value.number 1] ∧
    (runFile 400 0 thisAfterCallSource).2.hadResolutionError = false ∧
    (runFile 400 0 superAfterCallSource).1 =
      Res.ok (none, some (Panic.runtimeError 0 "Undefined variable: 'super'")) ∧
    (runFile 400 0 superAfterCallSource).2.hadResolutionError = false ∧
    (resolver.resolveStatements (programOf thisSource)
      (newResolver (newInterpreter 0))).1 =
      Res.panic (Panic.resolutionError 0 "Cannot use 'this' outside of a class.") ∧
    (runFile 400 0 thisSource).2.stdout = [] ∧
    (runFile 400 0 thisSource).2.hadResolutionError = true := by
  refine ⟨?_, ?_, ?_, ?_, ?_, ?_, ?_, ?_, ?_, ?_⟩ <;> decide!

/-- C23: the phases that follow an error are skipped.  For a source that the scanner
accepts: when the parse-error flag is set after parsing, `run` returns without resolving
and without interpreting; when `parse` ends in a panic of any kind, it returns no
statements, so nothing is there to execute; when parsing sets no flag and the resolution
flag is set after resolving, `run` returns without interpreting, and a panic of the
resolver with a resolution error does set that flag.  In each case the memory of the
interpreter is what it was before the call: no line is printed, and no environment, no
binding and no field is created or changed, also for the statements in front of the
error. -/
theorem C23_phases_skipped_after_an_error (steps : Nat) (source : List Char)
    (it : interpreter) (ts : List token) (s : scanner)
    (hscan : scanner.scanTokens (newScanner source it.hadParserError) = (Res.ok ts, s)) :
    ((parser.parse steps
          { tokens := ts, current := 0, hadParserError := s.hadParserError,
            hadRuntimeError := it.hadRuntimeError }).2.2.hadParserError = true →
      ∃ e it1, run steps source it = (Res.ok (e, none), it1) ∧ it1.memory = it.memory ∧
        it1.locals = it.locals) ∧
    (∀ x : Panic,
      (parser.parse steps
          { tokens := ts, current := 0, hadParserError := s.hadParserError,
            hadRuntimeError := it.hadRuntimeError }).1 = some x →
      (run steps source it).2.memory = it.memory) ∧
    (∀ (e : Option Panic) (ss : List stmt) (p1 : parser),
      s.hadParserError = false →
      parser.parse steps
          { tokens := ts, current := 0, hadParserError := s.hadParserError,
            hadRuntimeError := it.hadRuntimeError } = (e, ss, p1) →
      p1.hadParserError = false →
      (resolver.resolve ss (newResolver
          { it with hadParserError := false,
                    hadRuntimeError := p1.hadRuntimeError })).inter.hadResolutionError = true →
      ∃ it1, run steps source it = (Res.ok (e, none), it1) ∧ it1.memory = it.memory) ∧
    (∀ (ss : List stmt) (r r1 : resolver) (l : Int) (m : String),
      resolver.resolveStatements ss r = (Res.panic (Panic.resolutionError l m), r1) →
      (resolver.resolve ss r).inter.hadResolutionError = true) := by
  refine ⟨?_, ?_, ?_, ?_⟩
  · intro hflag
    cases hb : s.hadParserError with
    | true =>
      refine ⟨none, { it with hadParserError := true }, ?_, rfl, rfl⟩
      simp only [run, hscan, runTokens, hb, if_true]
    | false =>
      rw [hb] at hflag
      cases hp : parser.parse steps
          { tokens := ts, current := 0, hadParserError := false,
            hadRuntimeError := it.hadRuntimeError } with
      | mk e rest =>
        cases rest with
        | mk ss p1 =>
          rw [hp] at hflag
          refine ⟨e, { it with hadParserError := p1.hadParserError,
                               hadRuntimeError := p1.hadRuntimeError }, ?_, rfl, rfl⟩
          simp only at hflag
          simp only [run, hscan, runTokens, hb, Bool.false_eq_true, if_false, hp, hflag,
            if_true]
  · intro x hx
    cases hb : s.hadParserError with
    | true => simp only [run, hscan, runTokens, hb, if_true, interpreter.memory]
    | false =>
      rw [hb] at hx
      have hnil := parse_panic_no_statements steps _ x hx
      cases hp : parser.parse steps
          { tokens := ts, current := 0, hadParserError := false,
            hadRuntimeError := it.hadRuntimeError } with
      | mk e rest =>
        cases rest with
        | mk ss p1 =>
          rw [hp] at hnil
          simp only at hnil
          subst hnil
          simp only [run, hscan, runTokens, hb, Bool.false_eq_true, if_false, hp]
          split
          · rfl
          · exact runStatements_nil_memory steps _
  · intro e ss p1 hb hp hflag hres
    rw [hb] at hp
    refine ⟨(resolver.resolve ss (newResolver
      { it with hadParserError := false, hadRuntimeError := p1.hadRuntimeError })).inter,
      ?_, ?_⟩
    · simp only [run, hscan, runTokens, hb, Bool.false_eq_true, if_false, hp, hflag]
      rw [runStatements_flagged steps _ ss hres]
    · exact resolve_memory ss _
  · intro ss r r1 l m h
    exact resolve_reported ss r r1 l m h

theorem C23_witness :
    (∃ e it1, run 100 printThenParseError (newInterpreter 0) = (Res.ok (e, none), it1) ∧
      it1.memory = (newInterpreter 0).memory ∧ it1.locals = (newInterpreter 0).locals) ∧
    (∃ it1, run 100 printThenReturn (newInterpreter 0) =
        (Res.ok (none, none), it1) ∧ it1.memory = (newInterpreter 0).memory) := by
  have h1 : scanner.scanTokens (newScanner printThenParseError
        (newInterpreter 0).hadParserError) =
      (Res.ok (scanner.scanTokens (newScanner printThenParseError false)).2.tokens,
        (scanner.scanTokens (newScanner printThenParseError false)).2) := by decide!
  have h2 : scanner.scanTokens (newScanner printThenReturn
        (newInterpreter 0).hadParserError) =
      (Res.ok (scanner.scanTokens (newScanner printThenReturn false)).2.tokens,
        (scanner.scanTokens (newScanner printThenReturn false)).2) := by decide!
  refine ⟨(C23_phases_skipped_after_an_error 100 printThenParseError (newInterpreter 0)
      _ _ h1).1 (by decide!), ?_⟩
  exact (C23_phases_skipped_after_an_error 100 printThenReturn (newInterpreter 0)
      _ _ h2).2.2.1 none
    [stmt.print (expr.literal (Literal.number 1)),
      stmt.returnStmt (plainToken tokenTypeReturn "return" 0) none]
    (parser.parse 100
      { tokens := (scanner.scanTokens (newScanner printThenReturn false)).2.tokens,
        current := 0, hadParserError := false, hadRuntimeError := false }).2.2
    (by decide!) (by decide!) (by decide!) (by decide!)

/-- C24, as the code has it: `scanTokens` has no deferred `recover`, so the panic of
`reportParserError` in the scanner is not contained at the driver.  For an unexpected
character, an unterminated string and an unterminated comment, `run` does not return: it
ends in the panic, with the parse-error flag set.  The panic leaves `runPrompt` as well:
the lines that follow are not read, whatever they are. -/
theorem C24_scanner_error_leaves_run_as_a_panic (steps : Nat) (now : Int)
    (rest : List (List Char)) :
    run steps unexpectedCharacterSource (newInterpreter now) =
      (Res.panic (Panic.parseError 0 " at ''" "unexpected character"),
        { newInterpreter now with hadParserError := true }) ∧
    run steps unterminatedStringSource (newInterpreter now) =
      (Res.panic (Panic.parseError 0 " at ''" "unterminated string"),
        { newInterpreter now with hadParserError := true }) ∧
    run steps unterminatedCommentSource (newInterpreter now) =
      (Res.panic (Panic.parseError 0 " at ''" "unterminated comment"),
        { newInterpreter now with hadParserError := true }) ∧
    runPrompt steps now (unexpectedCharacterSource :: rest) =
      (Res.panic (Panic.parseError 0 " at ''" "unexpected character"),
        { newInterpreter now with hadParserError := true }) := by
  have h1 : scanner.scanTokens (newScanner unexpectedCharacterSource false) =
      (Res.panic (Panic.parseError 0 " at ''" "unexpected character"),
        { source := unexpectedCharacterSource, tokens := [], start := 0, current := 1,
          line := 0, hadParserError := true }) := by decide!
  have h2 : scanner.scanTokens (newScanner unterminatedStringSource false) =
      (Res.panic (Panic.parseError 0 " at ''" "unterminated string"),
        { source := unterminatedStringSource, tokens := [], start := 0, current := 4,
          line := 0, hadParserError := true }) := by decide!
  have h3 : scanner.scanTokens (newScanner unterminatedCommentSource false) =
      (Res.panic (Panic.parseError 0 " at ''" "unterminated comment"),
        { source := unterminatedCommentSource, tokens := [], start := 0, current := 6,
          line := 0, hadParserError := true }) := by decide!
  have hf : (newInterpreter now).hadParserError = false := rfl
  have hr : run steps unexpectedCharacterSource (newInterpreter now) =
      (Res.panic (Panic.parseError 0 " at ''" "unexpected character"),
        { newInterpreter now with hadParserError := true }) := by
    simp only [run, hf, h1]
  refine ⟨hr, ?_, ?_, ?_⟩
  · simp only [run, hf, h2]
  · simp only [run, hf, h3]
  · simp only [runPrompt, promptLoop, bind, Exec.bind, hr]

/-- C25, as the code has it: after `/*` the scanner goes to the first `*` and takes the
comment as closed only when a `/` follows that one; any other byte there is reported as
"unterminated comment", although a `*/` follows later.  So `/* a * b */` and `/***/` are
errors, and with them `run` ends in that panic; `/* a */`, where the first `*` is the one
that closes, is a comment and the scanner resumes after it. -/
theorem C25_star_inside_a_comment_is_reported (steps : Nat) (now : Int) :
    scanner.scanTokens (newScanner starCommentSource false) =
      (Res.panic (Panic.parseError 0 " at ''" "unterminated comment"),
        { source := starCommentSource, tokens := [], start := 0, current := 5, line := 0,
          hadParserError := true }) ∧
    scanner.scanTokens (newScanner starsCommentSource false) =
      (Res.panic (Panic.parseError 0 " at ''" "unterminated comment"),
        { source := starsCommentSource, tokens := [], start := 0, current := 2, line := 0,
          hadParserError := true }) ∧
    (scanner.scanTokens (newScanner plainCommentSource false)).1 =
      Res.ok [numberToken 1 "1" 0, eofToken 0] ∧
    run steps starCommentSource (newInterpreter now) =
      (Res.panic (Panic.parseError 0 " at ''" "unterminated comment"),
        { newInterpreter now with hadParserError := true }) := by
  have h1 : scanner.scanTokens (newScanner starCommentSource false) =
      (Res.panic (Panic.parseError 0 " at ''" "unterminated comment"),
        { source := starCommentSource, tokens := [], start := 0, current := 5, line := 0,
          hadParserError := true }) := by decide!
  have h2 : scanner.scanTokens (newScanner starsCommentSource false) =
      (Res.panic (Panic.parseError 0 " at ''" "unterminated comment"),
        { source := starsCommentSource, tokens := [], start := 0, current := 2, line := 0,
          hadParserError := true }) := by decide!
  have h3 : (scanner.scanTokens (newScanner plainCommentSource false)).1 =
      Res.ok [numberToken 1 "1" 0, eofToken 0] := by decide!
  have hf : (newInterpreter now).hadParserError = false := rfl
  refine ⟨h1, h2, h3, ?_⟩
  simp only [run, hf, h1]

/-- C26: string literals.  With the scanner in front of a quote at the start of a token:
when the text goes on with bytes that hold no quote and then a quote, `scanToken` consumes
up to and with that quote and adds one `tokenTypeString` token whose lexeme is the text
with both quotes and whose literal is the bytes between them as they are, whatever they
are, newlines and backslashes included; the line is not advanced.  When no quote follows,
the scanner reports "unterminated string", and in front of a `/*` that no `*/` follows it
reports "unterminated comment": the parse-error flag is set and `scanTokens` ends in the
panic, so it returns no tokens. -/
theorem C26_string_literals (pre body : List Char) (s : scanner)
    (hcur : s.current = pre.length) (hbody : Char.ofNat 34 ∉ body) :
    (∀ rest : List Char,
      s.source = pre ++ (Char.ofNat 34 :: (body ++ Char.ofNat 34 :: rest)) →
      scanner.scanToken { s with start := s.current } =
        (Res.ok (),
          { s with
            start := pre.length
            current := pre.length + body.length + 2
            tokens := s.tokens ++
              [{ tt := tokenTypeString,
                 lexeme := String.mk (Char.ofNat 34 :: (body ++ [Char.ofNat 34])),
                 literal := Literal.str (String.mk body), line := s.line }] })) ∧
    (s.source = pre ++ (Char.ofNat 34 :: body) →
      scanner.scanTokens s =
        (Res.panic (Panic.parseError s.line " at ''" "unterminated string"),
          { s with start := pre.length, current := s.source.length,
                   hadParserError := true })) ∧
    (∀ text : List Char, s.source = pre ++ ('/' :: '*' :: text) → ¬ ['*', '/'] <:+: text →
      ∃ s1, scanner.scanTokens s =
          (Res.panic (Panic.parseError s.line " at ''" "unterminated comment"), s1) ∧
        s1.hadParserError = true) := by
  refine ⟨?_, ?_, ?_⟩
  · intro rest hsrc
    have hget : ({ s with start := s.current } : scanner).source[
        ({ s with start := s.current } : scanner).current]? = some (Char.ofNat 34) := by
      simp only [hsrc, hcur]
      exact get_at_length pre _ _
    rw [scanToken_quote _ hget]
    have h := parseString_closed pre body rest
      { s with start := s.current, current := s.current + 1 } hsrc (by simp only; exact hcur)
      (by simp only; rw [hcur]) hbody
    rw [h]
    simp only [hcur]
  · intro hsrc
    have hget : ({ s with start := s.current } : scanner).source[
        ({ s with start := s.current } : scanner).current]? = some (Char.ofNat 34) := by
      simp only [hsrc, hcur]
      exact get_at_length pre _ _
    have hend : s.isAtEnd = false := not_atEnd_of_get s _ hget
    apply scanTokens_of_scanToken_panic s _ _ hend
    rw [scanToken_quote _ hget]
    have h := parseString_open pre body
      { s with start := s.current, current := s.current + 1 } hsrc (by simp only; rw [hcur])
      hbody
    rw [h]
    simp only [hcur]
  · intro text hsrc htext
    have hget : ({ s with start := s.current } : scanner).source[
        ({ s with start := s.current } : scanner).current]? = some '/' := by
      simp only [hsrc, hcur]
      exact get_at_length pre _ _
    have hend : s.isAtEnd = false := not_atEnd_of_get s _ hget
    obtain ⟨s1, h1, h2⟩ := scanSlash_open pre text
      { s with start := s.current, current := s.current + 1 } hsrc (by simp only; rw [hcur])
      htext
    refine ⟨s1, ?_, h2⟩
    apply scanTokens_of_scanToken_panic s _ _ hend
    rw [scanToken_slash _ hget]
    exact h1

theorem C26_witness :
    (stringScanner true).current = "s = ".toList.length ∧
    Char.ofNat 34 ∉ "a\nb".toList ∧
    scanner.scanToken { stringScanner true with start := (stringScanner true).current } =
      (Res.ok (),
        { stringScanner true with
          start := "s = ".toList.length
          current := "s = ".toList.length + "a\nb".toList.length + 2
          tokens := (stringScanner true).tokens ++
            [{ tt := tokenTypeString,
               lexeme := String.mk (Char.ofNat 34 :: ("a\nb".toList ++ [Char.ofNat 34])),
               literal := Literal.str (String.mk "a\nb".toList),
               line := (stringScanner true).line }] }) := by
  have h1 : (stringScanner true).current = "s = ".toList.length := by decide
  have h2 : Char.ofNat 34 ∉ "a\nb".toList := by decide
  exact ⟨h1, h2, (C26_string_literals "s = ".toList "a\nb".toList (stringScanner true)
    h1 h2).1 ";".toList rfl⟩

/-- C27, as the code has it: the lines of the tokens count from 0, and they count the
newline bytes that `scanToken` consumes between tokens.  The scanner starts on line 0.  A
call of `scanToken` in front of a newline byte consumes that byte and raises the line by
one; a call in front of any other byte that returns has stayed on the line, whatever it
has consumed, and every token that it has added bears that line.  So the newlines inside
a string literal or a block comment are consumed on the line: the call in front of a
closed string literal ends behind its closing quote, and the call in front of a closed
block comment without a star in it ends behind its `*/`, both on the line they started
on.  Hence the line of every token that `scanTokens` returns is at least 0 and at most
the number of newline bytes of the source, and when the source starts with `k` newlines
and holds no other, every token, the end-of-input token included, has line `k`: line 0
when the source holds no newline. -/
theorem C27_token_lines_count_from_zero (source : List Char) (flag : Bool) (ts : List token)
    (s1 : scanner) (h : scanner.scanTokens (newScanner source flag) = (Res.ok ts, s1)) :
    (newScanner source flag).line = 0 ∧
    (∀ s : scanner, s.source[s.current]? = some '\n' →
      scanner.scanToken s =
        (Res.ok (), { s with current := s.current + 1, line := s.line + 1 })) ∧
    (∀ s s2 : scanner, scanner.scanToken s = (Res.ok (), s2) →
      s.source[s.current]? ≠ some '\n' →
      s2.line = s.line ∧ ∀ t ∈ s2.tokens, t ∈ s.tokens ∨ t.line = s.line) ∧
    (∀ (pre body rest : List Char) (s : scanner),
      s.source = pre ++ (Char.ofNat 34 :: (body ++ Char.ofNat 34 :: rest)) →
      s.start = pre.length → s.current = pre.length → Char.ofNat 34 ∉ body →
      ∃ s2, scanner.scanToken s = (Res.ok (), s2) ∧ s2.line = s.line ∧
        s2.current = pre.length + body.length + 2) ∧
    (∀ (pre body rest : List Char) (s : scanner),
      s.source = pre ++ ('/' :: '*' :: (body ++ '*' :: '/' :: rest)) →
      s.current = pre.length → '*' ∉ body →
      ∃ s2, scanner.scanToken s = (Res.ok (), s2) ∧ s2.line = s.line ∧
        s2.tokens = s.tokens ∧ s2.current = pre.length + body.length + 4) ∧
    (∀ t ∈ ts, 0 ≤ t.line ∧ t.line ≤ (newlines source : Int)) ∧
    (∀ (k : Nat) (rest : List Char), source = List.replicate k '\n' ++ rest → '\n' ∉ rest →
      ∀ t ∈ ts, t.line = (k : Int)) := by
  refine ⟨rfl, fun s hs => scanToken_newline s hs,
    fun s s2 hs hc => scanToken_other s s2 hs hc,
    fun pre body rest s a b c d => scanToken_string pre body rest s a b c d,
    fun pre body rest s a b c => scanToken_comment pre body rest s a b c,
    scanTokens_lines source flag ts s1 h, fun k rest hsrc hrest => ?_⟩
  subst hsrc
  exact scanTokens_leading k rest flag ts s1 hrest h

theorem C27_witness :
    scanner.scanTokens (newScanner thirdLineSource false) =
      (Res.ok (scanner.scanTokens (newScanner thirdLineSource false)).2.tokens,
        (scanner.scanTokens (newScanner thirdLineSource false)).2) ∧
    thirdLineSource = List.replicate 2 '\n' ++ printOneSource ∧
    '\n' ∉ printOneSource ∧
    (∀ t ∈ (scanner.scanTokens (newScanner thirdLineSource false)).2.tokens,
      t.line = ((2 : Nat) : Int)) ∧
    (scanner.scanTokens (newScanner thirdLineSource false)).2.tokens.length = 4 := by
  have h1 : scanner.scanTokens (newScanner thirdLineSource false) =
      (Res.ok (scanner.scanTokens (newScanner thirdLineSource false)).2.tokens,
        (scanner.scanTokens (newScanner thirdLineSource false)).2) := by decide!
  have h2 : '\n' ∉ printOneSource := by decide
  exact ⟨h1, rfl, h2,
    (C27_token_lines_count_from_zero thirdLineSource false _ _ h1).2.2.2.2.2.2 2
      printOneSource rfl h2, by decide!⟩

/-- C27, the claim as stated fails: the tokens of `print 1;`, a source without a newline,
have line 0 and not line 1, the end-of-input token included; and after a string literal
that holds a newline, the name `x`, which starts on the second line of the source, has
line 0 as well. -/
theorem C27_first_line_is_line_zero :
    (scanner.scanTokens (newScanner printOneSource false)).1 =
      Res.ok [plainToken tokenTypePrint "print" 0, numberToken 1 "1" 0,
        plainToken tokenTypeSemicolon ";" 0, eofToken 0] ∧
    ((scanner.scanTokens (newScanner stringThenNameSource false)).2.tokens.map
        (fun t => (t.tt, t.line))) =
      [(tokenTypeString, 0), (tokenTypeIdentifier, 0), (tokenTypeEOF, 0)] := by
  constructor <;> decide!

/-- C28, as the code has it: `resolveLocal` tests the value that a scope holds for the
name, not whether the scope holds the name, so a scope that maps the name to `false` is
passed over.  In `{ var a = 1; { var a = a = 2; } }` the inner scope holds `a` as declared
when the assignment is resolved, and the distance recorded for the assignment is 1, the
outer scope, not 0.  At run time the assignment then writes the outer `a`: a `print a;` at
the end of the outer block prints 2. -/
theorem C28_declared_scope_is_passed_over :
    resolver.resolveLocalLoop [[("a", true)], [("a", false)]] "a" 2 = some 1 ∧
    (resolver.resolve (selfAssignProgram []) (newResolver (newInterpreter 0))).inter.locals =
      [(innerAssign, 1)] ∧
    (runStatements 50 (newInterpreter 0)
        (selfAssignProgram [stmt.print (expr.variable (identifier "a" 1))])).2.stdout =
      [Value.number 2] := by
  refine ⟨?_, ?_, ?_⟩ <;> decide!

/-- C29, as the code has it: `getAt` and `assignAt` go `d` hops outward, to the environment
`a`, and call `get` and `assign` there, which walk on outward while the name is missing.
Let `q` be the environment that is reached from `a` by `k` more hops, for any `k`, through
environments that do not bind the name; `k = 0` is `a` itself.  When `q` binds the name,
`getAt` reads that binding, the nearest one from `a` outward, and `assignAt` writes it,
and nothing else changes: every other environment and every other name of `q` is as
before.  When `q` does not bind the name and is the last of the chain, both report
"Undefined variable"; so that is reported only when no environment from `a` outward binds
the name. -/
theorem C29_distance_addressed_access (i : interpreter) (e d a k q : Nat) (eq : environment)
    (n : token) (v : Value)
    (hanc : environment.ancestor i.envs (some e) d = Res.ok (some a))
    (hout : environment.outward i.envs n.lexeme a k = some q)
    (hq : i.envs[q]? = some eq) :
    (∀ x : Value, mapGet eq.values n.lexeme = some x →
      environment.getAt e d n i = (Res.ok x, i) ∧
      environment.assignAt e d n v i =
        (Res.ok (),
          { i with
            envs := heapSet i.envs q { eq with values := mapSet eq.values n.lexeme v } })) ∧
    (∀ b : Nat, b ≠ q →
      (heapSet i.envs q { eq with values := mapSet eq.values n.lexeme v })[b]? =
        i.envs[b]?) ∧
    (∀ m : String, m ≠ n.lexeme →
      mapGet (mapSet eq.values n.lexeme v) m = mapGet eq.values m) ∧
    (mapGet eq.values n.lexeme = none → eq.enclosing = none →
      environment.getAt e d n i =
        (Res.panic (Panic.runtimeError n.line ("Undefined variable: '" ++ n.lexeme ++ "'")),
          { i with hadRuntimeError := true }) ∧
      environment.assignAt e d n v i =
        (Res.panic (Panic.runtimeError n.line ("Undefined variable: '" ++ n.lexeme ++ "'")),
          { i with hadRuntimeError := true })) ∧
    (k = 0 → q = a) ∧
    (∀ j, j < k → ∃ p en, environment.outward i.envs n.lexeme a j = some p ∧
      i.envs[p]? = some en ∧ mapGet en.values n.lexeme = none) := by
  refine ⟨?_, ?_, ?_, ?_, ?_, ?_⟩
  · intro x hx
    have hk := outward_lt_length i.envs n.lexeme a k q eq hout hq
      (Or.inl (by rw [hx]; exact Option.noConfusion))
    constructor
    · simp only [environment.getAt, hanc, environment.get]
      exact getFrom_found n i q eq x hq hx k a _ hout (by omega)
    · simp only [environment.assignAt, hanc, environment.assign]
      exact assignFrom_found n v i q eq x hq hx k a _ hout (by omega)
  · intro b hb
    exact heapSet_get_other i.envs q b _ hb
  · intro m hm
    exact mapGet_mapSet_other eq.values n.lexeme m v hm
  · intro hnone hend
    have hk := outward_lt_length i.envs n.lexeme a k q eq hout hq (Or.inr hend)
    constructor
    · simp only [environment.getAt, hanc, environment.get]
      exact getFrom_undefined n i q eq hq hnone hend k a _ hout (by omega)
    · simp only [environment.assignAt, hanc, environment.assign]
      exact assignFrom_undefined n v i q eq hq hnone hend k a _ hout (by omega)
  · intro hk
    rw [hk, environment.outward] at hout
    simp only [Option.some.injEq] at hout
    exact hout.symm
  · intro j hj
    have e1 : k = j + ((k - j - 1) + 1) := by omega
    rw [e1, outward_add] at hout
    cases hp : environment.outward i.envs n.lexeme a j with
    | none => simp only [hp, Option.none_bind, reduceCtorEq] at hout
    | some p =>
      simp only [hp, Option.some_bind] at hout
      obtain ⟨en, _, h1, h2, _, _⟩ := outward_succ i.envs n.lexeme p (k - j - 1) q hout
      exact ⟨p, en, rfl, h1, h2⟩

theorem C29_witness :
    environment.ancestor threeEnvironments.envs (some 2) 0 = Res.ok (some 2) ∧
    environment.outward threeEnvironments.envs (identifier "a" 0).lexeme 2 2 = some 0 ∧
    threeEnvironments.envs[0]? =
      some { enclosing := none, values := [("a", Value.number 1)] } ∧
    mapGet [("a", Value.number 1)] (identifier "a" 0).lexeme = some (Value.number 1) ∧
    environment.getAt 2 0 (identifier "a" 0) threeEnvironments =
      (Res.ok (Value.number 1), threeEnvironments) := by
  have h1 : environment.ancestor threeEnvironments.envs (some 2) 0 = Res.ok (some 2) := by
    decide!
  have h2 : environment.outward threeEnvironments.envs (identifier "a" 0).lexeme 2 2 =
      some 0 := by decide!
  have h3 : threeEnvironments.envs[0]? =
      some { enclosing := none, values := [("a", Value.number 1)] } := by decide!
  have h4 : mapGet [("a", Value.number 1)] (identifier "a" 0).lexeme =
      some (Value.number 1) := by decide!
  exact ⟨h1, h2, h3, h4, ((C29_distance_addressed_access threeEnvironments 2 0 2 2 0 _
    (identifier "a" 0) Value.nil h1 h2 h3).1 _ h4).1⟩

/-- C29, the claim as stated fails: in a chain whose inner environment does not bind `a`
and whose outer environment binds it to 1, `getAt` with distance 0 does not fail with
"Undefined variable": it returns the 1 of the outer environment, one hop further out, and
`assignAt` with distance 0 writes that outer binding. -/
theorem C29_getAt_reads_further_out :
    environment.getAt 1 0 (identifier "a" 0) twoEnvironments =
      (Res.ok (Value.number 1), twoEnvironments) ∧
    environment.assignAt 1 0 (identifier "a" 0) (Value.number 2) twoEnvironments =
      (Res.ok (),
        { twoEnvironments with
          envs := [{ enclosing := none, values := [("a", Value.number 2)] },
                   { enclosing := some 0, values := [] }] }) := by
  constructor <;> decide!

/-- C30: parser index safety.  The tokens are `body ++ [eof]` with `eof` a token of the end
of the input, which is how `scanTokens` ends the sequence that it returns (last part); that
`body` holds no such token is not needed.  An index outside the slice in `peek` or
`previous` is a Go run-time panic, and a parse that does not end uses up every step budget.
With 16 steps for each token and 16 more, `parse` ends in a return or in a report (of a
parse error, or of the invalid assignment target), so in neither of those, and its cursor
is then on a token, at most on `eof`.  From every state on these tokens the bodies of the
loops consume a token unless they report a parse error: `declaration` (the loops of `parse`
and of a block), `fun` (the methods of a class), `expression` (the arguments of a call),
`consume` (the parameters), and a successful `match` (the loops over operators and over
calls and properties); they leave the cursor on a token too. -/
theorem C30_parser_index_safety (body : List token) (eof : token) (steps : Nat)
    (heof : eof.tt = tokenTypeEOF) (hsteps : 16 * (body.length + 2) ≤ steps) :
    (∃ e ss p1, parser.parse steps (newParser (body ++ [eof])) = (e, ss, p1) ∧
      (e = none ∨ (∃ l pl msg, e = some (Panic.parseError l pl msg)) ∨
        ∃ l msg, e = some (Panic.runtimeError l msg)) ∧
      p1.tokens = body ++ [eof] ∧ p1.current ≤ body.length) ∧
    (∀ p : parser, p.tokens = body ++ [eof] → p.current ≤ body.length →
      Advances (parser.declaration steps) p ∧
      (∀ kind, Advances (parser.funDeclaration steps kind) p) ∧
      Advances (parser.expression steps) p ∧
      (∀ tt msg, Advances (parser.consume tt msg) p) ∧
      ∀ tts p1, parser.matchTokens tts p = (Res.ok true, p1) →
        p1.tokens = p.tokens ∧ p.current < p1.current ∧ p1.current < p.tokens.length) ∧
    ∀ source flag ts s1, scanner.scanTokens (newScanner source flag) = (Res.ok ts, s1) →
      ∃ b t, ts = b ++ [t] ∧ t.tt = tokenTypeEOF := by
  refine ⟨parse_goes body eof steps heof hsteps, ?_, ?_⟩
  · intro p ht hc
    have hp : p.InBounds := inBounds_ends body eof p heof ht hc
    have hl : p.left ≤ body.length + 1 := left_ends body eof p ht
    have hall := parserGoes_all steps
    refine ⟨?_, ?_, ?_, ?_, ?_⟩
    · exact goes_advances p (hall.declaration false (body.length + 1) (by omega)) hp hl
    · intro kind
      exact goes_advances p (hall.funDeclaration false kind (body.length + 1) (by omega)) hp hl
    · exact goes_advances p (hall.expression false (body.length + 1) (by omega)) hp hl
    · intro tt msg
      exact goes_advances p (goes_consume false true (body.length + 1) tt msg) hp hl
    · intro tts p1 h
      exact matchTokens_moves tts p p1 hp h
  · intro source flag ts s1 h
    exact scanTokens_ends _ s1 ts h

theorem C30_witness :
    (eofToken 0).tt = tokenTypeEOF ∧ 16 * (precedenceBody.length + 2) ≤ 144 ∧
    ∃ e ss p1, parser.parse 144 (newParser (precedenceBody ++ [eofToken 0])) = (e, ss, p1) ∧
      (e = none ∨ (∃ l pl msg, e = some (Panic.parseError l pl msg)) ∨
        ∃ l msg, e = some (Panic.runtimeError l msg)) ∧
      p1.tokens = precedenceBody ++ [eofToken 0] ∧ p1.current ≤ precedenceBody.length :=
  ⟨rfl, by decide, (C30_parser_index_safety precedenceBody (eofToken 0) 144 rfl (by decide)).1⟩

end Glox
